import Mathlib

/-!
# The gdb engine's command queue and token correlator

A shallow embedding of the command path of `GdbEngine`
(`src/plugins/debugger/gdb/gdbengine.cpp`): posting, deferring and
transmitting commands, matching result records against the token map,
and the token barrier; of the reading of one line of gdb output
(`handleResponse`, with `handleStopResponse` and `handleExecuteContinue`);
of the reading of gdb's output in chunks (`readGdbStandardOutput`); of the
breakpoint code around `handleBreakInsert1` and `changeBreakpoint`, with the
locals update that shares its counter; and of the watch model and watch
handler of `src/plugins/debugger/watchhandler.cpp` (`insertDataItem`,
`destroyChildren`, `watchExpression`, `format`).

Conventions of the embedding.

* The engine object is the record `GdbEngine`; every member function is a
  function from engine records to engine records.
* C++ `int` values are `Int`.  The token counter is the one `int` that only
  ever counts up, for as long as the process lives; its increment is
  `nextToken`, which goes from 2147483647 to -2147483648 as the increment of
  an `int` does on the machine.  The other counters count outstanding
  commands and stay far from the ends of the range.
* The token counter is a `static int` of the file, one for all the engines of
  the process.  It is the field `currentToken` of the record; what another
  engine does to it in between is an activity of the environment.
* `QByteArray` is `String`.
* Code that is not part of `gdbengine.cpp` (the base class `DebuggerEngine`,
  the engine classes derived from `GdbEngine`, the command callbacks that are
  not embedded, message boxes) is reached through an `Environment`: a function
  that says how such a call changes the engine.  Every such call is also
  appended to the field `calls`, and every command that `flushCommand` lets
  through to the field `flushed`, so that what the code does to its
  collaborators can be stated.
* A loop whose end depends on what the collaborators do (`flushQueuedCommands`)
  takes fuel and returns `none` when the fuel runs out.
* Functions of files that are not among the sources (`gdbmi.cpp`,
  `breakpoint.cpp`, `breakhandler.cpp`) are parameters, collected in
  `GdbMiFunctions` and `BreakpointFunctions`.  The storage of the breakpoint
  handler is the field `breakHandler`; a call of the handler changes it and is
  recorded in `calls`.
* A pointer into a line is the list of the bytes from it to the end of the
  line; the one read the code makes without a bound, of the byte that decides
  the kind of a line, is `kindChar`.
* A `WatchItem *` is the address of an item in the field `items` of the
  watch model, which holds the items that are alive; following a pointer to
  an item that is not alive gives `none`, and so does running out of fuel in
  the recursion of `destroyHelper`.  The signals of the item model and the
  views are left out.
* Log and status-bar output (`showMessage`, `showStatusMessage`, `qDebug`,
  `PENDING_DEBUG`) and the time stamp `postTime` are left out.  A `QTC_ASSERT`
  or `QTC_CHECK` whose action only prints is left out with them; one whose
  action returns is a branch.
-/

namespace Debugger

/-- The engine states, as listed by the `switch` of `stateAcceptsGdbCommands`. -/
inductive DebuggerState where
  | DebuggerNotReady
  | EngineSetupRequested
  | EngineSetupFailed
  | EngineSetupOk
  | InferiorSetupRequested
  | InferiorSetupFailed
  | InferiorSetupOk
  | EngineRunRequested
  | EngineRunFailed
  | InferiorUnrunnable
  | InferiorRunRequested
  | InferiorRunOk
  | InferiorRunFailed
  | InferiorStopRequested
  | InferiorStopOk
  | InferiorStopFailed
  | InferiorExitOk
  | InferiorShutdownRequested
  | InferiorShutdownFailed
  | InferiorShutdownOk
  | EngineShutdownRequested
  | EngineShutdownFailed
  | EngineShutdownOk
  | DebuggerFinished
  deriving DecidableEq, Repr, Inhabited

open DebuggerState

/-- Modelled from the spec: the bit mask `GdbCommandFlags` (declared in
`gdbengine.h`, which is not among the sources).  The code only ever tests
single flags with `flags & F`, so the mask is a record with one boolean per
flag; the names are the ones `gdbengine.cpp` uses. -/
structure GdbCommandFlags where
  NeedsStop : Bool := false
  Discardable : Bool := false
  NonCriticalResponse : Bool := false
  RunRequest : Bool := false
  ExitRequest : Bool := false
  LosesChild : Bool := false
  RebuildBreakpointModel : Bool := false
  Immediate : Bool := false
  ConsoleCommand : Bool := false
  deriving DecidableEq, Repr, Inhabited

/-- The empty mask `NoFlags`. -/
def NoFlags : GdbCommandFlags := {}

/-- A member-function pointer `GdbCommandCallback`, identified by the name of
the member function. -/
abbrev GdbCommandCallback := String

/-- A member-function pointer `CommandsDoneCallback`, identified by name. -/
abbrev CommandsDoneCallback := String

/-- The opaque payload `QVariant` that travels with a command. -/
abbrev QVariant := String

/-- The record `GdbCommand` as `postCommand` fills it (without `postTime`).
A null `callback` or `callbackName` is `none`. -/
structure GdbCommand where
  flags : GdbCommandFlags := {}
  callback : Option GdbCommandCallback := none
  callbackName : Option String := none
  command : String := ""
  cookie : QVariant := ""
  deriving DecidableEq, Repr, Inhabited

/-- The result classes `handleResponse` distinguishes. -/
inductive GdbResultClass where
  | GdbResultUnknown
  | GdbResultDone
  | GdbResultRunning
  | GdbResultConnected
  | GdbResultError
  | GdbResultExit
  deriving DecidableEq, Repr, Inhabited

open GdbResultClass

/-- Modelled from the spec: the kind tag of a `GdbMi` value (`gdbmi.h` is not
among the sources). -/
inductive GdbMiType where
  | Invalid
  | Const
  | Tuple
  | List
  deriving DecidableEq, Repr, Inhabited

/-- Modelled from the spec: the structured payload `GdbMi` (`gdbmi.h` is not
among the sources): a name, scalar data, a kind and ordered children. -/
inductive GdbMi where
  | mk (m_name : String) (m_data : String) (m_type : GdbMiType) (m_children : List GdbMi)
  deriving Repr, Inhabited

namespace GdbMi

/-- The default-constructed (invalid) `GdbMi`. -/
def invalid : GdbMi := .mk "" "" .Invalid []

/-- Accessor for `m_name`. -/
def name : GdbMi → String
  | .mk n _ _ _ => n

/-- Accessor `data()`. -/
def data : GdbMi → String
  | .mk _ d _ _ => d

/-- Accessor for `m_type`. -/
def type : GdbMi → GdbMiType
  | .mk _ _ t _ => t

/-- Accessor `children()`. -/
def children : GdbMi → List GdbMi
  | .mk _ _ _ cs => cs

/-- The test `isValid()`. -/
def isValid (m : GdbMi) : Bool := m.type != .Invalid

/-- Modelled from the spec: `operator[]`, the first child with the given name,
or an invalid value. -/
def child (m : GdbMi) (key : String) : GdbMi :=
  match m.children.find? (fun c => c.name == key) with
  | some c => c
  | none => invalid

end GdbMi

/-- The record `GdbResponse` handed to `handleResultRecord`. -/
structure GdbResponse where
  token : Int := -1
  resultClass : GdbResultClass := .GdbResultUnknown
  data : GdbMi := GdbMi.invalid
  cookie : QVariant := ""
  logStreamOutput : String := ""
  consoleStreamOutput : String := ""
  deriving Repr, Inhabited

/-- Modelled from the spec: the id gdb gave a breakpoint
(`BreakpointResponseId`, declared in `breakpoint.h`, which is not among the
sources): the number before the dot and the number behind it, `0` where
there is none. -/
structure BreakpointResponseId where
  majorPart : Int := 0
  minorPart : Int := 0
  deriving DecidableEq, Repr, Inhabited

/-- Modelled from the spec: the kinds of breakpoints (`BreakpointType`,
declared in `breakpoint.h`, which is not among the sources), by the names
`gdbengine.cpp` uses. -/
inductive BreakpointType where
  | UnknownBreakpointType
  | BreakpointByFileAndLine
  | BreakpointByFunction
  | BreakpointByAddress
  | BreakpointAtThrow
  | BreakpointAtCatch
  | BreakpointAtMain
  | BreakpointAtFork
  | BreakpointAtExec
  | BreakpointAtSysCall
  | WatchpointAtAddress
  | WatchpointAtExpression
  deriving DecidableEq, Repr, Inhabited

/-- Modelled from the spec: the states of a logical breakpoint
(`BreakpointState`, declared in `breakpoint.h`): insert requested, proceeding,
inserted; change requested, proceeding; remove requested, proceeding; dead. -/
inductive BreakpointState where
  | BreakpointNew
  | BreakpointInsertRequested
  | BreakpointInsertProceeding
  | BreakpointChangeRequested
  | BreakpointChangeProceeding
  | BreakpointInserted
  | BreakpointRemoveRequested
  | BreakpointRemoveProceeding
  | BreakpointDead
  deriving DecidableEq, Repr, Inhabited

/-- Modelled from the spec: what the user wants of a breakpoint
(`BreakpointParameters`, declared in `breakpoint.h`), with the fields
`gdbengine.cpp` reads or writes. -/
structure BreakpointParameters where
  type : BreakpointType := .UnknownBreakpointType
  enabled : Bool := true
  fileName : String := ""
  condition : String := ""
  ignoreCount : Int := 0
  lineNumber : Int := 0
  address : Nat := 0
  expression : String := ""
  threadSpec : Int := -1
  functionName : String := ""
  tracepoint : Bool := false
  oneShot : Bool := false
  command : String := ""
  deriving DecidableEq, Repr, Inhabited

/-- Modelled from the spec: what gdb reports of a breakpoint
(`BreakpointResponse`, declared in `breakpoint.h`): the parameters as gdb has
them, the id it gave, and the flags for a pending and a multiple location. -/
structure BreakpointResponse extends BreakpointParameters where
  id : BreakpointResponseId := {}
  pending : Bool := true
  multiple : Bool := false
  correctedLineNumber : Int := 0
  deriving DecidableEq, Repr, Inhabited

/-- Modelled from the spec: what the breakpoint handler keeps for one logical
breakpoint: the wanted parameters, the state, the last response and the
sub-breakpoints attached to it. -/
structure BreakpointItem where
  data : BreakpointParameters := {}
  state : BreakpointState := .BreakpointNew
  response : BreakpointResponse := {}
  subBreakpoints : List BreakpointResponse := []
  deriving DecidableEq, Repr, Inhabited

/-- Modelled from the spec: the data of a watch item (`WatchData`, declared in
`watchdata.h`, which is not among the sources): the iname, the expression,
the display name, value and type, the address, the sort id, and the flags for
children and for what is still needed (value, children). -/
structure WatchData where
  iname : String := ""
  exp : String := ""
  name : String := ""
  value : String := ""
  type : String := ""
  address : Nat := 0
  sortId : Int := 0
  hasChildren : Bool := false
  valueNeeded : Bool := true
  childrenNeeded : Bool := true
  deriving DecidableEq, Repr, Inhabited

namespace WatchData

/-- Modelled from the spec: `setAllUnneeded()`. -/
def setAllUnneeded (d : WatchData) : WatchData :=
  { d with valueNeeded := false, childrenNeeded := false }

/-- Modelled from the spec: `setValue(value)`; a value that is set is not
needed any more. -/
def setValue (d : WatchData) (value : String) : WatchData :=
  { d with value := value, valueNeeded := false }

/-- Modelled from the spec: `setHasChildren(c)`; an item without children
needs none. -/
def setHasChildren (d : WatchData) (c : Bool) : WatchData :=
  { d with hasChildren := c, childrenNeeded := c && d.childrenNeeded }

/-- Modelled from the spec: `isSomethingNeeded()`. -/
def isSomethingNeeded (d : WatchData) : Bool := d.valueNeeded || d.childrenNeeded

/-- Modelled from the spec: `isValid()`, an item with an iname. -/
def isValid (d : WatchData) : Bool := !d.iname.isEmpty

end WatchData

/-- A call that leaves the embedded command path: into the base class
`DebuggerEngine`, into the derived engine class, into a command callback or
the commands-done continuation, into the user interface, or, for a faked test
response, back into the read loop's `handleResponse`. -/
inductive Call where
  | callback (cb : GdbCommandCallback) (response : GdbResponse)
  | commandsDone (cb : CommandsDoneCallback)
  | handleResponse (buffer : String)
  | requestInterruptInferior
  /-- The member function `interruptInferior2`, which `gdbengine.cpp` calls and
  leaves to the engine class derived for the kind of target. -/
  | interruptInferior2
  | notifyInferiorStopFailed
  | notifyInferiorIll
  | notifyInferiorStopOk
  | notifyInferiorSpontaneousStop
  | notifyInferiorExited
  | notifyInferiorRunRequested
  | notifyInferiorRunOk
  | notifyInferiorRunFailed
  | notifyEngineIll
  | attemptBreakpointSynchronization
  | showMessageBox (title : String) (text : String)
  /-- A call, by name, into another collaborator (the thread, module and
  stack views, the task hub, the editor) with its arguments as text. -/
  | collaborator (name : String) (arguments : List String)
  /-- A call, by name, of a member function that is not embedded and works on
  a parsed record (such as `handleStop1`). -/
  | recordHandler (name : String) (data : GdbMi)
  /-- A call, by name, of a member function of the breakpoint handler for the
  logical breakpoint `id`. -/
  | breakHandler (name : String) (id : Int)
  /-- The call `watchHandler()->insertData(list)`. -/
  | insertData (list : List WatchData)
  deriving Repr, Inhabited

/-- Whether the call is the call of a command callback. -/
def Call.isCallback : Call → Bool
  | .callback _ _ => true
  | _ => false

/-- Whether the call is the request to the base class to interrupt the
inferior. -/
def Call.isInterruptRequest : Call → Bool
  | .requestInterruptInferior => true
  | _ => false

/-- One command that `flushCommand` let through: the token it drew, the
command, the engine state at that moment, and the bytes it handed to `write`;
`bytes` is `none` when a scheduled test response was faked instead of
writing. -/
structure Transmission where
  state : DebuggerState
  token : Int
  cmd : GdbCommand
  bytes : Option String
  deriving DecidableEq, Repr, Inhabited

/-- A `QHash<int, V>` as an association list with at most one entry per key. -/
abbrev QHash (V : Type) := List (Int × V)

namespace QHash

variable {V : Type}

/-- The test `contains(key)`. -/
def contains (h : QHash V) (key : Int) : Bool := h.any (fun e => e.1 == key)

/-- The lookup `value(key)`, `none` when the key is absent. -/
def value (h : QHash V) (key : Int) : Option V := (h.find? (fun e => e.1 == key)).map (·.2)

/-- The removal `remove(key)`. -/
def remove (h : QHash V) (key : Int) : QHash V := h.filter (fun e => e.1 != key)

/-- The assignment `h[key] = v`: replaces the entry of `key` or adds one. -/
def insert (h : QHash V) (key : Int) (v : V) : QHash V := (key, v) :: remove h key

/-- The key list `keys()`. -/
def keys (h : QHash V) : List Int := h.map (·.1)

end QHash

/-- The engine: the members of `GdbEngine` the command path reads or writes,
the file-level token counter, the parts of the base class and of the gdb
process it looks at, and the record of its calls and writes. -/
structure GdbEngine where
  /-- The value of `DebuggerEngine::state()`. -/
  state : DebuggerState := .DebuggerNotReady
  /-- The value of `DebuggerEngine::isDying()`. -/
  isDying : Bool := false
  /-- The value of `isReverseDebugging()`. -/
  isReverseDebugging : Bool := false
  /-- The truth of `m_gdbProc->state() == QProcess::Running`. -/
  gdbProcRunning : Bool := true
  /-- The `static int token` behind `currentToken()`: one counter for all the
  engines of the process. -/
  currentToken : Int := 0
  m_cookieForToken : QHash GdbCommand := []
  m_commandsToRunOnTemporaryBreak : List GdbCommand := []
  m_oldestAcceptableToken : Int := -1
  m_nonDiscardableCount : Int := 0
  m_pendingBreakpointRequests : Int := 0
  m_commandsDoneCallback : Option CommandsDoneCallback := none
  m_stackNeeded : Bool := false
  m_scheduledTestResponses : QHash String := []
  /-- The truth of `m_commandTimer.isActive()`. -/
  m_commandTimerActive : Bool := false
  /-- The value of `m_commandTimer.interval()`. -/
  m_commandTimerInterval : Int := 0
  /-- The setting `action(GdbWatchdogTimeout)->value().toInt()`. -/
  gdbWatchdogTimeout : Int := 20
  /-- The member `m_lastWinException`. -/
  m_lastWinException : String := ""
  m_pendingLogStreamOutput : String := ""
  m_pendingConsoleStreamOutput : String := ""
  /-- The value of `DebuggerEngine::inferiorPid()`. -/
  inferiorPid : Int := 0
  /-- The truth of `HostOsInfo::isWindowsHost()`, which is also that of
  `Abi::hostAbi().os() == Abi::WindowsOS`. -/
  isWindowsHost : Bool := false
  /-- The truth of `mode == AttachToRemoteServer || mode == AttachToRemoteProcess`
  for the start mode `startParameters().startMode`. -/
  attachesToRemote : Bool := false
  /-- The setting `boolSetting(TargetAsync)`. -/
  targetAsync : Bool := false
  m_isQnxGdb : Bool := false
  /-- Whether the pointer `m_signalOperation` is set. -/
  m_signalOperation : Bool := false
  /-- The setting `boolSetting(IdentifyDebugInfoPackages)`. -/
  identifyDebugInfoPackages : Bool := false
  m_lastMissingDebugInfo : String := ""
  m_terminalTrap : Bool := false
  m_fullStartDone : Bool := false
  m_qmlBreakpointResponseId1 : BreakpointResponseId := {}
  m_qmlBreakpointResponseId2 : BreakpointResponseId := {}
  m_qFatalBreakpointResponseId : BreakpointResponseId := {}
  /-- The storage of the breakpoint handler `breakHandler()`: the logical
  breakpoints by their model id. -/
  breakHandler : QHash BreakpointItem := []
  m_processedNames : List String := []
  m_uncompleted : List String := []
  m_completed : List WatchData := []
  m_inbuffer : String := ""
  m_busy : Bool := false
  m_resultVarName : String := ""
  m_lastDebuggableCommand : String := ""
  /-- Every command `flushCommand` let through so far, oldest first. -/
  flushed : List Transmission := []
  /-- Every call into a collaborator so far, oldest first. -/
  calls : List Call := []
  deriving Repr, Inhabited

/-- What the collaborators do to the engine when called. -/
abbrev Environment := Call → GdbEngine → GdbEngine

namespace GdbEngine

/-- Calls a collaborator: the call is recorded, then the environment acts. -/
def call (env : Environment) (s : GdbEngine) (c : Call) : GdbEngine :=
  env c { s with calls := s.calls ++ [c] }

end GdbEngine

/-- The function `stateAcceptsGdbCommands`. -/
def stateAcceptsGdbCommands (state : DebuggerState) : Bool :=
  match state with
  | EngineSetupRequested => true
  | EngineSetupOk => true
  | EngineSetupFailed => true
  | InferiorUnrunnable => true
  | InferiorSetupRequested => true
  | InferiorSetupFailed => true
  | EngineRunRequested => true
  | InferiorRunRequested => true
  | InferiorRunOk => true
  | InferiorStopRequested => true
  | InferiorStopOk => true
  | InferiorShutdownRequested => true
  | EngineShutdownRequested => true
  | InferiorShutdownOk => true
  | InferiorShutdownFailed => true
  | DebuggerNotReady => false
  | InferiorStopFailed => false
  | InferiorSetupOk => false
  | EngineRunFailed => false
  | InferiorExitOk => false
  | InferiorRunFailed => false
  | EngineShutdownOk => false
  | EngineShutdownFailed => false
  | DebuggerFinished => false

/-! ## Byte-array helpers -/

/-- The test `QByteArray::startsWith`. -/
def startsWith (s pattern : String) : Bool := pattern.data.isPrefixOf s.data

/-- The test `QByteArray::endsWith`. -/
def endsWith (s pattern : String) : Bool := pattern.data.isSuffixOf s.data

/-- Position of the first occurrence of `pattern` in `msg`, counted from
`pos`, or `-1`. -/
def indexOfFrom (pattern : List Char) : List Char → Nat → Int
  | [], pos => if pattern.isEmpty then (pos : Int) else -1
  | c :: rest, pos =>
    if pattern.isPrefixOf (c :: rest) then (pos : Int) else indexOfFrom pattern rest (pos + 1)

/-- The search `QByteArray::indexOf(pattern)`. -/
def indexOf (s pattern : String) : Int := indexOfFrom pattern.data s.data 0

/-- The test `QByteArray::contains(pattern)`. -/
def containsBytes (s pattern : String) : Bool := indexOf s pattern != -1

/-- The static function `contains(message, pattern, size)`: the first
occurrence of the pattern fills a whole line of the message. -/
def contains (message pattern : String) (size : Int) : Bool :=
  let s : Int := message.length
  if s < size then false
  else
    let pos := indexOf message pattern
    if pos == -1 then false
    else
      let beginFits := pos == 0 || message.data.getD (pos - 1).toNat ' ' == '\n'
      let endFits := pos + size == s || message.data.getD (pos + size).toNat ' ' == '\n'
      beginFits && endFits

/-- The static function `isGdbConnectionError`. -/
def isGdbConnectionError (message : String) : Bool :=
  let msg1 := "Remote connection closed"
  let msg2 := "Remote communication error.  Target disconnected.: No error."
  let msg3 := "Quit"
  contains message msg1 msg1.length
    || contains message msg2 msg2.length
    || contains message msg3 msg3.length

namespace GdbEngine

/-! ## Transmitting and deferring commands -/

/-- The function `commandTimeoutTime`. -/
def commandTimeoutTime (s : GdbEngine) : Int :=
  1000 * max 40 s.gdbWatchdogTimeout

/-- The text `flushCommand` sends for a command under a token: the command,
wrapped when it is a console command, behind the decimal token. -/
def wireCommand (token : Int) (cmd : GdbCommand) : String :=
  let command :=
    if cmd.flags.ConsoleCommand then "-interpreter-exec console \"" ++ cmd.command ++ "\""
    else cmd.command
  toString token ++ command

/-- The value `++currentToken()` leaves in the counter and returns.  The
counter is a C++ `int`: 2147483647 is followed by -2147483648.  On the range
of an `int` this is the sum reduced to 32 bits in two's complement,
`(token + 1 + 2147483648) % 4294967296 - 2147483648`. -/
def nextToken (token : Int) : Int :=
  if token = 2147483647 then -2147483648 else token + 1

/-- The function `usesExecInterrupt`. -/
def usesExecInterrupt (s : GdbEngine) : Bool :=
  s.attachesToRemote && s.targetAsync

/-- The function `flushCommand`. -/
def flushCommand (env : Environment) (s : GdbEngine) (cmd0 : GdbCommand) : GdbEngine :=
  if !stateAcceptsGdbCommands s.state then s
  else if !s.gdbProcRunning then s
  else
    let token := nextToken s.currentToken
    let s := { s with currentToken := token }
    let s := { s with m_cookieForToken := s.m_cookieForToken.insert token cmd0 }
    let command := wireCommand token cmd0
    match s.m_scheduledTestResponses.value token with
    | some buffer0 =>
      let buffer := buffer0.replace "@TOKEN@" (toString token)
      let s := { s with
        m_scheduledTestResponses := s.m_scheduledTestResponses.remove token,
        flushed := s.flushed ++ [Transmission.mk s.state token cmd0 none] }
      s.call env (.handleResponse buffer)
    | none =>
      let s := { s with
        flushed := s.flushed ++ [Transmission.mk s.state token cmd0 (some (command ++ "\r\n"))] }
      let s :=
        if s.m_commandTimerInterval ≤ 20000 then
          { s with m_commandTimerInterval := s.commandTimeoutTime }
        else s
      if !endsWith command "-gdb-exit" then { s with m_commandTimerActive := true } else s

/-- What `postCommandHelper` does with a command that has the flag
`Immediate`: the command is counted and handed to `flushCommand`.  This is
the path `interruptInferior` takes with `-exec-interrupt`; it stands by itself
because `postCommandHelper` in turn leads to `interruptInferior`. -/
def postCommandImmediate (env : Environment) (s : GdbEngine) (cmd : GdbCommand) : GdbEngine :=
  if !stateAcceptsGdbCommands s.state then s
  else
    let s := { s with
      m_pendingBreakpointRequests :=
        if cmd.flags.RebuildBreakpointModel then s.m_pendingBreakpointRequests + 1
        else s.m_pendingBreakpointRequests }
    let s := { s with
      m_nonDiscardableCount :=
        if !cmd.flags.Discardable then s.m_nonDiscardableCount + 1
        else s.m_nonDiscardableCount }
    flushCommand env s cmd

/-- The command `postCommand("-exec-interrupt", Immediate)` posts. -/
def execInterrupt : GdbCommand :=
  { command := "-exec-interrupt", flags := { Immediate := true } }

/-- The branch of `interruptInferior` for a Windows host: the inferior is
interrupted through the signal operation of the device.  The function
`signalOperation()` of the device belongs to another file and is taken to
hand out an operation, as the assertion behind the call says. -/
def interruptThroughDevice (env : Environment) (s : GdbEngine) : GdbEngine :=
  let s1 := if s.state != InferiorStopRequested then s.call env .notifyInferiorStopFailed else s
  let s2 := if s1.m_signalOperation then s1.call env .notifyInferiorStopFailed else s1
  GdbEngine.call env { s2 with m_signalOperation := true }
    (.collaborator "interruptProcess" [toString s2.inferiorPid])

/-- The function `interruptInferior`. -/
def interruptInferior (env : Environment) (s : GdbEngine) : GdbEngine :=
  if s.state != InferiorStopRequested then s
  else if s.usesExecInterrupt then
    s.postCommandImmediate env execInterrupt
  else if s.isWindowsHost && !s.m_isQnxGdb then
    s.interruptThroughDevice env
  else
    s.call env .interruptInferior2

/-- Modelled from the spec: the function `requestInterruptInferior` of the
base class (`debuggerengine.cpp` is not among the sources).  The base class
makes the transition of its state machine, which is what the environment does
on the call, and then has the engine interrupt the inferior through the
virtual `interruptInferior`. -/
def requestInterruptInferior (env : Environment) (s : GdbEngine) : GdbEngine :=
  (s.call env .requestInterruptInferior).interruptInferior env

/-- The function `interruptInferiorTemporarily`. -/
def interruptInferiorTemporarily (env : Environment) (s : GdbEngine) : GdbEngine :=
  if s.m_commandsToRunOnTemporaryBreak.any (fun cmd => cmd.flags.LosesChild) then
    s.call env .notifyInferiorIll
  else
    s.requestInterruptInferior env

/-- The function `postCommandHelper`. -/
def postCommandHelper (env : Environment) (s : GdbEngine) (cmd : GdbCommand) : GdbEngine :=
  if !stateAcceptsGdbCommands s.state then s
  else
    let s := { s with
      m_pendingBreakpointRequests :=
        if cmd.flags.RebuildBreakpointModel then s.m_pendingBreakpointRequests + 1
        else s.m_pendingBreakpointRequests }
    let s := { s with
      m_nonDiscardableCount :=
        if !cmd.flags.Discardable then s.m_nonDiscardableCount + 1
        else s.m_nonDiscardableCount }
    if cmd.flags.Immediate then
      flushCommand env s cmd
    else if cmd.flags.NeedsStop || !s.m_commandsToRunOnTemporaryBreak.isEmpty then
      if s.state == InferiorStopOk || s.state == InferiorUnrunnable
          || s.state == InferiorSetupRequested || s.state == EngineSetupOk
          || s.state == InferiorShutdownRequested then
        flushCommand env s cmd
      else
        let s := { s with
          m_commandsToRunOnTemporaryBreak := s.m_commandsToRunOnTemporaryBreak ++ [cmd] }
        if s.state == InferiorStopRequested then
          if cmd.flags.LosesChild then s.call env .notifyInferiorIll else s
        else if s.state == InferiorRunOk then
          interruptInferiorTemporarily env s
        else s
    else if !cmd.command.isEmpty then
      flushCommand env s cmd
    else s

/-- The five-argument `postCommand`. -/
def postCommand (env : Environment) (s : GdbEngine) (command : String)
    (flags : GdbCommandFlags) (callback : Option GdbCommandCallback)
    (callbackName : Option String) (cookie : QVariant) : GdbEngine :=
  postCommandHelper env s
    { command := command, flags := flags, callback := callback,
      callbackName := callbackName, cookie := cookie }

/-- The function `flushQueuedCommands`.  The loop runs while the queue is not
empty, and what a faked test response sets off may refill the queue, so the
loop is given fuel: `none` means the fuel ran out before the queue was empty. -/
def flushQueuedCommands (env : Environment) : Nat → GdbEngine → Option GdbEngine
  | fuel, s =>
    match s.m_commandsToRunOnTemporaryBreak with
    | [] => some s
    | cmd :: rest =>
      match fuel with
      | 0 => none
      | fuel + 1 =>
        flushQueuedCommands env fuel
          (flushCommand env { s with m_commandsToRunOnTemporaryBreak := rest } cmd)

/-- The function `setTokenBarrier`. -/
def setTokenBarrier (s : GdbEngine) : GdbEngine :=
  let good := s.m_cookieForToken.all (fun e => e.2.flags.Discardable)
  if !good then s
  else { s with m_oldestAcceptableToken := s.currentToken, m_stackNeeded := false }

/-- The function `showExecutionError`. -/
def showExecutionError (env : Environment) (s : GdbEngine) (message : String) : GdbEngine :=
  s.call env (.showMessageBox "Execution Error" ("Cannot continue debugged process:" ++ "\n" ++ message))

/-- The function `executeNextI`. -/
def executeNextI (env : Environment) (s : GdbEngine) : GdbEngine :=
  let s := s.setTokenBarrier
  let s := s.call env .notifyInferiorRunRequested
  if s.isReverseDebugging then
    s.postCommand env "reverse-nexti" { RunRequest := true }
      (some "handleExecuteContinue") (some "handleExecuteContinue") ""
  else
    s.postCommand env "-exec-next-instruction" { RunRequest := true }
      (some "handleExecuteContinue") (some "handleExecuteContinue") ""

/-! ## Result records -/

/-- The local `isExpectedResult` of `handleResultRecord`. -/
def isExpectedResult (response : GdbResponse) (cmd : GdbCommand) : Bool :=
  response.resultClass == GdbResultError
    || (response.resultClass == GdbResultRunning && cmd.flags.RunRequest)
    || (response.resultClass == GdbResultExit && cmd.flags.ExitRequest)
    || response.resultClass == GdbResultDone

/-- The branch of `handleResultRecord` for a token that is not in the token
map ("COOKIE FOR TOKEN ... ALREADY EATEN"): the recovery by error message. -/
def handleUnsolicitedResult (env : Environment) (s : GdbEngine) (response : GdbResponse) :
    GdbEngine :=
  if response.resultClass == GdbResultError then
    let msg := (response.data.child "msg").data
    if msg == "Cannot find new threads: generic error" then
      let s := s.call env (.showMessageBox "Executable failed" msg)
      s.call env .notifyInferiorIll
    else if msg == "\"finish\" not meaningful in the outermost frame." then
      s.call env .notifyInferiorStopOk
    else if startsWith msg "Cannot find bounds of current function" then
      let s := s.call env .notifyInferiorStopOk
      s.executeNextI env
    else if startsWith msg "Couldn't get registers: No such process." then
      s.call env .notifyInferiorStopOk
    else if containsBytes msg "Cannot insert breakpoint" then
      let s := s.call env (.showMessageBox "Setting breakpoints failed" msg)
      let s := s.call env .notifyInferiorSpontaneousStop
      s.call env .notifyEngineIll
    else if isGdbConnectionError msg then
      s.call env .notifyInferiorExited
    else
      let s :=
        if startsWith msg "During startup program exited with" then
          s.call env .notifyInferiorExited
        else s
      let logMsg :=
        (if !s.m_lastWinException.isEmpty then s.m_lastWinException ++ "\n" else "") ++ msg
      s.call env (.showMessageBox "Executable Failed" logMsg)
  else s

/-- The part of `handleResultRecord` after the callback that keeps the count
of pending breakpoint requests and starts the breakpoint synchronization. -/
def finishBreakpointRequest (env : Environment) (s : GdbEngine) (cmd : GdbCommand) :
    GdbEngine :=
  if cmd.flags.RebuildBreakpointModel then
    let s : GdbEngine :=
      { s with m_pendingBreakpointRequests := s.m_pendingBreakpointRequests - 1 }
    if s.m_pendingBreakpointRequests ≤ (0 : Int) then
      s.call env .attemptBreakpointSynchronization
    else s
  else s

/-- The part of `handleResultRecord` that makes up for an interrupt postponed
while the run was only requested. -/
def interruptIfQueued (env : Environment) (s : GdbEngine) : GdbEngine :=
  if s.state == InferiorRunOk && !s.m_commandsToRunOnTemporaryBreak.isEmpty then
    s.interruptInferiorTemporarily env
  else s

/-- The part of `handleResultRecord` that runs the armed commands-done
continuation once the token map is empty. -/
def runCommandsDoneCallback (env : Environment) (s : GdbEngine) (response : GdbResponse) :
    GdbEngine :=
  match s.m_commandsDoneCallback with
  | some cont =>
    if s.m_cookieForToken.isEmpty then
      let s : GdbEngine := { s with m_commandsDoneCallback := none }
      if response.resultClass != GdbResultRunning then s.call env (.commandsDone cont)
      else s
    else s
  | none => s

/-- The last statement of `handleResultRecord`: the watchdog stops when no
command is outstanding. -/
def stopCommandTimerIfIdle (s : GdbEngine) : GdbEngine :=
  if s.m_cookieForToken.isEmpty then { s with m_commandTimerActive := false } else s

/-- The function `handleResultRecord`.  The test `contains(token)` and the
following `take(token)` are one lookup; the statements after the callback are
the four parts above, in order. -/
def handleResultRecord (env : Environment) (s : GdbEngine) (response : GdbResponse) :
    GdbEngine :=
  let token := response.token
  if token == -1 then s
  else
    match s.m_cookieForToken.value token with
    | none => handleUnsolicitedResult env s response
    | some cmd =>
      let s := { s with m_cookieForToken := s.m_cookieForToken.remove token }
      if response.token < s.m_oldestAcceptableToken && cmd.flags.Discardable then s
      else
        let response := { response with cookie := cmd.cookie }
        let s : GdbEngine := { s with
          m_nonDiscardableCount :=
            if !cmd.flags.Discardable then s.m_nonDiscardableCount - 1
            else s.m_nonDiscardableCount }
        let s : GdbEngine :=
          match cmd.callback with
          | some cb => s.call env (.callback cb response)
          | none => s
        let s := s.finishBreakpointRequest env cmd
        let s := s.interruptIfQueued env
        let s := s.runCommandsDoneCallback env response
        s.stopCommandTimerIfIdle

/-! ## The run-control handlers that flush the deferred queue -/

/-- The function `executeStepI`. -/
def executeStepI (env : Environment) (s : GdbEngine) : GdbEngine :=
  let s := s.setTokenBarrier
  let s := s.call env .notifyInferiorRunRequested
  if s.isReverseDebugging then
    s.postCommand env "reverse-stepi" { RunRequest := true }
      (some "handleExecuteContinue") (some "handleExecuteContinue") ""
  else
    s.postCommand env "-exec-step-instruction" { RunRequest := true }
      (some "handleExecuteContinue") (some "handleExecuteContinue") ""

/-- The function `continueInferiorInternal`. -/
def continueInferiorInternal (env : Environment) (s : GdbEngine) : GdbEngine :=
  let s := s.call env .notifyInferiorRunRequested
  s.postCommand env "-exec-continue" { RunRequest := true }
    (some "handleExecuteContinue") (some "handleExecuteContinue") ""

/-- The function `handleExecuteStep`. -/
def handleExecuteStep (env : Environment) (fuel : Nat) (s : GdbEngine)
    (response : GdbResponse) : Option GdbEngine :=
  if response.resultClass == GdbResultDone then some s
  else if response.resultClass == GdbResultRunning then
    some (s.call env .notifyInferiorRunOk)
  else
    let msg := (response.data.child "msg").data
    if startsWith msg "Cannot find bounds of current function"
        || containsBytes msg "Error accessing memory address"
        || startsWith msg "Cannot access memory at address" then
      let s := s.call env .notifyInferiorRunFailed
      if s.isDying then some s
      else
        let flushed :=
          if !s.m_commandsToRunOnTemporaryBreak.isEmpty then s.flushQueuedCommands env fuel
          else some s
        flushed.map (fun s => s.executeStepI env)
    else if startsWith msg
        "Cannot execute this command while the selected thread is running." then
      let s := s.showExecutionError env msg
      some (s.call env .notifyInferiorRunFailed)
    else if startsWith msg "warning: SuspendThread failed" then
      some (s.continueInferiorInternal env)
    else
      let s := s.showExecutionError env msg
      some (s.call env .notifyInferiorIll)

/-- The function `handleExecuteNext`. -/
def handleExecuteNext (env : Environment) (fuel : Nat) (s : GdbEngine)
    (response : GdbResponse) : Option GdbEngine :=
  if response.resultClass == GdbResultDone then some s
  else if response.resultClass == GdbResultRunning then
    some (s.call env .notifyInferiorRunOk)
  else
    let msg := (response.data.child "msg").data
    if startsWith msg "Cannot find bounds of current function"
        || containsBytes msg "Error accessing memory address " then
      let flushed :=
        if !s.m_commandsToRunOnTemporaryBreak.isEmpty then s.flushQueuedCommands env fuel
        else some s
      flushed.map (fun s =>
        let s := s.call env .notifyInferiorRunFailed
        if !s.isDying then s.executeNextI env else s)
    else if startsWith msg
        "Cannot execute this command while the selected thread is running." then
      let s := s.showExecutionError env msg
      some (s.call env .notifyInferiorRunFailed)
    else
      let s := s.call env (.showMessageBox "Execution Error"
        ("Cannot continue debugged process:" ++ "\n" ++ msg))
      some (s.call env .notifyInferiorIll)

end GdbEngine

/-! ## Runs of the engine -/

/-- Modelled from the spec: what the calls into the base class
`DebuggerEngine` (`debuggerengine.cpp` is not among the sources) do to the
engine state, after the transitions of the state machine: an interrupt
request moves to `InferiorStopRequested`, a failed stop to
`InferiorStopFailed`, a stop to `InferiorStopOk`, a run request to
`InferiorRunRequested`, a confirmed run to `InferiorRunOk`, a failed run back
to `InferiorStopOk`, an exit to `InferiorExitOk`; an ill inferior is on its
way down.  Everything else leaves the engine alone, the interrupt by the
derived engine class (`interruptInferior2`) included. -/
def baseClass : Environment
  | .requestInterruptInferior, s => { s with state := InferiorStopRequested }
  | .notifyInferiorStopFailed, s => { s with state := InferiorStopFailed }
  | .notifyInferiorStopOk, s => { s with state := InferiorStopOk }
  | .notifyInferiorSpontaneousStop, s => { s with state := InferiorStopOk }
  | .notifyInferiorRunRequested, s => { s with state := InferiorRunRequested }
  | .notifyInferiorRunOk, s => { s with state := InferiorRunOk }
  | .notifyInferiorRunFailed, s => { s with state := InferiorStopOk }
  | .notifyInferiorExited, s => { s with state := InferiorExitOk }
  | .notifyInferiorIll, s => { s with isDying := true }
  | _, s => s

/-- The dispatch `(this->*cmd.callback)(response)` for the callbacks that are
embedded, on top of an environment for everything else.  A callback that runs
out of fuel leaves the engine as it found it. -/
def withCallbacks (fuel : Nat) (env : Environment) : Environment
  | .callback "handleExecuteNext" response, s => (s.handleExecuteNext env fuel response).getD s
  | .callback "handleExecuteStep" response, s => (s.handleExecuteStep env fuel response).getD s
  | c, s => env c s

/-- One thing that can happen to the engine. -/
inductive Event where
  /-- A call of `postCommand`. -/
  | post (cmd : GdbCommand)
  /-- A direct call of `flushCommand`. -/
  | flush (cmd : GdbCommand)
  /-- One round of the loop of `flushQueuedCommands`. -/
  | flushFirst
  /-- A result record arrives. -/
  | result (response : GdbResponse)
  /-- A call of `setTokenBarrier`. -/
  | barrier
  /-- Any other activity of a collaborator, short of calling a command
  callback by itself. -/
  | external (c : Call) (other : c.isCallback = false)

namespace GdbEngine

/-- The engine after one event. -/
def step (env : Environment) (s : GdbEngine) : Event → GdbEngine
  | .post cmd => s.postCommandHelper env cmd
  | .flush cmd => s.flushCommand env cmd
  | .flushFirst =>
    match s.m_commandsToRunOnTemporaryBreak with
    | [] => s
    | cmd :: rest => flushCommand env { s with m_commandsToRunOnTemporaryBreak := rest } cmd
  | .result response => s.handleResultRecord env response
  | .barrier => s.setTokenBarrier
  | .external c _ => s.call env c

/-- The engine after a sequence of events. -/
def run (env : Environment) (s : GdbEngine) (events : List Event) : GdbEngine :=
  events.foldl (step env) s

end GdbEngine

/-- Whether the call is one of those `interruptInferiorTemporarily` and
`interruptInferior` make into code of other files: into the base class, into
the derived engine class, or into the signal operation of the device. -/
def Call.isInterruptCall : Call → Bool
  | .requestInterruptInferior => true
  | .notifyInferiorIll => true
  | .notifyInferiorStopFailed => true
  | .interruptInferior2 => true
  | .collaborator name _ => name == "interruptProcess"
  | _ => false

/-- The engine `s'` has the command path of the engine `s`: the same flushed
commands, token counter, token map, deferred queue and scheduled test
responses, and the same settings that decide how the engine interrupts. -/
structure SameCommandPath (s s' : GdbEngine) : Prop where
  flushed : s'.flushed = s.flushed
  currentToken : s'.currentToken = s.currentToken
  cookieForToken : s'.m_cookieForToken = s.m_cookieForToken
  commandsToRun : s'.m_commandsToRunOnTemporaryBreak = s.m_commandsToRunOnTemporaryBreak
  scheduledTestResponses : s'.m_scheduledTestResponses = s.m_scheduledTestResponses
  usesExecInterrupt : s'.usesExecInterrupt = s.usesExecInterrupt

/-- The code of other files that is called while an interrupt is requested
leaves the command path alone: it flushes nothing, draws no token, and does
not touch the token map, the deferred queue, the scheduled test responses or
the settings that decide how the engine interrupts. -/
def InterruptKeepsCommandPath (env : Environment) : Prop :=
  ∀ (c : Call) (s : GdbEngine), c.isInterruptCall = true → SameCommandPath s (env c s)

/-- Whether the call is the call of `handleResponse` with a faked test
response. -/
def Call.isHandleResponse : Call → Bool
  | .handleResponse _ => true
  | _ => false

/-- What is called while an interrupt is requested (the base class, the
derived engine class, the signal operation of the device, and in a test the
response faked for `-exec-interrupt`) leaves the deferred queue alone and does
not ask for an interrupt of the inferior by itself. -/
def KeepsDeferredQueue (env : Environment) : Prop :=
  ∀ (c : Call) (s : GdbEngine), c.isInterruptCall = true ∨ c.isHandleResponse = true →
    (env c s).m_commandsToRunOnTemporaryBreak = s.m_commandsToRunOnTemporaryBreak
      ∧ (env c s).calls.countP Call.isInterruptRequest
          = s.calls.countP Call.isInterruptRequest

/-- A property of the engine that the command path keeps: it speaks only of
the flushed commands, the token counter, the token map and the calls made;
it survives every call into a collaborator other than a command callback; it
survives drawing a token for a command, dropping an entry of the token map,
and resolving an entry, which is removing it and calling its callback with
the command's cookie (on an engine `s0` that has the entry removed). -/
structure Invariant (env : Environment) (P : GdbEngine → Prop) : Prop where
  frame : ∀ s s' : GdbEngine, P s → s'.flushed = s.flushed →
    s'.currentToken = s.currentToken → s'.m_cookieForToken = s.m_cookieForToken →
    s'.calls = s.calls → P s'
  call : ∀ (s : GdbEngine) (c : Call), c.isCallback = false → P s → P (s.call env c)
  draw : ∀ (s : GdbEngine) (cmd : GdbCommand) (bytes : Option String), P s →
    P { s with
      currentToken := GdbEngine.nextToken s.currentToken,
      m_cookieForToken := s.m_cookieForToken.insert (GdbEngine.nextToken s.currentToken) cmd,
      flushed :=
        s.flushed ++ [Transmission.mk s.state (GdbEngine.nextToken s.currentToken) cmd bytes] }
  drop : ∀ (s : GdbEngine) (token : Int), P s →
    P { s with m_cookieForToken := s.m_cookieForToken.remove token }
  resolve : ∀ (s s0 : GdbEngine) (response : GdbResponse) (cmd : GdbCommand)
    (cb : GdbCommandCallback), P s → response.token ≠ -1 →
    s.m_cookieForToken.value response.token = some cmd → cmd.callback = some cb →
    s0.flushed = s.flushed → s0.currentToken = s.currentToken →
    s0.m_cookieForToken = s.m_cookieForToken.remove response.token → s0.calls = s.calls →
    P (s0.call env (Call.callback cb { response with cookie := cmd.cookie }))

/-- Each token of a list of flushed commands is the one the counter gives
after the token before it. -/
def Consecutive (l : List Transmission) : Prop :=
  ∀ (i : Nat) (a b : Transmission), l[i]? = some a → l[i + 1]? = some b →
    b.token = GdbEngine.nextToken a.token

/-- No other engine has drawn a token in between: the tokens this engine drew
are each the one the counter gives after the token before, and the last one
is where the counter stands. -/
structure CountsUp (s : GdbEngine) : Prop where
  consecutive : Consecutive s.flushed
  last : ∀ a : Transmission, s.flushed.getLast? = some a → a.token = s.currentToken

/-- The token map and the callbacks go by the tokens: every entry of the
token map is a command that was flushed under that token; every callback
called so far was called for a record whose token was drawn for a command
with that callback, and was handed that command's cookie. -/
structure Correlated (s : GdbEngine) : Prop where
  stored : ∀ e ∈ s.m_cookieForToken, ∃ t ∈ s.flushed, t.token = e.1 ∧ t.cmd = e.2
  answered : ∀ (cb : GdbCommandCallback) (response : GdbResponse),
    Call.callback cb response ∈ s.calls →
    ∃ t ∈ s.flushed, t.token = response.token ∧ t.cmd.callback = some cb
      ∧ t.cmd.cookie = response.cookie

/-- The token counter has run over: a command was flushed under the token
-2147483648, the one that follows 2147483647. -/
def Overflowed (s : GdbEngine) : Prop :=
  ∃ a ∈ s.flushed, a.token = -2147483648

/-- Whether the call is the call of a command callback for a record with
token `t`. -/
def Call.isCallbackFor (t : Int) : Call → Bool
  | .callback _ response => response.token == t
  | _ => false

/-- How many times a command callback was called for a record with token `t`. -/
def GdbEngine.callbacksFor (t : Int) (s : GdbEngine) : Nat :=
  s.calls.countP (Call.isCallbackFor t)

/-- Token `t` is retired with `n` callback calls: it has been drawn, it is not
in the token map, no token in the map is ahead of the counter, and so far `n`
callback calls were made for records with token `t`. -/
structure Retired (t : Int) (n : Nat) (s : GdbEngine) : Prop where
  drawn : t ≤ s.currentToken
  bounded : ∀ k ∈ s.m_cookieForToken.keys, k ≤ s.currentToken
  absent : s.m_cookieForToken.contains t = false
  count : s.callbacksFor t = n

/-- At most one callback call was made for records with token `t`, and if one
was made then `t` has been drawn and is out of the token map; no token in the
map is ahead of the counter. -/
structure AtMostOnce (t : Int) (s : GdbEngine) : Prop where
  bounded : ∀ k ∈ s.m_cookieForToken.keys, k ≤ s.currentToken
  once : s.callbacksFor t ≤ 1
  gone : s.callbacksFor t = 1 → t ≤ s.currentToken ∧ s.m_cookieForToken.contains t = false

/-- What flushing the given commands in order adds to `flushed` when each is
written: the tokens are the ones the counter gives after `token`. -/
def transmissions (st : DebuggerState) (token : Int) : List GdbCommand → List Transmission
  | [] => []
  | cmd :: rest =>
    Transmission.mk st (GdbEngine.nextToken token) cmd
        (some (GdbEngine.wireCommand (GdbEngine.nextToken token) cmd ++ "\r\n"))
      :: transmissions st (GdbEngine.nextToken token) rest

/-! ## Sample engines, commands and records -/

namespace Sample

/-- A discardable watch-update command. -/
def listLocals : GdbCommand :=
  { command := "-stack-list-locals 2", flags := { Discardable := true },
    callback := some "handleStackListLocals", callbackName := some "handleStackListLocals" }

/-- A breakpoint command: not discardable. -/
def breakInsert : GdbCommand :=
  { command := "-break-insert main", flags := { RebuildBreakpointModel := true },
    callback := some "handleBreakInsert1", callbackName := some "handleBreakInsert1" }

/-- A command that needs a stopped inferior. -/
def listFrames : GdbCommand :=
  { command := "-stack-list-frames", flags := { NeedsStop := true },
    callback := some "handleStackListFrames", callbackName := some "handleStackListFrames" }

/-- A plain command without flags. -/
def threadInfo : GdbCommand :=
  { command := "-thread-info", callback := some "handleThreadInfo",
    callbackName := some "handleThreadInfo" }

/-- A stopped engine that waits for the answer to a discardable command sent
before the last token barrier. -/
def stale : GdbEngine :=
  { state := InferiorStopOk, currentToken := 5, m_oldestAcceptableToken := 5,
    m_cookieForToken := [(3, listLocals)] }

/-- The late answer to the discardable command of `stale`. -/
def staleDone : GdbResponse := { token := 3, resultClass := GdbResultDone }

/-- A stopped engine that waits for the answer to a breakpoint command. -/
def breakPending : GdbEngine :=
  { state := InferiorStopOk, currentToken := 4, m_stackNeeded := true,
    m_cookieForToken := [(4, breakInsert)] }

/-- An engine whose inferior runs, with nothing queued or outstanding. -/
def running : GdbEngine := { state := InferiorRunOk, currentToken := 7 }

/-- An engine that has asked for an interrupt on behalf of a queued command. -/
def stopping : GdbEngine :=
  { state := InferiorStopRequested, currentToken := 7,
    m_commandsToRunOnTemporaryBreak := [listFrames],
    calls := [.requestInterruptInferior, .interruptInferior2] }

/-- An engine whose inferior is stopped, with nothing queued or outstanding. -/
def stopped : GdbEngine := { state := InferiorStopOk, currentToken := 7 }

/-- An engine that has just stopped for two queued commands. -/
def interrupted : GdbEngine :=
  { state := InferiorStopOk, currentToken := 7,
    m_commandsToRunOnTemporaryBreak := [listFrames, threadInfo] }

/-- The command `executeNext` posts. -/
def execNext : GdbCommand :=
  { command := "-exec-next", flags := { RunRequest := true },
    callback := some "handleExecuteNext", callbackName := some "handleExecuteNext" }

/-- The command `executeStep` posts. -/
def execStep : GdbCommand :=
  { command := "-exec-step", flags := { RunRequest := true },
    callback := some "handleExecuteStep", callbackName := some "handleExecuteStep" }

/-- The engine after `executeNext`: the run is requested and `-exec-next` is
outstanding under token 1. -/
def nextRequested : GdbEngine :=
  { state := InferiorRunRequested, currentToken := 1, m_cookieForToken := [(1, execNext)] }

/-- The engine after `executeStep`: the run is requested and `-exec-step` is
outstanding under token 1. -/
def stepRequested : GdbEngine :=
  { state := InferiorRunRequested, currentToken := 1, m_cookieForToken := [(1, execStep)] }

/-- The record `1^error,msg="Cannot find bounds of current function"`. -/
def noBounds : GdbResponse :=
  { token := 1, resultClass := GdbResultError,
    data := .mk "data" "" .Tuple
      [.mk "msg" "Cannot find bounds of current function" .Const []] }

/-- The record `8^error,msg="Cannot find bounds of current function"`. -/
def noBounds8 : GdbResponse := { noBounds with token := 8 }

/-- A session: from a stopped inferior a step over is requested, a command
that needs a stop is posted meanwhile, and gdb refuses the step. -/
def refusedNext : List Event :=
  [Event.external Call.notifyInferiorRunRequested rfl, Event.post execNext,
    Event.post listFrames, Event.result noBounds8]

/-- An engine whose inferior has exited. -/
def exited : GdbEngine := { state := InferiorExitOk, currentToken := 7 }

/-- An engine attached to a remote target in asynchronous mode, whose inferior
runs: `usesExecInterrupt()` is true. -/
def remote : GdbEngine :=
  { state := InferiorRunOk, currentToken := 7, attachesToRemote := true, targetAsync := true }

/-- The engine `remote` in a test that has scheduled a response for token 8. -/
def remoteScheduled : GdbEngine :=
  { remote with m_scheduledTestResponses := [(8, "@TOKEN@^done")] }

/-- The engine `interrupted` with a gdb process that does not run. -/
def gdbGone : GdbEngine := { interrupted with gdbProcRunning := false }

/-- The engine `interrupted` in a test that has scheduled a response for
token 8. -/
def interruptedScheduled : GdbEngine :=
  { interrupted with m_scheduledTestResponses := [(8, "@TOKEN@^done")] }

/-- A stopped engine whose token counter stands one below the largest `int`. -/
def nearLimit : GdbEngine := { state := InferiorStopOk, currentToken := 2147483646 }

/-- A stopped engine whose token counter stands at the largest `int`. -/
def atLimit : GdbEngine := { state := InferiorStopOk, currentToken := 2147483647 }

/-- The answer to the command flushed under token -2147483648. -/
def doneAtMin : GdbResponse := { token := -2147483648, resultClass := GdbResultDone }

/-- A stopped engine whose token counter has gone round once: the token
-2147483648 was drawn and answered long ago, and the counter stands at the
largest `int` again. -/
def wentRound : GdbEngine :=
  { state := InferiorStopOk, currentToken := 2147483647,
    flushed := [Transmission.mk InferiorStopOk (-2147483648) threadInfo
      (some "-2147483648-thread-info\r\n")],
    calls := [.callback "handleThreadInfo" doneAtMin] }

/-- The answer to a command flushed under token 5. -/
def doneAt5 : GdbResponse := { token := 5, resultClass := GdbResultDone }

/-- A stopped engine in the second round of the token counter, with the first
and the last command of the first round still on record: token 5 was drawn and
answered in the first round, the counter has run over since, and it stands at
4 again. -/
def secondRound : GdbEngine :=
  { state := InferiorStopOk, currentToken := 4,
    flushed :=
      [Transmission.mk InferiorStopOk 5 threadInfo (some "5-thread-info\r\n"),
        Transmission.mk InferiorStopOk (-2147483648) listLocals
          (some "-2147483648-stack-list-locals 2\r\n")],
    calls := [.callback "handleThreadInfo" doneAt5] }

/-- The call that stands for a second engine of the process letting a command
through. -/
def otherEngineFlushes : Call := .collaborator "GdbEngine::flushCommand" ["other engine"]

/-- The base class, in a process with a second engine.  The token counter is
one `static int` for all engines: when the other engine lets a command
through (`++currentToken()` in its `flushCommand`), the counter moves for this
engine too. -/
def twoEngines : Environment
  | .collaborator "GdbEngine::flushCommand" _, s =>
    { s with currentToken := GdbEngine.nextToken s.currentToken }
  | c, s => baseClass c s

/-- A session in a process with two engines: this engine sends a command, the
other engine sends one, this engine sends another. -/
def interleaved : List Event :=
  [Event.flush threadInfo, Event.external otherEngineFlushes rfl, Event.flush listLocals]

end Sample

end Debugger

namespace Debugger

open DebuggerState GdbResultClass

/-! ## Numbers and slices of byte arrays -/

/-- Whether the byte is one of `'0'` to `'9'`. -/
def isDigit (c : Char) : Bool := '0' ≤ c && c ≤ '9'

/-- The number a run of decimal digits stands for. -/
def decimalValue (digits : List Char) : Nat :=
  digits.foldl (fun n c => 10 * n + (c.toNat - 48)) 0

/-- The conversions `toInt`, `toLong` and `toLongLong` of the Qt library, for
the range from `lo` to `hi`: white space around the number is skipped, a sign
may lead, and the result is `0` when what is left is not a non-empty run of
decimal digits or the number is outside the range. -/
def toIntegral (lo hi : Int) (ba : String) : Int :=
  let text := ((ba.data.dropWhile Char.isWhitespace).reverse.dropWhile Char.isWhitespace).reverse
  let negative := text.head? == some '-'
  let digits := if text.head? == some '-' || text.head? == some '+' then text.tail else text
  if digits.isEmpty || !digits.all isDigit then 0
  else
    let value : Int := if negative then -(decimalValue digits : Int) else (decimalValue digits : Int)
    if lo ≤ value && value ≤ hi then value else 0

/-- The conversion `QByteArray::toInt()`, to a 32 bit `int`. -/
def toInt (ba : String) : Int := toIntegral (-2147483648) 2147483647 ba

/-- The conversion `QString::toLongLong()`, to a 64 bit integer. -/
def toLongLong (ba : String) : Int :=
  toIntegral (-9223372036854775808) 9223372036854775807 ba

/-- The slice `QByteArray::mid(pos, len)`; with a negative `len` it is
everything from `pos` on. -/
def mid (s : String) (pos : Nat) (len : Int) : String :=
  if len < 0 then String.mk (s.data.drop pos)
  else String.mk ((s.data.drop pos).take len.toNat)

/-- The search `QByteArray::indexOf(pattern, start)`. -/
def indexOfAfter (s pattern : String) (start : Nat) : Int :=
  indexOfFrom pattern.data (s.data.drop start) start

namespace BreakpointResponseId

/-- Modelled from the spec: the constructor of `BreakpointResponseId` from the
text of a `number` field, `"3"` or, for a sub-breakpoint, `"3.1"`. -/
def ofBytes (ba : String) : BreakpointResponseId :=
  let pos := indexOf ba "."
  if pos == -1 then { majorPart := toInt ba, minorPart := 0 }
  else
    { majorPart := toInt (mid ba 0 pos),
      minorPart := toInt (mid ba (pos.toNat + 1) (-1)) }

/-- Modelled from the spec: the test `isValid()`, a number other than `0`
before the dot. -/
def isValid (id : BreakpointResponseId) : Bool := id.majorPart != 0

end BreakpointResponseId

namespace GdbMi

/-- The assignment `m_type = t`. -/
def withType : GdbMi → GdbMiType → GdbMi
  | .mk n d _ cs, t => .mk n d t cs

/-- The assignment `m_name = n`. -/
def withName : GdbMi → String → GdbMi
  | .mk _ d t cs, n => .mk n d t cs

/-- The statement `m_children += child`. -/
def addChild : GdbMi → GdbMi → GdbMi
  | .mk n d t cs, c => .mk n d t (cs ++ [c])

end GdbMi

/-! ## Reading one line of gdb output -/

/-- The functions `handleResponse` takes from files that are not among the
sources.  The three parsing functions of `GdbMi` (`gdbmi.cpp`) go from the
text between `from` and `to` to what they parsed and the text behind the new
`from`; `pidInNoise` is the capture of the first of the three regular
expressions for a process id that matches, if one does; `msgWinException` is
the message composed for a Windows exception. -/
structure GdbMiFunctions where
  parseCString : List Char → String × List Char
  parseResultOrValue : List Char → GdbMi × List Char
  parseTuple_helper : List Char → GdbMi × List Char
  pidInNoise : String → Option String
  msgWinException : String → String

/-- The static function `isNameChar`. -/
def isNameChar (c : Char) : Bool := ('a' ≤ c && c ≤ 'z') || c == '-'

/-- The static function `isExitedReason`. -/
def isExitedReason (reason : String) : Bool :=
  reason == "exited-normally" || reason == "exited-signalled" || reason == "exited"

/-- The leading digits of a line: what the first loop of `handleResponse`
steps over. -/
def tokenDigits (buff : String) : List Char := buff.data.takeWhile isDigit

/-- The token `handleResponse` reads off a line: `-1`, or the value of the
leading digits when there are some. -/
def tokenOf (buff : String) : Int :=
  if (tokenDigits buff).isEmpty then -1 else toInt (String.mk (tokenDigits buff))

/-- The position of the byte that `const char c = *from++` reads, counted
from the start of the line: the one behind the leading digits. -/
def kindIndex (buff : String) : Nat := (tokenDigits buff).length

/-- The byte that decides the kind of the line, when the position
`kindIndex` is inside the line.  The code reads the byte at that position
without comparing `from` with `to`: `none` stands for a read behind the last
byte of the line. -/
def kindChar (buff : String) : Option Char := buff.data[kindIndex buff]?

/-- The text behind the kind byte, from the new `from` to `to`. -/
def afterKind (buff : String) : List Char := buff.data.drop (kindIndex buff + 1)

/-- The choice of the result class by the word behind `^`. -/
def resultClassOf (resultClass : String) : GdbResultClass :=
  if resultClass == "done" then GdbResultDone
  else if resultClass == "running" then GdbResultRunning
  else if resultClass == "connected" then GdbResultConnected
  else if resultClass == "error" then GdbResultError
  else if resultClass == "exit" then GdbResultExit
  else GdbResultUnknown

/-- The loop of `handleResponse` that collects the results of an async record
in `result`.  Every round steps over a comma, so a line of `n` bytes is
finished within `n` rounds: the first argument counts the rounds left. -/
def parseAsyncResults (P : GdbMiFunctions) : Nat → List Char → GdbMi → GdbMi
  | 0, _, result => result
  | rounds + 1, text, result =>
    match text with
    | [] => result
    | c :: rest =>
      if c != ',' then result.withType .Tuple
      else
        let parsed := P.parseResultOrValue rest
        parseAsyncResults P rounds parsed.2
          (if parsed.1.isValid then (result.addChild parsed.1).withType .Tuple else result)

/-- The payload `response.data` that the branch for `^` builds from the text
behind the result class. -/
def resultData (P : GdbMiFunctions) (text : List Char) : GdbMi :=
  match text with
  | [] => GdbMi.invalid
  | c :: rest =>
    if c == ',' then ((P.parseTuple_helper rest).1.withType .Tuple).withName "data"
    else (GdbMi.invalid.withType .Tuple).withName "data"

/-- The record the branch for `^` builds from a line and the two
accumulators, just before it calls `handleResultRecord`. -/
def resultRecord (P : GdbMiFunctions) (buff : String) (log console : String) : GdbResponse :=
  let text := afterKind buff
  let resultClass := text.takeWhile (fun c => 'a' ≤ c && c ≤ 'z')
  { token := tokenOf buff,
    resultClass := resultClassOf (String.mk resultClass),
    data := resultData P (text.drop resultClass.length),
    logStreamOutput := log,
    consoleStreamOutput := console }

end Debugger

namespace Debugger

open DebuggerState GdbResultClass

namespace GdbEngine

/-- The function `isQmlStepBreakpoint1`. -/
def isQmlStepBreakpoint1 (s : GdbEngine) (id : BreakpointResponseId) : Bool :=
  id.isValid && s.m_qmlBreakpointResponseId1 == id

/-- The function `isQmlStepBreakpoint2`. -/
def isQmlStepBreakpoint2 (s : GdbEngine) (id : BreakpointResponseId) : Bool :=
  id.isValid && s.m_qmlBreakpointResponseId2 == id

/-- The function `isQmlStepBreakpoint`. -/
def isQmlStepBreakpoint (s : GdbEngine) (id : BreakpointResponseId) : Bool :=
  s.isQmlStepBreakpoint1 id || s.isQmlStepBreakpoint2 id

/-- The function `isQFatalBreakpoint`. -/
def isQFatalBreakpoint (s : GdbEngine) (id : BreakpointResponseId) : Bool :=
  id.isValid && s.m_qFatalBreakpointResponseId == id

/-- The function `isHiddenBreakpoint`. -/
def isHiddenBreakpoint (s : GdbEngine) (id : BreakpointResponseId) : Bool :=
  s.isQFatalBreakpoint id || s.isQmlStepBreakpoint id

/-- The function `maybeHandleInferiorPidChanged`. -/
def maybeHandleInferiorPidChanged (env : Environment) (s : GdbEngine) (pid0 : String) :
    GdbEngine :=
  let pid := toLongLong pid0
  if pid == 0 then s
  else if pid == s.inferiorPid then s
  else s.call env (.collaborator "notifyInferiorPid" [toString pid])

/-! ## The record `*stopped` -/

/-- The part of `handleStopResponse` for the first stop of a session: the
shared libraries are asked for, and `handleStop1` is put off behind `p 3`. -/
def finishFullStart (env : Environment) (s : GdbEngine) : GdbEngine :=
  if !s.m_fullStartDone then
    let s : GdbEngine := { s with m_fullStartDone := true }
    let s := s.postCommand env "sharedlibrary .*" NoFlags none none ""
    s.postCommand env "p 3" NoFlags (some "handleStop1") (some "handleStop1") ""
  else s

/-- The part of `handleStopResponse` that tells the base class about the
stop, by the state the engine is in. -/
def notifyStopByState (env : Environment) (s : GdbEngine) : GdbEngine :=
  if s.state == InferiorRunOk then s.call env .notifyInferiorSpontaneousStop
  else if s.state == InferiorRunRequested then s.call env .notifyInferiorSpontaneousStop
  else if s.state == InferiorStopOk then s
  else s.call env .notifyInferiorStopOk

/-- The part of `handleStopResponse` for a stop that was asked for to get the
deferred queue out: the queue is flushed and, when the engine is then in
`InferiorStopOk`, `autoContinueInferior` is armed as continuation. -/
def flushOnTemporaryStop (env : Environment) (fuel : Nat) (s : GdbEngine) :
    Option GdbEngine :=
  ((s.call env .notifyInferiorStopOk).flushQueuedCommands env fuel).map (fun s =>
    if s.state == InferiorStopOk then
      { s with m_commandsDoneCallback := some "autoContinueInferior" }
    else s)

/-- The end of `handleStopResponse`, behind the test of the deferred queue. -/
def finishStop (env : Environment) (s : GdbEngine) (data : GdbMi)
    (gotoHandleStop1 : Bool) : GdbEngine :=
  let rid := BreakpointResponseId.ofBytes (data.child "bkptno").data
  let s := s.notifyStopByState env
  if s.isQmlStepBreakpoint1 rid then s
  else if gotoHandleStop1 then s.call env (.recordHandler "handleStop1" data)
  else s

/-- The function `handleStopResponse`.  The statements that move the marker
of the breakpoint hit and the editor to the place of the stop depend on the
breakpoint view and on the file system; they are the one call
`showStopLocation`, which gets the record. -/
def handleStopResponse (env : Environment) (fuel : Nat) (s : GdbEngine) (data : GdbMi) :
    Option GdbEngine :=
  if !data.isValid && s.m_terminalTrap && s.isWindowsHost then
    some { s with m_terminalTrap := false }
  else if s.state == InferiorSetupRequested then some s
  else if s.isDying then some (s.call env .notifyInferiorStopOk)
  else
    let s := s.call env (.collaborator "notifyStopped" [(data.child "stopped-thread").data])
    if isExitedReason (data.child "reason").data then some (s.call env .notifyInferiorExited)
    else
      let gotoHandleStop1 := s.m_fullStartDone
      let s := s.finishFullStart env
      let s := s.call env (.recordHandler "showStopLocation" data)
      if !s.m_commandsToRunOnTemporaryBreak.isEmpty then s.flushOnTemporaryStop env fuel
      else some (s.finishStop env data gotoHandleStop1)

/-! ## The function `handleResponse` -/

/-- The classes of async records, other than `stopped` and `running`, for
which `handleResponse` does more than show a status message. -/
def feedsViews (asyncClass : String) : Bool :=
  asyncClass == "library-loaded" || asyncClass == "library-unloaded"
    || asyncClass == "thread-group-created" || asyncClass == "thread-group-started"
    || asyncClass == "thread-created" || asyncClass == "thread-group-exited"
    || asyncClass == "thread-exited" || asyncClass == "breakpoint-modified"
    || asyncClass == "breakpoint-created" || asyncClass == "breakpoint-deleted"

/-- The branch of `handleResponse` for `*`, `+` and `=`, behind the parsing.
The classes of `feedsViews` only feed the module, thread and breakpoint views
and the process id of the inferior: they are handed to the environment with
the parsed record, under the name of the class.  Every other class is
ignored. -/
def handleAsyncRecord (env : Environment) (fuel : Nat) (s : GdbEngine)
    (asyncClass : String) (result : GdbMi) : Option GdbEngine :=
  if asyncClass == "stopped" then
    (s.handleStopResponse env fuel result).map (fun s =>
      { s with m_pendingLogStreamOutput := "", m_pendingConsoleStreamOutput := "" })
  else if asyncClass == "running" then
    let s := s.call env (.collaborator "notifyRunning" [(result.child "thread-id").data])
    if s.state == InferiorRunOk || s.state == InferiorSetupRequested then some s
    else if s.isWindowsHost
        && (s.state == InferiorStopRequested || s.state == InferiorShutdownRequested) then
      some s
    else some (s.call env .notifyInferiorRunOk)
  else if feedsViews asyncClass then some (s.call env (.recordHandler asyncClass result))
  else some s

/-- The branch of `handleResponse` for `~`, behind the parsing: the text goes
to the console accumulator and is searched for a process id, a Windows
exception and the number of the QML breakpoint. -/
def handleConsoleStream (P : GdbMiFunctions) (env : Environment) (s : GdbEngine)
    (data : String) : GdbEngine :=
  let s : GdbEngine :=
    { s with m_pendingConsoleStreamOutput := s.m_pendingConsoleStreamOutput ++ data }
  let s : GdbEngine :=
    if s.inferiorPid == 0 then
      match P.pidInNoise data with
      | some pid0 => s.maybeHandleInferiorPidChanged env pid0
      | none => s
    else s
  let s : GdbEngine :=
    if startsWith data "Reading symbols from " then s.call env (.collaborator "progressPing" [])
    else if startsWith data "[New " || startsWith data "[Thread " then
      s.call env (.collaborator "progressPing" [])
    else if startsWith data "gdb: unknown target exception 0x" then
      let s : GdbEngine := { s with m_lastWinException := P.msgWinException data }
      s.call env (.collaborator "TaskHub::addTask" [s.m_lastWinException])
    else s
  if startsWith data "QMLBP:" then
    { s with m_qmlBreakpointResponseId2 :=
        BreakpointResponseId.ofBytes (mid data 6 (indexOfAfter data " " 6 - 6)) }
  else s

/-- The branch of `handleResponse` for `&`, behind the parsing: the text goes
to the log accumulator; a connection error ends the inferior. -/
def handleLogStream (env : Environment) (s : GdbEngine) (data : String) : GdbEngine :=
  let s : GdbEngine :=
    { s with m_pendingLogStreamOutput := s.m_pendingLogStreamOutput ++ data }
  if isGdbConnectionError data then s.call env .notifyInferiorExited
  else if s.identifyDebugInfoPackages then
    if startsWith data "Missing separate debuginfo for " then
      { s with m_lastMissingDebugInfo := mid data 32 (-1) }
    else if startsWith data "Try: zypper" then
      let s := s.call env
        (.collaborator "TaskHub::addTask" [s.m_lastMissingDebugInfo, mid data 4 (-1)])
      s.call env (.collaborator "DebugInfoTaskHandler::addTask" [mid data 4 (-1)])
    else s
  else s

/-- The branch of `handleResponse` for `^`: the record takes the two
accumulators along, they are cleared, and `handleResultRecord` gets the
record. -/
def handleResultLine (P : GdbMiFunctions) (env : Environment) (s : GdbEngine)
    (buff : String) : GdbEngine :=
  let response := resultRecord P buff s.m_pendingLogStreamOutput s.m_pendingConsoleStreamOutput
  let s : GdbEngine := { s with m_pendingLogStreamOutput := "", m_pendingConsoleStreamOutput := "" }
  s.handleResultRecord env response

/-- The function `handleResponse`.  The fuel is for the loop of
`flushQueuedCommands` that a `*stopped` may set off.  When the byte that
decides the kind is read behind the line (`kindChar` is `none`) the engine is
left as it is, as in the `default` branch. -/
def handleResponse (P : GdbMiFunctions) (env : Environment) (fuel : Nat) (s : GdbEngine)
    (buff : String) : Option GdbEngine :=
  if buff.isEmpty || buff == "(gdb) " then some s
  else
    match kindChar buff with
    | none => some s
    | some c =>
      let text := afterKind buff
      if c == '*' || c == '+' || c == '=' then
        let asyncClass := text.takeWhile isNameChar
        let result :=
          parseAsyncResults P text.length (text.drop asyncClass.length) GdbMi.invalid
        s.handleAsyncRecord env fuel (String.mk asyncClass) result
      else if c == '~' then some (s.handleConsoleStream P env (P.parseCString text).1)
      else if c == '@' then
        some (s.call env (.collaborator "readDebugeeOutput" [(P.parseCString text).1]))
      else if c == '&' then some (s.handleLogStream env (P.parseCString text).1)
      else if c == '^' then some (s.handleResultLine P env buff)
      else some s

/-- The engine after a sequence of lines, each handed to `handleResponse`. -/
def handleLines (P : GdbMiFunctions) (env : Environment) (fuel : Nat) :
    GdbEngine → List String → Option GdbEngine
  | s, [] => some s
  | s, buff :: rest => (s.handleResponse P env fuel buff).bind (fun s => handleLines P env fuel s rest)

end GdbEngine

end Debugger

namespace Debugger

open DebuggerState GdbResultClass

namespace GdbMi

/-- Modelled from the spec: the character an escape sequence of a C string
stands for (`gdbmi.cpp` is not among the sources). -/
def unescape (c : Char) : Char :=
  if c == 'n' then Char.ofNat 10 else if c == 't' then Char.ofNat 9 else c

/-- Modelled from the spec: the inside of a C string, up to the closing
quote; `acc` holds the decoded characters so far, last first. -/
def cStringBody : List Char → List Char → String × List Char
  | [], acc => (String.mk acc.reverse, [])
  | c :: rest, acc =>
    if c == Char.ofNat 34 then (String.mk acc.reverse, rest)
    else if c == Char.ofNat 92 then
      match rest with
      | [] => (String.mk acc.reverse, [])
      | e :: rest2 => cStringBody rest2 (unescape e :: acc)
    else cStringBody rest (c :: acc)

/-- Modelled from the spec: `parseCString`, the decoded text of a C string in
double quotes and what follows it; text that does not start with a quote is
left where it is. -/
def cString : List Char → String × List Char
  | [] => ("", [])
  | c :: rest => if c == Char.ofNat 34 then cStringBody rest [] else ("", c :: rest)

/-- The loop `skipCommas`. -/
def skipCommas (text : List Char) : List Char := text.dropWhile (fun c => c == ',')

mutual

/-- Modelled from the spec: `parseResultOrValue`, a value (a C string, a
tuple in braces, a list in brackets) or a result `name=value`.  The first
argument bounds the nesting and the number of items. -/
def resultOrValue : Nat → List Char → GdbMi × List Char
  | 0, text => (invalid, text)
  | fuel + 1, text0 =>
    match text0.dropWhile Char.isWhitespace with
    | [] => (invalid, [])
    | c :: rest =>
      if c == Char.ofNat 123 then items fuel (Char.ofNat 125) .Tuple "" rest []
      else if c == Char.ofNat 91 then items fuel (Char.ofNat 93) .List "" rest []
      else if c == Char.ofNat 34 then
        (.mk "" (cString (c :: rest)).1 .Const [], (cString (c :: rest)).2)
      else if c == '(' then (invalid, c :: rest)
      else
        let name := String.mk ((c :: rest).takeWhile (fun x => x != '='))
        match (c :: rest).dropWhile (fun x => x != '=') with
        | [] => (.mk name "" .Invalid [], [])
        | _ :: value =>
          match value with
          | [] => (.mk name "" .Invalid [], [])
          | v :: rest2 =>
            if v == Char.ofNat 123 then items fuel (Char.ofNat 125) .Tuple name rest2 []
            else if v == Char.ofNat 91 then items fuel (Char.ofNat 93) .List name rest2 []
            else if v == Char.ofNat 34 then
              (.mk name (cString (v :: rest2)).1 .Const [], (cString (v :: rest2)).2)
            else (.mk name "" .Invalid [], v :: rest2)

/-- Modelled from the spec: the items of a tuple or a list up to the closing
bracket `close`, as `parseTuple_helper` and `parseList` collect them. -/
def items : Nat → Char → GdbMiType → String → List Char → List GdbMi → GdbMi × List Char
  | 0, _, type, name, text, acc => (.mk name "" type acc, text)
  | fuel + 1, close, type, name, text0, acc =>
    match skipCommas text0 with
    | [] => (.mk name "" type acc, [])
    | c :: rest =>
      if c == close then (.mk name "" type acc, rest)
      else
        let parsed := resultOrValue fuel (c :: rest)
        if parsed.1.isValid then items fuel close type name parsed.2 (acc ++ [parsed.1])
        else if type == .Tuple then (.mk name "" type acc, parsed.2)
        else items fuel close type name parsed.2 acc

end

end GdbMi

namespace Sample

/-- Modelled from the spec: the parsing functions of `GdbMi`, with enough
fuel for the whole text; no process id is looked for in console text, and the
message for a Windows exception is the text itself. -/
def mi : GdbMiFunctions where
  parseCString := GdbMi.cString
  parseResultOrValue := fun text => GdbMi.resultOrValue (text.length + 1) text
  parseTuple_helper := fun text =>
    GdbMi.items (text.length + 1) (Char.ofNat 125) .Tuple "" text []
  pidInNoise := fun _ => none
  msgWinException := fun data => data

end Sample

end Debugger
namespace Debugger

open DebuggerState GdbResultClass

/-! ## Console and log text between records -/

/-- The two accumulators of stream output, log first. -/
def GdbEngine.pending (s : GdbEngine) : String × String :=
  (s.m_pendingLogStreamOutput, s.m_pendingConsoleStreamOutput)

/-- The collaborators leave the two accumulators of stream output alone. -/
def KeepsPending (env : Environment) : Prop :=
  ∀ (c : Call) (s : GdbEngine), (env c s).pending = s.pending

/-- Whether the line is a result record: its kind byte is `^`. -/
def isResultLine (buff : String) : Bool := kindChar buff == some '^'

/-- Whether the line is an async record of class `stopped`. -/
def isStoppedLine (buff : String) : Bool :=
  (kindChar buff == some '*' || kindChar buff == some '+' || kindChar buff == some '=')
    && String.mk ((afterKind buff).takeWhile isNameChar) == "stopped"

/-- The decoded payload of a line of the given stream kind (`~` or `&`), and
the empty text for any other line. -/
def streamText (P : GdbMiFunctions) (kind : Char) (buff : String) : String :=
  if kindChar buff == some kind then (P.parseCString (afterKind buff)).1 else ""

/-- The lines behind the last line that is a boundary. -/
def sinceLast (boundary : String → Bool) (lines : List String) : List String :=
  (lines.reverse.takeWhile (fun buff => !boundary buff)).reverse

/-- The concatenation, in arrival order, of the texts of the lines received
since the last boundary. -/
def textSince (boundary : String → Bool) (text : String → String) (lines : List String) :
    String :=
  String.join ((sinceLast boundary lines).map text)

end Debugger
namespace Debugger

open DebuggerState GdbResultClass

/-- The console text attached to the record a command callback was called
with; `none` for any other call. -/
def Call.consoleStreamOutput : Call → Option String
  | .callback _ response => some response.consoleStreamOutput
  | _ => none

namespace Sample

/-- The engine `breakPending` after the first stop of its session. -/
def settled : GdbEngine := { breakPending with m_fullStartDone := true }

/-- Console text, a stop, more console text: lines as gdb sends them. -/
def stopBetween : List String := ["~\"a\"", "*stopped", "~\"b\""]

end Sample

end Debugger
namespace Debugger

open DebuggerState GdbResultClass

namespace GdbEngine

/-! ## The commands-done continuation and the late `^running` -/

/-- The engine `handleResultRecord` has reached when it comes to test the
commands-done continuation, for a record whose command `cmd` was found in the
token map and is not dropped as stale: the entry is out of the map, and the
callback, the count of breakpoint requests and the postponed interrupt are
done. -/
def beforeCommandsDone (env : Environment) (s : GdbEngine) (response : GdbResponse)
    (cmd : GdbCommand) : GdbEngine :=
  let s : GdbEngine := { s with m_cookieForToken := s.m_cookieForToken.remove response.token }
  let s : GdbEngine := { s with
    m_nonDiscardableCount :=
      if !cmd.flags.Discardable then s.m_nonDiscardableCount - 1
      else s.m_nonDiscardableCount }
  let s : GdbEngine :=
    match cmd.callback with
    | some cb => s.call env (.callback cb { response with cookie := cmd.cookie })
    | none => s
  (s.finishBreakpointRequest env cmd).interruptIfQueued env

/-- The function `handleExecuteContinue`. -/
def handleExecuteContinue (env : Environment) (fuel : Nat) (s : GdbEngine)
    (response : GdbResponse) : Option GdbEngine :=
  if response.resultClass == GdbResultRunning then
    some (s.call env .notifyInferiorRunOk)
  else
    let msg := (response.data.child "msg").data
    if startsWith msg "Cannot find bounds of current function" then
      let s := s.call env .notifyInferiorRunFailed
      if s.isDying then some s
      else
        let flushed :=
          if !s.m_commandsToRunOnTemporaryBreak.isEmpty then s.flushQueuedCommands env fuel
          else some s
        flushed.map (fun s => s.call env (.collaborator "reloadStack" ["true"]))
    else if startsWith msg "Cannot access memory at address" then some s
    else if startsWith msg "\"finish\" not meaningful in the outermost frame" then
      let s := s.call env .notifyInferiorRunFailed
      if s.isDying then some s
      else some (s.call env (.collaborator "gotoLocation" []))
    else if startsWith msg
        "Cannot execute this command while the selected thread is running." then
      let s := s.showExecutionError env msg
      some (s.call env .notifyInferiorRunFailed)
    else
      let s := s.showExecutionError env msg
      some (s.call env .notifyInferiorIll)

end GdbEngine

/-- The dispatch `(this->*cmd.callback)(response)` for the callback
`handleExecuteContinue`, on top of an environment for everything else.  A
callback that runs out of fuel leaves the engine as it found it. -/
def withContinue (fuel : Nat) (env : Environment) : Environment
  | .callback "handleExecuteContinue" response, s =>
    (s.handleExecuteContinue env fuel response).getD s
  | c, s => env c s

/-- Whether the call is the call of a commands-done continuation. -/
def Call.isCommandsDone : Call → Bool
  | .commandsDone _ => true
  | _ => false

namespace Sample

/-- The command `continueInferiorInternal` posts. -/
def execContinue : GdbCommand :=
  { command := "-exec-continue", flags := { RunRequest := true },
    callback := some "handleExecuteContinue", callbackName := some "handleExecuteContinue" }

/-- The engine after `continueInferior`: the run is requested and
`-exec-continue` is outstanding under token 5. -/
def continueRequested : GdbEngine :=
  { state := InferiorRunRequested, currentToken := 5, m_fullStartDone := true,
    m_cookieForToken := [(5, execContinue)] }

/-- The line for a stop at breakpoint 1. -/
def stoppedAtBreakpoint : String := "*stopped,reason=\"breakpoint-hit\",bkptno=\"1\""

/-- A temporarily stopped engine that waits for the answer to its last
command, with `autoContinueInferior` armed as continuation. -/
def lastCommandOut : GdbEngine :=
  { state := InferiorStopOk, currentToken := 1, m_cookieForToken := [(1, threadInfo)],
    m_nonDiscardableCount := 1, m_commandsDoneCallback := some "autoContinueInferior" }

/-- The record `1^done`. -/
def done1 : GdbResponse := { token := 1, resultClass := GdbResultDone }

/-- The record `1^running`. -/
def running1 : GdbResponse := { token := 1, resultClass := GdbResultRunning }

end Sample

end Debugger
namespace Debugger

open DebuggerState GdbResultClass BreakpointType BreakpointState

/-! ## The breakpoint handler -/

/-- The storage of the breakpoint handler. -/
abbrev BreakHandler := QHash BreakpointItem

namespace BreakpointResponseId

/-- Modelled from the spec: the text `toByteArray()` of an id, `3` or, with a
number behind the dot, `3.1`. -/
def toByteArray (id : BreakpointResponseId) : String :=
  if id.minorPart == 0 then toString id.majorPart
  else toString id.majorPart ++ "." ++ toString id.minorPart

end BreakpointResponseId

namespace BreakHandler

/-- Changes the item of the logical breakpoint `id`, if the handler has one. -/
def update (h : BreakHandler) (id : Int) (f : BreakpointItem → BreakpointItem) : BreakHandler :=
  h.map (fun e => if e.1 == id then (e.1, f e.2) else e)

/-- Modelled from the spec: `breakpointData(id)`, the wanted parameters. -/
def breakpointData (h : BreakHandler) (id : Int) : BreakpointParameters :=
  ((QHash.value h id).map (fun item => item.data)).getD {}

/-- Modelled from the spec: `response(id)`, the last response. -/
def response (h : BreakHandler) (id : Int) : BreakpointResponse :=
  ((QHash.value h id).map (fun item => item.response)).getD {}

/-- Modelled from the spec: `state(id)`; a breakpoint the handler does not
know is dead. -/
def state (h : BreakHandler) (id : Int) : BreakpointState :=
  ((QHash.value h id).map (fun item => item.state)).getD BreakpointDead

/-- Modelled from the spec: `setResponse(id, response)`. -/
def setResponse (h : BreakHandler) (id : Int) (br : BreakpointResponse) : BreakHandler :=
  update h id (fun item => { item with response := br })

/-- Modelled from the spec: `insertSubBreakpoint(id, sub)`: the sub-breakpoint
is attached to the logical breakpoint, in place of one with the same id. -/
def insertSubBreakpoint (h : BreakHandler) (id : Int) (sub : BreakpointResponse) :
    BreakHandler :=
  update h id (fun item =>
    { item with
      subBreakpoints := item.subBreakpoints.filter (fun old => old.id != sub.id) ++ [sub] })

/-- Modelled from the spec: the state transition behind a `notifyBreakpoint...`
call. -/
def setState (h : BreakHandler) (id : Int) (st : BreakpointState) : BreakHandler :=
  update h id (fun item => { item with state := st })

end BreakHandler

/-- The functions the breakpoint code takes from files that are not among the
sources (`breakpoint.cpp`, `breakhandler.cpp`, `gdbmi.cpp`) or that look at
the file system: `conditionsMatch` compares the wanted condition with the
reported one, `needsChange` is the handler's test of an item,
`cleanupFullName` and `breakpointLocation2` resolve file names,
`updateLocation` reads an `original-location`, and the rest are
conversions of text. -/
structure BreakpointFunctions where
  conditionsMatch : String → String → Bool
  needsChange : BreakpointItem → Bool
  cleanupFullName : String → String
  breakpointLocation2 : BreakpointParameters → String
  updateLocation : BreakpointResponse → String → BreakpointResponse
  toAddress : String → Nat
  toULongLong : String → Nat
  escapeCString : String → String

/-- The local variables of `updateResponse`. -/
structure ResponseUpdate where
  response : BreakpointResponse
  file : String := ""
  fullName : String := ""
  originalLocation : String := ""

/-- The branch of `updateResponse` for the field `type`. -/
def updateResponseType (F : BreakpointFunctions) (bkpt : GdbMi) (r : BreakpointResponse)
    (data : String) : BreakpointResponse :=
  if containsBytes data "tracepoint" then { r with tracepoint := true }
  else if data == "hw watchpoint" || data == "watchpoint" then
    let what := (bkpt.child "what").data
    if startsWith what "*0x" then
      { r with type := WatchpointAtAddress, address := F.toULongLong (mid what 1 (-1)) }
    else { r with type := WatchpointAtExpression, expression := what }
  else if data == "breakpoint" then
    let catchType := (bkpt.child "catch-type").data
    if catchType == "throw" then { r with type := BreakpointAtThrow }
    else if catchType == "catch" then { r with type := BreakpointAtCatch }
    else if catchType == "fork" then { r with type := BreakpointAtFork }
    else if catchType == "exec" then { r with type := BreakpointAtExec }
    else if catchType == "syscall" then { r with type := BreakpointAtSysCall }
    else r
  else r

/-- One round of the loop of `updateResponse` over the fields of an entry. -/
def updateResponseField (F : BreakpointFunctions) (bkpt : GdbMi) (u : ResponseUpdate)
    (child : GdbMi) : ResponseUpdate :=
  let r := u.response
  if child.name == "number" then
    { u with response := { r with id := BreakpointResponseId.ofBytes child.data } }
  else if child.name == "func" then { u with response := { r with functionName := child.data } }
  else if child.name == "addr" then
    let r : BreakpointResponse :=
      if child.data == "<MULTIPLE>" then { r with multiple := true } else r
    { u with response :=
        if startsWith child.data "0x" then { r with address := F.toAddress child.data } else r }
  else if child.name == "file" then { u with file := child.data }
  else if child.name == "fullname" then { u with fullName := child.data }
  else if child.name == "line" then
    { u with response :=
        if r.correctedLineNumber == 0 then { r with lineNumber := toInt child.data } else r }
  else if child.name == "cond" then { u with response := { r with condition := child.data } }
  else if child.name == "enabled" then
    { u with response := { r with enabled := child.data == "y" } }
  else if child.name == "pending" then
    { u with
      file := if u.file.isEmpty then child.data else u.file,
      response := { r with pending := true } }
  else if child.name == "at" then
    { u with response := { r with
        functionName :=
          if startsWith child.data "<" && endsWith child.data ">" then
            mid child.data 1 ((child.data.length : Int) - 2)
          else child.data } }
  else if child.name == "thread" then
    { u with response := { r with threadSpec := toInt child.data } }
  else if child.name == "type" then
    { u with response := updateResponseType F bkpt r child.data }
  else if child.name == "original-location" then { u with originalLocation := child.data }
  else u

/-- The function `updateResponse`. -/
def updateResponse (F : BreakpointFunctions) (response : BreakpointResponse) (bkpt : GdbMi) :
    BreakpointResponse :=
  if !bkpt.isValid then response
  else
    let start : ResponseUpdate :=
      { response := { response with
          multiple := false, enabled := true, pending := false, condition := "" } }
    let u := bkpt.children.foldl (updateResponseField F bkpt) start
    let name := if !u.fullName.isEmpty then F.cleanupFullName u.fullName else u.file
    let r : BreakpointResponse :=
      if !u.fullName.isEmpty then { u.response with fileName := name } else u.response
    let r : BreakpointResponse := if !name.isEmpty then { r with fileName := name } else r
    if r.fileName.isEmpty then F.updateLocation r u.originalLocation else r

/-- The lines of a text, split at the line feeds. -/
def splitLines : List Char → List Char → List String
  | [], line => [String.mk line.reverse]
  | c :: rest, line =>
    if c == Char.ofNat 10 then String.mk line.reverse :: splitLines rest []
    else splitLines rest (c :: line)

/-- The conversions `QVariant::fromValue(id)` and `value<BreakpointModelId>()`
of a breakpoint's model id, with the cookie as text. -/
def variantOfId (id : Int) : QVariant := toString id

/-- The model id in a cookie; `0`, the invalid id, if there is none. -/
def idOfVariant (cookie : QVariant) : Int := toInt cookie

/-- Whether the call is the call `name` of the breakpoint handler for `id`. -/
def Call.isBreakHandler (name : String) (id : Int) : Call → Bool
  | .breakHandler n i => n == name && i == id
  | _ => false

namespace GdbEngine

/-- A call `notifyBreakpoint...(id)` of the breakpoint handler: the call is
recorded and the logical breakpoint changes its state. -/
def notifyBreakpoint (s : GdbEngine) (name : String) (st : BreakpointState) (id : Int) :
    GdbEngine :=
  { s with
    breakHandler := BreakHandler.setState s.breakHandler id st,
    calls := s.calls ++ [.breakHandler name id] }

/-- The call `handler->setResponse(id, br)`. -/
def setResponse (s : GdbEngine) (id : Int) (br : BreakpointResponse) : GdbEngine :=
  { s with
    breakHandler := BreakHandler.setResponse s.breakHandler id br,
    calls := s.calls ++ [.breakHandler "setResponse" id] }

/-- The call `handler->insertSubBreakpoint(id, sub)`. -/
def insertSubBreakpoint (s : GdbEngine) (id : Int) (sub : BreakpointResponse) : GdbEngine :=
  { s with
    breakHandler := BreakHandler.insertSubBreakpoint s.breakHandler id sub,
    calls := s.calls ++ [.breakHandler "insertSubBreakpoint" id] }

/-- The text of the command `-break-commands` that `changeBreakpoint`
composes: every non-empty line of the wanted commands in quotes. -/
def breakCommands (bpnr : String) (command : String) : String :=
  (splitLines command.data []).foldl
    (fun breakCommand line =>
      if !line.isEmpty then breakCommand ++ " \"" ++ line ++ "\"" else breakCommand)
    ("-break-commands " ++ bpnr)

/-- The start of `changeBreakpoint`: a change that was requested is now
proceeding. -/
def beginChange (s : GdbEngine) (id : Int) : GdbEngine :=
  if BreakHandler.state s.breakHandler id == BreakpointChangeRequested then
    s.notifyBreakpoint "notifyBreakpointChangeProceeding" BreakpointChangeProceeding id
  else s

/-- The function `changeBreakpoint`. -/
def changeBreakpoint (F : BreakpointFunctions) (env : Environment) (s : GdbEngine) (id : Int) :
    GdbEngine :=
  let data := BreakHandler.breakpointData s.breakHandler id
  if data.type == UnknownBreakpointType then s
  else
    let response := BreakHandler.response s.breakHandler id
    if !response.id.isValid then s
    else
      let bpnr := response.id.toByteArray
      let s := s.beginChange id
      let vid := variantOfId id
      let flags : GdbCommandFlags := { NeedsStop := true, RebuildBreakpointModel := true }
      if !response.pending && data.threadSpec != response.threadSpec then
        s.postCommand env ("-break-delete " ++ bpnr) flags
          (some "handleBreakThreadSpec") (some "handleBreakThreadSpec") vid
      else if !response.pending && data.lineNumber != response.lineNumber then
        s.postCommand env ("-break-delete " ++ bpnr) flags
          (some "handleBreakLineNumber") (some "handleBreakLineNumber") vid
      else if data.command != response.command then
        s.postCommand env (breakCommands bpnr data.command) flags
          (some "handleBreakIgnore") (some "handleBreakIgnore") vid
      else if !F.conditionsMatch data.condition response.condition then
        s.postCommand env ("condition " ++ bpnr ++ " " ++ data.condition) flags
          (some "handleBreakCondition") (some "handleBreakCondition") vid
      else if data.ignoreCount != response.ignoreCount then
        s.postCommand env ("ignore " ++ bpnr ++ " " ++ toString data.ignoreCount) flags
          (some "handleBreakIgnore") (some "handleBreakIgnore") vid
      else if !data.enabled && response.enabled then
        s.postCommand env ("-break-disable " ++ bpnr) flags
          (some "handleBreakDisable") (some "handleBreakDisable") vid
      else if data.enabled && !response.enabled then
        s.postCommand env ("-break-enable " ++ bpnr) flags
          (some "handleBreakEnable") (some "handleBreakEnable") vid
      else s.notifyBreakpoint "notifyBreakpointChangeOk" BreakpointInserted id

/-- The sub-breakpoint `handleBkpt` makes of an entry. -/
def subBreakpoint (F : BreakpointFunctions) (br : BreakpointResponse) (entry : GdbMi)
    (rid : BreakpointResponseId) : BreakpointResponse :=
  { updateResponse F {} entry with id := rid, type := br.type }

/-- The function `handleBkpt`. -/
def handleBkpt (F : BreakpointFunctions) (s : GdbEngine) (bkpt : GdbMi) (id : Int) :
    GdbEngine :=
  let br := BreakHandler.response s.breakHandler id
  let nr := (bkpt.child "number").data
  let rid := BreakpointResponseId.ofBytes nr
  if !rid.isValid then s
  else if containsBytes nr "." then s.insertSubBreakpoint id (subBreakpoint F br bkpt rid)
  else
    let locations := bkpt.child "locations"
    let s : GdbEngine :=
      if locations.isValid then
        locations.children.foldl
          (fun s loc =>
            s.insertSubBreakpoint id
              (subBreakpoint F br loc (BreakpointResponseId.ofBytes (loc.child "number").data)))
          s
      else s
    s.setResponse id { updateResponse F br bkpt with id := rid }

/-- The function `handleBreakInsert1`. -/
def handleBreakInsert1 (F : BreakpointFunctions) (env : Environment) (s : GdbEngine)
    (response : GdbResponse) : GdbEngine :=
  let id := idOfVariant response.cookie
  let flags : GdbCommandFlags := { NeedsStop := true, RebuildBreakpointModel := true }
  if BreakHandler.state s.breakHandler id == BreakpointRemoveRequested
      && response.resultClass == GdbResultDone then
    let s := s.notifyBreakpoint "notifyBreakpointRemoveProceeding" BreakpointRemoveProceeding id
    let s := s.postCommand env
      ("-break-delete " ++ ((response.data.child "bkpt").child "number").data) flags
      none none ""
    s.notifyBreakpoint "notifyBreakpointRemoveOk" BreakpointDead id
  else if response.resultClass == GdbResultDone then
    let mainrid := BreakpointResponseId.ofBytes ((response.data.child "bkpt").child "number").data
    if !s.isHiddenBreakpoint mainrid then
      let s := response.data.children.foldl (fun s bkpt => s.handleBkpt F bkpt id) s
      if F.needsChange ((QHash.value s.breakHandler id).getD {}) then
        let s := s.notifyBreakpoint "notifyBreakpointChangeAfterInsertNeeded"
          BreakpointChangeRequested id
        s.changeBreakpoint F env id
      else s.notifyBreakpoint "notifyBreakpointInsertOk" BreakpointInserted id
    else s
  else if containsBytes (response.data.child "msg").data "Unknown option" then
    let data := BreakHandler.breakpointData s.breakHandler id
    s.postCommand env
      ("trace " ++ "\"" ++ F.escapeCString data.fileName ++ "\":" ++ toString data.lineNumber)
      flags none none ""
  else
    s.postCommand env
      ("break " ++ F.breakpointLocation2 (BreakHandler.breakpointData s.breakHandler id))
      flags (some "handleBreakInsert2") (some "handleBreakInsert2") (variantOfId id)

end GdbEngine

end Debugger
namespace Debugger

open DebuggerState GdbResultClass BreakpointType BreakpointState

/-! ## The order of reconciliation, as the specification words it -/

/-- The fields of a breakpoint that reconciliation compares. -/
inductive ChangedField where
  | threadSpec
  | lineNumber
  | command
  | condition
  | ignoreCount
  | enabled
  deriving DecidableEq, Repr, Inhabited

namespace ChangedField

/-- The fixed order of priority: thread spec, line number, command text,
condition, ignore count, enabled flag. -/
def priority : List ChangedField :=
  [threadSpec, lineNumber, command, condition, ignoreCount, enabled]

/-- Whether the field differs between the wanted parameters and the last
response; thread spec and line number are compared only when the response is
not pending, and conditions are compared by `conditionsMatch`. -/
def differs (F : BreakpointFunctions) (data : BreakpointParameters)
    (response : BreakpointResponse) : ChangedField → Bool
  | threadSpec => !response.pending && data.threadSpec != response.threadSpec
  | lineNumber => !response.pending && data.lineNumber != response.lineNumber
  | command => data.command != response.command
  | condition => !F.conditionsMatch data.condition response.condition
  | ignoreCount => data.ignoreCount != response.ignoreCount
  | enabled => data.enabled != response.enabled

/-- The first field, in the order of priority, that differs. -/
def first (F : BreakpointFunctions) (data : BreakpointParameters)
    (response : BreakpointResponse) : Option ChangedField :=
  priority.find? (differs F data response)

/-- The command that corrects a field of the breakpoint gdb numbers `bpnr`. -/
def corrective (bpnr : String) (data : BreakpointParameters) : ChangedField → String
  | threadSpec => "-break-delete " ++ bpnr
  | lineNumber => "-break-delete " ++ bpnr
  | command => GdbEngine.breakCommands bpnr data.command
  | condition => "condition " ++ bpnr ++ " " ++ data.condition
  | ignoreCount => "ignore " ++ bpnr ++ " " ++ toString data.ignoreCount
  | enabled => if data.enabled then "-break-enable " ++ bpnr else "-break-disable " ++ bpnr

/-- The callback that takes the answer to the corrective command. -/
def handler (data : BreakpointParameters) : ChangedField → GdbCommandCallback
  | threadSpec => "handleBreakThreadSpec"
  | lineNumber => "handleBreakLineNumber"
  | command => "handleBreakIgnore"
  | condition => "handleBreakCondition"
  | ignoreCount => "handleBreakIgnore"
  | enabled => if data.enabled then "handleBreakEnable" else "handleBreakDisable"

end ChangedField

/-! ## Updating the locals -/

/-- The argument `UpdateParameters` of `updateLocalsPython`. -/
structure UpdateParameters where
  tryPartial : Bool := false
  tooltipOnly : Bool := false
  varList : String := ""

/-- What `updateLocalsPython` asks of its collaborators: the watch handler's
requests and watchers, the settings, the file of the current frame, the tool
tips for it with their expressions and inames, the expression of the current
tool tip, and the functions `tooltipIName` and `toHex`. -/
structure LocalsContext where
  expansionRequests : String := ""
  typeFormatRequests : String := ""
  individualFormatRequests : String := ""
  maximalStringLength : String := ""
  displayStringLimit : String := ""
  currentFrameFile : String := ""
  toolTips : List (String × String) := []
  currentExpression : String := ""
  tooltipIName : String → String := fun expression => "tooltip." ++ expression
  watcherNames : List (String × Int) := []
  alwaysVerbose : Bool := false
  useDebuggingHelpers : Bool := false
  autoDerefPointers : Bool := false
  useDynamicType : Bool := false
  toHex : String → String := fun bytes => bytes

/-- The text `watchers` that `updateLocalsPython` composes. -/
def LocalsContext.watchers (C : LocalsContext) : String :=
  let toolTips :=
    if !C.currentFrameFile.isEmpty then
      if !C.currentExpression.isEmpty
          && !C.toolTips.any (fun p => p.1 == C.currentExpression) then
        C.toolTips ++ [(C.currentExpression, C.tooltipIName C.currentExpression)]
      else C.toolTips
    else []
  let watchers := toolTips.foldl
    (fun watchers p =>
      if startsWith p.2 "tooltip" then
        (if !watchers.isEmpty then watchers ++ "##" else watchers) ++ p.1 ++ "#" ++ p.2
      else watchers)
    ""
  C.watcherNames.foldl
    (fun watchers e =>
      (if !watchers.isEmpty then watchers ++ "##" else watchers)
        ++ e.1 ++ "#watch." ++ toString e.2)
    watchers

/-- The text `options` that `updateLocalsPython` composes, before the last
comma is chopped off. -/
def LocalsContext.options (C : LocalsContext) (params : UpdateParameters) : String :=
  let options := if C.alwaysVerbose then "pe," else ""
  let options := if C.useDebuggingHelpers then options ++ "fancy," else options
  let options := if C.autoDerefPointers then options ++ "autoderef," else options
  let options := if C.useDynamicType then options ++ "dyntype," else options
  let options := if options.isEmpty then options ++ "defaults," else options
  let options := if params.tryPartial then options ++ "partial," else options
  if params.tooltipOnly then options ++ "tooltiponly," else options

namespace GdbEngine

/-- The function `updateLocalsPython`. -/
def updateLocalsPython (C : LocalsContext) (env : Environment) (s : GdbEngine)
    (params : UpdateParameters) : GdbEngine :=
  let s : GdbEngine := { s with m_pendingBreakpointRequests := 0, m_processedNames := [] }
  let expanded := "expanded:" ++ C.expansionRequests ++ " "
    ++ "typeformats:" ++ C.typeFormatRequests ++ " "
    ++ "formats:" ++ C.individualFormatRequests
  let cutOff := " stringcutoff:" ++ C.maximalStringLength
    ++ " displaystringlimit:" ++ C.displayStringLimit
  let options := String.mk (C.options params).data.dropLast
  let resultVar :=
    if !s.m_resultVarName.isEmpty then "resultvarname:" ++ s.m_resultVarName ++ " " else ""
  let s : GdbEngine := { s with
    m_lastDebuggableCommand :=
      "bb options:pe," ++ options ++ " vars:" ++ params.varList ++ " "
        ++ expanded ++ " watchers:" ++ C.toHex C.watchers ++ cutOff }
  s.postCommand env
    ("bb options:" ++ options ++ " vars:" ++ params.varList ++ " "
      ++ resultVar ++ expanded ++ " watchers:" ++ C.toHex C.watchers ++ cutOff)
    { Discardable := true } (some "handleStackFramePython") (some "handleStackFramePython")
    (toString params.tryPartial)

/-- How many commands with the flag `RebuildBreakpointModel` are outstanding:
in the token map or in the deferred queue. -/
def outstandingBreakpointRequests (s : GdbEngine) : Nat :=
  s.m_cookieForToken.countP (fun e => e.2.flags.RebuildBreakpointModel)
    + s.m_commandsToRunOnTemporaryBreak.countP (fun cmd => cmd.flags.RebuildBreakpointModel)

end GdbEngine

namespace Sample

/-- A second breakpoint command. -/
def breakInsert2 : GdbCommand :=
  { command := "-break-insert foo.cpp:7", flags := { RebuildBreakpointModel := true },
    callback := some "handleBreakInsert1", callbackName := some "handleBreakInsert1" }

/-- A stopped engine at the start of its session. -/
def fresh : GdbEngine := { state := InferiorStopOk }

/-- The engine `fresh` after two breakpoint commands were posted: they are
outstanding under the tokens 1 and 2. -/
def twoBreakpointsPosted : GdbEngine :=
  (fresh.postCommandHelper baseClass breakInsert).postCommandHelper baseClass breakInsert2

/-- The engine `twoBreakpointsPosted` after the locals were updated. -/
def localsUpdated : GdbEngine := twoBreakpointsPosted.updateLocalsPython {} baseClass {}

/-- The record `1^done`, the answer to the first breakpoint command. -/
def firstInserted : GdbResponse := { token := 1, resultClass := GdbResultDone }

end Sample

end Debugger
namespace Debugger

open DebuggerState GdbResultClass BreakpointType BreakpointState

/-- The text of the field `number` of an entry of a breakpoint response. -/
def entryNumber (bkpt : GdbMi) : String := (bkpt.child "number").data

/-- Whether the entry carries a valid number without a dot: `handleBkpt`
takes such an entry for the primary one. -/
def isPrimaryEntry (bkpt : GdbMi) : Bool :=
  (BreakpointResponseId.ofBytes (entryNumber bkpt)).isValid
    && !containsBytes (entryNumber bkpt) "."

namespace Sample

/-- Modelled from the spec: the functions of the breakpoint code that are not
among the sources, for the sample breakpoints.  Conditions match when they
are equal up to blanks; an item needs a change when one of the fields of the
reconciliation differs; file names and locations are left as they are. -/
def breakpointFunctions : BreakpointFunctions where
  conditionsMatch := fun wanted reported =>
    wanted.data.filter (fun c => c != ' ') == reported.data.filter (fun c => c != ' ')
  needsChange := fun item =>
    item.data.threadSpec != item.response.threadSpec
      || item.data.lineNumber != item.response.lineNumber
      || item.data.command != item.response.command
      || item.data.condition != item.response.condition
      || item.data.ignoreCount != item.response.ignoreCount
      || item.data.enabled != item.response.enabled
  cleanupFullName := fun name => name
  breakpointLocation2 := fun data => data.fileName ++ ":" ++ toString data.lineNumber
  updateLocation := fun response _ => response
  toAddress := fun _ => 0
  toULongLong := fun _ => 0
  escapeCString := fun text => text

/-- A breakpoint at line 7 of `main.cpp`. -/
def atLine7 : BreakpointParameters :=
  { type := BreakpointByFileAndLine, fileName := "main.cpp", lineNumber := 7 }

/-- A stopped engine whose breakpoint 1 is being inserted. -/
def inserting : GdbEngine :=
  { state := InferiorStopOk,
    breakHandler := [(1, { data := atLine7, state := BreakpointInsertProceeding })] }

/-- A stopped engine whose breakpoint 1 was asked to be removed while its
insertion was under way. -/
def removing : GdbEngine :=
  { state := InferiorStopOk,
    breakHandler := [(1, { data := atLine7, state := BreakpointRemoveRequested })] }

/-- The record `^done,bkpt={number="1",line="7",addr="<MULTIPLE>"},
{number="1.1"},{number="1.2"}` for the breakpoint with model id 1. -/
def insertDone : GdbResponse :=
  { token := 4, resultClass := GdbResultDone, cookie := "1",
    data := .mk "data" "" .Tuple
      [.mk "bkpt" "" .Tuple
        [.mk "number" "1" .Const [], .mk "line" "7" .Const [],
          .mk "addr" "<MULTIPLE>" .Const []],
       .mk "" "" .Tuple [.mk "number" "1.1" .Const []],
       .mk "" "" .Tuple [.mk "number" "1.2" .Const []]] }

/-- The record `^done,bkpt={number="1",line="7"},{number="2",line="7"}`: a
second entry with a number of its own. -/
def twoNumbers : GdbResponse :=
  { token := 4, resultClass := GdbResultDone, cookie := "1",
    data := .mk "data" "" .Tuple
      [.mk "bkpt" "" .Tuple [.mk "number" "1" .Const [], .mk "line" "7" .Const []],
       .mk "" "" .Tuple [.mk "number" "2" .Const [], .mk "line" "7" .Const []]] }

/-- The record `^done,bkpt={line="7"}`: a done reply whose primary entry has
no number. -/
def noNumber : GdbResponse :=
  { token := 4, resultClass := GdbResultDone, cookie := "1",
    data := .mk "data" "" .Tuple [.mk "bkpt" "" .Tuple [.mk "line" "7" .Const []]] }

/-- A stopped engine whose breakpoint 1 is to be changed while no response of
gdb has given it an id. -/
def unanswered : GdbEngine :=
  { state := InferiorStopOk,
    breakHandler := [(1, { data := atLine7, state := BreakpointChangeRequested })] }

/-- A stopped engine whose breakpoint 1 is of unknown type. -/
def untyped : GdbEngine :=
  { state := InferiorStopOk,
    breakHandler :=
      [(1, { data := { condition := "i == 5" }, state := BreakpointChangeRequested,
             response := { id := { majorPart := 3 }, pending := false } })] }

/-- A stopped engine whose breakpoint 1, which gdb numbers 3, is to be
changed: the user wants a condition and an ignore count. -/
def changing : GdbEngine :=
  { state := InferiorStopOk,
    breakHandler :=
      [(1, { data := { atLine7 with condition := "i == 5", ignoreCount := 2 },
             state := BreakpointChangeRequested,
             response := { atLine7 with id := { majorPart := 3 }, pending := false } })] }

/-- The engine `changing` attached to a remote target in asynchronous mode,
with the inferior running. -/
def changingWhileRunning : GdbEngine :=
  { changing with
    state := InferiorRunOk, currentToken := 7, attachesToRemote := true, targetAsync := true }

end Sample

end Debugger
namespace Debugger

open DebuggerState GdbResultClass BreakpointType BreakpointState

/-! ## The states that accept commands, and complete lines, as the specification words them -/

/-- The fifteen states in which the engine accepts commands. -/
def acceptingStates : List DebuggerState :=
  [EngineSetupRequested, EngineSetupOk, EngineSetupFailed, InferiorUnrunnable,
    InferiorSetupRequested, InferiorSetupFailed, EngineRunRequested, InferiorRunRequested,
    InferiorRunOk, InferiorStopRequested, InferiorStopOk, InferiorShutdownRequested,
    EngineShutdownRequested, InferiorShutdownOk, InferiorShutdownFailed]

/-- The phrase occurs in the message as a complete line: some occurrence is
preceded by the start of the message or a line feed and followed by the end of
the message or a line feed. -/
def OccursAsLine (message phrase : String) : Prop :=
  ∃ before after : List Char, message.data = before ++ phrase.data ++ after
    ∧ (before = [] ∨ before.getLast? = some (Char.ofNat 10))
    ∧ (after = [] ∨ after.head? = some (Char.ofNat 10))

namespace GdbEngine

/-- The function `handleBreakIgnore`. -/
def handleBreakIgnore (F : BreakpointFunctions) (env : Environment) (s : GdbEngine)
    (response : GdbResponse) : GdbEngine :=
  let id := idOfVariant response.cookie
  let br := BreakHandler.response s.breakHandler id
  let parameters := BreakHandler.breakpointData s.breakHandler id
  let s := s.setResponse id
    { br with ignoreCount := parameters.ignoreCount, command := parameters.command }
  s.changeBreakpoint F env id

/-- The function `handleBreakCondition`. -/
def handleBreakCondition (F : BreakpointFunctions) (env : Environment) (s : GdbEngine)
    (response : GdbResponse) : GdbEngine :=
  let id := idOfVariant response.cookie
  let br := BreakHandler.response s.breakHandler id
  let s := s.setResponse id
    { br with condition := (BreakHandler.breakpointData s.breakHandler id).condition }
  s.changeBreakpoint F env id

end GdbEngine

/-- The dispatch `(this->*cmd.callback)(response)` for the callbacks
`handleBreakIgnore` and `handleBreakCondition`, on top of an environment for
everything else. -/
def withBreakpointCallbacks (F : BreakpointFunctions) (env : Environment) : Environment
  | .callback "handleBreakIgnore" response, s => s.handleBreakIgnore F env response
  | .callback "handleBreakCondition" response, s => s.handleBreakCondition F env response
  | c, s => env c s

namespace Sample

/-- A stopped engine that waits for the answer to the locals update it sent
last, under token 5. -/
def localsPending : GdbEngine :=
  { state := InferiorStopOk, currentToken := 5, m_cookieForToken := [(5, listLocals)] }

/-- The record `5^done`. -/
def done5 : GdbResponse := { token := 5, resultClass := GdbResultDone }

/-- A stopped engine whose breakpoint 1, which gdb numbers 3, is to be
changed: the user wants commands and an ignore count. -/
def scripted : GdbEngine :=
  { state := InferiorStopOk,
    breakHandler :=
      [(1, { data := { atLine7 with command := "print x", ignoreCount := 2 },
             state := BreakpointChangeRequested,
             response := { atLine7 with id := { majorPart := 3 }, pending := false } })] }

/-- The engine `scripted` after the first pass of `changeBreakpoint`. -/
def scriptedOnce : GdbEngine := scripted.changeBreakpoint breakpointFunctions baseClass 1

/-- The engine `scriptedOnce` after the answer `1^done` to the command of the
first pass. -/
def scriptedDone : GdbEngine :=
  scriptedOnce.handleResultRecord (withBreakpointCallbacks breakpointFunctions baseClass)
    { token := 1, resultClass := GdbResultDone }

end Sample

end Debugger

namespace Debugger

open DebuggerState GdbResultClass BreakpointType BreakpointState

/-! ## Fetching the data of one watch item -/

/-- The argument `WatchUpdateFlags` of `updateWatchData`. -/
structure WatchUpdateFlags where
  tryIncremental : Bool := false

/-- The statement `set.insert(name)` for a `QSet` kept as a list. -/
def setInsert (set : List String) (name : String) : List String :=
  if set.contains name then set else set ++ [name]

/-- Whether the call hands data to the watch handler. -/
def Call.isInsertData : Call → Bool
  | .insertData _ => true
  | _ => false

namespace GdbEngine

/-- The function `rebuildWatchModel`: the pending tool tip is shown and the
tool tip manager is told; both are with the environment. -/
def rebuildWatchModel (env : Environment) (s : GdbEngine) : GdbEngine :=
  s.call env (.collaborator "rebuildWatchModel" [])

mutual

/-- The function `GdbEngine::insertData`.  It calls `updateWatchData`, which
may call it back once, with an item that needs nothing: the first argument
bounds the depth of the calls. -/
def insertData (C : LocalsContext) (env : Environment) :
    Nat → GdbEngine → WatchData → GdbEngine
  | 0, s, _ => s
  | depth + 1, s, data =>
    if data.isSomethingNeeded then
      let s : GdbEngine := { s with m_uncompleted := setInsert s.m_uncompleted data.iname }
      updateWatchData C env depth s data { tryIncremental := true }
    else
      let s : GdbEngine := { s with
        m_completed := s.m_completed ++ [data],
        m_uncompleted := s.m_uncompleted.filter (fun iname => iname != data.iname) }
      if s.m_uncompleted.isEmpty then
        let s := s.call env (.insertData s.m_completed)
        let s : GdbEngine := { s with m_completed := [] }
        s.rebuildWatchModel env
      else s

/-- The function `updateWatchData`. -/
def updateWatchData (C : LocalsContext) (env : Environment) :
    Nat → GdbEngine → WatchData → WatchUpdateFlags → GdbEngine
  | 0, s, _, _ => s
  | depth + 1, s, data, flags =>
    if endsWith data.iname "." then s
    else if s.m_processedNames.contains ("1-" ++ data.iname) then
      insertData C env depth s
        (((data.setAllUnneeded).setValue "<unavailable>").setHasChildren false)
    else
      let s : GdbEngine :=
        { s with m_processedNames := setInsert s.m_processedNames ("1-" ++ data.iname) }
      s.updateLocalsPython C env
        { tooltipOnly := startsWith data.iname "tooltip",
          tryPartial := flags.tryIncremental && s.m_pendingBreakpointRequests == 0,
          varList := data.iname }

end

end GdbEngine

namespace Sample

/-- A local variable whose value and children are still to be fetched. -/
def localX : WatchData := { iname := "local.x", name := "x" }

/-- The engine `fresh` after `updateWatchData` for `localX`. -/
def fetchedOnce : GdbEngine := fresh.updateWatchData {} baseClass 3 localX {}

/-- The engine `fetchedOnce` after a second `updateWatchData` for `localX`. -/
def fetchedTwice : GdbEngine := fetchedOnce.updateWatchData {} baseClass 3 localX {}

end Sample

end Debugger

namespace Debugger

open DebuggerState GdbResultClass BreakpointType BreakpointState

/-! ## Reading the standard output of gdb -/

/-- The line a call hands to `handleResponse`; `none` for any other call. -/
def Call.line : Call → Option String
  | .handleResponse buffer => some buffer
  | _ => none

/-- A line without the carriage return at its end, if it has one. -/
def stripCR (line : List Char) : List Char :=
  if line.getLast? == some (Char.ofNat 13) then line.dropLast else line

/-- The non-empty lines of a byte stream, in order, each without the line
feed, or carriage return and line feed, that ends it. -/
def streamLines (stream : String) : List String :=
  (((splitLines stream.data []).dropLast).map (fun line => String.mk (stripCR line.data))).filter
    (fun line => !line.data.isEmpty)

/-- The tail of a byte stream behind its last line feed. -/
def streamTail (stream : String) : String :=
  ((splitLines stream.data []).getLast?).getD ""

namespace GdbEngine

/-- The lines handed to `handleResponse` so far, oldest first. -/
def linesHandled (s : GdbEngine) : List String := s.calls.filterMap Call.line

/-- The loop of `readGdbStandardOutput`, from the values `newstart` and `scan`
has at the top of a round.  What `handleResponse` does to the engine is with
the environment, which may put more bytes into the buffer, so the loop is given
fuel: `none` means the fuel ran out. -/
def readLoop (env : Environment) : Nat → GdbEngine → Nat → Nat → Option GdbEngine
  | 0, _, _, _ => none
  | fuel + 1, s, newstart, scan =>
    if newstart < s.m_inbuffer.data.length then
      let lineEnd := indexOfAfter s.m_inbuffer "\n" scan
      if lineEnd < 0 then
        some { s with m_inbuffer := String.mk (s.m_inbuffer.data.drop newstart) }
      else if lineEnd.toNat == newstart then
        readLoop env fuel s (lineEnd.toNat + 1) (lineEnd.toNat + 1)
      else
        let last :=
          if s.m_inbuffer.data[lineEnd.toNat - 1]? == some (Char.ofNat 13) then lineEnd.toNat - 1
          else lineEnd.toNat
        if last == newstart then readLoop env fuel s (lineEnd.toNat + 1) (lineEnd.toNat + 1)
        else
          let s1 : GdbEngine := { s with m_busy := true }
          let s2 := s1.call env
            (.handleResponse (String.mk ((s.m_inbuffer.data.drop newstart).take (last - newstart))))
          readLoop env fuel { s2 with m_busy := false } (lineEnd.toNat + 1) (lineEnd.toNat + 1)
    else some { s with m_inbuffer := "" }

/-- The function `readGdbStandardOutput`, for the bytes `out` that
`readAllStandardOutput` delivers. -/
def readGdbStandardOutput (env : Environment) (fuel : Nat) (s : GdbEngine) (out : String) :
    Option GdbEngine :=
  let scan := s.m_inbuffer.data.length
  let s : GdbEngine :=
    { s with m_commandTimerActive := true, m_inbuffer := s.m_inbuffer ++ out }
  if s.m_busy then some s else readLoop env fuel s 0 scan

/-- The engine after successive calls of `readGdbStandardOutput`, one for each
chunk of bytes. -/
def readChunks (env : Environment) (fuel : Nat) : GdbEngine → List String → Option GdbEngine
  | s, [] => some s
  | s, out :: rest =>
    (s.readGdbStandardOutput env fuel out).bind (fun s => readChunks env fuel s rest)

end GdbEngine

/-- The collaborators, `handleResponse` among them, do not reach back into the
reader: they leave the input buffer alone and hand no line to `handleResponse`
themselves. -/
def ReaderUndisturbed (env : Environment) : Prop :=
  ∀ (c : Call) (s : GdbEngine),
    (env c s).m_inbuffer = s.m_inbuffer ∧ (env c s).linesHandled = s.linesHandled

namespace Sample

/-- The output `1^done`, `(gdb) `, an empty line and the start of another
line, in three chunks that cut through a line and through a line end. -/
def chunks : List String := ["1^do", "ne\r", "\n(gdb) \n\r\n\n~\"x"]

end Sample

end Debugger

namespace Debugger

open DebuggerState GdbResultClass BreakpointType BreakpointState

/-! ## The watch model -/

/-- A `QHash<K, V>` as an association list with at most one entry per key. -/
abbrev QHashOf (K V : Type) := List (K × V)

namespace QHashOf

variable {K V : Type} [DecidableEq K]

/-- The test `contains(key)`. -/
def contains (h : QHashOf K V) (key : K) : Bool := h.any (fun e => e.1 == key)

/-- The lookup `value(key)`, `none` when the key is absent. -/
def value (h : QHashOf K V) (key : K) : Option V :=
  (h.find? (fun e => e.1 == key)).map (·.2)

/-- The removal `remove(key)`. -/
def remove (h : QHashOf K V) (key : K) : QHashOf K V := h.filter (fun e => e.1 != key)

/-- The assignment `h[key] = v`: replaces the entry of `key` or adds one. -/
def insert (h : QHashOf K V) (key : K) (v : V) : QHashOf K V := (key, v) :: remove h key

end QHashOf

/-- Modelled from the spec: `isInspect()`, an item of the inspector. -/
def WatchData.isInspect (d : WatchData) : Bool := startsWith d.iname "inspect."

/-- What the watch model uses of code that is not among the sources: the
search `qLowerBound(begin, end, value, lessThan)` of Qt, as the position it
returns in the list, the setting `boolSetting(SortStructMembers)`, and the
display format `AutomaticFormat`. -/
structure WatchFunctions where
  qLowerBound : (WatchData → WatchData → Bool) → List WatchData → WatchData → Nat
  sortStructMembers : Bool
  AutomaticFormat : Int

/-- The function `stripForFormat`, on the bytes still to look at, with the
array depth and the result so far. -/
def stripForFormatLoop : List Char → Int → List Char → List Char
  | [], _, res => res
  | c :: rest, inArray, res =>
    if c == '<' then res
    else
      let inArray := if c == '[' then inArray + 1 else inArray
      let inArray := if c == ']' then inArray - 1 else inArray
      if c == ' ' then stripForFormatLoop rest inArray res
      else if c == '&' then stripForFormatLoop rest inArray res
      else if inArray != 0 && '0' ≤ c && c ≤ '9' then stripForFormatLoop rest inArray res
      else stripForFormatLoop rest inArray (res ++ [c])

/-- The function `stripForFormat`. -/
def stripForFormat (ba : String) : String := String.mk (stripForFormatLoop ba.data 0 [])

/-- The search `QByteArray::lastIndexOf(c)`: the position of the last `c`, or
`-1`. -/
def lastIndexOf (s : String) (c : Char) : Int :=
  if c ∈ s.data then ((s.data.length - 1 - s.data.reverse.indexOf c : Nat) : Int) else -1

/-- The function `parentName`. -/
def parentName (iname : String) : String :=
  let pos := lastIndexOf iname '.'
  if pos == -1 then "" else String.mk (iname.data.take pos.toNat)

/-- The test `qstrcmp(str1, str2) < 0`, on the bytes of the two strings. -/
def qstrcmpLess : List Char → List Char → Bool
  | [], [] => false
  | [], _ :: _ => true
  | _ :: _, [] => false
  | c1 :: rest1, c2 :: rest2 =>
    if c1 < c2 then true else if c2 < c1 then false else qstrcmpLess rest1 rest2

/-- The function `watchDataLessThan`, with the value the caller has given to
`sortWatchDataAlphabetically`. -/
def watchDataLessThan (sortWatchDataAlphabetically : Bool) (iname1 : String) (sortId1 : Int)
    (iname2 : String) (sortId2 : Int) : Bool :=
  if !sortWatchDataAlphabetically then sortId1 < sortId2
  else
    let cmpPos1 := lastIndexOf iname1 '.'
    let cmpPos1 := if cmpPos1 == -1 then 0 else cmpPos1 + 1
    let cmpPos2 := lastIndexOf iname2 '.'
    let cmpPos2 := if cmpPos2 == -1 then 0 else cmpPos2 + 1
    if cmpPos1 < iname1.data.length && cmpPos2 < iname2.data.length
        && ((iname1.data[cmpPos1.toNat]?).map isDigit).getD false
        && ((iname2.data[cmpPos2.toNat]?).map isDigit).getD false then
      sortId1 < sortId2
    else
      qstrcmpLess (iname1.data.drop cmpPos1.toNat) (iname2.data.drop cmpPos2.toNat)

/-- A `WatchItem`: the watch data it derives from, the pointer to its parent
and the pointers to its children.  A pointer is the address of an item; the
null pointer is `none`. -/
structure WatchItem where
  data : WatchData := {}
  parent : Option Nat := none
  children : List Nat := []
  deriving DecidableEq, Repr, Inhabited

/-- The state of a `WatchModel`: the items that are alive, by address, the
address the next `new WatchItem()` returns, the cache `m_cache` from iname to
item, the set `m_fetchTriggered`, and the six items of the constructor.  The
signals of the item model are not part of the state. -/
structure WatchModel where
  items : QHashOf Nat WatchItem := []
  nextAddress : Nat := 0
  m_cache : QHashOf String Nat := []
  m_fetchTriggered : List String := []
  m_root : Nat := 0
  m_localsRoot : Nat := 0
  m_inspectorRoot : Nat := 0
  m_watchRoot : Nat := 0
  m_returnRoot : Nat := 0
  m_tooltipRoot : Nat := 0
  deriving DecidableEq, Repr, Inhabited

namespace WatchModel

/-- A write through the pointer `item`; `none` when no item is alive at that
address. -/
def modify (m : WatchModel) (item : Nat) (f : WatchItem → WatchItem) : Option WatchModel :=
  (m.items.value item).map (fun it => { m with items := m.items.insert item (f it) })

/-- The items a list of pointers points to; `none` when one of them is not
alive. -/
def derefAll (m : WatchModel) : List Nat → Option (List WatchItem)
  | [] => some []
  | item :: rest =>
    (m.items.value item).bind (fun it => (derefAll m rest).map (fun its => it :: its))

/-- The function `itemConstructor`: the model with the new item, and the
pointer to it. -/
def itemConstructor (m : WatchModel) (iname : String) : WatchModel × Nat :=
  ({ m with
      items := m.items.insert m.nextAddress { data := { iname := iname } },
      nextAddress := m.nextAddress + 1,
      m_cache := m.m_cache.insert iname m.nextAddress },
    m.nextAddress)

/-- The function `itemDestructor`. -/
def itemDestructor (m : WatchModel) (item : Nat) : Option WatchModel :=
  (m.items.value item).map (fun it =>
    if m.m_cache.value it.data.iname == some item then
      { m with m_cache := m.m_cache.remove it.data.iname, items := m.items.remove item }
    else m)

/-- The function `createItem(iname, name, parent)`. -/
def createItem (m : WatchModel) (iname name : String) (parent : Option Nat) :
    Option (WatchModel × Nat) :=
  let (m, item) := m.itemConstructor iname
  (m.modify item (fun it =>
    { it with
      data := { ((it.data).setAllUnneeded) with name := name, hasChildren := true },
      parent := parent })).bind (fun m =>
  match parent with
  | some parent =>
    (m.modify parent (fun it => { it with children := it.children ++ [item] })).map
      (fun m => (m, item))
  | none => some (m, item))

/-- The constructor `WatchModel::WatchModel`. -/
def construct : Option WatchModel :=
  (({} : WatchModel).createItem "" "Root" none).bind (fun r =>
  let m : WatchModel := { r.1 with m_root := r.2 }
  (m.createItem "local" "Locals" (some m.m_root)).bind (fun r =>
  let m : WatchModel := { r.1 with m_localsRoot := r.2 }
  (m.createItem "inspect" "Inspector" (some m.m_root)).bind (fun r =>
  let m : WatchModel := { r.1 with m_inspectorRoot := r.2 }
  (m.createItem "watch" "Expressions" (some m.m_root)).bind (fun r =>
  let m : WatchModel := { r.1 with m_watchRoot := r.2 }
  (m.createItem "return" "Return Value" (some m.m_root)).bind (fun r =>
  let m : WatchModel := { r.1 with m_returnRoot := r.2 }
  (m.createItem "tooltip" "Tooltip" (some m.m_root)).map (fun r =>
  { r.1 with m_tooltipRoot := r.2 }))))))

/-- The function `destroyHelper`.  The items are visited from the last to the
first; the depth of the recursion is bounded by the fuel, and `none` means
that the fuel ran out or that a pointer to no item was followed. -/
def destroyHelper : Nat → WatchModel → List Nat → Option WatchModel
  | 0, _, _ => none
  | fuel + 1, m, items =>
    items.foldr (fun item acc => acc.bind (fun m =>
      (m.items.value item).bind (fun it =>
        (destroyHelper fuel m it.children).bind (fun m => m.itemDestructor item)))) (some m)

/-- The function `destroyChildren`. -/
def destroyChildren (fuel : Nat) (m : WatchModel) (item : Nat) : Option WatchModel :=
  (m.items.value item).bind (fun it =>
    if !m.m_cache.contains it.data.iname then some m
    else if it.children.isEmpty then some m
    else
      (m.modify item (fun it => { it with children := [] })).bind (fun m =>
        m.destroyHelper fuel it.children))

/-- The function `findItem`. -/
def findItem (m : WatchModel) (iname : String) : Option Nat := m.m_cache.value iname

/-- The function `createItem(data)`. -/
def createItemData (m : WatchModel) (data : WatchData) : Option (WatchModel × Nat) :=
  let (m, item) := m.itemConstructor data.iname
  (m.modify item (fun it => { it with data := data })).map (fun m => (m, item))

/-- The function `assignData`. -/
def assignData (m : WatchModel) (item : Nat) (data : WatchData) : Option WatchModel :=
  (m.items.value item).bind (fun it =>
    let m : WatchModel :=
      if data.iname == it.data.iname then m
      else { m with m_cache := (m.m_cache.remove it.data.iname).insert data.iname item }
    m.modify item (fun it => { it with data := data }))

/-- The function `findInsertPosition`, for a list of pointers and a pointer. -/
def findInsertPosition (F : WatchFunctions) (m : WatchModel) (list : List Nat) (item : Nat) :
    Option Nat :=
  (m.derefAll list).bind (fun its =>
    (m.items.value item).map (fun it =>
      F.qLowerBound
        (fun item1 item2 => watchDataLessThan F.sortStructMembers item1.iname item1.sortId
          item2.iname item2.sortId)
        (its.map (fun it => it.data)) it.data))

/-- The function `insertDataItem`. -/
def insertDataItem (F : WatchFunctions) (fuel : Nat) (m : WatchModel) (data : WatchData)
    (destructive : Bool) : Option WatchModel :=
  let m : WatchModel :=
    { m with m_fetchTriggered := m.m_fetchTriggered.filter (fun iname => iname != data.iname) }
  if data.iname.isEmpty then some m
  else
    match m.findItem data.iname with
    | some item =>
      (if destructive then m.destroyChildren fuel item else some m).bind (fun m =>
        m.assignData item data)
    | none =>
      match m.findItem (parentName data.iname) with
      | none => some m
      | some parent =>
        (m.createItemData data).bind (fun r =>
        (r.1.modify r.2 (fun it => { it with parent := some parent })).bind (fun m =>
        (m.items.value parent).bind (fun it =>
        (m.findInsertPosition F it.children r.2).bind (fun row =>
        m.modify parent (fun it =>
          { it with children := it.children.take row ++ [r.2] ++ it.children.drop row })))))

/-- Successive calls of `insertDataItem`. -/
def insertDataItems (F : WatchFunctions) (fuel : Nat) :
    WatchModel → List (WatchData × Bool) → Option WatchModel
  | m, [] => some m
  | m, c :: rest =>
    (m.insertDataItem F fuel c.1 c.2).bind (fun m => insertDataItems F fuel m rest)

/-- The function `itemFormat`, with the tables `theIndividualFormats` and
`theTypeFormats`. -/
def itemFormat (F : WatchFunctions) (theIndividualFormats theTypeFormats : QHashOf String Int)
    (data : WatchData) : Int :=
  let individualFormat := (theIndividualFormats.value data.iname).getD F.AutomaticFormat
  if individualFormat != F.AutomaticFormat then individualFormat
  else (theTypeFormats.value (stripForFormat data.type)).getD F.AutomaticFormat

/-- The items of the model are alike in no iname: two items with one iname are
one item. -/
def AtMostOnePerIName (m : WatchModel) : Prop :=
  ∀ (p q : Nat) (a b : WatchItem), m.items.value p = some a → m.items.value q = some b →
    a.data.iname = b.data.iname → p = q

/-- The model is a forest in order, apart from the items in `E`, which may
point to children that are gone: every item is the one the cache has for its
iname, the cache points to items alive, addresses are below the next address,
children have higher addresses than their parent, are listed once and point
back to it, and are alive. -/
structure Sound (E : List Nat) (m : WatchModel) : Prop where
  registered : ∀ p it, m.items.value p = some it → m.m_cache.value it.data.iname = some p
  cached : ∀ iname p, m.m_cache.value iname = some p →
    ∃ it, m.items.value p = some it ∧ it.data.iname = iname
  fresh : ∀ p it, m.items.value p = some it → p < m.nextAddress
  ordered : ∀ p it, m.items.value p = some it → ∀ c ∈ it.children, p < c
  nodup : ∀ p it, m.items.value p = some it → it.children.Nodup
  parent : ∀ p it, m.items.value p = some it → ∀ c ∈ it.children,
    ∀ ci, m.items.value c = some ci → ci.parent = some p
  whole : ∀ p it, m.items.value p = some it → p ∉ E → ∀ c ∈ it.children,
    (m.items.value c).isSome = true

/-- The model is a forest in order. -/
def WellFormed (m : WatchModel) : Prop := Sound [] m

end WatchModel

/-- The state of a `WatchHandler` with its engine: the model, the counter of
watchers, the tables `theWatcherNames`, `theTypeFormats` and
`theIndividualFormats` of the file, what the engine answers to `state()` and
`isSynchronous()`, and the calls `m_engine->updateWatchData(data)` made so
far.  Saving to the session and the views are not part of the state. -/
structure WatchHandler where
  m_model : WatchModel := {}
  m_watcherCounter : Int := 0
  theWatcherNames : QHashOf String Int := []
  theTypeFormats : QHashOf String Int := []
  theIndividualFormats : QHashOf String Int := []
  engineState : DebuggerState := DebuggerNotReady
  isSynchronous : Bool := false
  updateWatchDataCalls : List WatchData := []
  deriving DecidableEq, Repr, Inhabited

namespace WatchHandler

/-- The constructor `WatchHandler::WatchHandler`, for a session with
`watchers` saved watchers. -/
def construct (watchers : Nat) : Option WatchHandler :=
  WatchModel.construct.map (fun m => { m_model := m, m_watcherCounter := watchers })

/-- The function `insertIncompleteData`. -/
def insertIncompleteData (F : WatchFunctions) (fuel : Nat) (h : WatchHandler) (data : WatchData) :
    Option WatchHandler :=
  if !data.isValid then some h
  else if data.isSomethingNeeded && data.iname.data.contains '.' then
    if !h.isSynchronous || data.isInspect then
      (h.m_model.insertDataItem F fuel data true).map (fun m =>
        { h with m_model := m, updateWatchDataCalls := h.updateWatchDataCalls ++ [data] })
    else
      (h.m_model.insertDataItem F fuel
        (((data.setAllUnneeded).setValue "<unavailable synchronous data>").setHasChildren false)
        true).map (fun m => { h with m_model := m })
  else
    (h.m_model.insertDataItem F fuel data true).map (fun m => { h with m_model := m })

/-- The function `watcherName`. -/
def watcherName (h : WatchHandler) (exp : String) : String :=
  "watch." ++ toString ((h.theWatcherNames.value exp).getD 0)

/-- The function `watchExpression`, with an engine. -/
def watchExpression (F : WatchFunctions) (fuel : Nat) (h : WatchHandler) (exp0 name : String) :
    Option WatchHandler :=
  if (h.theWatcherNames.value exp0).getD 0 != 0 then some h
  else
    let exp := String.mk (exp0.data.filter (fun c => c != '#'))
    let data : WatchData := { exp := exp, name := if name.isEmpty then exp else name }
    let h : WatchHandler :=
      { h with theWatcherNames := h.theWatcherNames.insert data.exp h.m_watcherCounter,
               m_watcherCounter := h.m_watcherCounter + 1 }
    let data := if exp.isEmpty then data.setAllUnneeded else data
    let data := { data with iname := h.watcherName data.exp }
    if h.engineState == DebuggerNotReady then
      h.insertIncompleteData F fuel (((data.setAllUnneeded).setValue " ").setHasChildren false)
    else if h.isSynchronous then
      some { h with updateWatchDataCalls := h.updateWatchDataCalls ++ [data] }
    else h.insertIncompleteData F fuel data

/-- The function `clearWatches`. -/
def clearWatches (fuel : Nat) (h : WatchHandler) : Option WatchHandler :=
  if h.theWatcherNames.isEmpty then some h
  else
    (h.m_model.destroyChildren fuel h.m_model.m_watchRoot).map (fun m =>
      { h with m_model := m, theWatcherNames := [], m_watcherCounter := 0 })

/-- The function `WatchHandler::format`.  The `result` that is assigned inside
the block is declared there; the one that is returned is the outer one. -/
def format (F : WatchFunctions) (h : WatchHandler) (iname : String) : Option Int :=
  let result := F.AutomaticFormat
  match h.m_model.findItem iname with
  | some item =>
    (h.m_model.items.value item).map (fun it =>
      let inner := (h.theIndividualFormats.value it.data.iname).getD F.AutomaticFormat
      let inner :=
        if inner == F.AutomaticFormat then
          (h.theTypeFormats.value (stripForFormat it.data.type)).getD F.AutomaticFormat
        else inner
      (fun (_ : Int) => result) inner)
  | none => some result

end WatchHandler

namespace Sample

/-- A lower bound search: the position of the first item that is not less
than the value. -/
def lowerBound (lessThan : WatchData → WatchData → Bool) (list : List WatchData)
    (value : WatchData) : Nat :=
  (list.takeWhile (fun item => lessThan item value)).length

/-- Members sorted by name, and `-1` for the automatic format. -/
def watchFunctions : WatchFunctions :=
  { qLowerBound := lowerBound, sortStructMembers := true, AutomaticFormat := -1 }

/-- The model as its constructor leaves it. -/
def watchModel : WatchModel := WatchModel.construct.getD {}

/-- A handler for a session without saved watchers; the engine is not ready. -/
def watchHandler : WatchHandler := (WatchHandler.construct 0).getD {}

/-- The handler after `watchExpression("x")`. -/
def watchedOnce : WatchHandler :=
  (watchHandler.watchExpression watchFunctions 10 "x" "").getD {}

/-- The handler after a second `watchExpression("x")`. -/
def watchedTwice : WatchHandler :=
  (watchedOnce.watchExpression watchFunctions 10 "x" "").getD {}

/-- The data of a local variable `x` of type `int` with the value 5. -/
def localValue : WatchData :=
  { iname := "local.x", name := "x", type := "int", value := "5", valueNeeded := false,
    childrenNeeded := false }

/-- A handler whose model has the item `local.x`, with the format 2 set for
this item. -/
def formatted : WatchHandler :=
  { m_model := (watchModel.insertDataItem watchFunctions 10 localValue false).getD {},
    theIndividualFormats := [("local.x", 2)] }

end Sample

end Debugger

namespace Debugger

namespace WatchModel

/-- The model `m1` has no item that `m` has not, and allocates from the same
address on. -/
structure Shrunk (m m1 : WatchModel) : Prop where
  items : ∀ p it, m1.items.value p = some it → m.items.value p = some it
  nextAddress : m1.nextAddress = m.nextAddress

end WatchModel

end Debugger

namespace Debugger

namespace Sample

/-- The local `x` gets a value, then the children `a` and `b`. -/
def localsInserted : List (WatchData × Bool) :=
  [(localValue, false), ({ iname := "local.x.a", name := "a" }, true),
    ({ iname := "local.x.b", name := "b" }, true)]

/-- The local `x` with another value. -/
def localValueAgain : WatchData := { localValue with value := "6" }

end Sample

end Debugger

/-! ## Facts about the token map -/

namespace Debugger

namespace QHash

variable {V : Type}

theorem contains_eq_false_iff (h : QHash V) (key : Int) :
    h.contains key = false ↔ key ∉ h.keys := by
  simp only [contains, keys, List.any_eq_false, List.mem_map, not_exists, not_and]
  constructor
  · intro h1 e he heq
    exact h1 e he (by simp [heq])
  · intro h1 e he heq
    exact h1 e he (by simpa using heq)

theorem value_eq_none_iff (h : QHash V) (key : Int) :
    h.value key = none ↔ key ∉ h.keys := by
  simp only [value, keys, Option.map_eq_none', List.find?_eq_none, List.mem_map, not_exists,
    not_and]
  constructor
  · intro h1 e he heq
    exact h1 e he (by simp [heq])
  · intro h1 e he heq
    exact h1 e he (by simpa using heq)

theorem not_mem_keys_remove (h : QHash V) (key : Int) : key ∉ (h.remove key).keys := by
  simp [remove, keys, List.mem_map, List.mem_filter]

theorem mem_remove {h : QHash V} {key : Int} {e : Int × V} (he : e ∈ h.remove key) :
    e ∈ h ∧ e.1 ≠ key := by
  simpa [remove, List.mem_filter] using he

theorem mem_keys_remove {h : QHash V} {key k : Int} (hk : k ∈ (h.remove key).keys) :
    k ∈ h.keys := by
  simp only [keys, List.mem_map] at hk ⊢
  obtain ⟨e, he, rfl⟩ := hk
  exact ⟨e, (mem_remove he).1, rfl⟩

theorem value_mem {h : QHash V} {key : Int} {v : V} (hv : h.value key = some v) :
    (key, v) ∈ h := by
  unfold value at hv
  cases hf : List.find? (fun e => e.1 == key) h with
  | none => simp [hf] at hv
  | some e =>
    have h1 := List.find?_some hf
    have h2 := List.mem_of_find?_eq_some hf
    have h3 : e.1 = key := by simpa using h1
    have h4 : e.2 = v := by simpa [hf] using hv
    rw [← h3, ← h4]
    exact h2

theorem value_insert_self (h : QHash V) (key : Int) (v : V) :
    (h.insert key v).value key = some v := by
  simp [insert, value, List.find?_cons]

theorem find_remove_of_ne (h : QHash V) {key k : Int} (hne : key ≠ k) :
    List.find? (fun e => e.1 == k) (h.remove key) = List.find? (fun e => e.1 == k) h := by
  induction h with
  | nil => rfl
  | cons e rest ih =>
    unfold remove at ih ⊢
    by_cases h1 : e.1 = key
    · have h2 : ¬ e.1 = k := fun h => hne (h1.symm.trans h)
      rw [List.filter_cons_of_neg (by simp [h1]), List.find?_cons_of_neg _ (by simp [h2])]
      exact ih
    · rw [List.filter_cons_of_pos (by simp [h1])]
      by_cases h2 : e.1 = k
      · rw [List.find?_cons_of_pos _ (by simp [h2]), List.find?_cons_of_pos _ (by simp [h2])]
      · rw [List.find?_cons_of_neg _ (by simp [h2]), List.find?_cons_of_neg _ (by simp [h2])]
        exact ih

theorem value_remove_of_ne (h : QHash V) {key k : Int} (hne : key ≠ k) :
    (h.remove key).value k = h.value k := by
  unfold value
  rw [find_remove_of_ne h hne]

theorem value_insert_of_ne (h : QHash V) {key k : Int} (v : V) (hne : key ≠ k) :
    (h.insert key v).value k = h.value k := by
  have := find_remove_of_ne h hne
  unfold value insert
  rw [List.find?_cons_of_neg _ (by simp [hne]), this]

theorem mem_insert {h : QHash V} {key : Int} {v : V} {e : Int × V} (he : e ∈ h.insert key v) :
    e = (key, v) ∨ (e ∈ h ∧ e.1 ≠ key) := by
  unfold insert at he
  rcases List.mem_cons.mp he with h1 | h1
  · exact Or.inl h1
  · exact Or.inr (mem_remove h1)

end QHash

end Debugger

/-! ## Posting in a state that does not accept commands -/

namespace Debugger

open DebuggerState GdbResultClass

namespace GdbEngine

/-- C1: in a state for which `stateAcceptsGdbCommands` is false, `postCommand`
with any text, flags (also `Immediate`), callback and cookie returns the
engine unchanged: nothing is flushed or written, no token is drawn, and
the token map, the deferred queue and both counters stay as they were. -/
theorem postCommand_refused (env : Environment) (s : GdbEngine) (command : String)
    (flags : GdbCommandFlags) (callback : Option GdbCommandCallback)
    (callbackName : Option String) (cookie : QVariant)
    (hstate : stateAcceptsGdbCommands s.state = false) :
    s.postCommand env command flags callback callbackName cookie = s := by
  simp [postCommand, postCommandHelper, hstate]

theorem postCommand_refused_witness :
    stateAcceptsGdbCommands Sample.exited.state = false
      ∧ Sample.exited.postCommand baseClass "-exec-interrupt" { Immediate := true } none none ""
        = Sample.exited :=
  ⟨by decide, postCommand_refused baseClass _ _ _ _ _ _ (by decide)⟩

/-! ## Stale results -/

/-- C3: a result record carrying a token (`-1` stands for none) that is in the
token map with a `Discardable` command, and that lies below the watermark
`m_oldestAcceptableToken`, only removes the entry: the engine is otherwise
unchanged, so no callback and no other collaborator was called. -/
theorem handleResultRecord_stale_discardable (env : Environment) (s : GdbEngine)
    (response : GdbResponse) (cmd : GdbCommand)
    (htoken : response.token ≠ -1)
    (hcmd : s.m_cookieForToken.value response.token = some cmd)
    (hold : response.token < s.m_oldestAcceptableToken)
    (hdisc : cmd.flags.Discardable = true) :
    s.handleResultRecord env response
        = { s with m_cookieForToken := s.m_cookieForToken.remove response.token }
      ∧ (s.handleResultRecord env response).calls = s.calls
      ∧ (s.handleResultRecord env response).m_cookieForToken.contains response.token = false := by
  have h : s.handleResultRecord env response
      = { s with m_cookieForToken := s.m_cookieForToken.remove response.token } := by
    simp [handleResultRecord, htoken, hcmd, hold, hdisc]
  refine ⟨h, by rw [h], ?_⟩
  rw [h]
  exact (QHash.contains_eq_false_iff _ _).mpr (QHash.not_mem_keys_remove _ _)

/-! ## The token barrier -/

/-- C10: while the token map holds a command without the `Discardable` flag,
`setTokenBarrier` returns the engine unchanged; in particular
`m_oldestAcceptableToken` and `m_stackNeeded` keep their values. -/
theorem setTokenBarrier_refused (s : GdbEngine)
    (hpending : ∃ e ∈ s.m_cookieForToken, e.2.flags.Discardable = false) :
    s.setTokenBarrier = s
      ∧ s.setTokenBarrier.m_oldestAcceptableToken = s.m_oldestAcceptableToken
      ∧ s.setTokenBarrier.m_stackNeeded = s.m_stackNeeded := by
  have h : s.setTokenBarrier = s := by
    obtain ⟨e, he, hd⟩ := hpending
    have : s.m_cookieForToken.all (fun e => e.2.flags.Discardable) = false := by
      rw [List.all_eq_false]
      exact ⟨e, he, by simp [hd]⟩
    simp [setTokenBarrier, this]
  exact ⟨h, by rw [h], by rw [h]⟩

end GdbEngine

end Debugger

namespace Debugger

open DebuggerState GdbResultClass

namespace GdbEngine

theorem handleResultRecord_stale_discardable_witness :
    (Sample.staleDone.token ≠ -1
      ∧ Sample.stale.m_cookieForToken.value Sample.staleDone.token = some Sample.listLocals
      ∧ Sample.staleDone.token < Sample.stale.m_oldestAcceptableToken
      ∧ Sample.listLocals.flags.Discardable = true)
    ∧ (Sample.stale.handleResultRecord baseClass Sample.staleDone).calls = []
    ∧ (Sample.stale.handleResultRecord baseClass Sample.staleDone).m_cookieForToken = [] :=
  ⟨⟨by decide, by decide, by decide, rfl⟩,
    (handleResultRecord_stale_discardable baseClass Sample.stale Sample.staleDone
      Sample.listLocals (by decide) (by decide) (by decide) rfl).2.1,
    by decide⟩

theorem setTokenBarrier_refused_witness :
    (∃ e ∈ Sample.breakPending.m_cookieForToken, e.2.flags.Discardable = false)
    ∧ Sample.breakPending.setTokenBarrier.m_oldestAcceptableToken = -1
    ∧ Sample.breakPending.setTokenBarrier.m_stackNeeded = true :=
  ⟨⟨_, List.mem_singleton.mpr rfl, rfl⟩,
    (setTokenBarrier_refused Sample.breakPending ⟨_, List.mem_singleton.mpr rfl, rfl⟩).2⟩

/-! ## The token counter -/

/-- On the range of a C++ `int`, `nextToken` is the sum reduced to 32 bits in
two's complement. -/
theorem nextToken_eq_emod (token : Int) (hlo : -2147483648 ≤ token) (hhi : token ≤ 2147483647) :
    nextToken token = (token + 1 + 2147483648) % 4294967296 - 2147483648 := by
  unfold nextToken
  split <;> omega

theorem nextToken_of_ne (token : Int) (h : token ≠ 2147483647) : nextToken token = token + 1 := by
  unfold nextToken
  rw [if_neg h]

/-! ## Transmitting at once -/

/-- What `flushCommand` does when it writes: the state accepts commands, the
gdb process runs and no test response is scheduled for the next token. -/
theorem flushCommand_sends (env : Environment) (s : GdbEngine) (cmd : GdbCommand)
    (hstate : stateAcceptsGdbCommands s.state = true)
    (hproc : s.gdbProcRunning = true)
    (htest : s.m_scheduledTestResponses.value (nextToken s.currentToken) = none) :
    (s.flushCommand env cmd).currentToken = nextToken s.currentToken
      ∧ (s.flushCommand env cmd).m_cookieForToken
          = s.m_cookieForToken.insert (nextToken s.currentToken) cmd
      ∧ (s.flushCommand env cmd).flushed
          = s.flushed ++ [Transmission.mk s.state (nextToken s.currentToken) cmd
              (some (wireCommand (nextToken s.currentToken) cmd ++ "\r\n"))]
      ∧ (s.flushCommand env cmd).state = s.state
      ∧ (s.flushCommand env cmd).gdbProcRunning = s.gdbProcRunning
      ∧ (s.flushCommand env cmd).m_scheduledTestResponses = s.m_scheduledTestResponses
      ∧ (s.flushCommand env cmd).m_commandsToRunOnTemporaryBreak
          = s.m_commandsToRunOnTemporaryBreak
      ∧ (s.flushCommand env cmd).calls = s.calls
      ∧ (s.flushCommand env cmd).m_oldestAcceptableToken = s.m_oldestAcceptableToken := by
  unfold flushCommand
  simp only [hstate, hproc, htest, Bool.not_true, Bool.false_eq_true, if_false]
  split <;> split <;> simp

/-- A command with the flag `Immediate` goes the way of `postCommandImmediate`. -/
theorem postCommandHelper_immediate (env : Environment) (s : GdbEngine) (cmd : GdbCommand)
    (himm : cmd.flags.Immediate = true) :
    s.postCommandHelper env cmd = s.postCommandImmediate env cmd := by
  simp only [postCommandHelper, postCommandImmediate, himm, if_true]

/-- The command `interruptInferior` posts is `postCommand("-exec-interrupt",
Immediate)`. -/
theorem postCommandImmediate_execInterrupt (env : Environment) (s : GdbEngine) :
    s.postCommandImmediate env execInterrupt
      = s.postCommand env "-exec-interrupt" { Immediate := true } none none "" :=
  (postCommandHelper_immediate env s execInterrupt rfl).symm

end GdbEngine

/-! ## Deferring a command that needs a stopped inferior -/

theorem SameCommandPath.same_refl (s : GdbEngine) : SameCommandPath s s :=
  ⟨rfl, rfl, rfl, rfl, rfl, rfl⟩

theorem SameCommandPath.same_trans {s1 s2 s3 : GdbEngine} (h1 : SameCommandPath s1 s2)
    (h2 : SameCommandPath s2 s3) : SameCommandPath s1 s3 :=
  ⟨h2.flushed.trans h1.flushed, h2.currentToken.trans h1.currentToken,
    h2.cookieForToken.trans h1.cookieForToken, h2.commandsToRun.trans h1.commandsToRun,
    h2.scheduledTestResponses.trans h1.scheduledTestResponses,
    h2.usesExecInterrupt.trans h1.usesExecInterrupt⟩

namespace GdbEngine

theorem call_sameCommandPath {env : Environment} (henv : InterruptKeepsCommandPath env)
    (s : GdbEngine) (c : Call) (hc : c.isInterruptCall = true) :
    SameCommandPath s (s.call env c) := by
  obtain ⟨a, b, c1, d, e, f⟩ := henv c { s with calls := s.calls ++ [c] } hc
  exact ⟨a, b, c1, d, e, f⟩

theorem interruptThroughDevice_sameCommandPath {env : Environment}
    (henv : InterruptKeepsCommandPath env) (s : GdbEngine) :
    SameCommandPath s (s.interruptThroughDevice env) := by
  have h1 : SameCommandPath s
      (if s.state != InferiorStopRequested then s.call env .notifyInferiorStopFailed else s) := by
    split
    · exact call_sameCommandPath henv s _ rfl
    · exact SameCommandPath.same_refl s
  have h2 : ∀ s1 : GdbEngine, SameCommandPath s1
      (if s1.m_signalOperation then s1.call env .notifyInferiorStopFailed else s1) := by
    intro s1
    split
    · exact call_sameCommandPath henv s1 _ rfl
    · exact SameCommandPath.same_refl s1
  have h3 : ∀ s2 : GdbEngine, SameCommandPath s2
      (GdbEngine.call env { s2 with m_signalOperation := true }
        (.collaborator "interruptProcess" [toString s2.inferiorPid])) := by
    intro s2
    obtain ⟨a, b, c1, d, e, f⟩ :=
      call_sameCommandPath henv { s2 with m_signalOperation := true }
        (.collaborator "interruptProcess" [toString s2.inferiorPid]) rfl
    exact ⟨a, b, c1, d, e, f⟩
  exact (h1.same_trans (h2 _)).same_trans (h3 _)

/-- What `interruptInferior` leaves of the command path: nothing happens on it
unless the engine interrupts through gdb, and then either nothing happens or
`-exec-interrupt` is written under the next token, in the state
`InferiorStopRequested`. -/
theorem interruptInferior_outcome {env : Environment} (henv : InterruptKeepsCommandPath env)
    (s : GdbEngine)
    (htest : s.m_scheduledTestResponses.value (nextToken s.currentToken) = none) :
    (s.interruptInferior env).m_commandsToRunOnTemporaryBreak
        = s.m_commandsToRunOnTemporaryBreak
      ∧ (s.usesExecInterrupt = false →
          (s.interruptInferior env).flushed = s.flushed
            ∧ (s.interruptInferior env).currentToken = s.currentToken
            ∧ (s.interruptInferior env).m_cookieForToken = s.m_cookieForToken)
      ∧ (((s.interruptInferior env).flushed = s.flushed
            ∧ (s.interruptInferior env).currentToken = s.currentToken
            ∧ (s.interruptInferior env).m_cookieForToken = s.m_cookieForToken)
          ∨ ((s.interruptInferior env).flushed
                = s.flushed ++ [Transmission.mk InferiorStopRequested
                    (nextToken s.currentToken) execInterrupt
                    (some (toString (nextToken s.currentToken) ++ "-exec-interrupt" ++ "\r\n"))]
              ∧ (s.interruptInferior env).currentToken = nextToken s.currentToken
              ∧ (s.interruptInferior env).m_cookieForToken
                  = s.m_cookieForToken.insert (nextToken s.currentToken) execInterrupt)) := by
  have same : ∀ s' : GdbEngine, SameCommandPath s s' →
      s'.m_commandsToRunOnTemporaryBreak = s.m_commandsToRunOnTemporaryBreak
        ∧ (s.usesExecInterrupt = false →
            s'.flushed = s.flushed ∧ s'.currentToken = s.currentToken
              ∧ s'.m_cookieForToken = s.m_cookieForToken)
        ∧ ((s'.flushed = s.flushed ∧ s'.currentToken = s.currentToken
              ∧ s'.m_cookieForToken = s.m_cookieForToken)
            ∨ (s'.flushed
                  = s.flushed ++ [Transmission.mk InferiorStopRequested
                      (nextToken s.currentToken) execInterrupt
                      (some (toString (nextToken s.currentToken) ++ "-exec-interrupt" ++ "\r\n"))]
                ∧ s'.currentToken = nextToken s.currentToken
                ∧ s'.m_cookieForToken
                    = s.m_cookieForToken.insert (nextToken s.currentToken) execInterrupt)) :=
    fun s' h => ⟨h.commandsToRun, fun _ => ⟨h.flushed, h.currentToken, h.cookieForToken⟩,
      Or.inl ⟨h.flushed, h.currentToken, h.cookieForToken⟩⟩
  unfold interruptInferior
  by_cases hst : s.state = InferiorStopRequested
  swap
  · rw [if_pos (by simpa using hst)]
    exact same s (SameCommandPath.same_refl s)
  rw [if_neg (by simp [hst])]
  rcases Bool.eq_false_or_eq_true s.usesExecInterrupt with huse | huse
  swap
  · rw [if_neg (by rw [huse]; exact Bool.false_ne_true)]
    split
    · exact same _ (interruptThroughDevice_sameCommandPath henv s)
    · exact same _ (call_sameCommandPath henv s .interruptInferior2 rfl)
  · rw [if_pos huse]
    cases hproc : s.gdbProcRunning
    · have hnone : s.postCommandImmediate env execInterrupt
          = { s with m_nonDiscardableCount := s.m_nonDiscardableCount + 1 } := by
        simp [postCommandImmediate, flushCommand, stateAcceptsGdbCommands, hst, hproc,
          execInterrupt]
      rw [hnone]
      exact same _ ⟨rfl, rfl, rfl, rfl, rfl, rfl⟩
    · have heq : s.postCommandImmediate env execInterrupt
          = flushCommand env { s with m_nonDiscardableCount := s.m_nonDiscardableCount + 1 }
              execInterrupt := by
        simp [postCommandImmediate, stateAcceptsGdbCommands, hst, execInterrupt]
      obtain ⟨a, b, c, _, _, _, g, _, _⟩ := flushCommand_sends env
        { s with m_nonDiscardableCount := s.m_nonDiscardableCount + 1 } execInterrupt
        (by simp [stateAcceptsGdbCommands, hst]) hproc htest
      rw [heq]
      refine ⟨g, ?_, Or.inr ⟨?_, a, b⟩⟩
      · intro h
        rw [huse] at h
        cases h
      rw [c]
      simp [hst, wireCommand, execInterrupt]

/-- What `interruptInferiorTemporarily` leaves of the command path. -/
theorem interruptInferiorTemporarily_outcome {env : Environment}
    (henv : InterruptKeepsCommandPath env) (s : GdbEngine)
    (htest : s.m_scheduledTestResponses.value (nextToken s.currentToken) = none) :
    (s.interruptInferiorTemporarily env).m_commandsToRunOnTemporaryBreak
        = s.m_commandsToRunOnTemporaryBreak
      ∧ (s.usesExecInterrupt = false →
          (s.interruptInferiorTemporarily env).flushed = s.flushed
            ∧ (s.interruptInferiorTemporarily env).currentToken = s.currentToken
            ∧ (s.interruptInferiorTemporarily env).m_cookieForToken = s.m_cookieForToken)
      ∧ (((s.interruptInferiorTemporarily env).flushed = s.flushed
            ∧ (s.interruptInferiorTemporarily env).currentToken = s.currentToken
            ∧ (s.interruptInferiorTemporarily env).m_cookieForToken = s.m_cookieForToken)
          ∨ ((s.interruptInferiorTemporarily env).flushed
                = s.flushed ++ [Transmission.mk InferiorStopRequested
                    (nextToken s.currentToken) execInterrupt
                    (some (toString (nextToken s.currentToken) ++ "-exec-interrupt" ++ "\r\n"))]
              ∧ (s.interruptInferiorTemporarily env).currentToken = nextToken s.currentToken
              ∧ (s.interruptInferiorTemporarily env).m_cookieForToken
                  = s.m_cookieForToken.insert (nextToken s.currentToken) execInterrupt)) := by
  unfold interruptInferiorTemporarily
  split
  · have h2 := call_sameCommandPath henv s .notifyInferiorIll rfl
    exact ⟨h2.commandsToRun, fun _ => ⟨h2.flushed, h2.currentToken, h2.cookieForToken⟩,
      Or.inl ⟨h2.flushed, h2.currentToken, h2.cookieForToken⟩⟩
  · have h2 := call_sameCommandPath henv s .requestInterruptInferior rfl
    obtain ⟨a, b, c⟩ := interruptInferior_outcome henv
      (s.call env .requestInterruptInferior)
      (by rw [h2.scheduledTestResponses, h2.currentToken]; exact htest)
    unfold requestInterruptInferior
    rw [h2.flushed, h2.currentToken, h2.cookieForToken] at b c
    rw [h2.usesExecInterrupt] at b
    rw [h2.commandsToRun] at a
    exact ⟨a, b, c⟩

/-- C5 (amended): in state `InferiorRunOk`, with no test response scheduled
for the next token and with collaborators that leave the command path alone,
`postCommandHelper` on a command with `NeedsStop` and without `Immediate` puts
the command at the end of the deferred queue.  Nothing is flushed and no token
is drawn when the engine does not interrupt through gdb; when it does
(`usesExecInterrupt`), either nothing is flushed or exactly one command is,
the `-exec-interrupt` of the interrupt request, written under the next token
in state `InferiorStopRequested` and stored in the token map under it.  The
posted command itself is in no case flushed. -/
theorem postCommandHelper_defers (env : Environment) (s : GdbEngine) (cmd : GdbCommand)
    (hstate : s.state = InferiorRunOk)
    (hstop : cmd.flags.NeedsStop = true)
    (himm : cmd.flags.Immediate = false)
    (henv : InterruptKeepsCommandPath env)
    (htest : s.m_scheduledTestResponses.value (nextToken s.currentToken) = none) :
    (s.postCommandHelper env cmd).m_commandsToRunOnTemporaryBreak
        = s.m_commandsToRunOnTemporaryBreak ++ [cmd]
      ∧ (s.usesExecInterrupt = false →
          (s.postCommandHelper env cmd).flushed = s.flushed
            ∧ (s.postCommandHelper env cmd).currentToken = s.currentToken
            ∧ (s.postCommandHelper env cmd).m_cookieForToken = s.m_cookieForToken)
      ∧ (((s.postCommandHelper env cmd).flushed = s.flushed
            ∧ (s.postCommandHelper env cmd).currentToken = s.currentToken
            ∧ (s.postCommandHelper env cmd).m_cookieForToken = s.m_cookieForToken)
          ∨ ((s.postCommandHelper env cmd).flushed
                = s.flushed ++ [Transmission.mk InferiorStopRequested
                    (nextToken s.currentToken) execInterrupt
                    (some (toString (nextToken s.currentToken) ++ "-exec-interrupt" ++ "\r\n"))]
              ∧ (s.postCommandHelper env cmd).currentToken = nextToken s.currentToken
              ∧ (s.postCommandHelper env cmd).m_cookieForToken
                  = s.m_cookieForToken.insert (nextToken s.currentToken) execInterrupt))
      ∧ (∀ t ∈ (s.postCommandHelper env cmd).flushed, t ∈ s.flushed ∨ t.cmd ≠ cmd) := by
  have heq : s.postCommandHelper env cmd
      = interruptInferiorTemporarily env { s with
        m_pendingBreakpointRequests :=
          if cmd.flags.RebuildBreakpointModel then s.m_pendingBreakpointRequests + 1
          else s.m_pendingBreakpointRequests,
        m_nonDiscardableCount :=
          if !cmd.flags.Discardable then s.m_nonDiscardableCount + 1
          else s.m_nonDiscardableCount,
        m_commandsToRunOnTemporaryBreak := s.m_commandsToRunOnTemporaryBreak ++ [cmd] } := by
    cases hr : cmd.flags.RebuildBreakpointModel <;> cases hd : cmd.flags.Discardable <;>
      simp [postCommandHelper, stateAcceptsGdbCommands, hstate, hstop, himm, hr, hd]
  obtain ⟨a, b, c⟩ := interruptInferiorTemporarily_outcome henv { s with
      m_pendingBreakpointRequests :=
        if cmd.flags.RebuildBreakpointModel then s.m_pendingBreakpointRequests + 1
        else s.m_pendingBreakpointRequests,
      m_nonDiscardableCount :=
        if !cmd.flags.Discardable then s.m_nonDiscardableCount + 1
        else s.m_nonDiscardableCount,
      m_commandsToRunOnTemporaryBreak := s.m_commandsToRunOnTemporaryBreak ++ [cmd] } htest
  rw [heq]
  refine ⟨a, b, c, ?_⟩
  intro t ht
  rcases c with c | c
  · rw [c.1] at ht
    exact Or.inl ht
  · rw [c.1] at ht
    rcases List.mem_append.mp ht with h | h
    · exact Or.inl h
    · right
      rw [List.mem_singleton.mp h]
      intro hcmd
      rw [← hcmd] at himm
      cases himm

theorem baseClass_interruptKeepsCommandPath : InterruptKeepsCommandPath baseClass := by
  intro c s _
  cases c <;> exact ⟨rfl, rfl, rfl, rfl, rfl, rfl⟩

theorem postCommandHelper_defers_witness :
    (Sample.remote.state = InferiorRunOk ∧ Sample.listFrames.flags.NeedsStop = true
      ∧ Sample.listFrames.flags.Immediate = false ∧ InterruptKeepsCommandPath baseClass
      ∧ Sample.remote.m_scheduledTestResponses.value (nextToken Sample.remote.currentToken)
          = none)
    ∧ (Sample.remote.postCommandHelper baseClass Sample.listFrames).m_commandsToRunOnTemporaryBreak
        = [Sample.listFrames]
    ∧ (Sample.running.postCommandHelper baseClass Sample.listFrames).m_commandsToRunOnTemporaryBreak
        = [Sample.listFrames]
    ∧ (Sample.running.postCommandHelper baseClass Sample.listFrames).flushed = []
    ∧ (Sample.running.postCommandHelper baseClass Sample.listFrames).currentToken = 7
    ∧ (Sample.running.postCommandHelper baseClass Sample.listFrames).m_cookieForToken = [] :=
  ⟨⟨rfl, rfl, rfl, baseClass_interruptKeepsCommandPath, rfl⟩,
    (postCommandHelper_defers baseClass Sample.remote Sample.listFrames rfl rfl rfl
      baseClass_interruptKeepsCommandPath rfl).1,
    (postCommandHelper_defers baseClass Sample.running Sample.listFrames rfl rfl rfl
      baseClass_interruptKeepsCommandPath rfl).1,
    (postCommandHelper_defers baseClass Sample.running Sample.listFrames rfl rfl rfl
      baseClass_interruptKeepsCommandPath rfl).2.1 rfl⟩

/-- C5 as stated fails: an engine attached to a remote target in asynchronous
mode interrupts through gdb.  In state `InferiorRunOk` the post of a command
with `NeedsStop` and without `Immediate` queues the command and requests the
interrupt, and the request posts `-exec-interrupt` with `Immediate`: a token
is drawn, 8, and the bytes `8-exec-interrupt` are written.  In a test that has
scheduled a response for token 8 the token is drawn as well and the response
is faked in place of the write. -/
theorem postCommandHelper_defers_counterexample :
    Sample.remote.state = InferiorRunOk
      ∧ Sample.listFrames.flags.NeedsStop = true ∧ Sample.listFrames.flags.Immediate = false
      ∧ Sample.remote.usesExecInterrupt = true
      ∧ (Sample.remote.postCommandHelper baseClass Sample.listFrames).m_commandsToRunOnTemporaryBreak
          = [Sample.listFrames]
      ∧ (Sample.remote.postCommandHelper baseClass Sample.listFrames).flushed
          = [Transmission.mk InferiorStopRequested 8 execInterrupt
              (some "8-exec-interrupt\r\n")]
      ∧ (Sample.remote.postCommandHelper baseClass Sample.listFrames).currentToken = 8
      ∧ (Sample.remote.postCommandHelper baseClass Sample.listFrames).m_cookieForToken
          = [(8, execInterrupt)]
      ∧ (Sample.remote.postCommandHelper baseClass Sample.listFrames).calls
          = [Call.requestInterruptInferior]
      ∧ (Sample.remoteScheduled.postCommandHelper baseClass Sample.listFrames).flushed
          = [Transmission.mk InferiorStopRequested 8 execInterrupt none]
      ∧ (Sample.remoteScheduled.postCommandHelper baseClass Sample.listFrames).calls.map
          (fun c => match c with
            | .handleResponse _ => true
            | _ => false) = [false, true] := by
  refine ⟨rfl, rfl, rfl, rfl, ?_, ?_, ?_, ?_, ?_, ?_, ?_⟩ <;> rfl

end GdbEngine

end Debugger

namespace Debugger

open DebuggerState GdbResultClass

namespace GdbEngine

/-! ## One interrupt for a burst of deferred commands -/

theorem postCommandHelper_while_stopping (env : Environment) (s : GdbEngine) (cmd : GdbCommand)
    (hstate : s.state = InferiorStopRequested)
    (hstop : cmd.flags.NeedsStop = true) (himm : cmd.flags.Immediate = false)
    (hchild : cmd.flags.LosesChild = false) :
    (s.postCommandHelper env cmd).state = InferiorStopRequested
      ∧ (s.postCommandHelper env cmd).m_commandsToRunOnTemporaryBreak
          = s.m_commandsToRunOnTemporaryBreak ++ [cmd]
      ∧ (s.postCommandHelper env cmd).calls = s.calls
      ∧ (s.postCommandHelper env cmd).flushed = s.flushed := by
  cases hr : cmd.flags.RebuildBreakpointModel <;> cases hd : cmd.flags.Discardable <;>
    simp [postCommandHelper, stateAcceptsGdbCommands, hstate, hstop, himm, hchild, hr, hd]

theorem postCommands_while_stopping (env : Environment) (cmds : List GdbCommand) :
    ∀ s : GdbEngine, s.state = InferiorStopRequested →
      (∀ c ∈ cmds, c.flags.NeedsStop = true ∧ c.flags.Immediate = false
        ∧ c.flags.LosesChild = false) →
      (cmds.foldl (postCommandHelper env) s).state = InferiorStopRequested
        ∧ (cmds.foldl (postCommandHelper env) s).m_commandsToRunOnTemporaryBreak
            = s.m_commandsToRunOnTemporaryBreak ++ cmds
        ∧ (cmds.foldl (postCommandHelper env) s).calls = s.calls
        ∧ (cmds.foldl (postCommandHelper env) s).flushed = s.flushed := by
  induction cmds with
  | nil => intro s hs _; simp [hs]
  | cons c rest ih =>
    intro s hs hflags
    obtain ⟨h1, h2, h3⟩ := hflags c (List.mem_cons_self _ _)
    obtain ⟨a, b, d, e⟩ := postCommandHelper_while_stopping env s c hs h1 h2 h3
    obtain ⟨a2, b2, d2, e2⟩ := ih (s.postCommandHelper env c) a
      (fun x hx => hflags x (List.mem_cons_of_mem _ hx))
    rw [List.foldl_cons]
    exact ⟨a2, by rw [b2, b]; simp, d2.trans d, e2.trans e⟩

/-- A call into a collaborator that leaves the deferred queue alone: the queue
is as before and the requests for an interrupt are counted up by the call
itself only. -/
theorem call_keepsDeferredQueue {env : Environment} (henv : KeepsDeferredQueue env)
    (s : GdbEngine) (c : Call) (hc : c.isInterruptCall = true ∨ c.isHandleResponse = true) :
    (s.call env c).m_commandsToRunOnTemporaryBreak = s.m_commandsToRunOnTemporaryBreak
      ∧ (s.call env c).calls.countP Call.isInterruptRequest
          = s.calls.countP Call.isInterruptRequest
              + (if c.isInterruptRequest then 1 else 0) := by
  obtain ⟨a, b⟩ := henv c { s with calls := s.calls ++ [c] } hc
  refine ⟨a, ?_⟩
  unfold call
  rw [b]
  simp only [List.countP_append, List.countP_cons, List.countP_nil]
  omega

theorem call_keepsDeferredQueue_other {env : Environment} (henv : KeepsDeferredQueue env)
    (s : GdbEngine) (c : Call) (hmade : c.isInterruptCall = true ∨ c.isHandleResponse = true)
    (hc : c.isInterruptRequest = false) :
    (s.call env c).m_commandsToRunOnTemporaryBreak = s.m_commandsToRunOnTemporaryBreak
      ∧ (s.call env c).calls.countP Call.isInterruptRequest
          = s.calls.countP Call.isInterruptRequest := by
  obtain ⟨a, b⟩ := call_keepsDeferredQueue henv s c hmade
  rw [hc] at b
  exact ⟨a, by simpa using b⟩

theorem flushCommand_keepsDeferredQueue {env : Environment} (henv : KeepsDeferredQueue env)
    (s : GdbEngine) (cmd : GdbCommand) :
    (s.flushCommand env cmd).m_commandsToRunOnTemporaryBreak = s.m_commandsToRunOnTemporaryBreak
      ∧ (s.flushCommand env cmd).calls.countP Call.isInterruptRequest
          = s.calls.countP Call.isInterruptRequest := by
  unfold flushCommand
  split
  · exact ⟨rfl, rfl⟩
  split
  · exact ⟨rfl, rfl⟩
  dsimp only
  split
  · exact call_keepsDeferredQueue_other henv _ _ (Or.inr rfl) rfl
  · split <;> split <;> exact ⟨rfl, rfl⟩

theorem postCommandImmediate_keepsDeferredQueue {env : Environment}
    (henv : KeepsDeferredQueue env) (s : GdbEngine) (cmd : GdbCommand) :
    (s.postCommandImmediate env cmd).m_commandsToRunOnTemporaryBreak
        = s.m_commandsToRunOnTemporaryBreak
      ∧ (s.postCommandImmediate env cmd).calls.countP Call.isInterruptRequest
          = s.calls.countP Call.isInterruptRequest := by
  unfold postCommandImmediate
  split
  · exact ⟨rfl, rfl⟩
  · exact flushCommand_keepsDeferredQueue henv _ _

theorem interruptThroughDevice_keepsDeferredQueue {env : Environment}
    (henv : KeepsDeferredQueue env) (s : GdbEngine) :
    (s.interruptThroughDevice env).m_commandsToRunOnTemporaryBreak
        = s.m_commandsToRunOnTemporaryBreak
      ∧ (s.interruptThroughDevice env).calls.countP Call.isInterruptRequest
          = s.calls.countP Call.isInterruptRequest := by
  have h1 : ∀ (s1 : GdbEngine) (b : Bool),
      (if b then s1.call env .notifyInferiorStopFailed else s1).m_commandsToRunOnTemporaryBreak
          = s1.m_commandsToRunOnTemporaryBreak
        ∧ (if b then s1.call env .notifyInferiorStopFailed else s1).calls.countP
            Call.isInterruptRequest = s1.calls.countP Call.isInterruptRequest := by
    intro s1 b
    cases b
    · exact ⟨rfl, rfl⟩
    · exact call_keepsDeferredQueue_other henv s1 _ (Or.inl rfl) rfl
  have h3 : ∀ s2 : GdbEngine,
      (GdbEngine.call env { s2 with m_signalOperation := true }
        (.collaborator "interruptProcess" [toString s2.inferiorPid])).m_commandsToRunOnTemporaryBreak
          = s2.m_commandsToRunOnTemporaryBreak
        ∧ (GdbEngine.call env { s2 with m_signalOperation := true }
            (.collaborator "interruptProcess" [toString s2.inferiorPid])).calls.countP
              Call.isInterruptRequest = s2.calls.countP Call.isInterruptRequest :=
    fun s2 => call_keepsDeferredQueue_other henv { s2 with m_signalOperation := true } _
      (Or.inl rfl) rfl
  unfold interruptThroughDevice
  obtain ⟨a1, b1⟩ := h1 s (s.state != InferiorStopRequested)
  obtain ⟨a2, b2⟩ := h1 (if s.state != InferiorStopRequested then
    s.call env .notifyInferiorStopFailed else s)
    (if s.state != InferiorStopRequested then
      s.call env .notifyInferiorStopFailed else s).m_signalOperation
  obtain ⟨a3, b3⟩ := h3 (if (if s.state != InferiorStopRequested then
      s.call env .notifyInferiorStopFailed else s).m_signalOperation then
    (if s.state != InferiorStopRequested then
      s.call env .notifyInferiorStopFailed else s).call env .notifyInferiorStopFailed
    else (if s.state != InferiorStopRequested then
      s.call env .notifyInferiorStopFailed else s))
  exact ⟨a3.trans (a2.trans a1), b3.trans (b2.trans b1)⟩

theorem interruptInferior_keepsDeferredQueue {env : Environment}
    (henv : KeepsDeferredQueue env) (s : GdbEngine) :
    (s.interruptInferior env).m_commandsToRunOnTemporaryBreak
        = s.m_commandsToRunOnTemporaryBreak
      ∧ (s.interruptInferior env).calls.countP Call.isInterruptRequest
          = s.calls.countP Call.isInterruptRequest := by
  unfold interruptInferior
  split
  · exact ⟨rfl, rfl⟩
  split
  · exact postCommandImmediate_keepsDeferredQueue henv s _
  split
  · exact interruptThroughDevice_keepsDeferredQueue henv s
  · exact call_keepsDeferredQueue_other henv s _ (Or.inl rfl) rfl

/-- The request for an interrupt leaves the deferred queue alone and is one
request, whatever way `interruptInferior` takes. -/
theorem requestInterruptInferior_once {env : Environment} (henv : KeepsDeferredQueue env)
    (s : GdbEngine) :
    (s.requestInterruptInferior env).m_commandsToRunOnTemporaryBreak
        = s.m_commandsToRunOnTemporaryBreak
      ∧ (s.requestInterruptInferior env).calls.countP Call.isInterruptRequest
          = s.calls.countP Call.isInterruptRequest + 1 := by
  unfold requestInterruptInferior
  obtain ⟨a, b⟩ := call_keepsDeferredQueue henv s .requestInterruptInferior (Or.inl rfl)
  obtain ⟨a2, b2⟩ := interruptInferior_keepsDeferredQueue henv
    (s.call env .requestInterruptInferior)
  exact ⟨a2.trans a, b2.trans (by simpa using b)⟩

/-- C8: from state `InferiorRunOk` with an empty deferred queue, posting one
or more commands in a row that have `NeedsStop` and neither `Immediate` nor
`LosesChild` asks the base class exactly once to interrupt the inferior,
however the engine interrupts (through gdb with `-exec-interrupt`, through
the device, or through the derived engine class), given that the request,
which the first post makes, leaves the state at `InferiorStopRequested`; all
the commands are in the deferred queue, in the order posted.  What the request
calls in other files is taken to leave the deferred queue alone and not to ask
for an interrupt by itself. -/
theorem interrupt_requested_once (env : Environment) (s : GdbEngine) (cmd : GdbCommand)
    (rest : List GdbCommand)
    (henv : KeepsDeferredQueue env)
    (hrequest : (s.postCommandHelper env cmd).state = InferiorStopRequested)
    (hstate : s.state = InferiorRunOk)
    (hqueue : s.m_commandsToRunOnTemporaryBreak = [])
    (hflags : ∀ c ∈ cmd :: rest, c.flags.NeedsStop = true ∧ c.flags.Immediate = false
      ∧ c.flags.LosesChild = false) :
    ((cmd :: rest).foldl (postCommandHelper env) s).calls.countP Call.isInterruptRequest
        = s.calls.countP Call.isInterruptRequest + 1
      ∧ ((cmd :: rest).foldl (postCommandHelper env) s).m_commandsToRunOnTemporaryBreak
          = cmd :: rest
      ∧ ((cmd :: rest).foldl (postCommandHelper env) s).state = InferiorStopRequested := by
  obtain ⟨h1, h2, h3⟩ := hflags cmd (List.mem_cons_self _ _)
  have heq : s.postCommandHelper env cmd
      = requestInterruptInferior env { s with
        m_pendingBreakpointRequests :=
          if cmd.flags.RebuildBreakpointModel then s.m_pendingBreakpointRequests + 1
          else s.m_pendingBreakpointRequests,
        m_nonDiscardableCount :=
          if !cmd.flags.Discardable then s.m_nonDiscardableCount + 1
          else s.m_nonDiscardableCount,
        m_commandsToRunOnTemporaryBreak := [cmd] } := by
    cases hr : cmd.flags.RebuildBreakpointModel <;> cases hd : cmd.flags.Discardable <;>
      simp [postCommandHelper, interruptInferiorTemporarily, stateAcceptsGdbCommands,
        hstate, hqueue, h1, h2, h3, hr, hd]
  obtain ⟨a, b⟩ := requestInterruptInferior_once henv { s with
      m_pendingBreakpointRequests :=
        if cmd.flags.RebuildBreakpointModel then s.m_pendingBreakpointRequests + 1
        else s.m_pendingBreakpointRequests,
      m_nonDiscardableCount :=
        if !cmd.flags.Discardable then s.m_nonDiscardableCount + 1
        else s.m_nonDiscardableCount,
      m_commandsToRunOnTemporaryBreak := [cmd] }
  rw [← heq] at a b
  obtain ⟨a2, b2, d2, _⟩ := postCommands_while_stopping env rest (s.postCommandHelper env cmd)
    hrequest (fun x hx => hflags x (List.mem_cons_of_mem _ hx))
  rw [List.foldl_cons]
  exact ⟨by rw [d2]; exact b, by rw [b2, a]; rfl, a2⟩

theorem baseClass_keepsDeferredQueue : KeepsDeferredQueue baseClass := by
  intro c s _
  cases c <;> exact ⟨rfl, rfl⟩

theorem interrupt_requested_once_witness :
    (KeepsDeferredQueue baseClass
      ∧ (Sample.remote.postCommandHelper baseClass Sample.listFrames).state
          = InferiorStopRequested
      ∧ Sample.remote.state = InferiorRunOk
      ∧ Sample.remote.m_commandsToRunOnTemporaryBreak = [])
    ∧ ([Sample.listFrames, Sample.listFrames].foldl (postCommandHelper baseClass)
          Sample.remote).calls.countP Call.isInterruptRequest = 1
    ∧ ([Sample.listFrames, Sample.listFrames].foldl (postCommandHelper baseClass)
          Sample.remote).m_commandsToRunOnTemporaryBreak
        = [Sample.listFrames, Sample.listFrames]
    ∧ ([Sample.listFrames, Sample.listFrames].foldl (postCommandHelper baseClass)
          Sample.running).calls.countP Call.isInterruptRequest = 1 :=
  ⟨⟨baseClass_keepsDeferredQueue, rfl, rfl, rfl⟩,
    (interrupt_requested_once baseClass Sample.remote Sample.listFrames [Sample.listFrames]
      baseClass_keepsDeferredQueue rfl rfl rfl (by simp [Sample.listFrames])).1,
    (interrupt_requested_once baseClass Sample.remote Sample.listFrames [Sample.listFrames]
      baseClass_keepsDeferredQueue rfl rfl rfl (by simp [Sample.listFrames])).2.1,
    (interrupt_requested_once baseClass Sample.running Sample.listFrames [Sample.listFrames]
      baseClass_keepsDeferredQueue rfl rfl rfl (by simp [Sample.listFrames])).1⟩

/-- The two ways of the sample engines: the engine attached to a remote target
writes `-exec-interrupt` for the one request, the local one hands the
interrupt to the derived engine class. -/
theorem interrupt_requested_once_sample_runs :
    ([Sample.listFrames, Sample.listFrames].foldl (postCommandHelper baseClass)
        Sample.remote).calls = [Call.requestInterruptInferior]
      ∧ ([Sample.listFrames, Sample.listFrames].foldl (postCommandHelper baseClass)
          Sample.remote).flushed.map (fun t => t.bytes) = [some "8-exec-interrupt\r\n"]
      ∧ ([Sample.listFrames, Sample.listFrames].foldl (postCommandHelper baseClass)
          Sample.running).calls = [Call.requestInterruptInferior, Call.interruptInferior2]
      ∧ ([Sample.listFrames, Sample.listFrames].foldl (postCommandHelper baseClass)
          Sample.running).flushed = [] := by
  refine ⟨?_, ?_, ?_, ?_⟩ <;> rfl

end GdbEngine

end Debugger

namespace Debugger

open DebuggerState GdbResultClass

namespace GdbEngine

/-! ## A command that needs no stop is transmitted at once -/

/-- The five states in which `postCommandHelper` sends a command that needs a
stopped inferior at once. -/
theorem flushCommand_sends_in_accepting_state (st : DebuggerState)
    (h : st = InferiorStopOk ∨ st = InferiorUnrunnable ∨ st = InferiorSetupRequested
      ∨ st = EngineSetupOk ∨ st = InferiorShutdownRequested) :
    stateAcceptsGdbCommands st = true := by
  rcases h with rfl | rfl | rfl | rfl | rfl <;> rfl

/-- C9, as the code has it: in a state that accepts commands, with the gdb
process running and no test response scheduled for the next token, a posted
command with a non-empty text and with neither `Immediate` nor `NeedsStop` is
transmitted at once, provided the deferred queue is empty or the state is one
of `InferiorStopOk`, `InferiorUnrunnable`, `InferiorSetupRequested`,
`EngineSetupOk`, `InferiorShutdownRequested`: it draws the next token, is
stored in the token map under it, and is written behind the decimal token. -/
theorem postCommandHelper_sends_at_once (env : Environment) (s : GdbEngine) (cmd : GdbCommand)
    (hstate : stateAcceptsGdbCommands s.state = true)
    (himm : cmd.flags.Immediate = false)
    (hstop : cmd.flags.NeedsStop = false)
    (htext : cmd.command.isEmpty = false)
    (hproc : s.gdbProcRunning = true)
    (htest : s.m_scheduledTestResponses.value (nextToken s.currentToken) = none)
    (hqueue : s.m_commandsToRunOnTemporaryBreak = []
      ∨ s.state = InferiorStopOk ∨ s.state = InferiorUnrunnable
      ∨ s.state = InferiorSetupRequested ∨ s.state = EngineSetupOk
      ∨ s.state = InferiorShutdownRequested) :
    (s.postCommandHelper env cmd).currentToken = nextToken s.currentToken
      ∧ (s.postCommandHelper env cmd).m_cookieForToken
          = s.m_cookieForToken.insert (nextToken s.currentToken) cmd
      ∧ (s.postCommandHelper env cmd).flushed
          = s.flushed ++ [Transmission.mk s.state (nextToken s.currentToken) cmd
              (some (toString (nextToken s.currentToken)
                ++ (if cmd.flags.ConsoleCommand then
                      "-interpreter-exec console \"" ++ cmd.command ++ "\""
                    else cmd.command)
                ++ "\r\n"))]
      ∧ (s.postCommandHelper env cmd).m_commandsToRunOnTemporaryBreak
          = s.m_commandsToRunOnTemporaryBreak := by
  have key : ∀ s1 : GdbEngine, s1.state = s.state → s1.gdbProcRunning = s.gdbProcRunning →
      s1.m_scheduledTestResponses = s.m_scheduledTestResponses →
      s1.currentToken = s.currentToken → s1.m_cookieForToken = s.m_cookieForToken →
      s1.flushed = s.flushed →
      s1.m_commandsToRunOnTemporaryBreak = s.m_commandsToRunOnTemporaryBreak →
      s.postCommandHelper env cmd = s1.flushCommand env cmd →
      (s.postCommandHelper env cmd).currentToken = nextToken s.currentToken
      ∧ (s.postCommandHelper env cmd).m_cookieForToken
          = s.m_cookieForToken.insert (nextToken s.currentToken) cmd
      ∧ (s.postCommandHelper env cmd).flushed
          = s.flushed ++ [Transmission.mk s.state (nextToken s.currentToken) cmd
              (some (toString (nextToken s.currentToken)
                ++ (if cmd.flags.ConsoleCommand then
                      "-interpreter-exec console \"" ++ cmd.command ++ "\""
                    else cmd.command)
                ++ "\r\n"))]
      ∧ (s.postCommandHelper env cmd).m_commandsToRunOnTemporaryBreak
          = s.m_commandsToRunOnTemporaryBreak := by
    intro s1 e1 e2 e3 e4 e5 e6 e7 heq
    obtain ⟨a, b, c, _, _, _, g, _, _⟩ := flushCommand_sends env s1 cmd (by rw [e1]; exact hstate)
      (by rw [e2]; exact hproc) (by rw [e3, e4]; exact htest)
    rw [heq]
    refine ⟨by rw [a, e4], by rw [b, e4, e5], ?_, by rw [g, e7]⟩
    rw [c, e1, e4, e6]
    rfl
  apply key
    { s with
      m_pendingBreakpointRequests :=
        if cmd.flags.RebuildBreakpointModel then s.m_pendingBreakpointRequests + 1
        else s.m_pendingBreakpointRequests,
      m_nonDiscardableCount :=
        if !cmd.flags.Discardable then s.m_nonDiscardableCount + 1
        else s.m_nonDiscardableCount }
    rfl rfl rfl rfl rfl rfl rfl
  rcases hqueue with hq | hq
  · have he : s.m_commandsToRunOnTemporaryBreak.isEmpty = true := by rw [hq]; rfl
    cases hr : cmd.flags.RebuildBreakpointModel <;> cases hd : cmd.flags.Discardable <;>
      simp [postCommandHelper, hstate, himm, hstop, htext, he, hr, hd]
  · have hsafe : (s.state == InferiorStopOk || s.state == InferiorUnrunnable
          || s.state == InferiorSetupRequested || s.state == EngineSetupOk
          || s.state == InferiorShutdownRequested) = true := by
      rcases hq with h | h | h | h | h <;> rw [h] <;> rfl
    cases hr : cmd.flags.RebuildBreakpointModel <;> cases hd : cmd.flags.Discardable <;>
      cases he : s.m_commandsToRunOnTemporaryBreak.isEmpty <;>
      simp [postCommandHelper, hstate, himm, hstop, htext, hsafe, hr, hd, he]

end GdbEngine

end Debugger

namespace Debugger

open DebuggerState GdbResultClass

namespace GdbEngine

theorem postCommandHelper_sends_at_once_witness :
    (stateAcceptsGdbCommands Sample.stopped.state = true
      ∧ Sample.threadInfo.flags.Immediate = false ∧ Sample.threadInfo.flags.NeedsStop = false
      ∧ Sample.threadInfo.command.isEmpty = false ∧ Sample.stopped.gdbProcRunning = true)
    ∧ (Sample.stopped.postCommandHelper baseClass Sample.threadInfo).currentToken = 8
    ∧ (Sample.stopped.postCommandHelper baseClass Sample.threadInfo).m_cookieForToken
        = [(8, Sample.threadInfo)]
    ∧ (Sample.stopped.postCommandHelper baseClass Sample.threadInfo).flushed
        = [Transmission.mk InferiorStopOk 8 Sample.threadInfo (some "8-thread-info\r\n")] :=
  ⟨⟨rfl, rfl, rfl, rfl, rfl⟩,
    (postCommandHelper_sends_at_once baseClass Sample.stopped Sample.threadInfo rfl rfl rfl rfl
      rfl rfl (Or.inl rfl)).1,
    (postCommandHelper_sends_at_once baseClass Sample.stopped Sample.threadInfo rfl rfl rfl rfl
      rfl rfl (Or.inl rfl)).2.1,
    (postCommandHelper_sends_at_once baseClass Sample.stopped Sample.threadInfo rfl rfl rfl rfl
      rfl rfl (Or.inl rfl)).2.2.1⟩

/-- C9 as stated fails: while an interrupt is under way (`InferiorStopRequested`,
a state that accepts commands) and a command waits in the deferred queue, a
posted command with neither `Immediate` nor `NeedsStop` is not transmitted:
it draws no token, is not stored in the token map and is not written, but is
appended to the deferred queue. -/
theorem postCommandHelper_sends_at_once_counterexample :
    stateAcceptsGdbCommands Sample.stopping.state = true
      ∧ Sample.threadInfo.flags.Immediate = false ∧ Sample.threadInfo.flags.NeedsStop = false
      ∧ Sample.stopping.gdbProcRunning = true
      ∧ (Sample.stopping.postCommandHelper baseClass Sample.threadInfo).currentToken
          = Sample.stopping.currentToken
      ∧ (Sample.stopping.postCommandHelper baseClass Sample.threadInfo).m_cookieForToken = []
      ∧ (Sample.stopping.postCommandHelper baseClass Sample.threadInfo).flushed = []
      ∧ (Sample.stopping.postCommandHelper baseClass Sample.threadInfo).m_commandsToRunOnTemporaryBreak
          = [Sample.listFrames, Sample.threadInfo] :=
  ⟨rfl, rfl, rfl, rfl, rfl, rfl, rfl, rfl⟩

end GdbEngine

end Debugger

namespace Debugger

open DebuggerState GdbResultClass

/-! ## Flushing the deferred queue -/

/-- While the counter stays below the largest `int`, the `n`-th next token is
the token plus `n`. -/
theorem iterate_nextToken (n : Nat) :
    ∀ token : Int, token + n ≤ 2147483647 →
      Nat.iterate GdbEngine.nextToken n token = token + n := by
  induction n with
  | zero => intro token _; simp
  | succ k ih =>
    intro token h
    have hne : token ≠ 2147483647 := by push_cast at h; omega
    show Nat.iterate GdbEngine.nextToken k (GdbEngine.nextToken token) = _
    rw [GdbEngine.nextToken_of_ne token hne, ih (token + 1) (by push_cast at h; omega)]
    push_cast
    ring

theorem transmissions_length (st : DebuggerState) (cmds : List GdbCommand) :
    ∀ token : Int, (transmissions st token cmds).length = cmds.length := by
  induction cmds with
  | nil => intro _; rfl
  | cons c rest ih => intro token; simp [transmissions, ih]

theorem transmissions_getElem? (st : DebuggerState) (cmds : List GdbCommand) :
    ∀ (token : Int) (i : Nat) (c : GdbCommand), cmds[i]? = some c →
      (transmissions st token cmds)[i]?
        = some (Transmission.mk st (Nat.iterate GdbEngine.nextToken (i + 1) token) c
            (some (GdbEngine.wireCommand (Nat.iterate GdbEngine.nextToken (i + 1) token) c
              ++ "\r\n"))) := by
  induction cmds with
  | nil => intro _ i c h; simp at h
  | cons c0 rest ih =>
    intro token i c h
    cases i with
    | zero =>
      simp only [List.getElem?_cons_zero, Option.some.injEq] at h
      simp [transmissions, h]
    | succ j =>
      simp only [List.getElem?_cons_succ] at h
      have := ih (GdbEngine.nextToken token) j c h
      simp only [transmissions, List.getElem?_cons_succ, this]
      rfl

namespace GdbEngine

theorem flushQueuedCommands_sends_all (env : Environment) (queue : List GdbCommand) :
    ∀ (fuel : Nat) (s : GdbEngine), s.m_commandsToRunOnTemporaryBreak = queue →
      stateAcceptsGdbCommands s.state = true → s.gdbProcRunning = true →
      s.m_scheduledTestResponses = [] → queue.length ≤ fuel →
      ∃ s' : GdbEngine, s.flushQueuedCommands env fuel = some s'
        ∧ s'.m_commandsToRunOnTemporaryBreak = []
        ∧ s'.flushed = s.flushed ++ transmissions s.state s.currentToken queue
        ∧ s'.currentToken = Nat.iterate nextToken queue.length s.currentToken
        ∧ s'.calls = s.calls := by
  induction queue with
  | nil =>
    intro fuel s hq _ _ _ _
    refine ⟨s, ?_, hq, by simp [transmissions], rfl, rfl⟩
    cases fuel <;> simp [flushQueuedCommands, hq]
  | cons c rest ih =>
    intro fuel s hq hstate hproc htest hfuel
    cases fuel with
    | zero => simp at hfuel
    | succ n =>
      have hsend := flushCommand_sends env { s with m_commandsToRunOnTemporaryBreak := rest } c
        hstate hproc (by simp [htest, QHash.value])
      obtain ⟨a, _, d, e, f, g, h, i, _⟩ := hsend
      obtain ⟨s', h1, h2, h3, h5, h6⟩ := ih n
        (flushCommand env { s with m_commandsToRunOnTemporaryBreak := rest } c) h
        (by rw [e]; exact hstate) (by rw [f]; exact hproc) (by rw [g]; exact htest)
        (by simpa using hfuel)
      refine ⟨s', ?_, h2, ?_, ?_, ?_⟩
      · rw [flushQueuedCommands, hq]
        exact h1
      · rw [h3, d, e, a]
        simp [transmissions]
      · rw [h5, a]
        rfl
      · rw [h6, i]

/-- C6 (amended): in a state that accepts commands, with the gdb process
running and no test response scheduled, `flushQueuedCommands` with fuel for
every queued command returns, with the deferred queue empty; it added to
`flushed` exactly one written entry per queued command, in queue order, the
`i`-th (from 0) under the `i`-th next token, the one the counter gives after
`i + 1` steps; that token is `currentToken + 1 + i` as long as the counter
has not reached the largest `int`. -/
theorem flushQueuedCommands_fifo (env : Environment) (fuel : Nat) (s : GdbEngine)
    (hstate : stateAcceptsGdbCommands s.state = true)
    (hproc : s.gdbProcRunning = true)
    (htest : s.m_scheduledTestResponses = [])
    (hfuel : s.m_commandsToRunOnTemporaryBreak.length ≤ fuel) :
    ∃ s' : GdbEngine, s.flushQueuedCommands env fuel = some s'
      ∧ s'.m_commandsToRunOnTemporaryBreak = []
      ∧ s'.flushed.length = s.flushed.length + s.m_commandsToRunOnTemporaryBreak.length
      ∧ (∀ (i : Nat) (t : Transmission), s.flushed[i]? = some t → s'.flushed[i]? = some t)
      ∧ (∀ (i : Nat) (cmd : GdbCommand), s.m_commandsToRunOnTemporaryBreak[i]? = some cmd →
          s'.flushed[s.flushed.length + i]?
              = some (Transmission.mk s.state (Nat.iterate nextToken (i + 1) s.currentToken) cmd
                  (some (wireCommand (Nat.iterate nextToken (i + 1) s.currentToken) cmd
                    ++ "\r\n")))
            ∧ (s.currentToken + i < 2147483647 →
                Nat.iterate nextToken (i + 1) s.currentToken = s.currentToken + 1 + i))
      ∧ s'.currentToken
          = Nat.iterate nextToken s.m_commandsToRunOnTemporaryBreak.length s.currentToken := by
  obtain ⟨s', h1, h2, h3, h5, _⟩ := flushQueuedCommands_sends_all env
    s.m_commandsToRunOnTemporaryBreak fuel s rfl hstate hproc htest hfuel
  refine ⟨s', h1, h2, ?_, ?_, ?_, h5⟩
  · rw [h3, List.length_append, transmissions_length]
  · intro i t ht
    rw [h3, List.getElem?_append_left (by
      rcases Nat.lt_or_ge i s.flushed.length with h | h
      · exact h
      · rw [List.getElem?_eq_none h] at ht; cases ht), ht]
  · intro i cmd hcmd
    constructor
    · rw [h3, List.getElem?_append_right (by omega)]
      simpa using transmissions_getElem? s.state _ s.currentToken i cmd hcmd
    · intro hlt
      rw [iterate_nextToken (i + 1) s.currentToken (by push_cast; omega)]
      push_cast
      ring

end GdbEngine

end Debugger

namespace Debugger

open DebuggerState GdbResultClass

namespace GdbEngine

theorem flushQueuedCommands_fifo_witness :
    (stateAcceptsGdbCommands Sample.interrupted.state = true
      ∧ Sample.interrupted.gdbProcRunning = true
      ∧ Sample.interrupted.m_scheduledTestResponses = []
      ∧ Sample.interrupted.m_commandsToRunOnTemporaryBreak.length ≤ 2)
    ∧ ∃ s' : GdbEngine, Sample.interrupted.flushQueuedCommands baseClass 2 = some s'
      ∧ s'.m_commandsToRunOnTemporaryBreak = []
      ∧ s'.flushed.length = 2
      ∧ s'.currentToken = 9 :=
  ⟨⟨rfl, rfl, rfl, by decide⟩,
    match flushQueuedCommands_fifo baseClass 2 Sample.interrupted rfl rfl rfl (by decide) with
    | ⟨s', h1, h2, h3, _, _, h6⟩ => ⟨s', h1, h2, h3, h6⟩⟩

/-- The run of the witness writes the two queued commands in queue order under
the tokens 8 and 9. -/
theorem flushQueuedCommands_fifo_sample_run :
    (Sample.interrupted.flushQueuedCommands baseClass 2).map
        (fun s => s.flushed.map (fun t => t.bytes))
      = some [some "8-stack-list-frames\r\n", some "9-thread-info\r\n"] := by
  rfl

/-- C6 as stated fails: in a state that accepts commands but with a gdb
process that does not run, `flushQueuedCommands` empties the deferred queue
and writes nothing: `flushCommand` returns at its assertion, and no token is
drawn.  And in a test that has scheduled a response for token 8, the first
queued command draws token 8 but is not written: its answer is faked, and
only the second command is written. -/
theorem flushQueuedCommands_fifo_counterexample :
    stateAcceptsGdbCommands Sample.gdbGone.state = true
      ∧ Sample.gdbGone.m_commandsToRunOnTemporaryBreak = [Sample.listFrames, Sample.threadInfo]
      ∧ (Sample.gdbGone.flushQueuedCommands baseClass 2).map
          (fun s => (s.m_commandsToRunOnTemporaryBreak, s.flushed, s.currentToken))
        = some ([], [], 7)
      ∧ stateAcceptsGdbCommands Sample.interruptedScheduled.state = true
      ∧ Sample.interruptedScheduled.gdbProcRunning = true
      ∧ (Sample.interruptedScheduled.flushQueuedCommands baseClass 2).map
          (fun s => s.flushed.map (fun t => (t.token, t.cmd.command, t.bytes)))
        = some [(8, "-stack-list-frames", none),
            (9, "-thread-info", some "9-thread-info\r\n")] := by
  refine ⟨rfl, rfl, ?_, rfl, rfl, ?_⟩ <;> rfl

/-! ## A deferred command written while the run is still requested -/

/-- C7 fails on the code.  After `executeNext` the state is
`InferiorRunRequested`; a command with `NeedsStop` posted then is queued.
When gdb answers `-exec-next` with the error "Cannot find bounds of current
function", `handleExecuteNext` flushes the queue before it reports the failed
run: the queued command is written under token 2 while the state is still
`InferiorRunRequested`. -/
theorem handleExecuteNext_writes_while_run_requested :
    (Sample.nextRequested.postCommandHelper (withCallbacks 1 baseClass)
        Sample.listFrames).m_commandsToRunOnTemporaryBreak = [Sample.listFrames]
      ∧ (Sample.nextRequested.postCommandHelper (withCallbacks 1 baseClass)
          Sample.listFrames).flushed = []
      ∧ Sample.listFrames.flags.NeedsStop = true ∧ Sample.listFrames.flags.Immediate = false
      ∧ ((Sample.nextRequested.postCommandHelper (withCallbacks 1 baseClass)
            Sample.listFrames).handleResultRecord (withCallbacks 1 baseClass)
              Sample.noBounds).flushed.head?
          = some (Transmission.mk InferiorRunRequested 2 Sample.listFrames
              (some "2-stack-list-frames\r\n"))
      ∧ ((Sample.nextRequested.postCommandHelper (withCallbacks 1 baseClass)
            Sample.listFrames).handleResultRecord (withCallbacks 1 baseClass)
              Sample.noBounds).calls.tail
          = [Call.notifyInferiorRunFailed, Call.notifyInferiorRunRequested] := by
  refine ⟨rfl, rfl, rfl, rfl, ?_, ?_⟩ <;> rfl

/-- The sibling `handleExecuteStep` at the same point reports the failed run
first, so the queued command is written in state `InferiorStopOk`. -/
theorem handleExecuteStep_writes_after_stop :
    ((Sample.stepRequested.postCommandHelper (withCallbacks 1 baseClass)
          Sample.listFrames).handleResultRecord (withCallbacks 1 baseClass)
            Sample.noBounds).flushed.head?
        = some (Transmission.mk InferiorStopOk 2 Sample.listFrames
            (some "2-stack-list-frames\r\n")) := by
  rfl

end GdbEngine

end Debugger

namespace Debugger

open DebuggerState GdbResultClass

/-! ## Properties kept along every run -/

namespace Invariant

variable {env : Environment} {P : GdbEngine → Prop}

theorem keeps_flushCommand (inv : Invariant env P) (s : GdbEngine) (cmd : GdbCommand) (h : P s) :
    P (s.flushCommand env cmd) := by
  unfold GdbEngine.flushCommand
  split
  · exact h
  split
  · exact h
  have hd := fun b => inv.draw s cmd b h
  dsimp only
  split
  · refine inv.call _ _ rfl ?_
    exact inv.frame _ _ (hd none) rfl rfl rfl rfl
  · split <;> split <;> exact inv.frame _ _ (hd _) rfl rfl rfl rfl

theorem keeps_setTokenBarrier (inv : Invariant env P) (s : GdbEngine) (h : P s) :
    P s.setTokenBarrier := by
  unfold GdbEngine.setTokenBarrier
  dsimp only
  split
  · exact h
  · exact inv.frame _ _ h rfl rfl rfl rfl

theorem keeps_postCommandImmediate (inv : Invariant env P) (s : GdbEngine) (cmd : GdbCommand)
    (h : P s) : P (s.postCommandImmediate env cmd) := by
  unfold GdbEngine.postCommandImmediate
  split
  · exact h
  · exact inv.keeps_flushCommand _ _ (inv.frame _ _ h rfl rfl rfl rfl)

theorem keeps_interruptThroughDevice (inv : Invariant env P) (s : GdbEngine) (h : P s) :
    P (s.interruptThroughDevice env) := by
  have h1 : ∀ (s1 : GdbEngine) (b : Bool), P s1 →
      P (if b then s1.call env .notifyInferiorStopFailed else s1) := by
    intro s1 b hs1
    cases b
    · exact hs1
    · exact inv.call _ _ rfl hs1
  unfold GdbEngine.interruptThroughDevice
  exact inv.call _ _ rfl (inv.frame _ _ (h1 _ _ (h1 _ _ h)) rfl rfl rfl rfl)

theorem keeps_interruptInferior (inv : Invariant env P) (s : GdbEngine) (h : P s) :
    P (s.interruptInferior env) := by
  unfold GdbEngine.interruptInferior
  split
  · exact h
  split
  · exact inv.keeps_postCommandImmediate _ _ h
  split
  · exact inv.keeps_interruptThroughDevice _ h
  · exact inv.call _ _ rfl h

theorem keeps_requestInterruptInferior (inv : Invariant env P) (s : GdbEngine) (h : P s) :
    P (s.requestInterruptInferior env) :=
  inv.keeps_interruptInferior _ (inv.call _ _ rfl h)

theorem keeps_interruptInferiorTemporarily (inv : Invariant env P) (s : GdbEngine) (h : P s) :
    P (s.interruptInferiorTemporarily env) := by
  unfold GdbEngine.interruptInferiorTemporarily
  split
  · exact inv.call _ _ rfl h
  · exact inv.keeps_requestInterruptInferior _ h

theorem keeps_postCommandHelper (inv : Invariant env P) (s : GdbEngine) (cmd : GdbCommand)
    (h : P s) : P (s.postCommandHelper env cmd) := by
  have hf : ∀ s' : GdbEngine, s'.flushed = s.flushed → s'.currentToken = s.currentToken →
      s'.m_cookieForToken = s.m_cookieForToken → s'.calls = s.calls → P s' :=
    fun s' a b c d => inv.frame s s' h a b c d
  simp only [GdbEngine.postCommandHelper]
  split_ifs
  all_goals first
    | exact h
    | exact inv.keeps_flushCommand _ _ (hf _ rfl rfl rfl rfl)
    | exact inv.call _ _ rfl (hf _ rfl rfl rfl rfl)
    | exact inv.keeps_interruptInferiorTemporarily _ (hf _ rfl rfl rfl rfl)
    | exact hf _ rfl rfl rfl rfl

theorem keeps_postCommand (inv : Invariant env P) (s : GdbEngine) (command : String)
    (flags : GdbCommandFlags) (callback : Option GdbCommandCallback)
    (callbackName : Option String) (cookie : QVariant) (h : P s) :
    P (s.postCommand env command flags callback callbackName cookie) :=
  inv.keeps_postCommandHelper _ _ h

theorem keeps_executeNextI (inv : Invariant env P) (s : GdbEngine) (h : P s) :
    P (s.executeNextI env) := by
  unfold GdbEngine.executeNextI
  dsimp only
  have h1 := inv.call _ Call.notifyInferiorRunRequested rfl
    (inv.keeps_setTokenBarrier s h)
  split <;> exact inv.keeps_postCommand _ _ _ _ _ _ h1

theorem keeps_handleUnsolicitedResult (inv : Invariant env P) (s : GdbEngine)
    (response : GdbResponse) (h : P s) : P (s.handleUnsolicitedResult env response) := by
  have hc : ∀ (s' : GdbEngine) (c : Call), c.isCallback = false → P s' →
      P (s'.call env c) := inv.call
  simp only [GdbEngine.handleUnsolicitedResult]
  split_ifs
  all_goals first
    | exact h
    | exact hc _ _ rfl h
    | exact hc _ _ rfl (hc _ _ rfl h)
    | exact hc _ _ rfl
        (hc _ _ rfl (hc _ _ rfl h))
    | exact inv.keeps_executeNextI _ (hc _ _ rfl h)

theorem keeps_finishBreakpointRequest (inv : Invariant env P) (s : GdbEngine) (cmd : GdbCommand)
    (h : P s) : P (s.finishBreakpointRequest env cmd) := by
  simp only [GdbEngine.finishBreakpointRequest]
  split_ifs
  · exact inv.call _ _ rfl (inv.frame _ _ h rfl rfl rfl rfl)
  · exact inv.frame _ _ h rfl rfl rfl rfl
  · exact h

theorem keeps_interruptIfQueued (inv : Invariant env P) (s : GdbEngine) (h : P s) :
    P (s.interruptIfQueued env) := by
  simp only [GdbEngine.interruptIfQueued]
  split_ifs
  · exact inv.keeps_interruptInferiorTemporarily _ h
  · exact h

theorem keeps_runCommandsDoneCallback (inv : Invariant env P) (s : GdbEngine)
    (response : GdbResponse) (h : P s) : P (s.runCommandsDoneCallback env response) := by
  unfold GdbEngine.runCommandsDoneCallback
  split
  · split_ifs
    · exact inv.call _ _ rfl (inv.frame _ _ h rfl rfl rfl rfl)
    · exact inv.frame _ _ h rfl rfl rfl rfl
    · exact h
  · exact h

theorem keeps_stopCommandTimerIfIdle (inv : Invariant env P) (s : GdbEngine) (h : P s) :
    P s.stopCommandTimerIfIdle := by
  unfold GdbEngine.stopCommandTimerIfIdle
  split_ifs
  · exact inv.frame _ _ h rfl rfl rfl rfl
  · exact h

theorem keeps_handleResultRecord (inv : Invariant env P) (s : GdbEngine) (response : GdbResponse)
    (h : P s) : P (s.handleResultRecord env response) := by
  unfold GdbEngine.handleResultRecord
  dsimp only
  by_cases htoken : (response.token == -1) = true
  · rw [if_pos htoken]
    exact h
  rw [if_neg htoken]
  have htoken2 : response.token ≠ -1 := by simpa using htoken
  cases hcmd : s.m_cookieForToken.value response.token with
  | none => exact inv.keeps_handleUnsolicitedResult _ _ h
  | some cmd =>
    dsimp only
    split
    · exact inv.drop _ _ h
    · apply inv.keeps_stopCommandTimerIfIdle
      apply inv.keeps_runCommandsDoneCallback
      apply inv.keeps_interruptIfQueued
      apply inv.keeps_finishBreakpointRequest
      cases hcb : cmd.callback with
      | none => exact inv.frame _ _ (inv.drop _ response.token h) rfl rfl rfl rfl
      | some cb => exact inv.resolve s _ response cmd cb h htoken2 hcmd hcb rfl rfl rfl rfl

theorem keeps_step (inv : Invariant env P) (s : GdbEngine) (e : Event) (h : P s) :
    P (s.step env e) := by
  cases e with
  | post cmd => exact inv.keeps_postCommandHelper _ _ h
  | flush cmd => exact inv.keeps_flushCommand _ _ h
  | flushFirst =>
    simp only [GdbEngine.step]
    split
    · exact h
    · exact inv.keeps_flushCommand _ _ (inv.frame _ _ h rfl rfl rfl rfl)
  | result response => exact inv.keeps_handleResultRecord _ _ h
  | barrier => exact inv.keeps_setTokenBarrier _ h
  | external c other => exact inv.call _ _ other h

theorem keeps_run (inv : Invariant env P) (events : List Event) :
    ∀ s : GdbEngine, P s → P (s.run env events) := by
  induction events with
  | nil => intro s h; exact h
  | cons e rest ih => intro s h; exact ih _ (inv.keeps_step _ _ h)

end Invariant

end Debugger

namespace Debugger

open DebuggerState GdbResultClass

/-! ## Callbacks that post commands keep what the command path keeps -/

namespace Invariant

variable {env : Environment} {P : GdbEngine → Prop}

theorem keeps_flushQueuedCommands (inv : Invariant env P) :
    ∀ (fuel : Nat) (s s' : GdbEngine), P s → s.flushQueuedCommands env fuel = some s' →
      P s' := by
  intro fuel
  induction fuel with
  | zero =>
    intro s s' h hs
    unfold GdbEngine.flushQueuedCommands at hs
    split at hs
    · cases hs
      exact h
    · cases hs
  | succ n ih =>
    intro s s' h hs
    unfold GdbEngine.flushQueuedCommands at hs
    split at hs
    · cases hs
      exact h
    · rename_i cmd rest _
      exact ih (GdbEngine.flushCommand env { s with m_commandsToRunOnTemporaryBreak := rest } cmd)
        s' (inv.keeps_flushCommand _ _ (inv.frame _ _ h rfl rfl rfl rfl)) hs

theorem keeps_flushIfQueued (inv : Invariant env P) (fuel : Nat) (s s' : GdbEngine) (h : P s)
    (hs : (if !s.m_commandsToRunOnTemporaryBreak.isEmpty then s.flushQueuedCommands env fuel
      else some s) = some s') : P s' := by
  split at hs
  · exact inv.keeps_flushQueuedCommands fuel s s' h hs
  · cases hs
    exact h

theorem keeps_executeStepI (inv : Invariant env P) (s : GdbEngine) (h : P s) :
    P (s.executeStepI env) := by
  unfold GdbEngine.executeStepI
  dsimp only
  have h1 := inv.call _ Call.notifyInferiorRunRequested rfl (inv.keeps_setTokenBarrier s h)
  split <;> exact inv.keeps_postCommand _ _ _ _ _ _ h1

theorem keeps_continueInferiorInternal (inv : Invariant env P) (s : GdbEngine) (h : P s) :
    P (s.continueInferiorInternal env) :=
  inv.keeps_postCommand _ _ _ _ _ _ (inv.call _ Call.notifyInferiorRunRequested rfl h)

theorem keeps_showExecutionError (inv : Invariant env P) (s : GdbEngine) (message : String)
    (h : P s) : P (s.showExecutionError env message) :=
  inv.call _ _ rfl h

theorem keeps_handleExecuteStep (inv : Invariant env P) (fuel : Nat) (s s' : GdbEngine)
    (response : GdbResponse) (h : P s) (hs : s.handleExecuteStep env fuel response = some s') :
    P s' := by
  unfold GdbEngine.handleExecuteStep at hs
  dsimp only at hs
  split at hs
  · cases hs; exact h
  split at hs
  · cases hs; exact inv.call _ _ rfl h
  split at hs
  · have h1 := inv.call s Call.notifyInferiorRunFailed rfl h
    split at hs
    · cases hs; exact h1
    · rw [Option.map_eq_some'] at hs
      obtain ⟨s1, hs1, rfl⟩ := hs
      exact inv.keeps_executeStepI _ (inv.keeps_flushIfQueued fuel _ s1 h1 hs1)
  split at hs
  · cases hs
    exact inv.call _ _ rfl (inv.keeps_showExecutionError _ _ h)
  split at hs
  · cases hs
    exact inv.keeps_continueInferiorInternal _ h
  · cases hs
    exact inv.call _ _ rfl (inv.keeps_showExecutionError _ _ h)

theorem keeps_handleExecuteNext (inv : Invariant env P) (fuel : Nat) (s s' : GdbEngine)
    (response : GdbResponse) (h : P s) (hs : s.handleExecuteNext env fuel response = some s') :
    P s' := by
  unfold GdbEngine.handleExecuteNext at hs
  dsimp only at hs
  split at hs
  · cases hs; exact h
  split at hs
  · cases hs; exact inv.call _ _ rfl h
  split at hs
  · rw [Option.map_eq_some'] at hs
    obtain ⟨s1, hs1, rfl⟩ := hs
    have h1 := inv.call _ Call.notifyInferiorRunFailed rfl (inv.keeps_flushIfQueued fuel _ s1 h hs1)
    split
    · exact inv.keeps_executeNextI _ h1
    · exact h1
  split at hs
  · cases hs
    exact inv.call _ _ rfl (inv.keeps_showExecutionError _ _ h)
  · cases hs
    exact inv.call _ _ rfl (inv.call _ _ rfl h)

/-- An environment that dispatches the embedded callbacks keeps a property
that the command path keeps, when the environment below it does. -/
theorem keeps_withCallbacks (inv : Invariant env P)
    (henv : ∀ (c : Call) (s : GdbEngine), P s → P (env c s)) (fuel : Nat) (c : Call)
    (s : GdbEngine) (h : P s) : P (withCallbacks fuel env c s) := by
  unfold Debugger.withCallbacks
  split
  · rename_i response
    cases hs : s.handleExecuteNext env fuel response with
    | none => exact h
    | some s' => exact inv.keeps_handleExecuteNext fuel s s' response h hs
  · rename_i response
    cases hs : s.handleExecuteStep env fuel response with
    | none => exact h
    | some s' => exact inv.keeps_handleExecuteStep fuel s s' response h hs
  · exact henv _ _ h

end Invariant

end Debugger

namespace Debugger

open DebuggerState GdbResultClass

/-! ## Tokens and the commands they stand for -/

theorem Consecutive.token_eq {l : List Transmission} (h : Consecutive l)
    (hmax : ∀ a ∈ l, a.token ≠ 2147483647) :
    ∀ (i : Nat) (a b : Transmission), l[0]? = some a → l[i]? = some b →
      b.token = a.token + i := by
  intro i
  induction i with
  | zero =>
    intro a b ha hb
    rw [ha] at hb
    cases hb
    simp
  | succ n ih =>
    intro a b ha hb
    have hn : n < l.length := by
      have := (List.getElem?_eq_some.mp hb).1
      omega
    have hc : l[n]? = some l[n] := List.getElem?_eq_getElem hn
    rw [h n _ b hc hb, GdbEngine.nextToken_of_ne _ (hmax _ (List.getElem_mem hn)),
      ih a _ ha hc]
    push_cast
    ring

theorem Consecutive.increasing {l : List Transmission} (h : Consecutive l)
    (hmax : ∀ a ∈ l, a.token ≠ 2147483647)
    (i j : Nat) (a b : Transmission) (hij : i < j) (ha : l[i]? = some a) (hb : l[j]? = some b) :
    a.token < b.token := by
  have hi : i < l.length := (List.getElem?_eq_some.mp ha).1
  have h0 : l[0]? = some l[0] := List.getElem?_eq_getElem (by omega)
  have e1 := h.token_eq hmax i _ a h0 ha
  have e2 := h.token_eq hmax j _ b h0 hb
  rw [e1, e2]
  omega

theorem Consecutive.unique {l : List Transmission} (h : Consecutive l)
    (hmax : ∀ a ∈ l, a.token ≠ 2147483647)
    (a b : Transmission) (ha : a ∈ l) (hb : b ∈ l) (htoken : a.token = b.token) : a = b := by
  obtain ⟨i, hi⟩ := List.mem_iff_getElem?.mp ha
  obtain ⟨j, hj⟩ := List.mem_iff_getElem?.mp hb
  rcases Nat.lt_trichotomy i j with hlt | heq | hgt
  · have := h.increasing hmax i j a b hlt hi hj
    omega
  · subst heq
    rw [hi] at hj
    exact Option.some.inj hj
  · have := h.increasing hmax j i b a hgt hj hi
    omega

theorem Consecutive.concat {l : List Transmission} (h : Consecutive l) (x : Transmission)
    (hlast : ∀ a : Transmission, l.getLast? = some a → x.token = GdbEngine.nextToken a.token) :
    Consecutive (l ++ [x]) := by
  intro i a b ha hb
  by_cases hi : i + 1 < l.length
  · rw [List.getElem?_append_left (by omega)] at ha
    rw [List.getElem?_append_left hi] at hb
    exact h i a b ha hb
  · have hb2 := (List.getElem?_eq_some.mp hb).1
    simp only [List.length_append, List.length_singleton] at hb2
    have hil : i + 1 = l.length := by omega
    rw [List.getElem?_append_left (by omega)] at ha
    rw [hil, List.getElem?_concat_length] at hb
    cases hb
    apply hlast
    rw [List.getLast?_eq_getElem?]
    have : l.length - 1 = i := by omega
    rw [this]
    exact ha

theorem CountsUp.countsUp_of_frame {s s' : GdbEngine} (h : CountsUp s) (e1 : s'.flushed = s.flushed)
    (e2 : s'.currentToken = s.currentToken) : CountsUp s' :=
  ⟨by rw [e1]; exact h.consecutive, by rw [e1, e2]; exact h.last⟩

theorem Correlated.correlated_of_frame {s s' : GdbEngine} (h : Correlated s) (e1 : s'.flushed = s.flushed)
    (e3 : s'.m_cookieForToken = s.m_cookieForToken) (e4 : s'.calls = s.calls) :
    Correlated s' :=
  ⟨by rw [e1, e3]; exact h.stored, by rw [e1, e4]; exact h.answered⟩

namespace CountsUp

theorem countsUp_invariant (env : Environment)
    (henv : ∀ (c : Call) (s : GdbEngine), CountsUp s → CountsUp (env c s)) :
    Invariant env CountsUp where
  frame := fun s s' h e1 e2 _ _ => h.countsUp_of_frame e1 e2
  call := fun s c _ h => henv _ _ (h.countsUp_of_frame rfl rfl)
  draw := by
    intro s cmd bytes h
    refine ⟨?_, ?_⟩
    · exact h.consecutive.concat _ (fun a ha => by rw [h.last a ha])
    · intro a ha
      rw [List.getLast?_concat] at ha
      cases ha
      rfl
  drop := fun s token h => h.countsUp_of_frame rfl rfl
  resolve := fun s s0 response cmd cb h _ _ _ e1 e2 _ _ =>
    henv _ _ ((h.countsUp_of_frame e1 e2).countsUp_of_frame rfl rfl)

end CountsUp

namespace Correlated

theorem correlated_invariant (env : Environment)
    (henv : ∀ (c : Call) (s : GdbEngine), Correlated s → Correlated (env c s)) :
    Invariant env Correlated where
  frame := fun s s' h e1 _ e3 e4 => h.correlated_of_frame e1 e3 e4
  call := by
    intro s c hc h
    apply henv
    refine ⟨h.stored, ?_⟩
    intro cb response hmem
    rcases List.mem_append.mp hmem with h1 | h1
    · exact h.answered cb response h1
    · rw [List.mem_singleton] at h1
      rw [← h1] at hc
      cases hc
  draw := by
    intro s cmd bytes h
    refine ⟨?_, ?_⟩
    · intro e he
      rcases QHash.mem_insert he with h1 | h1
      · exact ⟨_, List.mem_append_right _ (List.mem_singleton.mpr rfl), by rw [h1], by rw [h1]⟩
      · obtain ⟨t, ht, h2⟩ := h.stored e h1.1
        exact ⟨t, List.mem_append_left _ ht, h2⟩
    · intro cb response hmem
      obtain ⟨t, ht, h2⟩ := h.answered cb response hmem
      exact ⟨t, List.mem_append_left _ ht, h2⟩
  drop := by
    intro s token h
    exact ⟨fun e he => h.stored e (QHash.mem_remove he).1, h.answered⟩
  resolve := by
    intro s s0 response cmd cb h _ hcmd hcb e1 e2 e3 e4
    apply henv
    refine ⟨?_, ?_⟩
    · intro e he
      rw [e3] at he
      rw [e1]
      exact h.stored e (QHash.mem_remove he).1
    · intro cb2 response2 hmem
      show ∃ t ∈ s0.flushed, _
      rw [e1]
      rcases List.mem_append.mp hmem with h1 | h1
      · rw [e4] at h1
        exact h.answered cb2 response2 h1
      · rw [List.mem_singleton] at h1
        cases h1
        obtain ⟨t, ht, h2, h3⟩ := h.stored _ (QHash.value_mem hcmd)
        exact ⟨t, ht, h2, by rw [h3]; exact hcb, by rw [h3]⟩

end Correlated

end Debugger

namespace Debugger

open DebuggerState GdbResultClass

theorem baseClass_frame (c : Call) (s : GdbEngine) :
    (baseClass c s).flushed = s.flushed ∧ (baseClass c s).currentToken = s.currentToken
      ∧ (baseClass c s).m_cookieForToken = s.m_cookieForToken
      ∧ (baseClass c s).calls = s.calls := by
  cases c <;> exact ⟨rfl, rfl, rfl, rfl⟩

theorem baseClass_countsUp (c : Call) (s : GdbEngine) (h : CountsUp s) :
    CountsUp (baseClass c s) :=
  h.countsUp_of_frame (baseClass_frame c s).1 (baseClass_frame c s).2.1

theorem baseClass_correlated (c : Call) (s : GdbEngine) (h : Correlated s) :
    Correlated (baseClass c s) :=
  h.correlated_of_frame (baseClass_frame c s).1 (baseClass_frame c s).2.2.1 (baseClass_frame c s).2.2.2

theorem withCallbacks_countsUp (fuel : Nat) (c : Call) (s : GdbEngine)
    (h : CountsUp s) : CountsUp (withCallbacks fuel baseClass c s) :=
  (CountsUp.countsUp_invariant baseClass baseClass_countsUp).keeps_withCallbacks
    baseClass_countsUp fuel c s h

theorem withCallbacks_correlated (fuel : Nat) (c : Call) (s : GdbEngine)
    (h : Correlated s) : Correlated (withCallbacks fuel baseClass c s) :=
  (Correlated.correlated_invariant baseClass baseClass_correlated).keeps_withCallbacks
    baseClass_correlated fuel c s h

/-- A second engine that draws tokens from the shared counter does not touch
what this engine has flushed, stored or called. -/
theorem twoEngines_correlated (c : Call) (s : GdbEngine) (h : Correlated s) :
    Correlated (Sample.twoEngines c s) := by
  unfold Sample.twoEngines
  split
  · exact h.correlated_of_frame rfl rfl rfl
  · exact baseClass_correlated _ _ h

theorem CountsUp.countsUp_fresh (s : GdbEngine) (h1 : s.flushed = []) : CountsUp s := by
  refine ⟨?_, ?_⟩
  · intro i a b ha
    rw [h1] at ha
    simp at ha
  · intro a ha
    rw [h1] at ha
    simp at ha

theorem Correlated.correlated_fresh (s : GdbEngine) (h2 : s.m_cookieForToken = []) (h3 : s.calls = []) :
    Correlated s := by
  refine ⟨?_, ?_⟩
  · intro e he
    rw [h2] at he
    simp at he
  · intro cb response hmem
    rw [h3] at hmem
    simp at hmem

namespace GdbEngine

/-- C2 (amended): along every sequence of events (commands posted or flushed,
result records, token barriers, other activity of the collaborators, draws of
other engines from the shared counter among it), from an engine whose token
map and callbacks go by the tokens and with collaborators that keep it so,
every callback that was called was called for a record whose token was drawn
for a command with exactly that callback, and with that command's cookie in
the response.  When moreover no other engine draws a token in between, each
token `flushCommand` drew is the one the counter gives after the token before:
that token plus one, except that 2147483647 is followed by -2147483648; and as
long as no token has reached 2147483647, the tokens are strictly increasing
and a token stands for one flushed command only. -/
theorem tokens_correlate (env : Environment)
    (henv : ∀ (c : Call) (s : GdbEngine), Correlated s → Correlated (env c s))
    (s : GdbEngine) (hs : Correlated s) (events : List Event) :
    (∀ (cb : GdbCommandCallback) (response : GdbResponse),
        Call.callback cb response ∈ (s.run env events).calls →
        ∃ t ∈ (s.run env events).flushed, t.token = response.token
          ∧ t.cmd.callback = some cb ∧ t.cmd.cookie = response.cookie)
      ∧ ((∀ (c : Call) (s0 : GdbEngine), CountsUp s0 → CountsUp (env c s0)) → CountsUp s →
          (∀ (i : Nat) (a b : Transmission), (s.run env events).flushed[i]? = some a →
              (s.run env events).flushed[i + 1]? = some b →
              b.token = nextToken a.token ∧ (a.token ≠ 2147483647 → b.token = a.token + 1)
                ∧ (a.token = 2147483647 → b.token = -2147483648))
            ∧ ((∀ a ∈ (s.run env events).flushed, a.token ≠ 2147483647) →
                (∀ (i j : Nat) (a b : Transmission), i < j →
                    (s.run env events).flushed[i]? = some a →
                    (s.run env events).flushed[j]? = some b → a.token < b.token)
                  ∧ (∀ a b : Transmission, a ∈ (s.run env events).flushed →
                      b ∈ (s.run env events).flushed → a.token = b.token → a = b))) := by
  have h := (Correlated.correlated_invariant env henv).keeps_run events s hs
  refine ⟨h.answered, fun hcount hs2 => ?_⟩
  have h2 := (CountsUp.countsUp_invariant env hcount).keeps_run events s hs2
  refine ⟨fun i a b ha hb => ⟨h2.consecutive i a b ha hb, fun hne => ?_, fun heq => ?_⟩,
    fun hmax => ?_⟩
  · rw [h2.consecutive i a b ha hb, nextToken_of_ne _ hne]
  · rw [h2.consecutive i a b ha hb, heq]
    rfl
  · exact ⟨fun i j a b hij ha hb => h2.consecutive.increasing hmax i j a b hij ha hb,
      h2.consecutive.unique hmax⟩

theorem tokens_correlate_witness :
    ((∀ (c : Call) (s : GdbEngine), Correlated s → Correlated (Sample.twoEngines c s))
      ∧ Correlated Sample.stopped)
    ∧ (∀ (cb : GdbCommandCallback) (response : GdbResponse),
        Call.callback cb response
            ∈ (Sample.stopped.run Sample.twoEngines
                (Sample.interleaved ++ [Event.result Sample.noBounds8])).calls →
          ∃ t ∈ (Sample.stopped.run Sample.twoEngines
              (Sample.interleaved ++ [Event.result Sample.noBounds8])).flushed,
            t.token = response.token ∧ t.cmd.callback = some cb
              ∧ t.cmd.cookie = response.cookie)
    ∧ ((∀ (c : Call) (s : GdbEngine),
          Correlated s → Correlated (withCallbacks 2 baseClass c s))
      ∧ (∀ (c : Call) (s : GdbEngine), CountsUp s → CountsUp (withCallbacks 2 baseClass c s))
      ∧ CountsUp Sample.stopped)
    ∧ (∀ (i : Nat) (a b : Transmission),
        (Sample.stopped.run (withCallbacks 2 baseClass) Sample.refusedNext).flushed[i]? = some a →
        (Sample.stopped.run (withCallbacks 2 baseClass) Sample.refusedNext).flushed[i + 1]?
          = some b →
        b.token = nextToken a.token ∧ (a.token ≠ 2147483647 → b.token = a.token + 1)
          ∧ (a.token = 2147483647 → b.token = -2147483648)) :=
  ⟨⟨twoEngines_correlated, Correlated.correlated_fresh _ rfl rfl⟩,
    (tokens_correlate Sample.twoEngines twoEngines_correlated
      Sample.stopped (Correlated.correlated_fresh _ rfl rfl)
      (Sample.interleaved ++ [Event.result Sample.noBounds8])).1,
    ⟨withCallbacks_correlated 2, withCallbacks_countsUp 2, CountsUp.countsUp_fresh _ rfl⟩,
    ((tokens_correlate (withCallbacks 2 baseClass) (withCallbacks_correlated 2)
      Sample.stopped (Correlated.correlated_fresh _ rfl rfl) Sample.refusedNext).2
        (withCallbacks_countsUp 2) (CountsUp.countsUp_fresh _ rfl)).1⟩

/-- Without a second engine the tokens of a run count up: in the run of a
refused step the tokens 8, 9 and 10 are drawn, and one callback is called,
the one of the command flushed under token 8.  With a second engine that
sends a command in between, the record with token 8 still calls the callback
of the command this engine flushed under token 8. -/
theorem tokens_correlate_sample_run :
    (Sample.stopped.run (withCallbacks 2 baseClass) Sample.refusedNext).flushed.map
        (fun t => (t.token, t.cmd.command))
      = [(8, "-exec-next"), (9, "-stack-list-frames"), (10, "-exec-next-instruction")]
    ∧ (Sample.stopped.run (withCallbacks 2 baseClass) Sample.refusedNext).calls
      = [Call.notifyInferiorRunRequested, Call.callback "handleExecuteNext" Sample.noBounds8,
          Call.notifyInferiorRunFailed, Call.notifyInferiorRunRequested]
    ∧ (Sample.stopped.run Sample.twoEngines
          (Sample.interleaved ++ [Event.result Sample.noBounds8])).calls
      = [Sample.otherEngineFlushes, Call.callback "handleThreadInfo" Sample.noBounds8] := by
  refine ⟨?_, ?_, ?_⟩ <;> rfl

/-- C2 as stated fails: the token counter is a C++ `int`, and one `static`
counter for all the engines of the process.  From a counter that stands at
2147483646, two commands in a row draw the tokens 2147483647 and then
-2147483648, which is neither greater nor the token before plus one.  And in
a process with a second engine that sends a command in between, two commands
of this engine in a row draw the tokens 8 and 10. -/
theorem tokens_correlate_counterexample :
    (Sample.nearLimit.run baseClass
        [Event.flush Sample.threadInfo, Event.flush Sample.listLocals]).flushed.map
        (fun t => (t.token, t.bytes))
      = [(2147483647, some "2147483647-thread-info\r\n"),
          (-2147483648, some "-2147483648-stack-list-locals 2\r\n")]
    ∧ (Sample.stopped.run Sample.twoEngines Sample.interleaved).flushed.map
        (fun t => (t.token, t.bytes))
      = [(8, some "8-thread-info\r\n"), (10, some "10-stack-list-locals 2\r\n")] := by
  constructor <;> rfl

end GdbEngine

end Debugger

namespace Debugger

open DebuggerState GdbResultClass

/-! ## One callback per token -/

theorem callbacksFor_call (t : Int) (s : GdbEngine) (c : Call) :
    GdbEngine.callbacksFor t { s with calls := s.calls ++ [c] }
      = s.callbacksFor t + (if c.isCallbackFor t then 1 else 0) := by
  simp only [GdbEngine.callbacksFor, List.countP_append, List.countP_cons, List.countP_nil]
  omega

theorem isCallbackFor_of_not_callback (t : Int) (c : Call) (h : c.isCallback = false) :
    c.isCallbackFor t = false := by
  cases c <;> first | rfl | cases h

theorem Overflowed.of_flushed {s s' : GdbEngine} (h : Overflowed s)
    (e : ∀ a ∈ s.flushed, a ∈ s'.flushed) : Overflowed s' := by
  obtain ⟨a, ha, h1⟩ := h
  exact ⟨a, e a ha, h1⟩

/-- A property that every step of the command path keeps except for the draw
of a token at the largest `int` is kept along the command path for as long as
the token counter has not run over. -/
theorem Invariant.unlessOverflowed {env : Environment} {P : GdbEngine → Prop}
    (henv : ∀ (c : Call) (s : GdbEngine),
      Overflowed s ∨ P s → Overflowed (env c s) ∨ P (env c s))
    (frame : ∀ s s' : GdbEngine, P s → s'.flushed = s.flushed →
      s'.currentToken = s.currentToken → s'.m_cookieForToken = s.m_cookieForToken →
      s'.calls = s.calls → P s')
    (call : ∀ (s : GdbEngine) (c : Call), c.isCallback = false → P s →
      P { s with calls := s.calls ++ [c] })
    (draw : ∀ (s : GdbEngine) (cmd : GdbCommand) (bytes : Option String), P s →
      s.currentToken ≠ 2147483647 →
      P { s with
        currentToken := s.currentToken + 1,
        m_cookieForToken := s.m_cookieForToken.insert (s.currentToken + 1) cmd,
        flushed := s.flushed ++ [Transmission.mk s.state (s.currentToken + 1) cmd bytes] })
    (drop : ∀ (s : GdbEngine) (token : Int), P s →
      P { s with m_cookieForToken := s.m_cookieForToken.remove token })
    (resolve : ∀ (s s0 : GdbEngine) (response : GdbResponse) (cmd : GdbCommand)
      (cb : GdbCommandCallback), P s → response.token ≠ -1 →
      s.m_cookieForToken.value response.token = some cmd → cmd.callback = some cb →
      s0.flushed = s.flushed → s0.currentToken = s.currentToken →
      s0.m_cookieForToken = s.m_cookieForToken.remove response.token → s0.calls = s.calls →
      P { s0 with
        calls := s0.calls ++ [Call.callback cb { response with cookie := cmd.cookie }] }) :
    Invariant env (fun s => Overflowed s ∨ P s) where
  frame := by
    intro s s' h e1 e2 e3 e4
    rcases h with h | h
    · exact Or.inl (h.of_flushed (fun a ha => by rw [e1]; exact ha))
    · exact Or.inr (frame s s' h e1 e2 e3 e4)
  call := by
    intro s c hc h
    apply henv
    rcases h with h | h
    · exact Or.inl (h.of_flushed (fun a ha => ha))
    · exact Or.inr (call s c hc h)
  draw := by
    intro s cmd bytes h
    rcases h with h | h
    · exact Or.inl (h.of_flushed (fun a ha => List.mem_append_left _ ha))
    · by_cases hmax : s.currentToken = 2147483647
      · left
        refine ⟨_, List.mem_append_right _ (List.mem_singleton.mpr rfl), ?_⟩
        show GdbEngine.nextToken s.currentToken = -2147483648
        rw [hmax]
        rfl
      · right
        rw [GdbEngine.nextToken_of_ne _ hmax]
        exact draw s cmd bytes h hmax
  drop := by
    intro s token h
    rcases h with h | h
    · exact Or.inl (h.of_flushed (fun a ha => ha))
    · exact Or.inr (drop s token h)
  resolve := by
    intro s s0 response cmd cb h h1 h2 h3 e1 e2 e3 e4
    apply henv
    rcases h with h | h
    · exact Or.inl (h.of_flushed (fun a ha => by
        show a ∈ s0.flushed
        rw [e1]; exact ha))
    · exact Or.inr (resolve s s0 response cmd cb h h1 h2 h3 e1 e2 e3 e4)

namespace Retired

theorem retired_of_frame {t : Int} {n : Nat} {s s' : GdbEngine} (h : Retired t n s)
    (e2 : s'.currentToken = s.currentToken) (e3 : s'.m_cookieForToken = s.m_cookieForToken)
    (e4 : s'.calls = s.calls) : Retired t n s' :=
  ⟨by rw [e2]; exact h.drawn, by rw [e2, e3]; exact h.bounded,
    by rw [e3]; exact h.absent, by
      have := h.count
      unfold GdbEngine.callbacksFor at this ⊢
      rw [e4]; exact this⟩

theorem retired_invariant (env : Environment) (t : Int) (n : Nat)
    (henv : ∀ (c : Call) (s : GdbEngine),
      Overflowed s ∨ Retired t n s → Overflowed (env c s) ∨ Retired t n (env c s)) :
    Invariant env (fun s => Overflowed s ∨ Retired t n s) := by
  refine Invariant.unlessOverflowed henv ?_ ?_ ?_ ?_ ?_
  · intro s s' h _ e2 e3 e4
    exact h.retired_of_frame e2 e3 e4
  · intro s c hc h
    refine ⟨h.drawn, h.bounded, h.absent, ?_⟩
    rw [callbacksFor_call, isCallbackFor_of_not_callback t c hc]
    simpa using h.count
  · intro s cmd bytes h _
    refine ⟨?_, ?_, ?_, h.count⟩
    · show t ≤ s.currentToken + 1
      have := h.drawn
      omega
    · intro k hk
      show k ≤ s.currentToken + 1
      simp only [QHash.keys, List.mem_map] at hk
      obtain ⟨e, he, rfl⟩ := hk
      rcases QHash.mem_insert he with h1 | h1
      · rw [h1]
      · have := h.bounded e.1 (List.mem_map_of_mem _ h1.1)
        omega
    · rw [QHash.contains_eq_false_iff]
      intro hk
      simp only [QHash.keys, List.mem_map] at hk
      obtain ⟨e, he, hkey⟩ := hk
      rcases QHash.mem_insert he with h1 | h1
      · rw [h1] at hkey
        have := h.drawn
        simp only at hkey
        omega
      · exact (QHash.contains_eq_false_iff _ _).mp h.absent
          (by rw [← hkey]; exact List.mem_map_of_mem _ h1.1)
  · intro s token h
    refine ⟨h.drawn, fun k hk => h.bounded k (QHash.mem_keys_remove hk), ?_, h.count⟩
    rw [QHash.contains_eq_false_iff]
    exact fun hk => (QHash.contains_eq_false_iff _ _).mp h.absent (QHash.mem_keys_remove hk)
  · intro s s0 response cmd cb h _ hcmd _ _ e2 e3 e4
    have hne : response.token ≠ t := by
      intro heq
      have h1 := (QHash.contains_eq_false_iff _ _).mp h.absent
      have h2 := (QHash.value_eq_none_iff s.m_cookieForToken t).mpr h1
      rw [heq, h2] at hcmd
      cases hcmd
    refine ⟨by rw [e2]; exact h.drawn, ?_, ?_, ?_⟩
    · intro k hk
      show k ≤ s0.currentToken
      rw [e2]
      have hk2 : k ∈ QHash.keys s0.m_cookieForToken := hk
      rw [e3] at hk2
      exact h.bounded k (QHash.mem_keys_remove hk2)
    · show QHash.contains s0.m_cookieForToken t = false
      rw [e3, QHash.contains_eq_false_iff]
      exact fun hk => (QHash.contains_eq_false_iff _ _).mp h.absent (QHash.mem_keys_remove hk)
    · rw [callbacksFor_call]
      have hc : s0.callbacksFor t = n := by
        have := h.count
        unfold GdbEngine.callbacksFor at this ⊢
        rw [e4]; exact this
      simp [Call.isCallbackFor, hne, hc]

end Retired

namespace AtMostOnce

theorem atMostOnce_of_frame {t : Int} {s s' : GdbEngine} (h : AtMostOnce t s)
    (e2 : s'.currentToken = s.currentToken) (e3 : s'.m_cookieForToken = s.m_cookieForToken)
    (e4 : s'.calls = s.calls) : AtMostOnce t s' := by
  have e5 : s'.callbacksFor t = s.callbacksFor t := by
    unfold GdbEngine.callbacksFor
    rw [e4]
  exact ⟨by rw [e2, e3]; exact h.bounded, by rw [e5]; exact h.once,
    by rw [e5, e2, e3]; exact h.gone⟩

theorem atMostOnce_invariant (env : Environment) (t : Int)
    (henv : ∀ (c : Call) (s : GdbEngine),
      Overflowed s ∨ AtMostOnce t s → Overflowed (env c s) ∨ AtMostOnce t (env c s)) :
    Invariant env (fun s => Overflowed s ∨ AtMostOnce t s) := by
  refine Invariant.unlessOverflowed henv ?_ ?_ ?_ ?_ ?_
  · intro s s' h _ e2 e3 e4
    exact h.atMostOnce_of_frame e2 e3 e4
  · intro s c hc h
    have e5 : GdbEngine.callbacksFor t { s with calls := s.calls ++ [c] }
        = s.callbacksFor t := by
      rw [callbacksFor_call, isCallbackFor_of_not_callback t c hc]
      simp
    exact ⟨h.bounded, by rw [e5]; exact h.once, by rw [e5]; exact h.gone⟩
  · intro s cmd bytes h _
    have hb : ∀ k ∈ QHash.keys (s.m_cookieForToken.insert (s.currentToken + 1) cmd),
        k ≤ s.currentToken + 1 := by
      intro k hk
      simp only [QHash.keys, List.mem_map] at hk
      obtain ⟨e, he, rfl⟩ := hk
      rcases QHash.mem_insert he with h1 | h1
      · rw [h1]
      · have := h.bounded e.1 (List.mem_map_of_mem _ h1.1)
        omega
    refine ⟨hb, h.once, ?_⟩
    intro hc
    obtain ⟨g1, g2⟩ := h.gone hc
    refine ⟨?_, ?_⟩
    · show t ≤ s.currentToken + 1
      omega
    · rw [QHash.contains_eq_false_iff]
      intro hk
      simp only [QHash.keys, List.mem_map] at hk
      obtain ⟨e, he, hkey⟩ := hk
      rcases QHash.mem_insert he with h1 | h1
      · rw [h1] at hkey
        simp only at hkey
        omega
      · exact (QHash.contains_eq_false_iff _ _).mp g2
          (by rw [← hkey]; exact List.mem_map_of_mem _ h1.1)
  · intro s token h
    refine ⟨fun k hk => h.bounded k (QHash.mem_keys_remove hk), h.once, ?_⟩
    intro hc
    obtain ⟨g1, g2⟩ := h.gone hc
    refine ⟨g1, ?_⟩
    rw [QHash.contains_eq_false_iff]
    exact fun hk => (QHash.contains_eq_false_iff _ _).mp g2 (QHash.mem_keys_remove hk)
  · intro s s0 response cmd cb h _ hcmd _ _ e2 e3 e4
    have hkey : response.token ∈ s.m_cookieForToken.keys :=
      List.mem_map_of_mem (fun e : Int × GdbCommand => e.1) (QHash.value_mem hcmd)
    have hc0 : s0.callbacksFor t = s.callbacksFor t := by
      unfold GdbEngine.callbacksFor
      rw [e4]
    have hb : ∀ k ∈ QHash.keys s0.m_cookieForToken, k ≤ s0.currentToken := by
      intro k hk
      rw [e3] at hk
      rw [e2]
      exact h.bounded k (QHash.mem_keys_remove hk)
    have habs : ∀ u : Int, s.m_cookieForToken.contains u = false →
        QHash.contains s0.m_cookieForToken u = false := by
      intro u hu
      rw [e3, QHash.contains_eq_false_iff]
      exact fun hk => (QHash.contains_eq_false_iff _ _).mp hu (QHash.mem_keys_remove hk)
    by_cases heq : response.token = t
    · have hzero : s.callbacksFor t = 0 := by
        rcases Nat.lt_or_ge (s.callbacksFor t) 1 with h0 | h0
        · omega
        · have h1 : s.callbacksFor t = 1 := Nat.le_antisymm h.once h0
          have h2 := (QHash.contains_eq_false_iff _ _).mp (h.gone h1).2
          rw [heq] at hkey
          exact absurd hkey h2
      have hcount : GdbEngine.callbacksFor t
          { s0 with calls := s0.calls ++
            [Call.callback cb { response with cookie := cmd.cookie }] } = 1 := by
        rw [callbacksFor_call, hc0, hzero]
        simp [Call.isCallbackFor, heq]
      refine ⟨hb, by rw [hcount], fun _ => ⟨?_, ?_⟩⟩
      · show t ≤ s0.currentToken
        rw [e2, ← heq]
        exact h.bounded _ hkey
      · show QHash.contains s0.m_cookieForToken t = false
        rw [e3, ← heq, QHash.contains_eq_false_iff]
        exact QHash.not_mem_keys_remove _ _
    · have hcount : GdbEngine.callbacksFor t
          { s0 with calls := s0.calls ++
            [Call.callback cb { response with cookie := cmd.cookie }] }
          = s.callbacksFor t := by
        rw [callbacksFor_call, hc0]
        simp [Call.isCallbackFor, heq]
      refine ⟨hb, by rw [hcount]; exact h.once, ?_⟩
      intro hc
      rw [hcount] at hc
      obtain ⟨g1, g2⟩ := h.gone hc
      exact ⟨by show t ≤ s0.currentToken; rw [e2]; exact g1, habs t g2⟩

end AtMostOnce

end Debugger

namespace Debugger

open DebuggerState GdbResultClass

theorem baseClass_overflowed (c : Call) (s : GdbEngine) (h : Overflowed s) :
    Overflowed (baseClass c s) :=
  h.of_flushed (fun a ha => by rw [(baseClass_frame c s).1]; exact ha)

theorem baseClass_retired (t : Int) (n : Nat) (c : Call) (s : GdbEngine)
    (h : Retired t n s) : Retired t n (baseClass c s) :=
  h.retired_of_frame (baseClass_frame c s).2.1 (baseClass_frame c s).2.2.1 (baseClass_frame c s).2.2.2

theorem baseClass_atMostOnce (t : Int) (c : Call) (s : GdbEngine)
    (h : AtMostOnce t s) : AtMostOnce t (baseClass c s) :=
  h.atMostOnce_of_frame (baseClass_frame c s).2.1 (baseClass_frame c s).2.2.1 (baseClass_frame c s).2.2.2

theorem baseClass_retired_unlessOverflowed (t : Int) (n : Nat) (c : Call) (s : GdbEngine)
    (h : Overflowed s ∨ Retired t n s) :
    Overflowed (baseClass c s) ∨ Retired t n (baseClass c s) :=
  h.imp (baseClass_overflowed c s) (baseClass_retired t n c s)

theorem baseClass_atMostOnce_unlessOverflowed (t : Int) (c : Call) (s : GdbEngine)
    (h : Overflowed s ∨ AtMostOnce t s) :
    Overflowed (baseClass c s) ∨ AtMostOnce t (baseClass c s) :=
  h.imp (baseClass_overflowed c s) (baseClass_atMostOnce t c s)

theorem Sample.stopped_atMostOnce : AtMostOnce 8 Sample.stopped :=
  ⟨by decide, by decide, by decide⟩

theorem withCallbacks_atMostOnce (t : Int) (fuel : Nat) (c : Call) (s : GdbEngine)
    (h : Overflowed s ∨ AtMostOnce t s) :
    Overflowed (withCallbacks fuel baseClass c s)
      ∨ AtMostOnce t (withCallbacks fuel baseClass c s) :=
  (AtMostOnce.atMostOnce_invariant baseClass t
    (baseClass_atMostOnce_unlessOverflowed t)).keeps_withCallbacks
    (baseClass_atMostOnce_unlessOverflowed t) fuel c s h

theorem withCallbacks_retired (t : Int) (fuel n : Nat) (c : Call) (s : GdbEngine)
    (h : Overflowed s ∨ Retired t n s) :
    Overflowed (withCallbacks fuel baseClass c s)
      ∨ Retired t n (withCallbacks fuel baseClass c s) :=
  (Retired.retired_invariant baseClass t n
    (baseClass_retired_unlessOverflowed t n)).keeps_withCallbacks
    (baseClass_retired_unlessOverflowed t n) fuel c s h

namespace GdbEngine

/-- Handling a record whose token is in the token map retires the token, with
at most one more callback call for it than before, unless the token counter
has run over. -/
theorem handleResultRecord_retires (env : Environment) (t : Int)
    (henv : ∀ (n : Nat) (c : Call) (s : GdbEngine),
      Overflowed s ∨ Retired t n s → Overflowed (env c s) ∨ Retired t n (env c s))
    (s : GdbEngine) (response : GdbResponse) (cmd : GdbCommand)
    (htoken : response.token = t) (hsome : t ≠ -1)
    (hbounded : ∀ k ∈ s.m_cookieForToken.keys, k ≤ s.currentToken)
    (hcmd : s.m_cookieForToken.value t = some cmd) :
    ∃ n : Nat, n ≤ s.callbacksFor t + 1
      ∧ (Overflowed (s.handleResultRecord env response)
          ∨ Retired t n (s.handleResultRecord env response)) := by
  have hkey : t ∈ s.m_cookieForToken.keys :=
    List.mem_map_of_mem (fun e : Int × GdbCommand => e.1) (QHash.value_mem hcmd)
  have base : ∀ s0 : GdbEngine, s0.currentToken = s.currentToken →
      s0.m_cookieForToken = s.m_cookieForToken.remove t → s0.calls = s.calls →
      Retired t (s.callbacksFor t) s0 := by
    intro s0 e2 e3 e4
    refine ⟨by rw [e2]; exact hbounded t hkey, ?_, ?_, ?_⟩
    · intro k hk
      rw [e3] at hk
      rw [e2]
      exact hbounded k (QHash.mem_keys_remove hk)
    · rw [e3, QHash.contains_eq_false_iff]
      exact QHash.not_mem_keys_remove _ _
    · unfold callbacksFor
      rw [e4]
  subst htoken
  unfold handleResultRecord
  dsimp only
  rw [if_neg (by simpa using hsome), hcmd]
  dsimp only
  split
  · exact ⟨_, Nat.le_succ _, Or.inr (base _ rfl rfl rfl)⟩
  · cases hcb : cmd.callback with
    | none =>
      refine ⟨_, Nat.le_succ _, ?_⟩
      have inv := Retired.retired_invariant env response.token (s.callbacksFor response.token)
        (henv _)
      apply inv.keeps_stopCommandTimerIfIdle
      apply inv.keeps_runCommandsDoneCallback
      apply inv.keeps_interruptIfQueued
      apply inv.keeps_finishBreakpointRequest
      exact Or.inr (base _ rfl rfl rfl)
    | some cb =>
      refine ⟨_, Nat.le_refl _, ?_⟩
      have inv := Retired.retired_invariant env response.token (s.callbacksFor response.token + 1)
        (henv _)
      apply inv.keeps_stopCommandTimerIfIdle
      apply inv.keeps_runCommandsDoneCallback
      apply inv.keeps_interruptIfQueued
      apply inv.keeps_finishBreakpointRequest
      apply henv
      right
      have b := base { s with
        m_cookieForToken := s.m_cookieForToken.remove response.token,
        m_nonDiscardableCount :=
          if !cmd.flags.Discardable then s.m_nonDiscardableCount - 1
          else s.m_nonDiscardableCount } rfl rfl rfl
      refine ⟨b.drawn, b.bounded, b.absent, ?_⟩
      rw [callbacksFor_call, b.count]
      simp [Call.isCallbackFor]

/-- A record with a token that is not in the token map runs the recovery for
unsolicited results and nothing else. -/
theorem handleResultRecord_of_absent (env : Environment) (s : GdbEngine)
    (response : GdbResponse) (hsome : response.token ≠ -1)
    (hnone : s.m_cookieForToken.value response.token = none) :
    s.handleResultRecord env response = s.handleUnsolicitedResult env response := by
  unfold handleResultRecord
  dsimp only
  rw [if_neg (by simpa using hsome), hnone]

/-- C4 (amended): as long as the token counter has not run over (no command
was flushed under -2147483648, the token that follows 2147483647), along every
sequence of events, with collaborators that do not call the callback of token
`t` themselves or bring `t` back once it is out of the token map, at most one
callback call is made for records with token `t`.  When `handleResultRecord`
handles a record whose token `t` is in the token map, then after any further
events, as long as the counter has not run over, `t` is not in the token map,
at most one callback call for `t` was added, and every later record with token
`t` runs only the recovery for unsolicited results. -/
theorem callback_at_most_once (env : Environment) (t : Int)
    (honce : ∀ (c : Call) (s : GdbEngine),
      Overflowed s ∨ AtMostOnce t s → Overflowed (env c s) ∨ AtMostOnce t (env c s))
    (hretired : ∀ (n : Nat) (c : Call) (s : GdbEngine),
      Overflowed s ∨ Retired t n s → Overflowed (env c s) ∨ Retired t n (env c s))
    (s : GdbEngine) (hs : AtMostOnce t s) (events : List Event) :
    (Overflowed (s.run env events) ∨ (s.run env events).callbacksFor t ≤ 1)
      ∧ ∀ (response : GdbResponse) (cmd : GdbCommand) (more : List Event),
          response.token = t → t ≠ -1 →
          (s.run env events).m_cookieForToken.value t = some cmd →
          Overflowed (((s.run env events).handleResultRecord env response).run env more)
            ∨ ((((s.run env events).handleResultRecord env response).run env
                  more).m_cookieForToken.contains t = false
              ∧ (((s.run env events).handleResultRecord env response).run env more).callbacksFor t
                  ≤ (s.run env events).callbacksFor t + 1
              ∧ ∀ later : GdbResponse, later.token = t →
                  (((s.run env events).handleResultRecord env response).run env
                      more).handleResultRecord env later
                    = (((s.run env events).handleResultRecord env response).run env
                        more).handleUnsolicitedResult env later) := by
  have h1 := (AtMostOnce.atMostOnce_invariant env t honce).keeps_run events s (Or.inr hs)
  refine ⟨h1.imp id (fun h => h.once), ?_⟩
  intro response cmd more htoken hsome hcmd
  have finish : ∀ n : Nat, n ≤ (s.run env events).callbacksFor t + 1 →
      Overflowed ((s.run env events).handleResultRecord env response)
        ∨ Retired t n ((s.run env events).handleResultRecord env response) →
      Overflowed (((s.run env events).handleResultRecord env response).run env more)
        ∨ ((((s.run env events).handleResultRecord env response).run env
              more).m_cookieForToken.contains t = false
          ∧ (((s.run env events).handleResultRecord env response).run env more).callbacksFor t
              ≤ (s.run env events).callbacksFor t + 1
          ∧ ∀ later : GdbResponse, later.token = t →
              (((s.run env events).handleResultRecord env response).run env
                  more).handleResultRecord env later
                = (((s.run env events).handleResultRecord env response).run env
                    more).handleUnsolicitedResult env later) := by
    intro n hn hret
    rcases (Retired.retired_invariant env t n (hretired n)).keeps_run more _ hret with h | h
    · exact Or.inl h
    · refine Or.inr ⟨h.absent, by rw [h.count]; exact hn, ?_⟩
      intro later hlater
      have hnone := (QHash.value_eq_none_iff _ t).mpr
        ((QHash.contains_eq_false_iff _ _).mp h.absent)
      exact handleResultRecord_of_absent env _ later (by rw [hlater]; exact hsome)
        (by rw [hlater]; exact hnone)
  rcases h1 with hover | hone
  · exact finish ((s.run env events).callbacksFor t) (Nat.le_succ _)
      ((Retired.retired_invariant env t _ (hretired _)).keeps_handleResultRecord _ _
        (Or.inl hover))
  · obtain ⟨n, hn, hret⟩ := handleResultRecord_retires env t hretired _ response cmd htoken
      hsome hone.bounded hcmd
    exact finish n hn hret

theorem callback_at_most_once_witness :
    ((∀ (c : Call) (s : GdbEngine),
        Overflowed s ∨ AtMostOnce 8 s →
          Overflowed (withCallbacks 2 baseClass c s)
            ∨ AtMostOnce 8 (withCallbacks 2 baseClass c s))
      ∧ (∀ (n : Nat) (c : Call) (s : GdbEngine),
          Overflowed s ∨ Retired 8 n s →
            Overflowed (withCallbacks 2 baseClass c s)
              ∨ Retired 8 n (withCallbacks 2 baseClass c s))
      ∧ AtMostOnce 8 Sample.stopped)
    ∧ (Overflowed (Sample.stopped.run (withCallbacks 2 baseClass)
          (Sample.refusedNext ++ [Event.result Sample.noBounds8]))
        ∨ (Sample.stopped.run (withCallbacks 2 baseClass)
            (Sample.refusedNext ++ [Event.result Sample.noBounds8])).callbacksFor 8 ≤ 1) :=
  ⟨⟨fun c s h => withCallbacks_atMostOnce 8 2 c s h,
      fun n c s h => withCallbacks_retired 8 2 n c s h, Sample.stopped_atMostOnce⟩,
    (callback_at_most_once (withCallbacks 2 baseClass) 8
      (fun c s h => withCallbacks_atMostOnce 8 2 c s h)
      (fun n c s h => withCallbacks_retired 8 2 n c s h)
      Sample.stopped Sample.stopped_atMostOnce
      (Sample.refusedNext ++ [Event.result Sample.noBounds8])).1⟩

/-- In the run of the witness the counter does not run over: the tokens 8, 9,
10 and 11 are drawn, the record with token 8 arrives twice and the callback
is called once. -/
theorem callback_at_most_once_sample_count :
    (Sample.stopped.run (withCallbacks 2 baseClass)
        (Sample.refusedNext ++ [Event.result Sample.noBounds8])).callbacksFor 8 = 1
      ∧ (Sample.stopped.run (withCallbacks 2 baseClass)
          (Sample.refusedNext ++ [Event.result Sample.noBounds8])).flushed.map
          (fun t => t.token) = [8, 9, 10, 11] := by
  constructor <;> rfl

/-- C4 as stated fails: the token counter is a C++ `int` that runs over from
2147483647 to -2147483648, so a token comes back into use.  On an engine in
the second round of the counter, the callback of the command flushed under
token 5 was called in the first round and the token is out of the token map.
The next command posted draws 5 again and is stored under it, and the record
with token 5 finds that entry and calls a callback a second time.  The same
happens right at the end of the range: on an engine whose counter stands at
2147483647, where the token -2147483648 was drawn and answered one round ago,
the next command draws -2147483648 again; the collaborators there (the base
class) neither call a callback nor touch the token map. -/
theorem callback_at_most_once_counterexample :
    Overflowed Sample.secondRound
      ∧ Sample.secondRound.callbacksFor 5 = 1
      ∧ Sample.secondRound.m_cookieForToken.contains 5 = false
      ∧ (Sample.secondRound.run baseClass [Event.post Sample.threadInfo]).m_cookieForToken
          = [(5, Sample.threadInfo)]
      ∧ (Sample.secondRound.run baseClass
          [Event.post Sample.threadInfo, Event.result Sample.doneAt5]).callbacksFor 5 = 2
      ∧ AtMostOnce (-2147483648) Sample.wentRound
      ∧ (∀ (c : Call) (s : GdbEngine),
          AtMostOnce (-2147483648) s → AtMostOnce (-2147483648) (baseClass c s))
      ∧ (∀ (n : Nat) (c : Call) (s : GdbEngine),
          Retired (-2147483648) n s → Retired (-2147483648) n (baseClass c s))
      ∧ Sample.wentRound.callbacksFor (-2147483648) = 1
      ∧ (Sample.wentRound.run baseClass [Event.post Sample.threadInfo]).m_cookieForToken
          = [(-2147483648, Sample.threadInfo)]
      ∧ (Sample.wentRound.run baseClass
          [Event.post Sample.threadInfo, Event.result Sample.doneAtMin]).callbacksFor
            (-2147483648) = 2 :=
  ⟨⟨_, List.mem_cons_of_mem _ (List.mem_singleton.mpr rfl), rfl⟩, rfl, rfl, rfl, rfl,
    ⟨by decide, by decide, by decide⟩, baseClass_atMostOnce _, baseClass_retired _,
    rfl, rfl, rfl⟩

end GdbEngine

end Debugger
namespace Debugger

open DebuggerState GdbResultClass

namespace GdbEngine

/-! ## The token barrier, twice -/

/-- C11: while every command in the token map is `Discardable`, a second call
of `setTokenBarrier` right after a first one (nothing transmitted in between)
changes nothing: the engine is the one the first call left, with the watermark
at the current token and `m_stackNeeded` false. -/
theorem setTokenBarrier_twice (s : GdbEngine)
    (hgood : ∀ e ∈ s.m_cookieForToken, e.2.flags.Discardable = true) :
    s.setTokenBarrier.setTokenBarrier = s.setTokenBarrier
      ∧ s.setTokenBarrier.m_oldestAcceptableToken = s.currentToken
      ∧ s.setTokenBarrier.m_stackNeeded = false := by
  have hall : s.m_cookieForToken.all (fun e => e.2.flags.Discardable) = true :=
    List.all_eq_true.mpr hgood
  have h1 : s.setTokenBarrier
      = { s with m_oldestAcceptableToken := s.currentToken, m_stackNeeded := false } := by
    simp [setTokenBarrier, hall]
  refine ⟨?_, by rw [h1], by rw [h1]⟩
  rw [h1]
  simp [setTokenBarrier, hall]

theorem setTokenBarrier_twice_witness :
    (∀ e ∈ Sample.stale.m_cookieForToken, e.2.flags.Discardable = true)
    ∧ Sample.stale.setTokenBarrier.setTokenBarrier = Sample.stale.setTokenBarrier
    ∧ Sample.stale.setTokenBarrier.m_oldestAcceptableToken = 5 :=
  ⟨by decide,
    (setTokenBarrier_twice Sample.stale (by decide)).1,
    (setTokenBarrier_twice Sample.stale (by decide)).2.1⟩

end GdbEngine

end Debugger
namespace Debugger

open DebuggerState GdbResultClass

/-! ## The shape of a line -/

theorem takeWhile_append_stop {α : Type} (p : α → Bool) (l : List α) (c : α) (rest : List α)
    (hl : ∀ x ∈ l, p x = true) (hc : p c = false) :
    (l ++ c :: rest).takeWhile p = l := by
  induction l with
  | nil => simp [List.takeWhile, hc]
  | cons a l ih =>
    have ha : p a = true := hl a (List.mem_cons_self _ _)
    simp [List.takeWhile, ha]
    exact ih (fun x hx => hl x (List.mem_cons_of_mem _ hx))

theorem takeWhile_run {α : Type} (p : α → Bool) (l tail : List α)
    (hl : ∀ x ∈ l, p x = true) (htail : ∀ x, tail.head? = some x → p x = false) :
    (l ++ tail).takeWhile p = l := by
  cases tail with
  | nil => simpa using hl
  | cons c rest => exact takeWhile_append_stop p l c rest hl (htail c rfl)

theorem dropWhile_all_false {α : Type} (p : α → Bool) (l : List α)
    (hl : ∀ x ∈ l, p x = false) : l.dropWhile p = l := by
  cases l with
  | nil => rfl
  | cons a l => simp [List.dropWhile, hl a (List.mem_cons_self _ _)]

theorem isDigit_not_whitespace (c : Char) (h : isDigit c = true) : c.isWhitespace = false := by
  cases hw : c.isWhitespace with
  | false => rfl
  | true =>
    simp [Char.isWhitespace] at hw
    rcases hw with ((rfl | rfl) | rfl) | rfl <;> exact absurd h (by decide)

theorem tokenDigits_line (digits rest : List Char) (c : Char)
    (hdigits : ∀ x ∈ digits, isDigit x = true) (hc : isDigit c = false) :
    tokenDigits (String.mk (digits ++ c :: rest)) = digits := by
  simp only [tokenDigits]
  exact takeWhile_append_stop isDigit digits c rest hdigits hc

theorem kindChar_line (digits rest : List Char) (c : Char)
    (hdigits : ∀ x ∈ digits, isDigit x = true) (hc : isDigit c = false) :
    kindChar (String.mk (digits ++ c :: rest)) = some c := by
  rw [kindChar, kindIndex, tokenDigits_line digits rest c hdigits hc]
  rw [List.getElem?_append_right (Nat.le_refl _)]
  simp

theorem afterKind_line (digits rest : List Char) (c : Char)
    (hdigits : ∀ x ∈ digits, isDigit x = true) (hc : isDigit c = false) :
    afterKind (String.mk (digits ++ c :: rest)) = rest := by
  simp [afterKind, kindIndex, tokenDigits_line digits rest c hdigits hc]

theorem toInt_digits (digits : List Char) (hne : digits ≠ [])
    (hdigits : ∀ x ∈ digits, isDigit x = true) (hfits : decimalValue digits ≤ 2147483647) :
    toInt (String.mk digits) = decimalValue digits := by
  have hws : ∀ x ∈ digits, Char.isWhitespace x = false :=
    fun x hx => isDigit_not_whitespace x (hdigits x hx)
  have h1 : digits.dropWhile Char.isWhitespace = digits := dropWhile_all_false _ _ hws
  have h2 : digits.reverse.dropWhile Char.isWhitespace = digits.reverse :=
    dropWhile_all_false _ _ (fun x hx => hws x (List.mem_reverse.mp hx))
  obtain ⟨d, ds, rfl⟩ := List.exists_cons_of_ne_nil hne
  have hd : isDigit d = true := hdigits d (List.mem_cons_self _ _)
  have hminus : (d == '-') = false := by
    cases h : d == '-' with
    | false => rfl
    | true => rw [beq_iff_eq] at h; subst h; exact absurd hd (by decide)
  have hplus : (d == '+') = false := by
    cases h : d == '+' with
    | false => rfl
    | true => rw [beq_iff_eq] at h; subst h; exact absurd hd (by decide)
  have hall : (d :: ds).all isDigit = true := List.all_eq_true.mpr hdigits
  have hlo : (-2147483648 : Int) ≤ (decimalValue (d :: ds) : Int) := by
    have : (0 : Int) ≤ (decimalValue (d :: ds) : Int) := Int.ofNat_nonneg _
    omega
  have hhi : (decimalValue (d :: ds) : Int) ≤ 2147483647 := by exact_mod_cast hfits
  simp only [toInt, toIntegral, h1, h2, List.reverse_reverse]
  simp [hminus, hplus, hall, hlo, hhi]

theorem tokenOf_line (digits rest : List Char) (c : Char)
    (hdigits : ∀ x ∈ digits, isDigit x = true) (hc : isDigit c = false) :
    tokenOf (String.mk (digits ++ c :: rest))
      = if digits.isEmpty then -1 else toInt (String.mk digits) := by
  simp [tokenOf, tokenDigits_line digits rest c hdigits hc]

theorem line_not_skipped (digits rest : List Char) (c : Char)
    (hdigits : ∀ x ∈ digits, isDigit x = true) (hc : c ≠ '(') :
    ((String.mk (digits ++ c :: rest)).isEmpty
      || String.mk (digits ++ c :: rest) == "(gdb) ") = false := by
  have h1 : (String.mk (digits ++ c :: rest)).isEmpty = false := by
    cases h : (String.mk (digits ++ c :: rest)).isEmpty with
    | false => rfl
    | true =>
      have h3 : digits ++ c :: rest = "".data := congrArg String.data ((String.isEmpty_iff _).mp h)
      cases digits <;> simp at h3
  have h2 : (String.mk (digits ++ c :: rest) == "(gdb) ") = false := by
    cases h : String.mk (digits ++ c :: rest) == "(gdb) " with
    | false => rfl
    | true =>
      rw [beq_iff_eq] at h
      have h3 : digits ++ c :: rest = "(gdb) ".data := congrArg String.data h
      cases digits with
      | nil =>
        have : c = '(' := by
          have := congrArg List.head? h3
          simpa using this
        exact absurd this hc
      | cons d ds =>
        have hd : d = '(' := by
          have := congrArg List.head? h3
          simpa using this
        have := hdigits d (List.mem_cons_self _ _)
        rw [hd] at this
        exact absurd this (by decide)
  simp [h1, h2]

end Debugger
namespace Debugger

open DebuggerState GdbResultClass

theorem resultClassOf_mk (word : List Char) :
    resultClassOf (String.mk word) =
      (if word = "done".data then GdbResultDone
       else if word = "running".data then GdbResultRunning
       else if word = "connected".data then GdbResultConnected
       else if word = "error".data then GdbResultError
       else if word = "exit".data then GdbResultExit
       else GdbResultUnknown) := by
  have h : ∀ t : String, (String.mk word == t) = decide (word = t.data) := by
    intro t
    cases t with
    | mk l =>
      by_cases hw : word = l
      · subst hw; simp
      · have hne : String.mk word ≠ String.mk l := fun h => hw (congrArg String.data h)
        simp [hw, hne]
  simp only [resultClassOf, h]
  simp

namespace GdbEngine

theorem handleResponse_result_line (P : GdbMiFunctions) (env : Environment) (fuel : Nat)
    (s : GdbEngine) (digits rest : List Char) (hdigits : ∀ c ∈ digits, isDigit c = true) :
    s.handleResponse P env fuel (String.mk (digits ++ '^' :: rest))
      = some (handleResultRecord env
          { s with m_pendingLogStreamOutput := "", m_pendingConsoleStreamOutput := "" }
          (resultRecord P (String.mk (digits ++ '^' :: rest))
            s.m_pendingLogStreamOutput s.m_pendingConsoleStreamOutput)) := by
  have hskip := line_not_skipped digits rest '^' hdigits (by decide)
  have hkind := kindChar_line digits rest '^' hdigits (by decide)
  simp only [handleResponse, hskip, hkind, handleResultLine]
  simp

/-! ## Token and class of a result record -/

/-- C13: for a line `<digits>^<word><tail>`, where `word` is the maximal run of
lower-case letters behind `^`, `handleResponse` hands `handleResultRecord` a
record whose token is `-1` when the line has no leading digits and the decimal
value of the digits when that fits an `int`, and whose class is the one that
`word` names: `done`, `running`, `connected`, `error` or `exit`, and
`GdbResultUnknown` for every other word, the empty one included. -/
theorem handleResponse_token_and_class (P : GdbMiFunctions) (env : Environment) (fuel : Nat)
    (s : GdbEngine) (digits word tail : List Char)
    (hdigits : ∀ c ∈ digits, isDigit c = true)
    (hword : ∀ c ∈ word, 'a' ≤ c ∧ c ≤ 'z')
    (htail : ∀ c, tail.head? = some c → ¬('a' ≤ c ∧ c ≤ 'z')) :
    s.handleResponse P env fuel (String.mk (digits ++ '^' :: (word ++ tail)))
        = some (handleResultRecord env
            { s with m_pendingLogStreamOutput := "", m_pendingConsoleStreamOutput := "" }
            (resultRecord P (String.mk (digits ++ '^' :: (word ++ tail)))
              s.m_pendingLogStreamOutput s.m_pendingConsoleStreamOutput))
      ∧ (digits = [] →
          (resultRecord P (String.mk (digits ++ '^' :: (word ++ tail)))
            s.m_pendingLogStreamOutput s.m_pendingConsoleStreamOutput).token = -1)
      ∧ (digits ≠ [] → decimalValue digits ≤ 2147483647 →
          (resultRecord P (String.mk (digits ++ '^' :: (word ++ tail)))
            s.m_pendingLogStreamOutput s.m_pendingConsoleStreamOutput).token
            = decimalValue digits)
      ∧ (resultRecord P (String.mk (digits ++ '^' :: (word ++ tail)))
            s.m_pendingLogStreamOutput s.m_pendingConsoleStreamOutput).resultClass =
          (if word = "done".data then GdbResultDone
           else if word = "running".data then GdbResultRunning
           else if word = "connected".data then GdbResultConnected
           else if word = "error".data then GdbResultError
           else if word = "exit".data then GdbResultExit
           else GdbResultUnknown) := by
  refine ⟨handleResponse_result_line P env fuel s digits (word ++ tail) hdigits, ?_, ?_, ?_⟩
  · intro h
    subst h
    have := tokenOf_line [] (word ++ tail) '^' (by simp) (by decide)
    simpa [resultRecord] using this
  · intro hne hfits
    have hemp : digits.isEmpty = false := by
      cases digits with
      | nil => exact absurd rfl hne
      | cons _ _ => rfl
    simp [resultRecord, tokenOf_line digits (word ++ tail) '^' hdigits (by decide), hemp,
      toInt_digits digits hne hdigits hfits]
  · have hrun : (word ++ tail).takeWhile (fun c => decide ('a' ≤ c) && decide (c ≤ 'z')) = word :=
      takeWhile_run _ word tail (fun c hc => by simp [hword c hc])
        (fun c hc => by
          by_contra hcon
          simp at hcon
          exact htail c hc hcon)
    simp only [resultRecord, afterKind_line digits (word ++ tail) '^' hdigits (by decide), hrun]
    exact resultClassOf_mk word

theorem handleResponse_token_and_class_witness :
    (resultRecord Sample.mi (String.mk ("31".data ++ '^' :: ("error".data ++ ",msg=\"x\"".data)))
        "" "").token = 31
      ∧ (resultRecord Sample.mi
          (String.mk ("31".data ++ '^' :: ("error".data ++ ",msg=\"x\"".data)))
          "" "").resultClass = GdbResultError :=
  ⟨(handleResponse_token_and_class Sample.mi baseClass 0 Sample.stopped
      "31".data "error".data ",msg=\"x\"".data (by decide) (by decide) (by decide)).2.2.1
      (by decide) (by decide),
    (handleResponse_token_and_class Sample.mi baseClass 0 Sample.stopped
      "31".data "error".data ",msg=\"x\"".data (by decide) (by decide) (by decide)).2.2.2⟩

end GdbEngine

end Debugger
namespace Debugger

open DebuggerState GdbResultClass

namespace GdbEngine

/-! ## The accumulators of stream output along the command path -/

section Pending

variable {env : Environment}

theorem pending_call (henv : KeepsPending env) (s : GdbEngine) (c : Call) :
    (s.call env c).pending = s.pending := by
  rw [call, henv]; rfl

theorem pending_flushCommand (henv : KeepsPending env) (s : GdbEngine) (cmd : GdbCommand) :
    (s.flushCommand env cmd).pending = s.pending := by
  unfold flushCommand
  split_ifs
  · rfl
  · rfl
  · dsimp only
    split
    · exact (pending_call henv _ _).trans rfl
    · split_ifs <;> rfl

theorem pending_postCommandImmediate (henv : KeepsPending env) (s : GdbEngine)
    (cmd : GdbCommand) : (s.postCommandImmediate env cmd).pending = s.pending := by
  unfold postCommandImmediate
  split
  · rfl
  · exact (pending_flushCommand henv _ _).trans rfl

theorem pending_interruptThroughDevice (henv : KeepsPending env) (s : GdbEngine) :
    (s.interruptThroughDevice env).pending = s.pending := by
  have h1 : ∀ (s1 : GdbEngine) (b : Bool),
      (if b then s1.call env .notifyInferiorStopFailed else s1).pending = s1.pending := by
    intro s1 b
    cases b
    · rfl
    · exact pending_call henv s1 _
  unfold interruptThroughDevice
  exact (pending_call henv _ _).trans ((h1 _ _).trans (h1 _ _))

theorem pending_interruptInferior (henv : KeepsPending env) (s : GdbEngine) :
    (s.interruptInferior env).pending = s.pending := by
  unfold interruptInferior
  split
  · rfl
  split
  · exact pending_postCommandImmediate henv s _
  split
  · exact pending_interruptThroughDevice henv s
  · exact pending_call henv s _

theorem pending_interruptInferiorTemporarily (henv : KeepsPending env) (s : GdbEngine) :
    (s.interruptInferiorTemporarily env).pending = s.pending := by
  unfold interruptInferiorTemporarily
  split
  · exact pending_call henv s _
  · exact (pending_interruptInferior henv _).trans (pending_call henv s _)

theorem pending_postCommandHelper (henv : KeepsPending env) (s : GdbEngine) (cmd : GdbCommand) :
    (s.postCommandHelper env cmd).pending = s.pending := by
  unfold postCommandHelper
  dsimp only
  split_ifs <;>
    first
      | rfl
      | exact (pending_flushCommand henv _ _).trans rfl
      | exact (pending_call henv _ _).trans rfl
      | exact (pending_interruptInferiorTemporarily henv _).trans rfl

theorem pending_postCommand (henv : KeepsPending env) (s : GdbEngine) (command : String)
    (flags : GdbCommandFlags) (callback : Option GdbCommandCallback)
    (callbackName : Option String) (cookie : QVariant) :
    (s.postCommand env command flags callback callbackName cookie).pending = s.pending :=
  pending_postCommandHelper henv s _

theorem pending_flushQueuedCommands (henv : KeepsPending env) :
    ∀ (fuel : Nat) (s s' : GdbEngine), s.flushQueuedCommands env fuel = some s' →
      s'.pending = s.pending := by
  intro fuel
  induction fuel with
  | zero =>
    intro s s' h
    unfold flushQueuedCommands at h
    split at h
    · cases h; rfl
    · cases h
  | succ n ih =>
    intro s s' h
    unfold flushQueuedCommands at h
    split at h
    · cases h; rfl
    · exact (ih _ _ h).trans ((pending_flushCommand henv _ _).trans rfl)

theorem pending_setTokenBarrier (s : GdbEngine) : s.setTokenBarrier.pending = s.pending := by
  unfold setTokenBarrier
  dsimp only
  split_ifs <;> rfl

theorem pending_executeNextI (henv : KeepsPending env) (s : GdbEngine) :
    (s.executeNextI env).pending = s.pending := by
  unfold executeNextI
  dsimp only
  split_ifs <;>
    rw [pending_postCommand henv, pending_call henv, pending_setTokenBarrier]

theorem pending_handleUnsolicitedResult (henv : KeepsPending env) (s : GdbEngine)
    (response : GdbResponse) :
    (s.handleUnsolicitedResult env response).pending = s.pending := by
  unfold handleUnsolicitedResult
  dsimp only
  split_ifs <;>
    simp only [pending_call henv, pending_executeNextI henv]

theorem pending_finishBreakpointRequest (henv : KeepsPending env) (s : GdbEngine)
    (cmd : GdbCommand) : (s.finishBreakpointRequest env cmd).pending = s.pending := by
  unfold finishBreakpointRequest
  dsimp only
  split_ifs <;> first | rfl | exact (pending_call henv _ _).trans rfl

theorem pending_interruptIfQueued (henv : KeepsPending env) (s : GdbEngine) :
    (s.interruptIfQueued env).pending = s.pending := by
  unfold interruptIfQueued
  split_ifs <;> first | rfl | rw [pending_interruptInferiorTemporarily henv]

theorem pending_runCommandsDoneCallback (henv : KeepsPending env) (s : GdbEngine)
    (response : GdbResponse) : (s.runCommandsDoneCallback env response).pending = s.pending := by
  unfold runCommandsDoneCallback
  split
  · dsimp only
    split_ifs <;> first | rfl | exact (pending_call henv _ _).trans rfl
  · rfl

theorem pending_stopCommandTimerIfIdle (s : GdbEngine) :
    s.stopCommandTimerIfIdle.pending = s.pending := by
  unfold stopCommandTimerIfIdle
  split_ifs <;> rfl

theorem pending_handleResultRecord (henv : KeepsPending env) (s : GdbEngine)
    (response : GdbResponse) : (s.handleResultRecord env response).pending = s.pending := by
  unfold handleResultRecord
  dsimp only
  split_ifs
  · rfl
  · split
    · exact pending_handleUnsolicitedResult henv s response
    · split_ifs
      all_goals first
        | rfl
        | (rw [pending_stopCommandTimerIfIdle, pending_runCommandsDoneCallback henv,
            pending_interruptIfQueued henv, pending_finishBreakpointRequest henv]
           split
           · exact (pending_call henv _ _).trans rfl
           · rfl)

end Pending

end GdbEngine

end Debugger
namespace Debugger

open DebuggerState GdbResultClass

namespace GdbEngine

section PendingLines

variable {env : Environment}

theorem pending_finishFullStart (henv : KeepsPending env) (s : GdbEngine) :
    (s.finishFullStart env).pending = s.pending := by
  unfold finishFullStart
  split_ifs
  · exact (pending_postCommand henv _ _ _ _ _ _).trans
      ((pending_postCommand henv _ _ _ _ _ _).trans rfl)
  · rfl

theorem pending_notifyStopByState (henv : KeepsPending env) (s : GdbEngine) :
    (s.notifyStopByState env).pending = s.pending := by
  unfold notifyStopByState
  split_ifs <;> first | rfl | exact pending_call henv _ _

theorem pending_flushOnTemporaryStop (henv : KeepsPending env) (fuel : Nat)
    (s s' : GdbEngine) (h : s.flushOnTemporaryStop env fuel = some s') :
    s'.pending = s.pending := by
  unfold flushOnTemporaryStop at h
  cases hf : (s.call env .notifyInferiorStopOk).flushQueuedCommands env fuel with
  | none => rw [hf] at h; cases h
  | some s1 =>
    rw [hf] at h
    have h1 := pending_flushQueuedCommands henv fuel _ _ hf
    rw [pending_call henv] at h1
    simp only [Option.map_some', Option.some.injEq] at h
    subst h
    split_ifs
    · exact h1
    · exact h1

theorem pending_finishStop (henv : KeepsPending env) (s : GdbEngine) (data : GdbMi)
    (gotoHandleStop1 : Bool) : (s.finishStop env data gotoHandleStop1).pending = s.pending := by
  unfold finishStop
  dsimp only
  split_ifs <;>
    first
      | exact pending_notifyStopByState henv _
      | exact (pending_call henv _ _).trans (pending_notifyStopByState henv _)

theorem pending_handleStopResponse (henv : KeepsPending env) (fuel : Nat)
    (s s' : GdbEngine) (data : GdbMi) (h : s.handleStopResponse env fuel data = some s') :
    s'.pending = s.pending := by
  unfold handleStopResponse at h
  dsimp only at h
  split_ifs at h
  · cases h; rfl
  · cases h; rfl
  · cases h; exact pending_call henv _ _
  · cases h; exact (pending_call henv _ _).trans (pending_call henv _ _)
  · have := pending_flushOnTemporaryStop henv fuel _ _ h
    rw [this, pending_call henv, pending_finishFullStart henv, pending_call henv]
  · cases h
    rw [pending_finishStop henv, pending_call henv, pending_finishFullStart henv,
      pending_call henv]

theorem pending_maybeHandleInferiorPidChanged (henv : KeepsPending env) (s : GdbEngine)
    (pid0 : String) : (s.maybeHandleInferiorPidChanged env pid0).pending = s.pending := by
  unfold maybeHandleInferiorPidChanged
  dsimp only
  split_ifs <;> first | rfl | exact pending_call henv _ _

theorem pending_handleAsyncRecord (henv : KeepsPending env) (fuel : Nat) (s s' : GdbEngine)
    (asyncClass : String) (result : GdbMi)
    (h : s.handleAsyncRecord env fuel asyncClass result = some s') :
    s'.pending = if asyncClass == "stopped" then ("", "") else s.pending := by
  unfold handleAsyncRecord at h
  by_cases hst : (asyncClass == "stopped") = true
  · rw [if_pos hst] at h
    rw [if_pos hst]
    cases hs : s.handleStopResponse env fuel result with
    | none => rw [hs] at h; cases h
    | some s1 => rw [hs] at h; cases h; rfl
  · rw [if_neg hst] at h
    rw [if_neg hst]
    dsimp only at h
    split_ifs at h <;> cases h <;>
      first
        | rfl
        | exact pending_call henv _ _
        | exact (pending_call henv _ _).trans (pending_call henv _ _)

theorem pending_handleConsoleStream (P : GdbMiFunctions) (henv : KeepsPending env)
    (s : GdbEngine) (data : String) :
    (s.handleConsoleStream P env data).pending
      = (s.m_pendingLogStreamOutput, s.m_pendingConsoleStreamOutput ++ data) := by
  have hq : ∀ (s1 : GdbEngine) (id : BreakpointResponseId),
      ({ s1 with m_qmlBreakpointResponseId2 := id } : GdbEngine).pending = s1.pending :=
    fun _ _ => rfl
  have hw : ∀ (s1 : GdbEngine) (m : String),
      ({ s1 with m_lastWinException := m } : GdbEngine).pending = s1.pending :=
    fun _ _ => rfl
  unfold handleConsoleStream
  dsimp only
  split_ifs <;> (try rw [hq]) <;> (try rw [pending_call henv]) <;> (try rw [hw]) <;>
    (try split) <;> (try rw [pending_maybeHandleInferiorPidChanged henv]) <;> rfl

theorem pending_handleLogStream (henv : KeepsPending env) (s : GdbEngine) (data : String) :
    (s.handleLogStream env data).pending
      = (s.m_pendingLogStreamOutput ++ data, s.m_pendingConsoleStreamOutput) := by
  unfold handleLogStream
  dsimp only
  split_ifs <;> (try rw [pending_call henv]) <;> (try rw [pending_call henv]) <;> rfl

end PendingLines

end GdbEngine

end Debugger
namespace Debugger

open DebuggerState GdbResultClass

theorem kindChar_of_skipped (buff : String)
    (h : (buff.isEmpty || buff == "(gdb) ") = true) :
    kindChar buff = none ∨ kindChar buff = some '(' := by
  rw [Bool.or_eq_true] at h
  rcases h with h | h
  · rw [(String.isEmpty_iff _).mp h]; left; rfl
  · rw [beq_iff_eq] at h; rw [h]; right; rfl

theorem sinceLast_append (boundary : String → Bool) (lines : List String) (buff : String) :
    sinceLast boundary (lines ++ [buff])
      = if boundary buff then [] else sinceLast boundary lines ++ [buff] := by
  unfold sinceLast
  rw [List.reverse_append, List.reverse_singleton, List.singleton_append, List.takeWhile_cons]
  by_cases hb : boundary buff = true
  · simp [hb]
  · simp [hb]

theorem join_append_singleton (l : List String) (x : String) :
    String.join (l ++ [x]) = String.join l ++ x := by
  simp [String.join, List.foldl_append]

theorem textSince_append (boundary : String → Bool) (text : String → String)
    (lines : List String) (buff : String) :
    textSince boundary text (lines ++ [buff])
      = if boundary buff then "" else textSince boundary text lines ++ text buff := by
  unfold textSince
  rw [sinceLast_append]
  by_cases hb : boundary buff = true
  · simp [hb, String.join]
  · rw [if_neg hb, if_neg hb, List.map_append, List.map_singleton, join_append_singleton]

namespace GdbEngine

theorem handleLines_append (P : GdbMiFunctions) (env : Environment) (fuel : Nat)
    (lines : List String) (buff : String) :
    ∀ s : GdbEngine, s.handleLines P env fuel (lines ++ [buff])
      = (s.handleLines P env fuel lines).bind (fun s1 => s1.handleResponse P env fuel buff) := by
  induction lines with
  | nil =>
    intro s
    simp only [List.nil_append, handleLines, Option.some_bind]
    cases s.handleResponse P env fuel buff <;> rfl
  | cons l rest ih =>
    intro s
    simp only [List.cons_append, handleLines]
    cases s.handleResponse P env fuel l with
    | none => rfl
    | some s1 => simp only [Option.some_bind]; exact ih s1

theorem pending_handleResponse (P : GdbMiFunctions) {env : Environment}
    (henv : KeepsPending env) (fuel : Nat) (s s' : GdbEngine) (buff : String)
    (h : s.handleResponse P env fuel buff = some s') :
    s'.pending =
      if isResultLine buff || isStoppedLine buff then ("", "")
      else (s.m_pendingLogStreamOutput ++ streamText P '&' buff,
            s.m_pendingConsoleStreamOutput ++ streamText P '~' buff) := by
  unfold handleResponse at h
  split_ifs at h with hskip
  · cases h
    rcases kindChar_of_skipped buff hskip with hk | hk <;>
      simp [isResultLine, isStoppedLine, streamText, hk, pending]
  · cases hk : kindChar buff with
    | none =>
      rw [hk] at h
      cases h
      simp [isResultLine, isStoppedLine, streamText, hk, pending]
    | some c =>
      rw [hk] at h
      dsimp only at h
      split_ifs at h with ha ht hat hamp hres
      · have := pending_handleAsyncRecord henv fuel s s' _ _ h
        rw [this]
        simp only [Bool.or_eq_true, beq_iff_eq] at ha
        rcases ha with (rfl | rfl) | rfl <;>
          simp [isResultLine, isStoppedLine, streamText, hk, pending]
      · cases h
        rw [beq_iff_eq] at ht
        subst ht
        rw [pending_handleConsoleStream P henv]
        simp [isResultLine, isStoppedLine, streamText, hk]
      · cases h
        rw [beq_iff_eq] at hat
        subst hat
        rw [pending_call henv]
        simp [isResultLine, isStoppedLine, streamText, hk, pending]
      · cases h
        rw [beq_iff_eq] at hamp
        subst hamp
        rw [pending_handleLogStream henv]
        simp [isResultLine, isStoppedLine, streamText, hk]
      · cases h
        rw [beq_iff_eq] at hres
        subst hres
        unfold handleResultLine
        rw [pending_handleResultRecord henv]
        simp [isResultLine, hk, pending]
      · cases h
        simp only [Bool.or_eq_true, beq_iff_eq, not_or] at ha
        have h1 : (c == '^') = false := by simpa using hres
        have h2 : (c == '~') = false := by simpa using ht
        have h3 : (c == '&') = false := by simpa using hamp
        have h4 : (c == '*') = false := by simpa using ha.1.1
        have h5 : (c == '+') = false := by simpa using ha.1.2
        have h6 : (c == '=') = false := by simpa using ha.2
        simp [isResultLine, isStoppedLine, streamText, hk, pending, h1, h2, h3, h4, h5, h6]

end GdbEngine

end Debugger
namespace Debugger

open DebuggerState GdbResultClass

namespace GdbEngine

/-! ## Console and log text attached to a result record -/

/-- C12 as stated fails: console text that arrived before a `*stopped` is not
attached to the next result record.  After `~"a"`, `*stopped`, `~"b"` the
record `4^done` reaches its callback with the console text `b`, while the
payloads of the `~` lines since the previous result record make up `ab`. -/
theorem console_text_dropped_at_stopped :
    (Sample.settled.handleLines Sample.mi baseClass 0 (Sample.stopBetween ++ ["4^done"])).map
        (fun s => s.calls.filterMap Call.consoleStreamOutput) = some ["b"]
    ∧ textSince isResultLine (streamText Sample.mi '~') Sample.stopBetween = "ab" := by
  constructor
  · rfl
  · rfl

/-- C12 (amended): after any sequence of lines, read from an engine with empty
accumulators, the console (respectively log) accumulator is the concatenation,
in arrival order, of the decoded payloads of the `~` (respectively `&`) lines
received since the last result record or `stopped` record; a result record
that arrives then takes exactly these two texts along, and both accumulators
are empty once it has been handled.  The collaborators are assumed to leave
the accumulators alone. -/
theorem stream_output_attached (P : GdbMiFunctions) (env : Environment)
    (henv : KeepsPending env) (fuel : Nat) (s s' : GdbEngine) (lines : List String)
    (hstart : s.pending = ("", ""))
    (hrun : s.handleLines P env fuel lines = some s') :
    s'.m_pendingConsoleStreamOutput
        = textSince (fun b => isResultLine b || isStoppedLine b) (streamText P '~') lines
      ∧ s'.m_pendingLogStreamOutput
        = textSince (fun b => isResultLine b || isStoppedLine b) (streamText P '&') lines
      ∧ ∀ digits rest : List Char, (∀ c ∈ digits, isDigit c = true) →
          s'.handleResponse P env fuel (String.mk (digits ++ '^' :: rest))
              = some (handleResultRecord env
                  { s' with m_pendingLogStreamOutput := "", m_pendingConsoleStreamOutput := "" }
                  { resultRecord P (String.mk (digits ++ '^' :: rest)) "" "" with
                    logStreamOutput := s'.m_pendingLogStreamOutput,
                    consoleStreamOutput := s'.m_pendingConsoleStreamOutput })
            ∧ (handleResultRecord env
                  { s' with m_pendingLogStreamOutput := "", m_pendingConsoleStreamOutput := "" }
                  { resultRecord P (String.mk (digits ++ '^' :: rest)) "" "" with
                    logStreamOutput := s'.m_pendingLogStreamOutput,
                    consoleStreamOutput := s'.m_pendingConsoleStreamOutput }).pending
                = ("", "") := by
  have key : ∀ (lines : List String) (s' : GdbEngine),
      s.handleLines P env fuel lines = some s' →
      s'.pending
        = (textSince (fun b => isResultLine b || isStoppedLine b) (streamText P '&') lines,
           textSince (fun b => isResultLine b || isStoppedLine b) (streamText P '~') lines) := by
    intro lines
    induction lines using List.reverseRecOn with
    | nil =>
      intro s' h
      simp only [handleLines, Option.some.injEq] at h
      subst h
      rw [hstart]
      rfl
    | append_singleton init buff ih =>
      intro s' h
      rw [handleLines_append] at h
      cases h1 : s.handleLines P env fuel init with
      | none => rw [h1] at h; cases h
      | some s1 =>
        rw [h1, Option.some_bind] at h
        have hs1 := ih s1 h1
        have hstep := pending_handleResponse P henv fuel s1 s' buff h
        rw [hstep, textSince_append, textSince_append]
        have hl : s1.m_pendingLogStreamOutput = _ := congrArg Prod.fst hs1
        have hc : s1.m_pendingConsoleStreamOutput = _ := congrArg Prod.snd hs1
        rw [hl, hc]
        by_cases hb : (isResultLine buff || isStoppedLine buff) = true
        · simp [hb]
        · simp [hb]
  have hp := key lines s' hrun
  refine ⟨congrArg Prod.snd hp, congrArg Prod.fst hp, ?_⟩
  intro digits rest hdigits
  exact ⟨handleResponse_result_line P env fuel s' digits rest hdigits,
    (pending_handleResultRecord henv _ _).trans rfl⟩

theorem stream_output_attached_witness :
    (Sample.settled.handleLines Sample.mi baseClass 0 Sample.stopBetween).map
        (fun s => s.m_pendingConsoleStreamOutput)
      = some (textSince (fun b => isResultLine b || isStoppedLine b)
          (streamText Sample.mi '~') Sample.stopBetween)
    ∧ textSince (fun b => isResultLine b || isStoppedLine b)
        (streamText Sample.mi '~') Sample.stopBetween = "b" := by
  have hrun : Sample.settled.handleLines Sample.mi baseClass 0 Sample.stopBetween
      = some (Sample.settled.handleLines Sample.mi baseClass 0 Sample.stopBetween).get! := rfl
  have henv : KeepsPending baseClass := by
    intro c s
    cases c <;> rfl
  refine ⟨?_, rfl⟩
  rw [hrun, Option.map_some']
  exact congrArg some
    (stream_output_attached Sample.mi baseClass henv 0 Sample.settled _ Sample.stopBetween
      rfl hrun).1

end GdbEngine

end Debugger
namespace Debugger

open DebuggerState GdbResultClass

theorem toInt_digits_nonneg (digits : List Char) (hdigits : ∀ x ∈ digits, isDigit x = true) :
    0 ≤ toInt (String.mk digits) := by
  have hws : ∀ x ∈ digits, Char.isWhitespace x = false :=
    fun x hx => isDigit_not_whitespace x (hdigits x hx)
  have h1 : digits.dropWhile Char.isWhitespace = digits := dropWhile_all_false _ _ hws
  have h2 : digits.reverse.dropWhile Char.isWhitespace = digits.reverse :=
    dropWhile_all_false _ _ (fun x hx => hws x (List.mem_reverse.mp hx))
  cases digits with
  | nil => decide
  | cons d ds =>
    have hd : isDigit d = true := hdigits d (List.mem_cons_self _ _)
    have hminus : (d == '-') = false := by
      cases h : d == '-' with
      | false => rfl
      | true => rw [beq_iff_eq] at h; subst h; exact absurd hd (by decide)
    have hplus : (d == '+') = false := by
      cases h : d == '+' with
      | false => rfl
      | true => rw [beq_iff_eq] at h; subst h; exact absurd hd (by decide)
    simp only [toInt, toIntegral, h1, h2, List.reverse_reverse]
    simp only [List.head?_cons, Option.some_beq_some, hminus, hplus, Bool.or_self,
      Bool.false_eq_true, if_false]
    split_ifs
    · exact le_refl _
    · exact Int.ofNat_nonneg _
    · exact le_refl _

theorem child_withName_withType (m : GdbMi) (t : GdbMiType) (n key : String) :
    ((m.withType t).withName n).child key = m.child key := by
  cases m; rfl

namespace GdbEngine

/-! ## An unsolicited connection error -/

/-- C15 as stated fails: the line `^error,msg="Remote connection closed"`
without a token leaves the engine as it is; no call is made, so the inferior
is not marked exited. -/
theorem untokened_connection_error_ignored :
    Sample.stopped.handleResponse Sample.mi baseClass 0
        "^error,msg=\"Remote connection closed\"" = some Sample.stopped
    ∧ Sample.stopped.calls = [] :=
  ⟨rfl, rfl⟩

/-- C15 (amended): a result line `<digits>^error,msg="Remote connection closed"`
whose token is not in the token map makes `handleResponse` call
`notifyInferiorExited` and nothing else, so that no command callback runs;
the same line without a token is dropped at the test `token == -1` of
`handleResultRecord`, without any call. -/
theorem unsolicited_connection_error (P : GdbMiFunctions) (env : Environment) (fuel : Nat)
    (s : GdbEngine) (digits : List Char)
    (hdigits : ∀ c ∈ digits, isDigit c = true)
    (hmsg : ((P.parseTuple_helper "msg=\"Remote connection closed\"".data).1.child "msg").data
      = "Remote connection closed") :
    (digits ≠ [] → s.m_cookieForToken.contains (toInt (String.mk digits)) = false →
      s.handleResponse P env fuel
          (String.mk (digits ++ "^error,msg=\"Remote connection closed\"".data))
        = some (({ s with m_pendingLogStreamOutput := "", m_pendingConsoleStreamOutput := "" }
            : GdbEngine).call env .notifyInferiorExited))
    ∧ s.handleResponse P env fuel "^error,msg=\"Remote connection closed\""
        = some { s with m_pendingLogStreamOutput := "", m_pendingConsoleStreamOutput := "" } := by
  constructor
  · intro hne habsent
    have hline := handleResponse_result_line P env fuel s digits
      "error,msg=\"Remote connection closed\"".data hdigits
    have hemp : digits.isEmpty = false := by
      cases digits with
      | nil => exact absurd rfl hne
      | cons _ _ => rfl
    have htoken : tokenOf (String.mk (digits ++ '^' :: "error,msg=\"Remote connection closed\"".data))
        = toInt (String.mk digits) := by
      rw [tokenOf_line digits _ '^' hdigits (by decide), hemp]; rfl
    have hafter := afterKind_line digits "error,msg=\"Remote connection closed\"".data '^'
      hdigits (by decide)
    have hrec : resultRecord P
          (String.mk (digits ++ '^' :: "error,msg=\"Remote connection closed\"".data))
          s.m_pendingLogStreamOutput s.m_pendingConsoleStreamOutput
        = { token := toInt (String.mk digits), resultClass := GdbResultError,
            data := ((P.parseTuple_helper "msg=\"Remote connection closed\"".data).1.withType
              .Tuple).withName "data",
            logStreamOutput := s.m_pendingLogStreamOutput,
            consoleStreamOutput := s.m_pendingConsoleStreamOutput } := by
      simp only [resultRecord, htoken, hafter]
      rfl
    have hnot : toInt (String.mk digits) ≠ -1 := by
      have := toInt_digits_nonneg digits hdigits
      omega
    have hnone : s.m_cookieForToken.value (toInt (String.mk digits)) = none :=
      (QHash.value_eq_none_iff _ _).mpr ((QHash.contains_eq_false_iff _ _).mp habsent)
    have hshape : (digits ++ "^error,msg=\"Remote connection closed\"".data)
        = digits ++ '^' :: "error,msg=\"Remote connection closed\"".data := rfl
    rw [hshape, hline, hrec, handleResultRecord_of_absent _ _ _ hnot hnone]
    unfold handleUnsolicitedResult
    simp only [child_withName_withType, hmsg]
    rfl
  · exact handleResponse_result_line P env fuel s [] _ (by simp)

theorem unsolicited_connection_error_witness :
    Sample.stopped.handleResponse Sample.mi baseClass 0
        (String.mk ("31".data ++ "^error,msg=\"Remote connection closed\"".data))
      = some (({ Sample.stopped with
            m_pendingLogStreamOutput := "", m_pendingConsoleStreamOutput := "" }
          : GdbEngine).call baseClass .notifyInferiorExited) :=
  (unsolicited_connection_error Sample.mi baseClass 0 Sample.stopped "31".data
    (by decide) rfl).1 (by decide) rfl

/-! ## The byte that decides the kind of a line -/

/-- C14: on a line that consists of digits only, the byte that decides the
kind of the line is read at the position of the line's length, which is one
behind its last byte. -/
theorem kind_read_behind_digits :
    kindIndex "123" = "123".length ∧ kindChar "123" = none :=
  ⟨rfl, rfl⟩

end GdbEngine

end Debugger
namespace Debugger

open DebuggerState GdbResultClass

namespace GdbEngine

/-! ## The commands-done continuation -/

/-- C17 as stated fails: the record `1^running` for the last outstanding
command empties the token map while `autoContinueInferior` is armed; the
continuation is disarmed, but it is not invoked. -/
theorem continuation_dropped_on_running :
    (Sample.lastCommandOut.handleResultRecord baseClass Sample.running1).m_cookieForToken = []
    ∧ (Sample.lastCommandOut.handleResultRecord baseClass Sample.running1).m_commandsDoneCallback
        = none
    ∧ (Sample.lastCommandOut.handleResultRecord baseClass Sample.running1).calls.countP
        Call.isCommandsDone = 0 :=
  ⟨rfl, rfl, rfl⟩

/-- C17 (amended): when `handleResultRecord` handles a record for a token in
the token map that is not dropped as stale, and the token map is empty while a
commands-done continuation is armed once the callback and what follows it are
done, then the continuation is disarmed; it is invoked, exactly once, when the
class of the record is not `running`, and not at all when it is. -/
theorem commandsDone_invoked_once (env : Environment) (s : GdbEngine) (response : GdbResponse)
    (cmd : GdbCommand) (cont : CommandsDoneCallback)
    (htoken : response.token ≠ -1)
    (hcmd : s.m_cookieForToken.value response.token = some cmd)
    (hfresh : (decide (response.token < s.m_oldestAcceptableToken)
      && cmd.flags.Discardable) = false)
    (hempty : (s.beforeCommandsDone env response cmd).m_cookieForToken.isEmpty = true)
    (harmed : (s.beforeCommandsDone env response cmd).m_commandsDoneCallback = some cont) :
    (response.resultClass ≠ GdbResultRunning →
      s.handleResultRecord env response
        = (({ s.beforeCommandsDone env response cmd with m_commandsDoneCallback := none }
            : GdbEngine).call env (.commandsDone cont)).stopCommandTimerIfIdle)
    ∧ (response.resultClass = GdbResultRunning →
      s.handleResultRecord env response
        = ({ s.beforeCommandsDone env response cmd with m_commandsDoneCallback := none }
            : GdbEngine).stopCommandTimerIfIdle) := by
  have hmain : s.handleResultRecord env response
      = ((s.beforeCommandsDone env response cmd).runCommandsDoneCallback env
          { response with cookie := cmd.cookie }).stopCommandTimerIfIdle := by
    unfold handleResultRecord beforeCommandsDone
    dsimp only
    rw [if_neg (by simpa using htoken), hcmd]
    dsimp only
    exact (if_neg (by simpa using hfresh)).trans rfl
  constructor
  · intro hclass
    rw [hmain]
    unfold runCommandsDoneCallback
    rw [harmed]
    dsimp only
    rw [if_pos hempty, if_pos (by simpa using hclass)]
  · intro hclass
    rw [hmain]
    unfold runCommandsDoneCallback
    rw [harmed]
    dsimp only
    rw [if_pos hempty, if_neg (by simp [hclass])]

theorem commandsDone_invoked_once_witness :
    (Sample.lastCommandOut.handleResultRecord baseClass Sample.done1).calls
        = [Call.callback "handleThreadInfo" Sample.done1, Call.commandsDone "autoContinueInferior"]
      ∧ (Sample.lastCommandOut.handleResultRecord baseClass Sample.done1).m_commandsDoneCallback
        = none := by
  have h := (commandsDone_invoked_once baseClass Sample.lastCommandOut Sample.done1
    Sample.threadInfo "autoContinueInferior" (by decide) rfl rfl rfl rfl).1 (by decide)
  rw [h]
  exact ⟨rfl, rfl⟩

/-! ## A stop that overtakes `^running` -/

/-- C16: with the base class moving to `InferiorStopOk` on a spontaneous stop
and to `InferiorRunOk` on a confirmed run, the engine that has asked gdb to
continue is in `InferiorStopOk` after `*stopped`; the `^running` that arrives
then is an expected result for its command, and `handleExecuteContinue`
answers it with `notifyInferiorRunOk`: the engine ends in `InferiorRunOk`. -/
theorem late_running_leaves_stop :
    (Sample.continueRequested.handleLines Sample.mi (withContinue 0 baseClass) 0
        [Sample.stoppedAtBreakpoint]).map (fun s => s.state) = some InferiorStopOk
    ∧ isExpectedResult (resultRecord Sample.mi "5^running" "" "") Sample.execContinue = true
    ∧ (Sample.continueRequested.handleLines Sample.mi (withContinue 0 baseClass) 0
        [Sample.stoppedAtBreakpoint, "5^running"]).map (fun s => s.state) = some InferiorRunOk
    ∧ (Sample.continueRequested.handleLines Sample.mi (withContinue 0 baseClass) 0
        [Sample.stoppedAtBreakpoint, "5^running"]).map (fun s => s.calls.getLast?)
        = some (some Call.notifyInferiorRunOk) :=
  ⟨rfl, rfl, rfl, rfl⟩

end GdbEngine

end Debugger
namespace Debugger

open DebuggerState GdbResultClass BreakpointType BreakpointState

namespace GdbEngine

/-! ## One corrective command per reconciliation pass -/

/-- C19 (amended): for a breakpoint of a known type whose last response has a
valid id (the two assertions of `changeBreakpoint`), a call of
`changeBreakpoint` makes exactly one call of `postCommand`, with the command
for the first field that differs between the wanted parameters and the last
response in the order thread spec, line number, command text, condition,
ignore count, enabled flag (thread spec and line number count only when the
response is not pending), and when no field differs it posts nothing and
reports change-ok. -/
theorem changeBreakpoint_first_difference (F : BreakpointFunctions) (env : Environment)
    (s : GdbEngine) (id : Int)
    (htype : (BreakHandler.breakpointData s.breakHandler id).type ≠ UnknownBreakpointType)
    (hid : (BreakHandler.response s.breakHandler id).id.isValid = true) :
    s.changeBreakpoint F env id =
      match ChangedField.first F (BreakHandler.breakpointData s.breakHandler id)
          (BreakHandler.response s.breakHandler id) with
      | some field =>
        (s.beginChange id).postCommand env
          (field.corrective (BreakHandler.response s.breakHandler id).id.toByteArray
            (BreakHandler.breakpointData s.breakHandler id))
          { NeedsStop := true, RebuildBreakpointModel := true }
          (some (field.handler (BreakHandler.breakpointData s.breakHandler id)))
          (some (field.handler (BreakHandler.breakpointData s.breakHandler id)))
          (variantOfId id)
      | none =>
        (s.beginChange id).notifyBreakpoint "notifyBreakpointChangeOk" BreakpointInserted id := by
  unfold changeBreakpoint
  generalize BreakHandler.breakpointData s.breakHandler id = data at htype ⊢
  generalize BreakHandler.response s.breakHandler id = response at hid ⊢
  have h0 : (data.type == UnknownBreakpointType) = false := by simpa using htype
  simp only [h0, hid, Bool.false_eq_true, if_false, Bool.not_true]
  by_cases h1 : (!response.pending && data.threadSpec != response.threadSpec) = true
  · simp [ChangedField.first, ChangedField.priority, ChangedField.differs, List.find?, h1,
      ChangedField.corrective, ChangedField.handler]
  by_cases h2 : (!response.pending && data.lineNumber != response.lineNumber) = true
  · simp [ChangedField.first, ChangedField.priority, ChangedField.differs, List.find?, h1, h2,
      ChangedField.corrective, ChangedField.handler]
  by_cases h3 : (data.command != response.command) = true
  · simp [ChangedField.first, ChangedField.priority, ChangedField.differs, List.find?, h1, h2,
      h3, ChangedField.corrective, ChangedField.handler]
  by_cases h4 : (!F.conditionsMatch data.condition response.condition) = true
  · simp [ChangedField.first, ChangedField.priority, ChangedField.differs, List.find?, h1, h2,
      h3, h4, ChangedField.corrective, ChangedField.handler]
  by_cases h5 : (data.ignoreCount != response.ignoreCount) = true
  · simp [ChangedField.first, ChangedField.priority, ChangedField.differs, List.find?, h1, h2,
      h3, h4, h5, ChangedField.corrective, ChangedField.handler]
  cases hd : data.enabled <;> cases hr : response.enabled <;>
    simp [ChangedField.first, ChangedField.priority, ChangedField.differs, List.find?, h1, h2,
      h3, h4, h5, hd, hr, ChangedField.corrective, ChangedField.handler]

end GdbEngine

end Debugger
namespace Debugger

open DebuggerState GdbResultClass BreakpointType BreakpointState

/-! ## Facts about the breakpoint handler -/

namespace BreakHandler

theorem contains_update (h : BreakHandler) (id key : Int) (f : BreakpointItem → BreakpointItem) :
    QHash.contains (update h id f) key = QHash.contains h key := by
  induction h with
  | nil => rfl
  | cons e rest ih =>
    simp only [update, QHash.contains, List.map_cons, List.any_cons] at ih ⊢
    rw [ih]
    by_cases he : (e.1 == id) = true
    · simp [he]
    · simp [he]

theorem value_update_self (h : BreakHandler) (id : Int) (f : BreakpointItem → BreakpointItem) :
    QHash.value (update h id f) id = (QHash.value h id).map f := by
  induction h with
  | nil => rfl
  | cons e rest ih =>
    simp only [update, QHash.value, List.map_cons] at ih ⊢
    by_cases he : (e.1 == id) = true
    · simp [he, List.find?]
    · have he2 : (e.1 == id) = false := by simpa using he
      simp only [he2, Bool.false_eq_true, if_false, List.find?]
      exact ih

theorem contains_insertSubBreakpoint (h : BreakHandler) (id key : Int)
    (sub : BreakpointResponse) :
    QHash.contains (insertSubBreakpoint h id sub) key = QHash.contains h key := by
  unfold insertSubBreakpoint
  exact contains_update _ _ _ _

theorem contains_setResponse (h : BreakHandler) (id key : Int) (br : BreakpointResponse) :
    QHash.contains (setResponse h id br) key = QHash.contains h key := by
  unfold setResponse
  exact contains_update _ _ _ _

theorem contains_setState (h : BreakHandler) (id key : Int) (st : BreakpointState) :
    QHash.contains (setState h id st) key = QHash.contains h key := by
  unfold setState
  exact contains_update _ _ _ _

theorem value_isSome_of_contains (h : BreakHandler) (id : Int)
    (hc : QHash.contains h id = true) : ∃ item, QHash.value h id = some item := by
  cases hv : QHash.value h id with
  | some item => exact ⟨item, rfl⟩
  | none =>
    have := (QHash.contains_eq_false_iff h id).mpr ((QHash.value_eq_none_iff h id).mp hv)
    rw [this] at hc
    cases hc

theorem response_setResponse (h : BreakHandler) (id : Int) (br : BreakpointResponse)
    (hc : QHash.contains h id = true) : response (setResponse h id br) id = br := by
  obtain ⟨item, hv⟩ := value_isSome_of_contains h id hc
  simp [response, setResponse, value_update_self, hv]

theorem response_insertSubBreakpoint (h : BreakHandler) (id : Int) (sub : BreakpointResponse) :
    response (insertSubBreakpoint h id sub) id = response h id := by
  unfold response insertSubBreakpoint
  rw [value_update_self]
  cases QHash.value h id <;> rfl

theorem response_setState (h : BreakHandler) (id : Int) (st : BreakpointState) :
    response (setState h id st) id = response h id := by
  unfold response setState
  rw [value_update_self]
  cases QHash.value h id <;> rfl

theorem state_setState (h : BreakHandler) (id : Int) (st : BreakpointState)
    (hc : QHash.contains h id = true) : state (setState h id st) id = st := by
  obtain ⟨item, hv⟩ := value_isSome_of_contains h id hc
  simp [state, setState, value_update_self, hv]

end BreakHandler

theorem child_mem_or_invalid (m : GdbMi) (key : String) :
    m.child key ∈ m.children ∨ m.child key = GdbMi.invalid := by
  unfold GdbMi.child
  cases hf : m.children.find? (fun c => c.name == key) with
  | none => right; rfl
  | some c => left; exact List.mem_of_find?_eq_some hf

end Debugger
namespace Debugger

open DebuggerState GdbResultClass BreakpointType BreakpointState

namespace GdbEngine

theorem insertSubBreakpoint_inert (s : GdbEngine) (id : Int) (sub : BreakpointResponse) :
    QHash.contains (s.insertSubBreakpoint id sub).breakHandler id
        = QHash.contains s.breakHandler id
      ∧ BreakHandler.response (s.insertSubBreakpoint id sub).breakHandler id
        = BreakHandler.response s.breakHandler id
      ∧ (s.insertSubBreakpoint id sub).calls.countP
          (Call.isBreakHandler "notifyBreakpointInsertOk" id)
        = s.calls.countP (Call.isBreakHandler "notifyBreakpointInsertOk" id) := by
  refine ⟨BreakHandler.contains_insertSubBreakpoint _ _ _ _,
    BreakHandler.response_insertSubBreakpoint _ _ _, ?_⟩
  simp [insertSubBreakpoint, List.countP_append, Call.isBreakHandler]

theorem insertSubBreakpoints_inert (id : Int) (subOf : GdbMi → BreakpointResponse)
    (entries : List GdbMi) :
    ∀ s : GdbEngine,
      QHash.contains
          (entries.foldl (fun s loc => s.insertSubBreakpoint id (subOf loc)) s).breakHandler id
        = QHash.contains s.breakHandler id
      ∧ BreakHandler.response
          (entries.foldl (fun s loc => s.insertSubBreakpoint id (subOf loc)) s).breakHandler id
        = BreakHandler.response s.breakHandler id
      ∧ (entries.foldl (fun s loc => s.insertSubBreakpoint id (subOf loc)) s).calls.countP
          (Call.isBreakHandler "notifyBreakpointInsertOk" id)
        = s.calls.countP (Call.isBreakHandler "notifyBreakpointInsertOk" id) := by
  induction entries with
  | nil => intro s; exact ⟨rfl, rfl, rfl⟩
  | cons loc rest ih =>
    intro s
    obtain ⟨h1, h2, h3⟩ := ih (s.insertSubBreakpoint id (subOf loc))
    obtain ⟨g1, g2, g3⟩ := insertSubBreakpoint_inert s id (subOf loc)
    exact ⟨h1.trans g1, h2.trans g2, h3.trans g3⟩

theorem setResponse_effect (s : GdbEngine) (id : Int) (br : BreakpointResponse) :
    QHash.contains (s.setResponse id br).breakHandler id = QHash.contains s.breakHandler id
      ∧ (QHash.contains s.breakHandler id = true →
          BreakHandler.response (s.setResponse id br).breakHandler id = br)
      ∧ (s.setResponse id br).calls.countP (Call.isBreakHandler "notifyBreakpointInsertOk" id)
        = s.calls.countP (Call.isBreakHandler "notifyBreakpointInsertOk" id) := by
  refine ⟨BreakHandler.contains_setResponse _ _ _ _,
    fun hc => BreakHandler.response_setResponse _ _ _ hc, ?_⟩
  simp [setResponse, List.countP_append, Call.isBreakHandler]

theorem handleBkpt_effect (F : BreakpointFunctions) (s : GdbEngine) (bkpt : GdbMi) (id : Int) :
    QHash.contains (s.handleBkpt F bkpt id).breakHandler id = QHash.contains s.breakHandler id
      ∧ (s.handleBkpt F bkpt id).calls.countP (Call.isBreakHandler "notifyBreakpointInsertOk" id)
        = s.calls.countP (Call.isBreakHandler "notifyBreakpointInsertOk" id)
      ∧ (isPrimaryEntry bkpt = false →
          BreakHandler.response (s.handleBkpt F bkpt id).breakHandler id
            = BreakHandler.response s.breakHandler id)
      ∧ (isPrimaryEntry bkpt = true → QHash.contains s.breakHandler id = true →
          (BreakHandler.response (s.handleBkpt F bkpt id).breakHandler id).id
            = BreakpointResponseId.ofBytes (entryNumber bkpt)) := by
  unfold handleBkpt isPrimaryEntry entryNumber
  dsimp only
  by_cases hv : (BreakpointResponseId.ofBytes (bkpt.child "number").data).isValid = true
  · by_cases hd : containsBytes (bkpt.child "number").data "." = true
    · simp only [hv, hd, Bool.not_true, Bool.false_eq_true, if_false, if_true, Bool.and_false]
      obtain ⟨g1, g2, g3⟩ := insertSubBreakpoint_inert s id
        (subBreakpoint F (BreakHandler.response s.breakHandler id) bkpt
          (BreakpointResponseId.ofBytes (bkpt.child "number").data))
      exact ⟨g1, g3, fun _ => g2, fun h => absurd h (by simp)⟩
    · have hd2 : containsBytes (bkpt.child "number").data "." = false := by simpa using hd
      simp only [hv, hd2, Bool.not_true, Bool.not_false, Bool.false_eq_true, if_false,
        Bool.and_true]
      split_ifs with hloc
      · obtain ⟨l1, l2, l3⟩ := insertSubBreakpoints_inert id
          (fun loc => subBreakpoint F (BreakHandler.response s.breakHandler id) loc
            (BreakpointResponseId.ofBytes (loc.child "number").data))
          (bkpt.child "locations").children s
        obtain ⟨g1, g2, g3⟩ := setResponse_effect
          ((bkpt.child "locations").children.foldl
            (fun s1 loc => s1.insertSubBreakpoint id
              (subBreakpoint F (BreakHandler.response s.breakHandler id) loc
                (BreakpointResponseId.ofBytes (loc.child "number").data))) s) id
          { updateResponse F (BreakHandler.response s.breakHandler id) bkpt with
            id := BreakpointResponseId.ofBytes (bkpt.child "number").data }
        refine ⟨g1.trans l1, g3.trans l3, fun h => absurd h (by simp), fun _ hc => ?_⟩
        rw [g2 (l1.trans hc)]
      · obtain ⟨g1, g2, g3⟩ := setResponse_effect s id
          { updateResponse F (BreakHandler.response s.breakHandler id) bkpt with
            id := BreakpointResponseId.ofBytes (bkpt.child "number").data }
        refine ⟨g1, g3, fun h => absurd h (by simp), fun _ hc => ?_⟩
        rw [g2 hc]
  · have hv2 : (BreakpointResponseId.ofBytes (bkpt.child "number").data).isValid = false := by
      simpa using hv
    simp [hv2]

theorem handleBkpts_effect (F : BreakpointFunctions) (id : Int) (mainrid : BreakpointResponseId)
    (entries : List GdbMi)
    (hsame : ∀ c ∈ entries, isPrimaryEntry c = true →
      BreakpointResponseId.ofBytes (entryNumber c) = mainrid) :
    ∀ s : GdbEngine, QHash.contains s.breakHandler id = true →
      QHash.contains (entries.foldl (fun s bkpt => s.handleBkpt F bkpt id) s).breakHandler id
          = true
      ∧ (entries.foldl (fun s bkpt => s.handleBkpt F bkpt id) s).calls.countP
          (Call.isBreakHandler "notifyBreakpointInsertOk" id)
        = s.calls.countP (Call.isBreakHandler "notifyBreakpointInsertOk" id)
      ∧ ((BreakHandler.response s.breakHandler id).id = mainrid
          ∨ (∃ c ∈ entries, isPrimaryEntry c = true) →
        (BreakHandler.response
          (entries.foldl (fun s bkpt => s.handleBkpt F bkpt id) s).breakHandler id).id
          = mainrid) := by
  induction entries with
  | nil =>
    intro s hc
    refine ⟨hc, rfl, fun h => ?_⟩
    rcases h with h | ⟨c, hmem, _⟩
    · exact h
    · cases hmem
  | cons c rest ih =>
    intro s hc
    obtain ⟨g1, g2, g3, g4⟩ := handleBkpt_effect F s c id
    obtain ⟨h1, h2, h3⟩ :=
      ih (fun x hx => hsame x (List.mem_cons_of_mem _ hx)) (s.handleBkpt F c id) (g1.trans hc)
    refine ⟨h1, h2.trans g2, fun h => ?_⟩
    apply h3
    cases hp : isPrimaryEntry c with
    | true =>
      left
      rw [g4 hp hc]
      exact hsame c (List.mem_cons_self _ _) hp
    | false =>
      rcases h with h | ⟨x, hmem, hx⟩
      · left; rw [g3 hp]; exact h
      · rcases List.mem_cons.mp hmem with rfl | hmem
        · rw [hp] at hx; cases hx
        · right; exact ⟨x, hmem, hx⟩

end GdbEngine

end Debugger
namespace Debugger

open DebuggerState GdbResultClass BreakpointType BreakpointState

namespace GdbEngine

/-! ## The answer to a breakpoint insertion -/

/-- C18 as stated fails: for a breakpoint whose removal was requested
meanwhile, a done response with a valid primary entry stores no response id
and reports no insert-ok; and with a second entry that has a valid undotted
number of its own, the id stored is that of the second entry (2), not that of
the primary `bkpt` entry (1). -/
theorem handleBreakInsert1_other_outcomes :
    (Sample.removing.handleBreakInsert1 Sample.breakpointFunctions baseClass
        Sample.insertDone).calls.countP (Call.isBreakHandler "notifyBreakpointInsertOk" 1) = 0
    ∧ (BreakHandler.response
        (Sample.removing.handleBreakInsert1 Sample.breakpointFunctions baseClass
          Sample.insertDone).breakHandler 1).id.isValid = false
    ∧ isPrimaryEntry (Sample.twoNumbers.data.child "bkpt") = true
    ∧ BreakpointResponseId.ofBytes (entryNumber (Sample.twoNumbers.data.child "bkpt"))
        = { majorPart := 1 }
    ∧ (BreakHandler.response
        (Sample.inserting.handleBreakInsert1 Sample.breakpointFunctions baseClass
          Sample.twoNumbers).breakHandler 1).id = { majorPart := 2 } := by
  refine ⟨rfl, rfl, rfl, rfl, rfl⟩

/-- A sub-breakpoint inserted for a breakpoint the handler knows is among the
sub-breakpoints of that breakpoint afterwards. -/
theorem insertSubBreakpoint_attached (s : GdbEngine) (id : Int) (sub : BreakpointResponse)
    (hknown : QHash.contains s.breakHandler id = true) :
    sub ∈ ((QHash.value (s.insertSubBreakpoint id sub).breakHandler id).getD {}).subBreakpoints := by
  obtain ⟨item, hitem⟩ := BreakHandler.value_isSome_of_contains s.breakHandler id hknown
  have h : QHash.value (s.insertSubBreakpoint id sub).breakHandler id
      = some { item with
          subBreakpoints := item.subBreakpoints.filter (fun old => old.id != sub.id) ++ [sub] } := by
    unfold insertSubBreakpoint BreakHandler.insertSubBreakpoint
    dsimp only
    rw [BreakHandler.value_update_self, hitem]
    rfl
  rw [h]
  exact List.mem_append_right _ (List.mem_singleton.mpr rfl)

/-- C18 (amended): for a done response to a breakpoint insert.  For a
breakpoint the handler knows and whose removal was not requested meanwhile,
whose primary `bkpt` entry has a valid id without a dot that is not hidden,
whose other entries with a valid undotted number carry that same number, and
for which no further change is needed, `handleBreakInsert1` stores the primary
entry's id as the response id and reports insert-ok exactly once, however many
entries the response holds, leaving the breakpoint inserted.  An entry whose
number contains a dot neither replaces the response nor reports insert-ok;
with a valid id it is handed to the handler as a sub-breakpoint, and is among
the sub-breakpoints of a breakpoint the handler knows.  And for a breakpoint
whose removal was requested meanwhile, `handleBreakInsert1` reports that the
removal proceeds, posts `-break-delete` with the number of the primary entry,
and reports remove-ok. -/
theorem handleBreakInsert1_insert_ok (F : BreakpointFunctions) (env : Environment)
    (s : GdbEngine) (response : GdbResponse)
    (hdone : response.resultClass = GdbResultDone) :
    (QHash.contains s.breakHandler (idOfVariant response.cookie) = true →
      BreakHandler.state s.breakHandler (idOfVariant response.cookie)
        ≠ BreakpointRemoveRequested →
      isPrimaryEntry (response.data.child "bkpt") = true →
      s.isHiddenBreakpoint
        (BreakpointResponseId.ofBytes (entryNumber (response.data.child "bkpt"))) = false →
      (∀ c ∈ response.data.children, isPrimaryEntry c = true →
        BreakpointResponseId.ofBytes (entryNumber c)
          = BreakpointResponseId.ofBytes (entryNumber (response.data.child "bkpt"))) →
      F.needsChange
        ((QHash.value
          (response.data.children.foldl
            (fun s1 bkpt => s1.handleBkpt F bkpt (idOfVariant response.cookie)) s).breakHandler
          (idOfVariant response.cookie)).getD {}) = false →
      (BreakHandler.response (s.handleBreakInsert1 F env response).breakHandler
          (idOfVariant response.cookie)).id
          = BreakpointResponseId.ofBytes (entryNumber (response.data.child "bkpt"))
        ∧ (s.handleBreakInsert1 F env response).calls.countP
            (Call.isBreakHandler "notifyBreakpointInsertOk" (idOfVariant response.cookie))
          = s.calls.countP
            (Call.isBreakHandler "notifyBreakpointInsertOk" (idOfVariant response.cookie)) + 1
        ∧ BreakHandler.state (s.handleBreakInsert1 F env response).breakHandler
            (idOfVariant response.cookie) = BreakpointInserted)
      ∧ (∀ (s1 : GdbEngine) (bkpt : GdbMi), containsBytes (entryNumber bkpt) "." = true →
          BreakHandler.response (s1.handleBkpt F bkpt (idOfVariant response.cookie)).breakHandler
              (idOfVariant response.cookie)
            = BreakHandler.response s1.breakHandler (idOfVariant response.cookie)
          ∧ (s1.handleBkpt F bkpt (idOfVariant response.cookie)).calls.countP
              (Call.isBreakHandler "notifyBreakpointInsertOk" (idOfVariant response.cookie))
            = s1.calls.countP
              (Call.isBreakHandler "notifyBreakpointInsertOk" (idOfVariant response.cookie))
          ∧ ((BreakpointResponseId.ofBytes (entryNumber bkpt)).isValid = true →
              s1.handleBkpt F bkpt (idOfVariant response.cookie)
                  = s1.insertSubBreakpoint (idOfVariant response.cookie)
                      (subBreakpoint F
                        (BreakHandler.response s1.breakHandler (idOfVariant response.cookie))
                        bkpt (BreakpointResponseId.ofBytes (entryNumber bkpt)))
                ∧ (QHash.contains s1.breakHandler (idOfVariant response.cookie) = true →
                    subBreakpoint F
                        (BreakHandler.response s1.breakHandler (idOfVariant response.cookie))
                        bkpt (BreakpointResponseId.ofBytes (entryNumber bkpt))
                      ∈ ((QHash.value
                          (s1.handleBkpt F bkpt (idOfVariant response.cookie)).breakHandler
                          (idOfVariant response.cookie)).getD {}).subBreakpoints)))
      ∧ (BreakHandler.state s.breakHandler (idOfVariant response.cookie)
            = BreakpointRemoveRequested →
          s.handleBreakInsert1 F env response
            = ((s.notifyBreakpoint "notifyBreakpointRemoveProceeding" BreakpointRemoveProceeding
                  (idOfVariant response.cookie)).postCommand env
                ("-break-delete " ++ entryNumber (response.data.child "bkpt"))
                { NeedsStop := true, RebuildBreakpointModel := true }
                none none "").notifyBreakpoint "notifyBreakpointRemoveOk" BreakpointDead
                  (idOfVariant response.cookie)) := by
  refine ⟨?_, ?_, ?_⟩
  · intro hknown hstate hmain hshown hothers hnochange
    have hmem : response.data.child "bkpt" ∈ response.data.children := by
      rcases child_mem_or_invalid response.data "bkpt" with h | h
      · exact h
      · rw [h] at hmain; cases hmain
    obtain ⟨e1, e2, e3⟩ := handleBkpts_effect F (idOfVariant response.cookie)
      (BreakpointResponseId.ofBytes (entryNumber (response.data.child "bkpt")))
      response.data.children hothers s hknown
    have hresult : s.handleBreakInsert1 F env response
        = (response.data.children.foldl
            (fun s1 bkpt => s1.handleBkpt F bkpt (idOfVariant response.cookie)) s).notifyBreakpoint
            "notifyBreakpointInsertOk" BreakpointInserted (idOfVariant response.cookie) := by
      have hs : (BreakHandler.state s.breakHandler (idOfVariant response.cookie)
          == BreakpointRemoveRequested) = false := by simpa using hstate
      have hsh : s.isHiddenBreakpoint
          (BreakpointResponseId.ofBytes ((response.data.child "bkpt").child "number").data)
          = false := hshown
      unfold handleBreakInsert1
      simp only [hs, hdone, hsh, hnochange, Bool.false_and, Bool.false_eq_true, if_false,
        beq_self_eq_true, if_true, Bool.not_false]
    rw [hresult]
    refine ⟨?_, ?_, ?_⟩
    · unfold notifyBreakpoint
      rw [BreakHandler.response_setState]
      exact e3 (Or.inr ⟨_, hmem, hmain⟩)
    · unfold notifyBreakpoint
      simp [List.countP_append, Call.isBreakHandler, e2]
    · unfold notifyBreakpoint
      exact BreakHandler.state_setState _ _ _ e1
  · intro s1 bkpt hdot
    obtain ⟨_, g2, g3, _⟩ := handleBkpt_effect F s1 bkpt (idOfVariant response.cookie)
    refine ⟨g3 (by simp [isPrimaryEntry, hdot]), g2, fun hvalid => ?_⟩
    have heq : s1.handleBkpt F bkpt (idOfVariant response.cookie)
        = s1.insertSubBreakpoint (idOfVariant response.cookie)
            (subBreakpoint F
              (BreakHandler.response s1.breakHandler (idOfVariant response.cookie))
              bkpt (BreakpointResponseId.ofBytes (entryNumber bkpt))) := by
      have hv : (BreakpointResponseId.ofBytes (bkpt.child "number").data).isValid = true := hvalid
      have hd : containsBytes (bkpt.child "number").data "." = true := hdot
      unfold handleBkpt entryNumber
      simp only [hv, hd, Bool.not_true, Bool.false_eq_true, if_false, if_true]
    refine ⟨heq, fun hknown => ?_⟩
    rw [heq]
    exact insertSubBreakpoint_attached s1 _ _ hknown
  · intro hremove
    have hs : (BreakHandler.state s.breakHandler (idOfVariant response.cookie)
        == BreakpointRemoveRequested) = true := by simp [hremove]
    unfold handleBreakInsert1 entryNumber
    simp only [hs, hdone, beq_self_eq_true, Bool.and_self, if_true]

theorem handleBreakInsert1_insert_ok_witness :
    (BreakHandler.response
        (Sample.inserting.handleBreakInsert1 Sample.breakpointFunctions baseClass
          Sample.insertDone).breakHandler 1).id = { majorPart := 1 }
      ∧ (Sample.inserting.handleBreakInsert1 Sample.breakpointFunctions baseClass
          Sample.insertDone).calls.countP (Call.isBreakHandler "notifyBreakpointInsertOk" 1) = 1
      ∧ BreakHandler.state
          (Sample.inserting.handleBreakInsert1 Sample.breakpointFunctions baseClass
            Sample.insertDone).breakHandler 1 = BreakpointInserted
      ∧ Sample.removing.handleBreakInsert1 Sample.breakpointFunctions baseClass Sample.insertDone
          = ((Sample.removing.notifyBreakpoint "notifyBreakpointRemoveProceeding"
                BreakpointRemoveProceeding 1).postCommand baseClass "-break-delete 1"
                { NeedsStop := true, RebuildBreakpointModel := true }
                none none "").notifyBreakpoint "notifyBreakpointRemoveOk" BreakpointDead 1 :=
  have h := handleBreakInsert1_insert_ok Sample.breakpointFunctions baseClass Sample.inserting
    Sample.insertDone rfl
  have h1 := h.1 rfl (by decide) rfl rfl (by decide) rfl
  ⟨h1.1, h1.2.1, h1.2.2,
    (handleBreakInsert1_insert_ok Sample.breakpointFunctions baseClass Sample.removing
      Sample.insertDone rfl).2.2 rfl⟩

/-- What the sample responses do: the two dotted entries of the sample
response are attached to breakpoint 1 as sub-breakpoints 1.1 and 1.2; and for
the breakpoint whose removal was requested, `-break-delete 1` is written and
the breakpoint is reported removed. -/
theorem handleBreakInsert1_sample_runs :
    (((QHash.value
        (Sample.inserting.handleBreakInsert1 Sample.breakpointFunctions baseClass
          Sample.insertDone).breakHandler 1).getD {}).subBreakpoints.map (fun sub => sub.id))
      = [{ majorPart := 1, minorPart := 1 }, { majorPart := 1, minorPart := 2 }]
    ∧ (Sample.removing.handleBreakInsert1 Sample.breakpointFunctions baseClass
        Sample.insertDone).calls
      = [Call.breakHandler "notifyBreakpointRemoveProceeding" 1,
          Call.breakHandler "notifyBreakpointRemoveOk" 1]
    ∧ (Sample.removing.handleBreakInsert1 Sample.breakpointFunctions baseClass
        Sample.insertDone).flushed.map (fun t => t.bytes) = [some "1-break-delete 1\r\n"]
    ∧ BreakHandler.state
        (Sample.removing.handleBreakInsert1 Sample.breakpointFunctions baseClass
          Sample.insertDone).breakHandler 1 = BreakpointDead := by
  refine ⟨?_, ?_, ?_, ?_⟩ <;> rfl

theorem changeBreakpoint_first_difference_witness :
    Sample.changing.changeBreakpoint Sample.breakpointFunctions baseClass 1
      = (Sample.changing.beginChange 1).postCommand baseClass "condition 3 i == 5"
          { NeedsStop := true, RebuildBreakpointModel := true }
          (some "handleBreakCondition") (some "handleBreakCondition") "1" :=
  changeBreakpoint_first_difference Sample.breakpointFunctions baseClass Sample.changing 1
    (by decide) rfl

/-- C19 as stated fails: `changeBreakpoint` returns at its two assertions.
For a breakpoint whose last response carries no valid id, no field of which
differs, a call posts nothing and does not report change-ok either: the
engine is left as it was.  The call is reached from `handleBreakInsert1` after
a done reply whose primary entry has no number: the change is announced as
needed, and then nothing is posted and no change-ok is reported.  For a
breakpoint of unknown type with a condition that differs, nothing is posted.
And while the inferior runs, the one command the call posts is queued and
sets off the request for an interrupt, which on an engine that interrupts
through gdb posts a second command, `-exec-interrupt`. -/
theorem changeBreakpoint_first_difference_counterexample :
    ChangedField.first Sample.breakpointFunctions
        (BreakHandler.breakpointData Sample.unanswered.breakHandler 1)
        (BreakHandler.response Sample.unanswered.breakHandler 1) = none
      ∧ (BreakHandler.breakpointData Sample.unanswered.breakHandler 1).type
          = BreakpointByFileAndLine
      ∧ (BreakHandler.response Sample.unanswered.breakHandler 1).id.isValid = false
      ∧ (Sample.unanswered.changeBreakpoint Sample.breakpointFunctions baseClass 1).calls = []
      ∧ (Sample.unanswered.changeBreakpoint Sample.breakpointFunctions baseClass 1).flushed = []
      ∧ BreakHandler.state
          (Sample.unanswered.changeBreakpoint Sample.breakpointFunctions baseClass 1).breakHandler
          1 = BreakpointChangeRequested
      ∧ (Sample.inserting.handleBreakInsert1 Sample.breakpointFunctions baseClass
          Sample.noNumber).calls
        = [Call.breakHandler "notifyBreakpointChangeAfterInsertNeeded" 1]
      ∧ (Sample.inserting.handleBreakInsert1 Sample.breakpointFunctions baseClass
          Sample.noNumber).flushed = []
      ∧ ChangedField.first Sample.breakpointFunctions
          (BreakHandler.breakpointData Sample.untyped.breakHandler 1)
          (BreakHandler.response Sample.untyped.breakHandler 1) = some ChangedField.condition
      ∧ (Sample.untyped.changeBreakpoint Sample.breakpointFunctions baseClass 1).calls = []
      ∧ (Sample.untyped.changeBreakpoint Sample.breakpointFunctions baseClass 1).flushed = []
      ∧ (Sample.changingWhileRunning.changeBreakpoint Sample.breakpointFunctions baseClass
          1).m_commandsToRunOnTemporaryBreak.map (fun cmd => cmd.command)
        = ["condition 3 i == 5"]
      ∧ (Sample.changingWhileRunning.changeBreakpoint Sample.breakpointFunctions baseClass
          1).flushed.map (fun t => t.bytes) = [some "8-exec-interrupt\r\n"] := by
  refine ⟨?_, ?_, ?_, ?_, ?_, ?_, ?_, ?_, ?_, ?_, ?_, ?_, ?_⟩ <;> rfl

/-! ## The count of pending breakpoint requests -/

/-- C20: after two breakpoint commands were posted and the locals were
updated, the counter of pending breakpoint requests is 0 while both commands
are outstanding; the answer to the first one takes the counter to -1 and sets
off the breakpoint synchronization while the second one is still
outstanding. -/
theorem breakpoint_sync_with_request_outstanding :
    Sample.twoBreakpointsPosted.m_pendingBreakpointRequests = 2
    ∧ Sample.twoBreakpointsPosted.outstandingBreakpointRequests = 2
    ∧ Sample.localsUpdated.m_pendingBreakpointRequests = 0
    ∧ Sample.localsUpdated.outstandingBreakpointRequests = 2
    ∧ (Sample.localsUpdated.handleResultRecord baseClass
        Sample.firstInserted).m_pendingBreakpointRequests = -1
    ∧ (Sample.localsUpdated.handleResultRecord baseClass
        Sample.firstInserted).outstandingBreakpointRequests = 1
    ∧ (Sample.localsUpdated.handleResultRecord baseClass
        Sample.firstInserted).calls.countP
          (fun c => match c with
            | .attemptBreakpointSynchronization => true
            | _ => false) = 1 :=
  ⟨rfl, rfl, rfl, rfl, rfl, rfl, rfl⟩

end GdbEngine

end Debugger
namespace Debugger

open DebuggerState GdbResultClass BreakpointType BreakpointState

namespace GdbEngine

/-! ## The bytes written for a command -/

/-- C23: when `flushCommand` writes a command (the state accepts commands, the
gdb process runs, no test response is scheduled for the token), exactly one
transmission is recorded, and its bytes are the decimal text of the token drawn
for it, the next one, immediately followed by the command text, wrapped as
`-interpreter-exec console "<text>"` when the flag `ConsoleCommand` is set, and
by CR LF.  The decimal text is the digits of the token, behind a minus sign
when the token is negative, as it is after 2147483647. -/
theorem flushCommand_written_bytes (env : Environment) (s : GdbEngine) (cmd : GdbCommand)
    (hstate : stateAcceptsGdbCommands s.state = true)
    (hproc : s.gdbProcRunning = true)
    (htest : s.m_scheduledTestResponses.value (nextToken s.currentToken) = none) :
    (s.flushCommand env cmd).flushed
        = s.flushed ++ [Transmission.mk s.state (nextToken s.currentToken) cmd
            (some (toString (nextToken s.currentToken)
              ++ (if cmd.flags.ConsoleCommand then
                    "-interpreter-exec console \"" ++ cmd.command ++ "\""
                  else cmd.command)
              ++ "\r\n"))]
      ∧ (0 ≤ nextToken s.currentToken →
          toString (nextToken s.currentToken)
            = String.mk (Nat.toDigits 10 (nextToken s.currentToken).toNat))
      ∧ (nextToken s.currentToken < 0 →
          toString (nextToken s.currentToken)
            = "-" ++ String.mk (Nat.toDigits 10 (-nextToken s.currentToken).toNat))
      ∧ (s.currentToken ≠ 2147483647 → nextToken s.currentToken = s.currentToken + 1)
      ∧ (s.currentToken = 2147483647 → toString (nextToken s.currentToken) = "-2147483648") := by
  refine ⟨?_, ?_, ?_, nextToken_of_ne _, ?_⟩
  · rw [(flushCommand_sends env s cmd hstate hproc htest).2.2.1]
    simp only [wireCommand]
  · intro h
    obtain ⟨n, hn⟩ := Int.eq_ofNat_of_zero_le h
    rw [hn]
    rfl
  · intro h
    obtain ⟨n, hn⟩ := Int.eq_negSucc_of_lt_zero h
    rw [hn]
    rfl
  · intro h
    rw [h]
    rfl

theorem flushCommand_written_bytes_witness :
    (Sample.stopped.flushCommand baseClass
        { Sample.threadInfo with flags := { ConsoleCommand := true } }).flushed.map
        (fun t => t.bytes)
      = [some "8-interpreter-exec console \"-thread-info\"\r\n"]
    ∧ (Sample.atLimit.flushCommand baseClass Sample.threadInfo).flushed.map (fun t => t.bytes)
      = [some "-2147483648-thread-info\r\n"] := by
  constructor
  · rw [(flushCommand_written_bytes baseClass Sample.stopped
      { Sample.threadInfo with flags := { ConsoleCommand := true } } rfl rfl rfl).1]
    rfl
  · rw [(flushCommand_written_bytes baseClass Sample.atLimit Sample.threadInfo rfl rfl rfl).1]
    rfl

/-! ## The states that accept commands -/

/-- C24: `stateAcceptsGdbCommands` is true for exactly the fifteen states of
`acceptingStates` and false for every other state, among them
`InferiorExitOk`, `EngineShutdownOk` and `DebuggerFinished`. -/
theorem stateAcceptsGdbCommands_exactly :
    (∀ st : DebuggerState, stateAcceptsGdbCommands st = true ↔ st ∈ acceptingStates)
      ∧ acceptingStates.length = 15
      ∧ acceptingStates.Nodup
      ∧ stateAcceptsGdbCommands InferiorExitOk = false
      ∧ stateAcceptsGdbCommands EngineShutdownOk = false
      ∧ stateAcceptsGdbCommands DebuggerFinished = false := by
  refine ⟨?_, rfl, by decide, rfl, rfl, rfl⟩
  intro st
  cases st <;> decide

/-! ## The token barrier and the command sent last -/

/-- C25: the discardable command sent last before `setTokenBarrier` carries
the current token, which becomes the watermark, and the test for a stale
result is `token < watermark`: when its result record arrives, its callback is
invoked. -/
theorem barrier_keeps_last_command :
    Sample.localsPending.setTokenBarrier.m_oldestAcceptableToken = 5
    ∧ Sample.localsPending.setTokenBarrier.m_cookieForToken.value 5 = some Sample.listLocals
    ∧ Sample.listLocals.flags.Discardable = true
    ∧ (Sample.localsPending.setTokenBarrier.handleResultRecord baseClass Sample.done5).calls
        = [Call.callback "handleStackListLocals" Sample.done5] :=
  ⟨rfl, rfl, rfl, rfl⟩

/-! ## Reconciliation of command text and ignore count -/

/-- C27: with both the command text and the ignore count to be changed, the
first pass of `changeBreakpoint` writes `-break-commands`; `handleBreakIgnore`,
which takes the answer, copies command text and ignore count into the
response, so that the next pass finds nothing left and reports change-ok: the
only command written is `-break-commands`, and no `ignore` command. -/
theorem ignore_count_never_sent :
    (BreakHandler.breakpointData Sample.scripted.breakHandler 1).ignoreCount = 2
    ∧ (BreakHandler.response Sample.scripted.breakHandler 1).ignoreCount = 0
    ∧ Sample.scriptedOnce.flushed.map (fun t => t.bytes)
        = [some "1-break-commands 3 \"print x\"\r\n"]
    ∧ Sample.scriptedDone.flushed.map (fun t => t.bytes)
        = [some "1-break-commands 3 \"print x\"\r\n"]
    ∧ Sample.scriptedDone.m_commandsToRunOnTemporaryBreak = []
    ∧ Sample.scriptedDone.calls.countP (Call.isBreakHandler "notifyBreakpointChangeOk" 1) = 1
    ∧ BreakHandler.state Sample.scriptedDone.breakHandler 1 = BreakpointInserted :=
  ⟨rfl, rfl, rfl, rfl, rfl, rfl, rfl⟩

end GdbEngine

/-! ## Connection errors on a line of their own -/

/-- C28: in the message `Quitting`, line feed, `Quit` the phrase `Quit` is a
complete line, the last one; `contains` looks only at the first occurrence of
the phrase, the one inside `Quitting`, and `isGdbConnectionError` is false. -/
theorem isGdbConnectionError_misses_later_line :
    OccursAsLine "Quitting\nQuit" "Quit"
    ∧ isGdbConnectionError "Quitting\nQuit" = false := by
  refine ⟨⟨"Quitting\n".data, [], rfl, Or.inr rfl, Or.inl rfl⟩, rfl⟩

end Debugger

namespace Debugger

open DebuggerState GdbResultClass BreakpointType BreakpointState

namespace GdbEngine

/-! ## The guard against fetching an item twice -/

set_option maxRecDepth 4000

/-- C21: `updateWatchData` puts the name of the item into the set of processed
names and goes on to `updateLocalsPython`, which clears that set: after the
first call the set is empty, and a second call for the same item, right after
the first, posts the fetch command again and hands no item to the watch
handler. -/
theorem second_fetch_not_stopped :
    Sample.fetchedOnce.m_processedNames = []
    ∧ Sample.fetchedOnce.flushed.map (fun t => t.bytes)
      = [some ("1bb options:defaults vars:local.x expanded: typeformats: formats:"
          ++ " watchers: stringcutoff: displaystringlimit:\r\n")]
    ∧ Sample.fetchedTwice.flushed.map (fun t => t.bytes)
      = [some ("1bb options:defaults vars:local.x expanded: typeformats: formats:"
          ++ " watchers: stringcutoff: displaystringlimit:\r\n"),
         some ("2bb options:defaults vars:local.x expanded: typeformats: formats:"
          ++ " watchers: stringcutoff: displaystringlimit:\r\n")]
    ∧ Sample.fetchedTwice.calls.countP Call.isInsertData = 0
    ∧ Sample.fetchedTwice.m_completed = [] :=
  ⟨rfl, rfl, rfl, rfl, rfl⟩

end GdbEngine

end Debugger

namespace Debugger

open DebuggerState GdbResultClass BreakpointType BreakpointState

/-! ## Facts about the reader of gdb's output -/

theorem indexOfFrom_lf_absent (x : List Char) (pos : Nat) (h : Char.ofNat 10 ∉ x) :
    indexOfFrom [Char.ofNat 10] x pos = -1 := by
  induction x generalizing pos with
  | nil => rfl
  | cons c rest ih =>
    have hc : ¬ Char.ofNat 10 = c := fun e => h (e ▸ List.mem_cons_self _ _)
    have hrest : Char.ofNat 10 ∉ rest := fun e => h (List.mem_cons_of_mem _ e)
    unfold indexOfFrom
    simp [List.isPrefixOf, hc]
    exact ih _ hrest

theorem indexOfFrom_lf_found (x y : List Char) (pos : Nat) (h : Char.ofNat 10 ∉ x) :
    indexOfFrom [Char.ofNat 10] (x ++ Char.ofNat 10 :: y) pos = ((pos + x.length : Nat) : Int) := by
  induction x generalizing pos with
  | nil =>
    unfold indexOfFrom
    simp [List.isPrefixOf]
  | cons c rest ih =>
    have hc : ¬ Char.ofNat 10 = c := fun e => h (e ▸ List.mem_cons_self _ _)
    have hrest : Char.ofNat 10 ∉ rest := fun e => h (List.mem_cons_of_mem _ e)
    rw [List.cons_append]
    unfold indexOfFrom
    simp [List.isPrefixOf, hc]
    rw [ih _ hrest]
    push_cast
    ring

theorem lf_split (r : List Char) :
    Char.ofNat 10 ∉ r ∨ ∃ x y, r = x ++ Char.ofNat 10 :: y ∧ Char.ofNat 10 ∉ x := by
  induction r with
  | nil => exact Or.inl (List.not_mem_nil _)
  | cons c rest ih =>
    by_cases hc : c = Char.ofNat 10
    · exact Or.inr ⟨[], rest, by rw [hc]; rfl, List.not_mem_nil _⟩
    · rcases ih with h | ⟨x, y, hxy, hx⟩
      · left
        intro hmem
        rcases List.mem_cons.mp hmem with e | e
        · exact hc e.symm
        · exact h e
      · right
        refine ⟨c :: x, y, by rw [hxy]; rfl, ?_⟩
        intro hmem
        rcases List.mem_cons.mp hmem with e | e
        · exact hc e.symm
        · exact hx e

theorem splitLines_no_lf (x acc : List Char) (h : Char.ofNat 10 ∉ x) :
    splitLines x acc = [String.mk (acc.reverse ++ x)] := by
  induction x generalizing acc with
  | nil => simp [splitLines]
  | cons c rest ih =>
    have hc : ¬ c = Char.ofNat 10 := fun e => h (e ▸ List.mem_cons_self _ _)
    have hrest : Char.ofNat 10 ∉ rest := fun e => h (List.mem_cons_of_mem _ e)
    unfold splitLines
    simp [hc, ih _ hrest]

theorem splitLines_lf (x y acc : List Char) (h : Char.ofNat 10 ∉ x) :
    splitLines (x ++ Char.ofNat 10 :: y) acc
      = String.mk (acc.reverse ++ x) :: splitLines y [] := by
  induction x generalizing acc with
  | nil =>
    rw [List.nil_append, splitLines]
    simp
  | cons c rest ih =>
    have hc : ¬ c = Char.ofNat 10 := fun e => h (e ▸ List.mem_cons_self _ _)
    have hrest : Char.ofNat 10 ∉ rest := fun e => h (List.mem_cons_of_mem _ e)
    rw [List.cons_append, splitLines]
    simp [hc, ih _ hrest]

theorem splitLines_ne_nil (x acc : List Char) : splitLines x acc ≠ [] := by
  induction x generalizing acc with
  | nil => simp [splitLines]
  | cons c rest ih =>
    unfold splitLines
    split_ifs
    · exact List.cons_ne_nil _ _
    · exact ih _

/-- A stream without a line feed has no line; all of it is the tail. -/
theorem stream_no_lf (r : List Char) (h : Char.ofNat 10 ∉ r) :
    streamLines (String.mk r) = [] ∧ streamTail (String.mk r) = String.mk r := by
  unfold streamLines streamTail
  rw [splitLines_no_lf r [] h]
  simp

/-- The lines and the tail of a stream, from its first line feed on. -/
theorem stream_lf (x y : List Char) (h : Char.ofNat 10 ∉ x) :
    streamLines (String.mk (x ++ Char.ofNat 10 :: y))
        = (if (stripCR x).isEmpty then [] else [String.mk (stripCR x)])
          ++ streamLines (String.mk y)
      ∧ streamTail (String.mk (x ++ Char.ofNat 10 :: y)) = streamTail (String.mk y) := by
  unfold streamLines streamTail
  rw [splitLines_lf x y [] h]
  rcases hl : splitLines y [] with _ | ⟨b, l⟩
  · exact absurd hl (splitLines_ne_nil _ _)
  · constructor
    · rw [List.dropLast_cons_of_ne_nil (List.cons_ne_nil _ _), List.map_cons, List.filter_cons]
      by_cases hx : (stripCR x).isEmpty = true
      · simp [hx]
      · simp [hx]
    · simp [List.getLast?_cons_cons]

/-- The tail of a stream holds no line feed. -/
theorem streamTail_no_lf_of_length (n : Nat) :
    ∀ r : List Char, r.length ≤ n → Char.ofNat 10 ∉ (streamTail (String.mk r)).data := by
  induction n with
  | zero =>
    intro r h
    rw [List.length_eq_zero.mp (Nat.le_zero.mp h)]
    exact List.not_mem_nil _
  | succ n ih =>
    intro r h
    rcases lf_split r with hr | ⟨x, y, hxy, hx⟩
    · rw [(stream_no_lf r hr).2]
      exact hr
    · rw [hxy, (stream_lf x y hx).2]
      exact ih y (by rw [hxy] at h; simp at h; omega)

theorem streamTail_no_lf (r : List Char) :
    Char.ofNat 10 ∉ (streamTail (String.mk r)).data :=
  streamTail_no_lf_of_length r.length r (Nat.le_refl _)

/-- Bytes appended to a stream meet the lines the stream had, then the lines of
its tail with the new bytes. -/
theorem stream_append_of_length (c : List Char) (n : Nat) :
    ∀ u : List Char, u.length ≤ n →
      streamLines (String.mk (u ++ c))
          = streamLines (String.mk u)
            ++ streamLines (String.mk ((streamTail (String.mk u)).data ++ c))
        ∧ streamTail (String.mk (u ++ c))
          = streamTail (String.mk ((streamTail (String.mk u)).data ++ c)) := by
  induction n with
  | zero =>
    intro u h
    rw [List.length_eq_zero.mp (Nat.le_zero.mp h)]
    exact ⟨rfl, rfl⟩
  | succ n ih =>
    intro u h
    rcases lf_split u with hu | ⟨x, y, hxy, hx⟩
    · rw [(stream_no_lf u hu).1, (stream_no_lf u hu).2]
      exact ⟨rfl, rfl⟩
    · have hy := ih y (by rw [hxy] at h; simp at h; omega)
      rw [hxy, List.append_assoc, List.cons_append, (stream_lf x (y ++ c) hx).1,
        (stream_lf x (y ++ c) hx).2, (stream_lf x y hx).1, (stream_lf x y hx).2, hy.1, hy.2,
        List.append_assoc]
      exact ⟨rfl, rfl⟩

theorem stream_append (u c : List Char) :
    streamLines (String.mk (u ++ c))
        = streamLines (String.mk u)
          ++ streamLines (String.mk ((streamTail (String.mk u)).data ++ c))
      ∧ streamTail (String.mk (u ++ c))
        = streamTail (String.mk ((streamTail (String.mk u)).data ++ c)) :=
  stream_append_of_length c u.length u (Nat.le_refl _)

end Debugger

namespace Debugger

open DebuggerState GdbResultClass BreakpointType BreakpointState

theorem stripCR_nil_iff (x : List Char) (hx : x ≠ []) :
    stripCR x = [] ↔ x = [Char.ofNat 13] := by
  unfold stripCR
  rcases List.eq_nil_or_concat x with h | ⟨l, c, h⟩
  · exact absurd h hx
  · subst h
    by_cases hc : c = Char.ofNat 13
    · subst hc
      simp
    · have hne : ¬ l ++ [c] = [Char.ofNat 13] := by
        intro h
        have h2 := congrArg List.getLast? h
        simp at h2
        exact hc h2
      simp [hc, hne]

theorem stripCR_take (x y : List Char) :
    (x ++ y).take (stripCR x).length = stripCR x := by
  unfold stripCR
  split_ifs
  · rw [List.dropLast_eq_take, List.length_take, List.take_append_of_le_length (by omega)]
    simp
  · simp

theorem stripCR_length (x : List Char) :
    (stripCR x).length
      = if x.getLast? == some (Char.ofNat 13) then x.length - 1 else x.length := by
  unfold stripCR
  split_ifs <;> simp

theorem getElem_before_lf (b x y : List Char) (k : Nat)
    (hd : b.drop k = x ++ Char.ofNat 10 :: y) (hx : x ≠ []) :
    b[k + x.length - 1]? = x.getLast? := by
  have hpos : 0 < x.length := List.length_pos.mpr hx
  have h1 : b[k + (x.length - 1)]? = (b.drop k)[x.length - 1]? := (List.getElem?_drop _ _ _).symm
  have h2 : k + x.length - 1 = k + (x.length - 1) := by omega
  rw [h2, h1, hd, List.getElem?_append_left (by omega), List.getLast?_eq_getElem?]

theorem drop_after_lf (b x y : List Char) (k : Nat)
    (hd : b.drop k = x ++ Char.ofNat 10 :: y) : b.drop (k + x.length + 1) = y := by
  have h := congrArg (List.drop (x.length + 1)) hd
  rw [List.drop_drop] at h
  have h2 : (x ++ Char.ofNat 10 :: y).drop (x.length + 1) = y := by
    rw [List.drop_append_eq_append_drop]
    simp
  rw [h2] at h
  rw [← h, Nat.add_assoc, Nat.add_comm k]

theorem linesHandled_call (env : Environment) (henv : ReaderUndisturbed env) (s : GdbEngine)
    (line : String) :
    (s.call env (.handleResponse line)).linesHandled = s.linesHandled ++ [line]
      ∧ (s.call env (.handleResponse line)).m_inbuffer = s.m_inbuffer := by
  unfold GdbEngine.call
  refine ⟨((henv _ _).2).trans ?_, (henv _ _).1⟩
  unfold GdbEngine.linesHandled
  simp [List.filterMap_append, Call.line]

/-- One round of the loop at a line that is empty, with or without a carriage
return. -/
theorem readLoop_skip (env : Environment) (fuel : Nat) (s : GdbEngine) (k : Nat)
    (x y : List Char) (hd : s.m_inbuffer.data.drop k = x ++ Char.ofNat 10 :: y)
    (hx : Char.ofNat 10 ∉ x) (hempty : stripCR x = []) :
    GdbEngine.readLoop env (fuel + 1) s k k
      = GdbEngine.readLoop env fuel s (k + x.length + 1) (k + x.length + 1) := by
  have hlt : k < s.m_inbuffer.data.length := by
    have h := congrArg List.length hd
    simp only [List.length_drop, List.length_append, List.length_cons] at h
    omega
  have he : indexOfAfter s.m_inbuffer "\n" k = ((k + x.length : Nat) : Int) := by
    show indexOfFrom [Char.ofNat 10] (s.m_inbuffer.data.drop k) k = _
    rw [hd, indexOfFrom_lf_found _ _ _ hx]
  rw [GdbEngine.readLoop, if_pos hlt]
  simp only [he, Int.toNat_ofNat]
  rw [if_neg (not_lt.mpr (Int.ofNat_nonneg _))]
  by_cases hnil : x = []
  · subst hnil
    simp
  · have hcr := (stripCR_nil_iff x hnil).mp hempty
    subst hcr
    rw [getElem_before_lf _ _ _ _ hd hnil]
    simp

/-- One round of the loop at a line that is not empty. -/
theorem readLoop_line (env : Environment) (fuel : Nat) (s : GdbEngine) (k : Nat)
    (x y : List Char) (hd : s.m_inbuffer.data.drop k = x ++ Char.ofNat 10 :: y)
    (hx : Char.ofNat 10 ∉ x) (hline : stripCR x ≠ []) :
    GdbEngine.readLoop env (fuel + 1) s k k
      = GdbEngine.readLoop env fuel
          { ((({ s with m_busy := true } : GdbEngine)).call env
              (.handleResponse (String.mk (stripCR x)))) with m_busy := false }
          (k + x.length + 1) (k + x.length + 1) := by
  have hlt : k < s.m_inbuffer.data.length := by
    have h := congrArg List.length hd
    simp only [List.length_drop, List.length_append, List.length_cons] at h
    omega
  have he : indexOfAfter s.m_inbuffer "\n" k = ((k + x.length : Nat) : Int) := by
    show indexOfFrom [Char.ofNat 10] (s.m_inbuffer.data.drop k) k = _
    rw [hd, indexOfFrom_lf_found _ _ _ hx]
  have hnil : x ≠ [] := by
    intro h
    subst h
    exact hline rfl
  have hpos : 0 < x.length := List.length_pos.mpr hnil
  have hlast : (if s.m_inbuffer.data[k + x.length - 1]? == some (Char.ofNat 13)
      then k + x.length - 1 else k + x.length) = k + (stripCR x).length := by
    rw [getElem_before_lf _ _ _ _ hd hnil, stripCR_length]
    split_ifs <;> omega
  have hlen : 0 < (stripCR x).length := List.length_pos.mpr hline
  rw [GdbEngine.readLoop, if_pos hlt]
  simp only [he, Int.toNat_ofNat]
  rw [if_neg (not_lt.mpr (Int.ofNat_nonneg _)), hlast, hd]
  have h1 : ¬ ((k + x.length == k) = true) := by rw [beq_iff_eq]; omega
  have h2 : ¬ ((k + (stripCR x).length == k) = true) := by rw [beq_iff_eq]; omega
  rw [if_neg h1, if_neg h2, Nat.add_sub_cancel_left, stripCR_take]

end Debugger

namespace Debugger

open DebuggerState GdbResultClass BreakpointType BreakpointState

/-- The loop hands over the lines of the bytes from `k` on and leaves the tail
behind the last line feed in the buffer. -/
theorem readLoop_reads (env : Environment) (henv : ReaderUndisturbed env) :
    ∀ (fuel : Nat) (s : GdbEngine) (k : Nat), s.m_busy = false →
      k ≤ s.m_inbuffer.data.length → s.m_inbuffer.data.length - k < fuel →
      ∃ s1, GdbEngine.readLoop env fuel s k k = some s1
        ∧ s1.linesHandled
            = s.linesHandled ++ streamLines (String.mk (s.m_inbuffer.data.drop k))
        ∧ s1.m_inbuffer = streamTail (String.mk (s.m_inbuffer.data.drop k))
        ∧ s1.m_busy = false := by
  intro fuel
  induction fuel with
  | zero =>
    intro s k _ _ h
    exact absurd h (Nat.not_lt_zero _)
  | succ fuel ih =>
    intro s k hbusy hk hfuel
    rcases lf_split (s.m_inbuffer.data.drop k) with hr | ⟨x, y, hxy, hx⟩
    · by_cases hlt : k < s.m_inbuffer.data.length
      · have he : indexOfAfter s.m_inbuffer "\n" k = -1 :=
          indexOfFrom_lf_absent _ _ hr
        refine ⟨{ s with m_inbuffer := String.mk (s.m_inbuffer.data.drop k) }, ?_, ?_, ?_, hbusy⟩
        · rw [GdbEngine.readLoop, if_pos hlt]
          simp only [he]
          rfl
        · rw [(stream_no_lf _ hr).1, List.append_nil]
          rfl
        · rw [(stream_no_lf _ hr).2]
      · have hnil : s.m_inbuffer.data.drop k = [] := List.drop_eq_nil_of_le (by omega)
        refine ⟨{ s with m_inbuffer := "" }, ?_, ?_, ?_, hbusy⟩
        · rw [GdbEngine.readLoop, if_neg hlt]
        · rw [hnil, (stream_no_lf [] (List.not_mem_nil _)).1, List.append_nil]
          rfl
        · rw [hnil, (stream_no_lf [] (List.not_mem_nil _)).2]
    · have hlen : s.m_inbuffer.data.length - k = x.length + 1 + y.length := by
        have h := congrArg List.length hxy
        simp only [List.length_drop, List.length_append, List.length_cons] at h
        omega
      have hdrop := drop_after_lf _ _ _ _ hxy
      by_cases hempty : stripCR x = []
      · rw [readLoop_skip env fuel s k x y hxy hx hempty]
        obtain ⟨s1, h1, h2, h3, h4⟩ := ih s (k + x.length + 1) hbusy (by omega) (by omega)
        refine ⟨s1, h1, ?_, ?_, h4⟩
        · rw [h2, hdrop, hxy, (stream_lf x y hx).1, hempty]
          rfl
        · rw [h3, hdrop, hxy, (stream_lf x y hx).2]
      · rw [readLoop_line env fuel s k x y hxy hx hempty]
        have hcall := linesHandled_call env henv { s with m_busy := true } (String.mk (stripCR x))
        obtain ⟨s1, h1, h2, h3, h4⟩ := ih
          { ((({ s with m_busy := true } : GdbEngine)).call env
              (.handleResponse (String.mk (stripCR x)))) with m_busy := false }
          (k + x.length + 1) rfl
          (by
            show k + x.length + 1 ≤ (GdbEngine.m_inbuffer _).data.length
            rw [hcall.2]
            show k + x.length + 1 ≤ s.m_inbuffer.data.length
            omega)
          (by
            show (GdbEngine.m_inbuffer _).data.length - _ < fuel
            rw [hcall.2]
            show s.m_inbuffer.data.length - _ < fuel
            omega)
        have hb : (GdbEngine.m_inbuffer
            { ((({ s with m_busy := true } : GdbEngine)).call env
              (.handleResponse (String.mk (stripCR x)))) with m_busy := false }) = s.m_inbuffer :=
          hcall.2
        have hl : (GdbEngine.linesHandled
            { ((({ s with m_busy := true } : GdbEngine)).call env
              (.handleResponse (String.mk (stripCR x)))) with m_busy := false })
              = s.linesHandled ++ [String.mk (stripCR x)] := hcall.1
        rw [hb, hdrop] at h2 h3
        rw [hl] at h2
        refine ⟨s1, h1, ?_, ?_, h4⟩
        · rw [h2, hxy, (stream_lf x y hx).1]
          have hne : (stripCR x).isEmpty = false := by
            cases hs : stripCR x with
            | nil => exact absurd hs hempty
            | cons _ _ => rfl
          rw [hne]
          simp
        · rw [h3, hxy, (stream_lf x y hx).2]

theorem indexOfFrom_lf_skip (t r : List Char) (pos : Nat) (ht : Char.ofNat 10 ∉ t) :
    indexOfFrom [Char.ofNat 10] (t ++ r) pos = indexOfFrom [Char.ofNat 10] r (pos + t.length) := by
  rcases lf_split r with hr | ⟨x, y, hxy, hx⟩
  · rw [indexOfFrom_lf_absent _ _ hr, indexOfFrom_lf_absent]
    intro h
    rcases List.mem_append.mp h with h | h
    · exact ht h
    · exact hr h
  · have htx : Char.ofNat 10 ∉ t ++ x := by
      intro h
      rcases List.mem_append.mp h with h | h
      · exact ht h
      · exact hx h
    rw [hxy, indexOfFrom_lf_found _ _ _ hx, ← List.append_assoc,
      indexOfFrom_lf_found _ _ _ htx, List.length_append, Nat.add_assoc]

/-- The search for the line end may start behind the bytes of the call
before, which hold no line feed. -/
theorem readLoop_scan (env : Environment) (fuel : Nat) (s : GdbEngine) (t out : List Char)
    (hb : s.m_inbuffer.data = t ++ out) (ht : Char.ofNat 10 ∉ t) :
    GdbEngine.readLoop env fuel s 0 t.length = GdbEngine.readLoop env fuel s 0 0 := by
  cases fuel with
  | zero => rfl
  | succ fuel =>
    have he : indexOfAfter s.m_inbuffer "\n" t.length = indexOfAfter s.m_inbuffer "\n" 0 := by
      show indexOfFrom [Char.ofNat 10] (s.m_inbuffer.data.drop t.length) t.length
        = indexOfFrom [Char.ofNat 10] (s.m_inbuffer.data.drop 0) 0
      rw [hb, List.drop_left, List.drop_zero, indexOfFrom_lf_skip t out 0 ht, Nat.zero_add]
    rw [GdbEngine.readLoop, GdbEngine.readLoop, he]

/-- One call of `readGdbStandardOutput` on an engine that is not busy and
whose buffer holds no line feed. -/
theorem readGdbStandardOutput_reads (env : Environment) (henv : ReaderUndisturbed env)
    (fuel : Nat) (s : GdbEngine) (out : String) (hbusy : s.m_busy = false)
    (hbuffer : Char.ofNat 10 ∉ s.m_inbuffer.data)
    (hfuel : (s.m_inbuffer.data ++ out.data).length < fuel) :
    ∃ s1, s.readGdbStandardOutput env fuel out = some s1
      ∧ s1.linesHandled = s.linesHandled ++ streamLines (s.m_inbuffer ++ out)
      ∧ s1.m_inbuffer = streamTail (s.m_inbuffer ++ out)
      ∧ s1.m_busy = false := by
  obtain ⟨s1, h1, h2, h3, h4⟩ := readLoop_reads env henv fuel
    { s with m_commandTimerActive := true, m_inbuffer := s.m_inbuffer ++ out } 0 hbusy
    (Nat.zero_le _) (by
      show (s.m_inbuffer ++ out).data.length - 0 < fuel
      rw [String.data_append]
      omega)
  refine ⟨s1, ?_, h2, h3, h4⟩
  unfold GdbEngine.readGdbStandardOutput
  dsimp only
  rw [if_neg (by rw [hbusy]; exact Bool.false_ne_true)]
  exact (readLoop_scan env fuel _ s.m_inbuffer.data out.data (String.data_append _ _) hbuffer).trans h1

theorem foldl_append_eq (l : List String) (acc : String) :
    List.foldl (fun r s => r ++ s) acc l = acc ++ String.join l := by
  induction l generalizing acc with
  | nil => exact (String.append_empty _).symm
  | cons c rest ih =>
    show List.foldl (fun r s => r ++ s) (acc ++ c) rest
      = acc ++ List.foldl (fun r s => r ++ s) ("" ++ c) rest
    rw [ih, ih ("" ++ c), String.empty_append, String.append_assoc]

theorem join_cons (c : String) (rest : List String) :
    String.join (c :: rest) = c ++ String.join rest := by
  show List.foldl (fun r s => r ++ s) ("" ++ c) rest = _
  rw [foldl_append_eq, String.empty_append]

theorem streamTail_length_of_length (n : Nat) :
    ∀ r : List Char, r.length ≤ n → (streamTail (String.mk r)).data.length ≤ r.length := by
  induction n with
  | zero =>
    intro r h
    rw [List.length_eq_zero.mp (Nat.le_zero.mp h)]
    exact Nat.le_refl _
  | succ n ih =>
    intro r h
    rcases lf_split r with hr | ⟨x, y, hxy, hx⟩
    · rw [(stream_no_lf r hr).2]
    · rw [hxy, (stream_lf x y hx).2]
      have h2 := ih y (by rw [hxy] at h; simp at h; omega)
      simp only [List.length_append, List.length_cons]
      omega

/-- Successive calls on an engine that is not busy: the lines handed over are
those of the buffer followed by all the chunks. -/
theorem readChunks_reads (env : Environment) (henv : ReaderUndisturbed env) (fuel : Nat) :
    ∀ (chunks : List String) (s : GdbEngine), s.m_busy = false →
      Char.ofNat 10 ∉ s.m_inbuffer.data →
      (s.m_inbuffer ++ String.join chunks).data.length < fuel →
      ∃ s1, s.readChunks env fuel chunks = some s1
        ∧ s1.linesHandled = s.linesHandled ++ streamLines (s.m_inbuffer ++ String.join chunks)
        ∧ s1.m_inbuffer = streamTail (s.m_inbuffer ++ String.join chunks)
        ∧ s1.m_busy = false := by
  intro chunks
  induction chunks with
  | nil =>
    intro s hbusy hbuffer _
    have hj : s.m_inbuffer ++ String.join [] = String.mk s.m_inbuffer.data :=
      String.append_empty _
    refine ⟨s, rfl, ?_, ?_, hbusy⟩
    · rw [hj, (stream_no_lf _ hbuffer).1, List.append_nil]
    · rw [hj, (stream_no_lf _ hbuffer).2]
  | cons c rest ih =>
    intro s hbusy hbuffer hfuel
    rw [join_cons, ← String.append_assoc] at hfuel ⊢
    have hlen : (s.m_inbuffer ++ c ++ String.join rest).data.length
        = (s.m_inbuffer.data ++ c.data).length + (String.join rest).data.length := by
      rw [String.data_append, String.data_append, List.length_append]
    obtain ⟨s1, h1, h2, h3, h4⟩ := readGdbStandardOutput_reads env henv fuel s c hbusy hbuffer
      (by omega)
    have hu : s.m_inbuffer ++ c = String.mk (s.m_inbuffer.data ++ c.data) :=
      String.ext (String.data_append _ _)
    have htail := streamTail_length_of_length _ (s.m_inbuffer.data ++ c.data) (Nat.le_refl _)
    have hno := streamTail_no_lf (s.m_inbuffer.data ++ c.data)
    rw [← hu, ← h3] at htail hno
    obtain ⟨s2, k1, k2, k3, k4⟩ := ih s1 h4 hno (by
      rw [String.data_append, List.length_append]
      omega)
    have happ := stream_append (s.m_inbuffer.data ++ c.data) (String.join rest).data
    have hw : s.m_inbuffer ++ c ++ String.join rest
        = String.mk (s.m_inbuffer.data ++ c.data ++ (String.join rest).data) :=
      String.ext (by rw [String.data_append, String.data_append])
    have hv : s1.m_inbuffer ++ String.join rest
        = String.mk ((streamTail (String.mk (s.m_inbuffer.data ++ c.data))).data
            ++ (String.join rest).data) :=
      String.ext (by rw [String.data_append, h3, hu])
    refine ⟨s2, ?_, ?_, ?_, k4⟩
    · show (s.readGdbStandardOutput env fuel c).bind _ = _
      rw [h1]
      exact k1
    · rw [k2, h2, hw, happ.1, ← hv, ← hu, List.append_assoc]
    · rw [k3, hw, happ.2, ← hv]

end Debugger

namespace Debugger

open DebuggerState GdbResultClass BreakpointType BreakpointState

theorem readerUndisturbed_baseClass : ReaderUndisturbed baseClass := by
  intro c s
  cases c <;> exact ⟨rfl, rfl⟩

/-- C29: successive calls of `readGdbStandardOutput` on an engine that is not
busy, and whose buffer holds no line feed, hand to `handleResponse` the
non-empty lines of the buffer followed by all the chunks, in order and without
the line feed, or carriage return and line feed, at their end; the tail behind
the last line feed stays in the buffer, which so holds no line feed again, and
another way of cutting the same bytes into chunks hands over the same lines. -/
theorem GdbEngine.readGdbStandardOutput_chunking (env : Environment)
    (henv : ReaderUndisturbed env) (s : GdbEngine) (chunks : List String) (fuel : Nat)
    (hbusy : s.m_busy = false) (hbuffer : Char.ofNat 10 ∉ s.m_inbuffer.data)
    (hfuel : (s.m_inbuffer ++ String.join chunks).length < fuel) :
    (s.readChunks env fuel chunks).map (fun s1 => (s1.linesHandled, s1.m_inbuffer, s1.m_busy))
        = some (s.linesHandled ++ streamLines (s.m_inbuffer ++ String.join chunks),
            streamTail (s.m_inbuffer ++ String.join chunks), false)
      ∧ Char.ofNat 10 ∉ (streamTail (s.m_inbuffer ++ String.join chunks)).data
      ∧ ∀ other : List String, String.join other = String.join chunks →
          (s.readChunks env fuel other).map GdbEngine.linesHandled
            = (s.readChunks env fuel chunks).map GdbEngine.linesHandled := by
  obtain ⟨s1, h1, h2, h3, h4⟩ := readChunks_reads env henv fuel chunks s hbusy hbuffer hfuel
  refine ⟨?_, streamTail_no_lf (s.m_inbuffer ++ String.join chunks).data, ?_⟩
  · rw [h1, Option.map_some', h2, h3, h4]
  · intro other hother
    obtain ⟨s2, k1, k2, _, _⟩ := readChunks_reads env henv fuel other s hbusy hbuffer
      (by rw [hother]; exact hfuel)
    rw [h1, k1, Option.map_some', Option.map_some', k2, h2, hother]

theorem GdbEngine.readGdbStandardOutput_chunking_witness :
    ReaderUndisturbed baseClass
      ∧ (Sample.fresh.readChunks baseClass 40 Sample.chunks).map
          (fun s1 => (s1.linesHandled, s1.m_inbuffer, s1.m_busy))
        = some (["1^done", "(gdb) "], "~\"x", false)
      ∧ (Sample.fresh.readChunks baseClass 40 ["1^done\r\n(gdb) \n\r\n\n~\"x"]).map
          GdbEngine.linesHandled
        = some ["1^done", "(gdb) "] :=
  have h := GdbEngine.readGdbStandardOutput_chunking baseClass readerUndisturbed_baseClass
    Sample.fresh Sample.chunks 40 rfl (by decide) (by decide)
  ⟨readerUndisturbed_baseClass, h.1.trans (by decide), (h.2.2 _ (by decide)).trans (by decide)⟩

end Debugger

namespace Debugger

open DebuggerState GdbResultClass BreakpointType BreakpointState

/-! ## The watchers and the display formats -/

/-- C26: a handler for a session without saved watchers gives the first
watcher the number 0, and the test `theWatcherNames.value(exp)` of the second
`watchExpression("x")` takes this 0 for "not there": the second call enters
`x` again, under the number 1, and the model gets the second item `watch.1`
for the expression `x`. -/
theorem WatchHandler.watchExpression_twice_adds_two :
    WatchHandler.construct 0 = some Sample.watchHandler
      ∧ Sample.watchHandler.watchExpression Sample.watchFunctions 10 "x" ""
        = some Sample.watchedOnce
      ∧ Sample.watchedOnce.watchExpression Sample.watchFunctions 10 "x" ""
        = some Sample.watchedTwice
      ∧ Sample.watchedOnce.theWatcherNames = [("x", 0)]
      ∧ Sample.watchedTwice.theWatcherNames = [("x", 1)]
      ∧ Sample.watchedOnce.m_model.m_cache.map (fun e => e.1)
        = ["watch.0", "tooltip", "return", "watch", "inspect", "local", ""]
      ∧ Sample.watchedTwice.m_model.m_cache.map (fun e => e.1)
        = ["watch.1", "watch.0", "tooltip", "return", "watch", "inspect", "local", ""]
      ∧ Sample.watchedTwice.m_model.items.filterMap
          (fun e => if e.2.data.exp = "x" then some e.2.data.iname else none)
        = ["watch.1", "watch.0"] := by
  decide

/-- C30: for the item `local.x` with the format 2 set for it, `itemFormat`
gives 2 and `WatchHandler::format` gives the automatic format: the format it
looks up goes to a variable of the inner block, not to the one returned. -/
theorem WatchHandler.format_not_itemFormat :
    Sample.formatted.m_model.findItem "local.x" = some 6
      ∧ (Sample.formatted.m_model.items.value 6).map (fun it => it.data)
        = some Sample.localValue
      ∧ Sample.formatted.format Sample.watchFunctions "local.x"
        = some Sample.watchFunctions.AutomaticFormat
      ∧ Sample.watchFunctions.AutomaticFormat = -1
      ∧ WatchModel.itemFormat Sample.watchFunctions Sample.formatted.theIndividualFormats
          Sample.formatted.theTypeFormats Sample.localValue = 2 := by
  decide

end Debugger

/-! ## Facts about the watch model -/

namespace Debugger

namespace QHashOf

variable {K V : Type} [DecidableEq K]

theorem lookup_insert_self (h : QHashOf K V) (key : K) (v : V) :
    (h.insert key v).value key = some v := by
  simp [insert, value, List.find?_cons]

theorem lookup_find_remove_of_ne (h : QHashOf K V) {key k : K} (hne : key ≠ k) :
    List.find? (fun e => e.1 == k) (h.remove key) = List.find? (fun e => e.1 == k) h := by
  induction h with
  | nil => rfl
  | cons e rest ih =>
    unfold remove at ih ⊢
    by_cases h1 : e.1 = key
    · have h2 : ¬ e.1 = k := fun h => hne (h1.symm.trans h)
      rw [List.filter_cons_of_neg (by simp [h1]), List.find?_cons_of_neg _ (by simp [h2])]
      exact ih
    · rw [List.filter_cons_of_pos (by simp [h1])]
      by_cases h2 : e.1 = k
      · rw [List.find?_cons_of_pos _ (by simp [h2]), List.find?_cons_of_pos _ (by simp [h2])]
      · rw [List.find?_cons_of_neg _ (by simp [h2]), List.find?_cons_of_neg _ (by simp [h2])]
        exact ih

theorem lookup_remove_of_ne (h : QHashOf K V) {key k : K} (hne : key ≠ k) :
    (h.remove key).value k = h.value k := by
  unfold value
  rw [lookup_find_remove_of_ne h hne]

theorem lookup_insert_of_ne (h : QHashOf K V) {key k : K} (v : V) (hne : key ≠ k) :
    (h.insert key v).value k = h.value k := by
  have := lookup_find_remove_of_ne h hne
  unfold value insert
  rw [List.find?_cons_of_neg _ (by simp [hne]), this]

theorem lookup_remove_self (h : QHashOf K V) (key : K) : (h.remove key).value key = none := by
  simp [value, remove, List.find?_eq_none, List.mem_filter]

theorem lookup_remove_some {h : QHashOf K V} {key k : K} {v : V}
    (hv : (h.remove key).value k = some v) : key ≠ k ∧ h.value k = some v := by
  by_cases hk : key = k
  · subst hk
    rw [lookup_remove_self] at hv
    exact absurd hv (by simp)
  · exact ⟨hk, (lookup_remove_of_ne h hk).symm.trans hv⟩

theorem lookup_insert_some {h : QHashOf K V} {key k : K} {v w : V}
    (hv : (h.insert key v).value k = some w) :
    (key = k ∧ v = w) ∨ (key ≠ k ∧ h.value k = some w) := by
  by_cases hk : key = k
  · subst hk
    rw [lookup_insert_self] at hv
    exact Or.inl ⟨rfl, Option.some.inj hv⟩
  · exact Or.inr ⟨hk, (lookup_insert_of_ne h v hk).symm.trans hv⟩

theorem lookup_contains (h : QHashOf K V) (key : K) :
    h.contains key = (h.value key).isSome := by
  induction h with
  | nil => rfl
  | cons e rest ih =>
    unfold contains value at ih ⊢
    by_cases h1 : e.1 = key
    · simp [h1]
    · rw [List.any_cons, List.find?_cons_of_neg _ (by simp [h1]), ← ih]
      simp [h1]

end QHashOf

namespace WatchModel

theorem modify_eq (m : WatchModel) (item : Nat) (f : WatchItem → WatchItem) (it : WatchItem)
    (h : m.items.value item = some it) :
    m.modify item f = some { m with items := m.items.insert item (f it) } := by
  unfold modify
  rw [h]
  rfl

theorem Sound.sound_mono {E E1 : List Nat} {m : WatchModel} (h : Sound E m)
    (hE : ∀ e, e ∈ E → e ∈ E1) : Sound E1 m :=
  { registered := h.registered
    cached := h.cached
    fresh := h.fresh
    ordered := h.ordered
    nodup := h.nodup
    parent := h.parent
    whole := fun p it hp hn => h.whole p it hp (fun he => hn (hE p he)) }

theorem Shrunk.shrunk_refl (m : WatchModel) : Shrunk m m :=
  ⟨fun _ _ h => h, rfl⟩

theorem Shrunk.shrunk_trans {m m1 m2 : WatchModel} (h1 : Shrunk m m1) (h2 : Shrunk m1 m2) :
    Shrunk m m2 :=
  ⟨fun p it h => h1.items p it (h2.items p it h), h2.nextAddress.trans h1.nextAddress⟩

/-- An item that nothing alive points to, apart from exempt items, is
destroyed, and the model stays in order. -/
theorem itemDestructor_sound (E : List Nat) (m : WatchModel) (a : Nat) (it : WatchItem)
    (hs : Sound (a :: E) m) (ha : m.items.value a = some it)
    (hheld : ∀ q itq, q ∉ E → q ≠ a → m.items.value q = some itq → a ∉ itq.children) :
    ∃ m1, m.itemDestructor a = some m1 ∧ Sound E m1 ∧ m1.items.value a = none
      ∧ (∀ p, p ≠ a → m1.items.value p = m.items.value p)
      ∧ m1.nextAddress = m.nextAddress := by
  have hreg := hs.registered a it ha
  refine ⟨{ m with m_cache := m.m_cache.remove it.data.iname, items := m.items.remove a },
    ?_, ?_, QHashOf.lookup_remove_self _ _, fun p hp => QHashOf.lookup_remove_of_ne _ (Ne.symm hp),
    rfl⟩
  · unfold itemDestructor
    rw [ha, Option.map_some', hreg]
    simp
  · have hitems : ∀ p itp, QHashOf.value (m.items.remove a) p = some itp →
        a ≠ p ∧ m.items.value p = some itp := fun p itp h => QHashOf.lookup_remove_some h
    refine ⟨?_, ?_, ?_, ?_, ?_, ?_, ?_⟩
    · intro p itp hp
      obtain ⟨hne, hp1⟩ := hitems p itp hp
      have hc := hs.registered p itp hp1
      have hn : it.data.iname ≠ itp.data.iname := by
        intro heq
        rw [← heq, hreg] at hc
        exact hne (Option.some.inj hc)
      exact (QHashOf.lookup_remove_of_ne _ hn).trans hc
    · intro iname p hp
      obtain ⟨hne, hp1⟩ := QHashOf.lookup_remove_some hp
      obtain ⟨itp, h1, h2⟩ := hs.cached iname p hp1
      have hpa : a ≠ p := by
        intro heq
        subst heq
        rw [ha] at h1
        exact hne ((congrArg (fun x => x.data.iname) (Option.some.inj h1)).trans h2)
      exact ⟨itp, (QHashOf.lookup_remove_of_ne _ hpa).trans h1, h2⟩
    · intro p itp hp
      exact hs.fresh p itp (hitems p itp hp).2
    · intro p itp hp
      exact hs.ordered p itp (hitems p itp hp).2
    · intro p itp hp
      exact hs.nodup p itp (hitems p itp hp).2
    · intro p itp hp c hc ci hci
      exact hs.parent p itp (hitems p itp hp).2 c hc ci (hitems c ci hci).2
    · intro p itp hp hpE c hc
      obtain ⟨hne, hp1⟩ := hitems p itp hp
      have hca : a ≠ c := by
        intro heq
        subst heq
        exact hheld p itp hpE (Ne.symm hne) hp1 hc
      have hlive := hs.whole p itp hp1
        (by
          intro hmem
          rcases List.mem_cons.mp hmem with h | h
          · exact hne h.symm
          · exact hpE h) c hc
      show (QHashOf.value (m.items.remove a) c).isSome = true
      rw [QHashOf.lookup_remove_of_ne _ hca]
      exact hlive

end WatchModel

end Debugger

namespace Debugger

namespace WatchModel

theorem Shrunk.shrunk_gone {m m1 : WatchModel} (h : Shrunk m m1) {x : Nat}
    (hx : m.items.value x = none) : m1.items.value x = none := by
  cases h1 : m1.items.value x with
  | none => rfl
  | some it =>
    rw [h.items x it h1] at hx
    exact absurd hx (by simp)

theorem destroyHelper_nil (fuel : Nat) (m : WatchModel) :
    destroyHelper (fuel + 1) m [] = some m := rfl

theorem destroyHelper_cons (fuel : Nat) (m : WatchModel) (a : Nat) (l : List Nat) :
    destroyHelper (fuel + 1) m (a :: l)
      = (destroyHelper (fuel + 1) m l).bind (fun m1 =>
          (m1.items.value a).bind (fun it =>
            (destroyHelper fuel m1 it.children).bind (fun m2 => m2.itemDestructor a))) := rfl

/-- Items that are alive and that nothing alive points to, apart from exempt
items, are destroyed with all that is below them, and nothing else is: what is
gone was one of the items or a child of an item that is not exempt, and it has
an address from the lowest of the items on. -/
theorem destroyHelper_sound : ∀ (fuel : Nat) (items : List Nat) (E : List Nat) (m : WatchModel),
    Sound E m → items.Nodup → (∀ c ∈ items, (m.items.value c).isSome = true) →
    (∀ c ∈ items, ∀ q itq, q ∉ E → m.items.value q = some itq → c ∉ itq.children) →
    (∀ c ∈ items, ∀ e ∈ E, e < c) → 0 < fuel → (∀ c ∈ items, m.nextAddress < c + fuel) →
    ∃ m1, destroyHelper fuel m items = some m1 ∧ Sound E m1 ∧ Shrunk m m1
      ∧ (∀ c ∈ items, m1.items.value c = none)
      ∧ (∀ x, (m.items.value x).isSome = true → m1.items.value x = none →
          x ∈ items ∨ ∃ q itq, q ∉ E ∧ m.items.value q = some itq ∧ x ∈ itq.children)
      ∧ (∀ x, (m.items.value x).isSome = true → m1.items.value x = none →
          ∃ c ∈ items, c ≤ x) := by
  intro fuel
  induction fuel with
  | zero =>
    intro items E m _ _ _ _ _ h0
    exact absurd h0 (Nat.lt_irrefl 0)
  | succ fuel ih =>
    intro items
    induction items with
    | nil =>
      intro E m hs _ _ _ _ _ _
      refine ⟨m, rfl, hs, Shrunk.shrunk_refl m, fun c hc => absurd hc (List.not_mem_nil c), ?_, ?_⟩
      · intro x hx hn
        rw [hn] at hx
        exact absurd hx (by simp)
      · intro x hx hn
        rw [hn] at hx
        exact absurd hx (by simp)
    | cons a l ihl =>
      intro E m hs hnodup hlive hheld hord _ hfuel
      have hal : a ∉ l := (List.nodup_cons.mp hnodup).1
      obtain ⟨m1, e1, hs1, hsh1, hdead1, hwhy1, hlow1⟩ := ihl E m hs (List.nodup_cons.mp hnodup).2
        (fun c hc => hlive c (List.mem_cons_of_mem _ hc))
        (fun c hc => hheld c (List.mem_cons_of_mem _ hc))
        (fun c hc => hord c (List.mem_cons_of_mem _ hc)) (Nat.succ_pos _)
        (fun c hc => hfuel c (List.mem_cons_of_mem _ hc))
      have haE : a ∉ E := fun h => Nat.lt_irrefl a (hord a (List.mem_cons_self _ _) a h)
      -- the item `a` is still alive
      obtain ⟨it, hit1⟩ : ∃ it, m1.items.value a = some it := by
        cases hv : m1.items.value a with
        | some it => exact ⟨it, rfl⟩
        | none =>
          rcases hwhy1 a (hlive a (List.mem_cons_self _ _)) hv with h | ⟨q, itq, hq, hqv, hmem⟩
          · exact absurd h hal
          · exact absurd hmem (hheld a (List.mem_cons_self _ _) q itq hq hqv)
      have hit : m.items.value a = some it := hsh1.items a it hit1
      have hanext : a < m.nextAddress := hs.fresh a it hit
      have hfa := hfuel a (List.mem_cons_self _ _)
      -- the items below `a`
      obtain ⟨m2, e2, hs2, hsh2, _, hwhy2, hlow2⟩ := ih it.children (a :: E) m1
        (hs1.sound_mono (fun e he => List.mem_cons_of_mem _ he)) (hs1.nodup a it hit1)
        (hs1.whole a it hit1 haE)
        (by
          intro d hd q itq hq hqv hmem
          have hdl := hs1.whole a it hit1 haE d hd
          cases hdv : m1.items.value d with
          | none =>
            rw [hdv] at hdl
            exact absurd hdl (by simp)
          | some di =>
            have h1 := hs1.parent a it hit1 d hd di hdv
            have h2 := hs1.parent q itq hqv d hmem di hdv
            rw [h1] at h2
            exact hq (by rw [← Option.some.inj h2]; exact List.mem_cons_self _ _))
        (by
          intro d hd e he
          have had := hs1.ordered a it hit1 d hd
          rcases List.mem_cons.mp he with h | h
          · rw [h]
            exact had
          · exact Nat.lt_trans (hord a (List.mem_cons_self _ _) e h) had)
        (by omega)
        (by
          intro d hd
          have had := hs1.ordered a it hit1 d hd
          rw [hsh1.nextAddress]
          omega)
      have hit2 : m2.items.value a = some it := by
        cases hv : m2.items.value a with
        | some it2 =>
          have h := hsh2.items a it2 hv
          rw [hit1] at h
          rw [h]
        | none =>
          obtain ⟨d, hd, hle⟩ := hlow2 a (by rw [hit1]; rfl) hv
          have had := hs1.ordered a it hit1 d hd
          omega
      -- the item `a` itself
      obtain ⟨m3, e3, hs3, hgone3, hrest3, hnext3⟩ := itemDestructor_sound E m2 a it hs2 hit2
        (by
          intro q itq hq _ hqv
          exact hheld a (List.mem_cons_self _ _) q itq hq (hsh1.items q itq (hsh2.items q itq hqv)))
      have hsh3 : Shrunk m2 m3 := by
        refine ⟨?_, hnext3⟩
        intro p itp hp
        have hpa : p ≠ a := by
          intro h
          rw [h, hgone3] at hp
          exact absurd hp (by simp)
        rw [← hrest3 p hpa]
        exact hp
      refine ⟨m3, ?_, hs3, hsh1.shrunk_trans (hsh2.shrunk_trans hsh3), ?_, ?_, ?_⟩
      · rw [destroyHelper_cons, e1, Option.some_bind, hit1, Option.some_bind, e2,
          Option.some_bind, e3]
      · intro c hc
        rcases List.mem_cons.mp hc with h | h
        · rw [h]
          exact hgone3
        · exact (hsh2.shrunk_trans hsh3).shrunk_gone (hdead1 c h)
      · intro x hx hn
        cases hx1 : m1.items.value x with
        | none =>
          rcases hwhy1 x hx hx1 with h | h
          · exact Or.inl (List.mem_cons_of_mem _ h)
          · exact Or.inr h
        | some x1 =>
          cases hx2 : m2.items.value x with
          | none =>
            rcases hwhy2 x (by rw [hx1]; rfl) hx2 with h | ⟨q, itq, hq, hqv, hmem⟩
            · exact Or.inr ⟨a, it, haE, hit, h⟩
            · exact Or.inr ⟨q, itq, fun h => hq (List.mem_cons_of_mem _ h),
                hsh1.items q itq hqv, hmem⟩
          | some x2 =>
            by_cases hxa : x = a
            · exact Or.inl (by rw [hxa]; exact List.mem_cons_self _ _)
            · rw [hrest3 x hxa, hx2] at hn
              exact absurd hn (by simp)
      · intro x hx hn
        cases hx1 : m1.items.value x with
        | none =>
          obtain ⟨c, hc, hle⟩ := hlow1 x hx hx1
          exact ⟨c, List.mem_cons_of_mem _ hc, hle⟩
        | some x1 =>
          cases hx2 : m2.items.value x with
          | none =>
            obtain ⟨d, hd, hle⟩ := hlow2 x (by rw [hx1]; rfl) hx2
            have had := hs1.ordered a it hit1 d hd
            exact ⟨a, List.mem_cons_self _ _, by omega⟩
          | some x2 =>
            by_cases hxa : x = a
            · exact ⟨a, List.mem_cons_self _ _, by omega⟩
            · rw [hrest3 x hxa, hx2] at hn
              exact absurd hn (by simp)

end WatchModel

end Debugger

namespace Debugger

namespace WatchModel

/-- A write to an item that keeps its iname and its parent and adds no child
keeps the model in order. -/
theorem modify_sound (m : WatchModel) (p : Nat) (it new : WatchItem) (hs : Sound [] m)
    (hp : m.items.value p = some it) (hiname : new.data.iname = it.data.iname)
    (hparent : new.parent = it.parent) (hchildren : new.children.Sublist it.children) :
    Sound [] { m with items := m.items.insert p new } := by
  have hval : ∀ q itq, QHashOf.value (m.items.insert p new) q = some itq →
      (q = p ∧ itq = new) ∨ (q ≠ p ∧ m.items.value q = some itq) := by
    intro q itq h
    rcases QHashOf.lookup_insert_some h with ⟨h1, h2⟩ | ⟨h1, h2⟩
    · exact Or.inl ⟨h1.symm, h2.symm⟩
    · exact Or.inr ⟨Ne.symm h1, h2⟩
  have hlive : ∀ q, (m.items.value q).isSome = true →
      (QHashOf.value (m.items.insert p new) q).isSome = true := by
    intro q hq
    by_cases hqp : p = q
    · rw [← hqp, QHashOf.lookup_insert_self]
      rfl
    · rw [QHashOf.lookup_insert_of_ne _ _ hqp]
      exact hq
  refine ⟨?_, ?_, ?_, ?_, ?_, ?_, ?_⟩
  · intro q itq hq
    rcases hval q itq hq with ⟨h1, h2⟩ | ⟨_, h2⟩
    · rw [h1, h2, hiname]
      exact hs.registered p it hp
    · exact hs.registered q itq h2
  · intro iname q hq
    obtain ⟨itq, h1, h2⟩ := hs.cached iname q hq
    by_cases hqp : p = q
    · subst hqp
      rw [hp] at h1
      refine ⟨new, QHashOf.lookup_insert_self _ _ _, ?_⟩
      rw [hiname, Option.some.inj h1]
      exact h2
    · exact ⟨itq, (QHashOf.lookup_insert_of_ne _ _ hqp).trans h1, h2⟩
  · intro q itq hq
    rcases hval q itq hq with ⟨h1, _⟩ | ⟨_, h2⟩
    · rw [h1]
      exact hs.fresh p it hp
    · exact hs.fresh q itq h2
  · intro q itq hq c hc
    rcases hval q itq hq with ⟨h1, h2⟩ | ⟨_, h2⟩
    · rw [h1]
      rw [h2] at hc
      exact hs.ordered p it hp c (hchildren.subset hc)
    · exact hs.ordered q itq h2 c hc
  · intro q itq hq
    rcases hval q itq hq with ⟨_, h2⟩ | ⟨_, h2⟩
    · rw [h2]
      exact (hs.nodup p it hp).sublist hchildren
    · exact hs.nodup q itq h2
  · intro q itq hq c hc ci hci
    have hq1 : ∃ itq1, m.items.value q = some itq1 ∧ c ∈ itq1.children := by
      rcases hval q itq hq with ⟨h1, h2⟩ | ⟨_, h2⟩
      · rw [h2] at hc
        exact ⟨it, h1 ▸ hp, hchildren.subset hc⟩
      · exact ⟨itq, h2, hc⟩
    obtain ⟨itq1, hq2, hc2⟩ := hq1
    rcases hval c ci hci with ⟨h1, h2⟩ | ⟨_, h2⟩
    · rw [h2, hparent]
      exact hs.parent q itq1 hq2 p (h1 ▸ hc2) it hp
    · exact hs.parent q itq1 hq2 c hc2 ci h2
  · intro q itq hq _ c hc
    rcases hval q itq hq with ⟨h1, h2⟩ | ⟨_, h2⟩
    · rw [h2] at hc
      exact hlive c (hs.whole p it hp (List.not_mem_nil _) c (hchildren.subset hc))
    · exact hlive c (hs.whole q itq h2 (List.not_mem_nil _) c hc)

/-- The function `destroyChildren` keeps the model in order and the item
itself, with its data, and creates nothing. -/
theorem destroyChildren_sound (fuel : Nat) (m : WatchModel) (p : Nat) (it : WatchItem)
    (hs : Sound [] m) (hp : m.items.value p = some it) (hfuel : m.nextAddress < fuel) :
    ∃ m1, m.destroyChildren fuel p = some m1 ∧ Sound [] m1
      ∧ m1.nextAddress = m.nextAddress
      ∧ (∀ q, (m1.items.value q).isSome = true → (m.items.value q).isSome = true)
      ∧ ∃ it1, m1.items.value p = some it1 ∧ it1.data = it.data := by
  have hcontains : m.m_cache.contains it.data.iname = true := by
    rw [QHashOf.lookup_contains, hs.registered p it hp]
    rfl
  by_cases hch : it.children = []
  · refine ⟨m, ?_, hs, rfl, fun _ h => h, it, hp, rfl⟩
    unfold destroyChildren
    rw [hp, Option.some_bind, hcontains, hch]
    rfl
  · have hs0 := modify_sound m p it { it with children := [] } hs hp rfl rfl
      (List.nil_sublist _)
    have hp0 : QHashOf.value (m.items.insert p { it with children := [] }) p
        = some { it with children := [] } := QHashOf.lookup_insert_self _ _ _
    have hother : ∀ q, q ≠ p →
        QHashOf.value (m.items.insert p { it with children := [] }) q = m.items.value q :=
      fun q hq => QHashOf.lookup_insert_of_ne _ _ (Ne.symm hq)
    obtain ⟨m1, e1, hs1, hsh1, _, _, hlow1⟩ := destroyHelper_sound fuel it.children []
      { m with items := m.items.insert p { it with children := [] } } hs0 (hs.nodup p it hp)
      (by
        intro c hc
        have hpc := hs.ordered p it hp c hc
        show (QHashOf.value (m.items.insert p { it with children := [] }) c).isSome = true
        rw [hother c (by omega)]
        exact hs.whole p it hp (List.not_mem_nil _) c hc)
      (by
        intro c hc q itq _ hq hmem
        by_cases hqp : q = p
        · rw [hqp] at hq
          have h := Option.some.inj (hp0.symm.trans hq)
          rw [← h] at hmem
          exact absurd hmem (List.not_mem_nil _)
        · have hq1 : m.items.value q = some itq := (hother q hqp).symm.trans hq
          have hlive := hs.whole p it hp (List.not_mem_nil _) c hc
          cases hcv : m.items.value c with
          | none =>
            rw [hcv] at hlive
            exact absurd hlive (by simp)
          | some ci =>
            have h1 := hs.parent p it hp c hc ci hcv
            have h2 := hs.parent q itq hq1 c hmem ci hcv
            rw [h1] at h2
            exact hqp (Option.some.inj h2).symm)
      (fun _ _ e he => absurd he (List.not_mem_nil _)) (by omega)
      (by
        intro c _
        show m.nextAddress < c + fuel
        omega)
    have hp1 : m1.items.value p = some { it with children := [] } := by
      cases hv : m1.items.value p with
      | some it1 =>
        have h := hsh1.items p it1 hv
        exact congrArg some (Option.some.inj (h.symm.trans hp0))
      | none =>
        obtain ⟨c, hc, hle⟩ := hlow1 p (by rw [hp0]; rfl) hv
        have hpc := hs.ordered p it hp c hc
        omega
    refine ⟨m1, ?_, hs1, hsh1.nextAddress, ?_, _, hp1, rfl⟩
    · unfold destroyChildren
      rw [hp, Option.some_bind, hcontains]
      have hne : it.children.isEmpty = false := by
        cases hc : it.children with
        | nil => exact absurd hc hch
        | cons _ _ => rfl
      rw [hne, modify_eq m p _ it hp]
      exact e1
    · intro q hq
      cases hv : m1.items.value q with
      | none =>
        rw [hv] at hq
        exact absurd hq (by simp)
      | some itq =>
        have h := hsh1.items q itq hv
        by_cases hqp : q = p
        · rw [hqp, hp]
          rfl
        · rw [← hother q hqp]
          exact (congrArg Option.isSome h).trans rfl

/-- The function `assignData`, for data with the iname of the item, puts the
data into the item and keeps the model in order. -/
theorem assignData_sound (m : WatchModel) (p : Nat) (it : WatchItem) (data : WatchData)
    (hs : Sound [] m) (hp : m.items.value p = some it) (hiname : data.iname = it.data.iname) :
    m.assignData p data = some { m with items := m.items.insert p { it with data := data } }
      ∧ Sound [] { m with items := m.items.insert p { it with data := data } } := by
  refine ⟨?_, modify_sound m p it { it with data := data } hs hp hiname rfl
    (List.Sublist.refl _)⟩
  unfold assignData
  rw [hp, Option.some_bind]
  have hb : (data.iname == it.data.iname) = true := by rw [hiname]; exact beq_self_eq_true _
  simp only [hb, if_true]
  exact modify_eq m p _ it hp

end WatchModel

end Debugger

namespace Debugger

namespace WatchModel

theorem derefAll_alive (m : WatchModel) (l : List Nat)
    (h : ∀ c ∈ l, (m.items.value c).isSome = true) : ∃ its, m.derefAll l = some its := by
  induction l with
  | nil => exact ⟨[], rfl⟩
  | cons c rest ih =>
    obtain ⟨its, hits⟩ := ih (fun d hd => h d (List.mem_cons_of_mem _ hd))
    cases hc : m.items.value c with
    | none =>
      have := h c (List.mem_cons_self _ _)
      rw [hc] at this
      exact absurd this (by simp)
    | some it =>
      refine ⟨it :: its, ?_⟩
      unfold derefAll
      rw [hc, hits]
      rfl

theorem mem_insert_row (l : List Nat) (row a c : Nat) :
    c ∈ l.take row ++ [a] ++ l.drop row ↔ c = a ∨ c ∈ l := by
  have h : c ∈ l ↔ c ∈ l.take row ∨ c ∈ l.drop row := by
    rw [← List.mem_append, List.take_append_drop]
  rw [h]
  simp only [List.mem_append, List.mem_singleton]
  tauto

theorem nodup_insert_row (l : List Nat) (row a : Nat) (hl : l.Nodup) (ha : a ∉ l) :
    (l.take row ++ [a] ++ l.drop row).Nodup := by
  have hp : List.Perm (l.take row ++ [a] ++ l.drop row) (a :: (l.take row ++ l.drop row)) := by
    rw [List.append_assoc, List.singleton_append]
    exact List.perm_middle
  rw [hp.nodup_iff, List.take_append_drop]
  exact List.nodup_cons.mpr ⟨ha, hl⟩

/-- A new item under an item that is alive: the model is in order again. -/
theorem insert_new_sound (m : WatchModel) (a pp : Nat) (itp : WatchItem) (data : WatchData)
    (row : Nat) (hs : Sound [] m) (ha : a = m.nextAddress)
    (hnew : m.m_cache.value data.iname = none) (hpp : m.items.value pp = some itp) :
    Sound []
      { m with
        items := (m.items.insert a { data := data, parent := some pp, children := [] }).insert pp
          { itp with children := itp.children.take row ++ [a] ++ itp.children.drop row },
        nextAddress := m.nextAddress + 1,
        m_cache := m.m_cache.insert data.iname a } := by
  have hppa : pp ≠ a := by
    have := hs.fresh pp itp hpp
    omega
  have hval : ∀ q itq,
      QHashOf.value ((m.items.insert a { data := data, parent := some pp, children := [] }).insert
        pp { itp with children := itp.children.take row ++ [a] ++ itp.children.drop row }) q
        = some itq →
      (q = pp ∧ itq
          = { itp with children := itp.children.take row ++ [a] ++ itp.children.drop row })
        ∨ (q = a ∧ itq = { data := data, parent := some pp, children := [] })
        ∨ (q ≠ pp ∧ q ≠ a ∧ m.items.value q = some itq) := by
    intro q itq h
    rcases QHashOf.lookup_insert_some h with ⟨h1, h2⟩ | ⟨h1, h2⟩
    · exact Or.inl ⟨h1.symm, h2.symm⟩
    · rcases QHashOf.lookup_insert_some h2 with ⟨h3, h4⟩ | ⟨h3, h4⟩
      · exact Or.inr (Or.inl ⟨h3.symm, h4.symm⟩)
      · exact Or.inr (Or.inr ⟨Ne.symm h1, Ne.symm h3, h4⟩)
  have hlive : ∀ q, (m.items.value q).isSome = true →
      (QHashOf.value ((m.items.insert a { data := data, parent := some pp, children := [] }).insert
        pp { itp with children := itp.children.take row ++ [a] ++ itp.children.drop row })
        q).isSome = true := by
    intro q hq
    by_cases h1 : pp = q
    · rw [← h1, QHashOf.lookup_insert_self]
      rfl
    · rw [QHashOf.lookup_insert_of_ne _ _ h1]
      by_cases h2 : a = q
      · rw [← h2, QHashOf.lookup_insert_self]
        rfl
      · rw [QHashOf.lookup_insert_of_ne _ _ h2]
        exact hq
  have halive : (QHashOf.value
      ((m.items.insert a { data := data, parent := some pp, children := [] }).insert
        pp { itp with children := itp.children.take row ++ [a] ++ itp.children.drop row })
        a).isSome = true := by
    rw [QHashOf.lookup_insert_of_ne _ _ hppa, QHashOf.lookup_insert_self]
    rfl
  have hold : ∀ q itq, m.items.value q = some itq → itq.data.iname ≠ data.iname := by
    intro q itq hq heq
    have := hs.registered q itq hq
    rw [heq, hnew] at this
    exact absurd this (by simp)
  have hbelow : ∀ q itq, m.items.value q = some itq → ∀ c ∈ itq.children, c ≠ a := by
    intro q itq hq c hc
    have hl := hs.whole q itq hq (List.not_mem_nil _) c hc
    cases hcv : m.items.value c with
    | none =>
      rw [hcv] at hl
      exact absurd hl (by simp)
    | some ci =>
      have := hs.fresh c ci hcv
      omega
  refine ⟨?_, ?_, ?_, ?_, ?_, ?_, ?_⟩
  · intro q itq hq
    show QHashOf.value (m.m_cache.insert data.iname a) itq.data.iname = some q
    rcases hval q itq hq with ⟨h1, h2⟩ | ⟨h1, h2⟩ | ⟨_, _, h3⟩
    · rw [h1, h2]
      exact (QHashOf.lookup_insert_of_ne _ _ (Ne.symm (hold pp itp hpp))).trans
        (hs.registered pp itp hpp)
    · rw [h1, h2]
      exact QHashOf.lookup_insert_self _ _ _
    · exact (QHashOf.lookup_insert_of_ne _ _ (Ne.symm (hold q itq h3))).trans
        (hs.registered q itq h3)
  · intro iname q hq
    rcases QHashOf.lookup_insert_some hq with ⟨h1, h2⟩ | ⟨_, h2⟩
    · refine ⟨{ data := data, parent := some pp, children := [] }, ?_, h1⟩
      rw [← h2]
      exact (QHashOf.lookup_insert_of_ne _ _ hppa).trans (QHashOf.lookup_insert_self _ _ _)
    · obtain ⟨itq, h3, h4⟩ := hs.cached iname q h2
      by_cases hqp : pp = q
      · subst hqp
        rw [hpp] at h3
        refine ⟨_, QHashOf.lookup_insert_self _ _ _, ?_⟩
        rw [← h4, ← Option.some.inj h3]
      · have hqa : a ≠ q := by
          have := hs.fresh q itq h3
          omega
        exact ⟨itq, (QHashOf.lookup_insert_of_ne _ _ hqp).trans
          ((QHashOf.lookup_insert_of_ne _ _ hqa).trans h3), h4⟩
  · intro q itq hq
    show q < m.nextAddress + 1
    rcases hval q itq hq with ⟨h1, _⟩ | ⟨h1, _⟩ | ⟨_, _, h3⟩
    · have := hs.fresh pp itp hpp
      omega
    · omega
    · have := hs.fresh q itq h3
      omega
  · intro q itq hq c hc
    rcases hval q itq hq with ⟨h1, h2⟩ | ⟨_, h2⟩ | ⟨_, _, h3⟩
    · rw [h2] at hc
      rw [h1]
      rcases (mem_insert_row _ _ _ _).mp hc with h | h
      · have := hs.fresh pp itp hpp
        omega
      · exact hs.ordered pp itp hpp c h
    · rw [h2] at hc
      exact absurd hc (List.not_mem_nil _)
    · exact hs.ordered q itq h3 c hc
  · intro q itq hq
    rcases hval q itq hq with ⟨_, h2⟩ | ⟨_, h2⟩ | ⟨_, _, h3⟩
    · rw [h2]
      exact nodup_insert_row _ _ _ (hs.nodup pp itp hpp)
        (fun h => hbelow pp itp hpp a h rfl)
    · rw [h2]
      exact List.nodup_nil
    · exact hs.nodup q itq h3
  · intro q itq hq c hc ci hci
    rcases hval q itq hq with ⟨h1, h2⟩ | ⟨_, h2⟩ | ⟨h1, _, h3⟩
    · rw [h2] at hc
      rw [h1]
      rcases hval c ci hci with ⟨k1, _⟩ | ⟨_, k2⟩ | ⟨_, k1, k3⟩
      · rcases (mem_insert_row _ _ _ _).mp hc with h | h
        · exact absurd (k1.symm.trans h) hppa
        · have := hs.ordered pp itp hpp c h
          omega
      · rw [k2]
      · rcases (mem_insert_row _ _ _ _).mp hc with h | h
        · exact absurd h k1
        · exact hs.parent pp itp hpp c h ci k3
    · rw [h2] at hc
      exact absurd hc (List.not_mem_nil _)
    · rcases hval c ci hci with ⟨k1, k2⟩ | ⟨k1, _⟩ | ⟨_, _, k3⟩
      · rw [k2]
        exact hs.parent q itq h3 pp (k1 ▸ hc) itp hpp
      · exact absurd k1 (hbelow q itq h3 c hc)
      · exact hs.parent q itq h3 c hc ci k3
  · intro q itq hq _ c hc
    rcases hval q itq hq with ⟨_, h2⟩ | ⟨_, h2⟩ | ⟨_, _, h3⟩
    · rw [h2] at hc
      rcases (mem_insert_row _ _ _ _).mp hc with h | h
      · rw [h]
        exact halive
      · exact hlive c (hs.whole pp itp hpp (List.not_mem_nil _) c h)
    · rw [h2] at hc
      exact absurd hc (List.not_mem_nil _)
    · exact hlive c (hs.whole q itq h3 (List.not_mem_nil _) c hc)

end WatchModel

end Debugger

namespace Debugger

namespace QHashOf

variable {K V : Type} [DecidableEq K]

theorem remove_insert_self (h : QHashOf K V) (key : K) (v : V) :
    (h.insert key v).remove key = h.remove key := by
  unfold insert remove
  rw [List.filter_cons_of_neg (by simp), List.filter_filter]
  simp

theorem insert_insert_self (h : QHashOf K V) (key : K) (v w : V) :
    (h.insert key v).insert key w = h.insert key w := by
  show (key, w) :: (h.insert key v).remove key = (key, w) :: h.remove key
  rw [remove_insert_self]

end QHashOf

namespace WatchModel

theorem createItemData_eq (m : WatchModel) (data : WatchData) :
    m.createItemData data
      = some ({ m with
          items := m.items.insert m.nextAddress { data := data },
          nextAddress := m.nextAddress + 1,
          m_cache := m.m_cache.insert data.iname m.nextAddress }, m.nextAddress) := by
  unfold createItemData itemConstructor
  dsimp only
  rw [modify_eq _ _ _ _ (QHashOf.lookup_insert_self _ _ _)]
  dsimp only
  rw [QHashOf.insert_insert_self]
  rfl

/-- One call of `insertDataItem` on a model in order returns, with a model in
order; data with an iname the model has, and not the empty one, goes into the
item of this iname, and no item is created. -/
theorem insertDataItem_sound (F : WatchFunctions) (fuel : Nat) (m : WatchModel)
    (data : WatchData) (destructive : Bool) (hs : Sound [] m) (hfuel : m.nextAddress < fuel) :
    ∃ m1, m.insertDataItem F fuel data destructive = some m1 ∧ Sound [] m1
      ∧ m1.nextAddress ≤ m.nextAddress + 1
      ∧ ∀ item, data.iname ≠ "" → m.findItem data.iname = some item →
          m1.nextAddress = m.nextAddress
            ∧ (∀ q, (m1.items.value q).isSome = true → (m.items.value q).isSome = true)
            ∧ (m1.items.value item).map (fun it => it.data) = some data
            ∧ m1.findItem data.iname = some item := by
  have hs0 : Sound []
      { m with m_fetchTriggered := m.m_fetchTriggered.filter (fun iname => iname != data.iname) } :=
    ⟨hs.registered, hs.cached, hs.fresh, hs.ordered, hs.nodup, hs.parent, hs.whole⟩
  generalize hm0 : ({ m with m_fetchTriggered :=
      m.m_fetchTriggered.filter (fun iname => iname != data.iname) } : WatchModel) = m0 at hs0
  have hitems : m0.items = m.items := by rw [← hm0]
  have hcache : m0.m_cache = m.m_cache := by rw [← hm0]
  have hnext : m0.nextAddress = m.nextAddress := by rw [← hm0]
  unfold insertDataItem
  simp only [hm0]
  by_cases hempty : data.iname.isEmpty = true
  · refine ⟨m0, by rw [if_pos hempty], hs0, by omega, ?_⟩
    intro item hne _
    exact absurd ((String.isEmpty_iff _).mp hempty) hne
  · rw [if_neg hempty]
    cases hfind : m0.findItem data.iname with
    | some item =>
      have hfind1 : m0.m_cache.value data.iname = some item := hfind
      obtain ⟨it, hit, hiname⟩ := hs0.cached data.iname item hfind1
      have hfindm : m.findItem data.iname = some item := by
        unfold findItem
        rw [← hcache]
        exact hfind1
      dsimp only
      have hmain : ∃ m1, (if destructive = true then m0.destroyChildren fuel item else some m0)
          = some m1 ∧ Sound [] m1 ∧ m1.nextAddress = m0.nextAddress
          ∧ (∀ q, (m1.items.value q).isSome = true → (m0.items.value q).isSome = true)
          ∧ ∃ it1, m1.items.value item = some it1 ∧ it1.data = it.data := by
        by_cases hd : destructive = true
        · rw [if_pos hd]
          exact destroyChildren_sound fuel m0 item it hs0 hit (by omega)
        · rw [if_neg hd]
          exact ⟨m0, rfl, hs0, rfl, fun _ h => h, it, hit, rfl⟩
      obtain ⟨m1, e1, hs1, hn1, hl1, it1, hit1, hdata1⟩ := hmain
      have hin1 : data.iname = it1.data.iname := by rw [hdata1, hiname]
      obtain ⟨e2, hs2⟩ := assignData_sound m1 item it1 data hs1 hit1 hin1
      refine ⟨_, ?_, hs2, ?_, ?_⟩
      · rw [e1, Option.some_bind]
        exact e2
      · show m1.nextAddress ≤ m.nextAddress + 1
        omega
      · intro item1 _ hfind2
        have hsame : item1 = item := Option.some.inj (hfind2.symm.trans hfindm)
        rw [hsame]
        refine ⟨by show m1.nextAddress = m.nextAddress; omega, ?_, ?_, ?_⟩
        · intro q hq
          rw [← hitems]
          by_cases hqi : item = q
          · rw [← hqi, hit]
            rfl
          · apply hl1
            have : QHashOf.value (m1.items.insert item { it1 with data := data }) q
                = m1.items.value q := QHashOf.lookup_insert_of_ne _ _ hqi
            rw [← this]
            exact hq
        · show (QHashOf.value (m1.items.insert item { it1 with data := data }) item).map _ = _
          rw [QHashOf.lookup_insert_self]
          rfl
        · show m1.m_cache.value data.iname = some item
          rw [hin1]
          exact hs1.registered item it1 hit1
    | none =>
      have hfind1 : m0.m_cache.value data.iname = none := hfind
      have hfindm : m.findItem data.iname = none := by
        unfold findItem
        rw [← hcache]
        exact hfind1
      dsimp only
      cases hparent : m0.findItem (parentName data.iname) with
      | none =>
        refine ⟨m0, rfl, hs0, by omega, ?_⟩
        intro item _ h
        rw [hfindm] at h
        exact absurd h (by simp)
      | some pp =>
        have hparent1 : m0.m_cache.value (parentName data.iname) = some pp := hparent
        obtain ⟨itp, hpp, _⟩ := hs0.cached _ pp hparent1
        have hppa : m0.nextAddress ≠ pp := by
          have := hs0.fresh pp itp hpp
          omega
        dsimp only
        rw [createItemData_eq, Option.some_bind]
        dsimp only
        rw [modify_eq _ _ _ _ (QHashOf.lookup_insert_self _ _ _), Option.some_bind]
        dsimp only
        rw [QHashOf.insert_insert_self, QHashOf.lookup_insert_of_ne _ _ hppa, hpp,
          Option.some_bind]
        have hrow : ∃ row, findInsertPosition F
            { m0 with
              items := m0.items.insert m0.nextAddress
                { data := data, parent := some pp, children := [] },
              nextAddress := m0.nextAddress + 1,
              m_cache := m0.m_cache.insert data.iname m0.nextAddress }
            itp.children m0.nextAddress = some row := by
          obtain ⟨its, hits⟩ := derefAll_alive
            { m0 with
              items := m0.items.insert m0.nextAddress
                { data := data, parent := some pp, children := [] },
              nextAddress := m0.nextAddress + 1,
              m_cache := m0.m_cache.insert data.iname m0.nextAddress } itp.children
            (by
              intro c hc
              have hl := hs0.whole pp itp hpp (List.not_mem_nil _) c hc
              show (QHashOf.value (m0.items.insert m0.nextAddress _) c).isSome = true
              by_cases hca : m0.nextAddress = c
              · rw [← hca, QHashOf.lookup_insert_self]
                rfl
              · rw [QHashOf.lookup_insert_of_ne _ _ hca]
                exact hl)
          unfold findInsertPosition
          rw [hits, Option.some_bind]
          dsimp only
          rw [QHashOf.lookup_insert_self]
          exact ⟨_, rfl⟩
        obtain ⟨row, hrow1⟩ := hrow
        rw [hrow1, Option.some_bind]
        refine ⟨_, modify_eq _ _ _ itp ((QHashOf.lookup_insert_of_ne _ _ hppa).trans hpp),
          insert_new_sound m0 m0.nextAddress pp itp data row hs0 rfl hfind1 hpp, ?_, ?_⟩
        · show m0.nextAddress + 1 ≤ m.nextAddress + 1
          omega
        · intro item _ h
          rw [hfindm] at h
          exact absurd h (by simp)

end WatchModel

end Debugger

namespace Debugger

namespace QHashOf

variable {K V : Type} [DecidableEq K]

theorem lookup_mem {h : QHashOf K V} {key : K} {v : V} (hv : h.value key = some v) :
    (key, v) ∈ h := by
  unfold value at hv
  cases hf : List.find? (fun e => e.1 == key) h with
  | none => simp [hf] at hv
  | some e =>
    have h1 := List.find?_some hf
    have h2 := List.mem_of_find?_eq_some hf
    have h3 : e.1 = key := by simpa using h1
    have h4 : e.2 = v := by simpa [hf] using hv
    rw [← h3, ← h4]
    exact h2

end QHashOf

namespace WatchModel

/-- In a model in order no two items have one iname. -/
theorem Sound.sound_atMostOnePerIName {E : List Nat} {m : WatchModel} (hs : Sound E m) :
    m.AtMostOnePerIName := by
  intro p q a b hp hq hab
  have h1 := hs.registered p a hp
  have h2 := hs.registered q b hq
  rw [hab, h2] at h1
  exact (Option.some.inj h1).symm

/-- A model is in order when its entries pass the tests, one entry at a
time. -/
theorem Sound.sound_of_entries (m : WatchModel)
    (h1 : ∀ e ∈ m.items, m.m_cache.value e.2.data.iname = some e.1)
    (h2 : ∀ e ∈ m.m_cache, (m.items.value e.2).map (fun it => it.data.iname) = some e.1)
    (h3 : ∀ e ∈ m.items, e.1 < m.nextAddress)
    (h4 : ∀ e ∈ m.items, ∀ c ∈ e.2.children, e.1 < c)
    (h5 : ∀ e ∈ m.items, e.2.children.Nodup)
    (h6 : ∀ e ∈ m.items, ∀ c ∈ e.2.children, ∀ d ∈ m.items, d.1 = c → d.2.parent = some e.1)
    (h7 : ∀ e ∈ m.items, ∀ c ∈ e.2.children, (m.items.value c).isSome = true) :
    Sound [] m := by
  refine ⟨?_, ?_, ?_, ?_, ?_, ?_, ?_⟩
  · intro p it h
    exact h1 (p, it) (QHashOf.lookup_mem h)
  · intro iname p h
    have hc := h2 (iname, p) (QHashOf.lookup_mem h)
    cases hv : m.items.value p with
    | none =>
      rw [show (iname, p).2 = p from rfl, hv] at hc
      exact absurd hc (by simp)
    | some it =>
      rw [show (iname, p).2 = p from rfl, hv] at hc
      exact ⟨it, rfl, Option.some.inj hc⟩
  · intro p it h
    exact h3 (p, it) (QHashOf.lookup_mem h)
  · intro p it h
    exact h4 (p, it) (QHashOf.lookup_mem h)
  · intro p it h
    exact h5 (p, it) (QHashOf.lookup_mem h)
  · intro p it h c hc ci hci
    exact h6 (p, it) (QHashOf.lookup_mem h) c hc (c, ci) (QHashOf.lookup_mem hci) rfl
  · intro p it h _
    exact h7 (p, it) (QHashOf.lookup_mem h)

/-- The model the constructor leaves is in order. -/
theorem wellFormed_watchModel : Sample.watchModel.WellFormed :=
  Sound.sound_of_entries Sample.watchModel (by decide) (by decide) (by decide) (by decide) (by decide)
    (by decide) (by decide)

end WatchModel

end Debugger

namespace Debugger

namespace WatchModel

/-- Successive calls of `insertDataItem` on a model in order return, with a
model in order. -/
theorem insertDataItems_sound (F : WatchFunctions) (fuel : Nat) :
    ∀ (calls : List (WatchData × Bool)) (m : WatchModel), Sound [] m →
      m.nextAddress + calls.length < fuel →
      ∃ m1, m.insertDataItems F fuel calls = some m1 ∧ Sound [] m1
        ∧ m1.nextAddress ≤ m.nextAddress + calls.length := by
  intro calls
  induction calls with
  | nil =>
    intro m hs _
    exact ⟨m, rfl, hs, Nat.le_refl _⟩
  | cons c rest ih =>
    intro m hs hfuel
    rw [List.length_cons] at hfuel
    obtain ⟨m1, e1, hs1, hn1, _⟩ := insertDataItem_sound F fuel m c.1 c.2 hs (by omega)
    obtain ⟨m2, e2, hs2, hn2⟩ := ih m1 hs1 (by omega)
    refine ⟨m2, ?_, hs2, by rw [List.length_cons]; omega⟩
    show (m.insertDataItem F fuel c.1 c.2).bind _ = _
    rw [e1]
    exact e2

/-- C22: from a model in order, as the constructor leaves it, every sequence
of calls of `insertDataItem` returns with a model that has at most one item
for an iname, and so does one more call; when this call has data with the
iname of an item of the model (an iname that is not empty, as the function
asserts), no item is created and the item has exactly the data of the call
afterwards. -/
theorem insertDataItem_one_item_per_iname (F : WatchFunctions) (m : WatchModel)
    (hm : m.WellFormed) (calls : List (WatchData × Bool)) (data : WatchData)
    (destructive : Bool) (fuel : Nat) (hfuel : m.nextAddress + calls.length < fuel) :
    ∃ m1 m2, m.insertDataItems F fuel calls = some m1 ∧ m1.AtMostOnePerIName
      ∧ m1.insertDataItem F fuel data destructive = some m2 ∧ m2.AtMostOnePerIName
      ∧ ∀ (item : Nat) (it : WatchItem), m1.items.value item = some it →
          it.data.iname = data.iname → data.iname ≠ "" →
          m2.nextAddress = m1.nextAddress
            ∧ (∀ q, (m2.items.value q).isSome = true → (m1.items.value q).isSome = true)
            ∧ (m2.items.value item).map (fun it => it.data) = some data := by
  obtain ⟨m1, e1, hs1, hn1⟩ := insertDataItems_sound F fuel calls m hm hfuel
  obtain ⟨m2, e2, hs2, _, hover⟩ := insertDataItem_sound F fuel m1 data destructive hs1
    (by omega)
  refine ⟨m1, m2, e1, hs1.sound_atMostOnePerIName, e2, hs2.sound_atMostOnePerIName, ?_⟩
  intro item it hitem hiname hne
  have hfind : m1.findItem data.iname = some item := by
    rw [← hiname]
    exact hs1.registered item it hitem
  obtain ⟨h1, h2, h3, _⟩ := hover item hne hfind
  exact ⟨h1, h2, h3⟩

theorem insertDataItem_one_item_per_iname_witness :
    (Sample.watchModel.WellFormed
      ∧ Sample.watchModel.nextAddress + Sample.localsInserted.length < 20)
    ∧ ∃ m1 m2,
      Sample.watchModel.insertDataItems Sample.watchFunctions 20 Sample.localsInserted = some m1
        ∧ m1.AtMostOnePerIName
        ∧ m1.insertDataItem Sample.watchFunctions 20 Sample.localValueAgain true = some m2
        ∧ m2.AtMostOnePerIName
        ∧ ∀ (item : Nat) (it : WatchItem), m1.items.value item = some it →
            it.data.iname = Sample.localValueAgain.iname → Sample.localValueAgain.iname ≠ "" →
            m2.nextAddress = m1.nextAddress
              ∧ (∀ q, (m2.items.value q).isSome = true → (m1.items.value q).isSome = true)
              ∧ (m2.items.value item).map (fun it => it.data) = some Sample.localValueAgain :=
  ⟨⟨wellFormed_watchModel, by decide⟩,
    insertDataItem_one_item_per_iname Sample.watchFunctions Sample.watchModel
      wellFormed_watchModel Sample.localsInserted Sample.localValueAgain true 20 (by decide)⟩

/-- The run of the witness: the three calls create the items 6, 7 and 8 for
`local.x` and its two children; the call with the data of `local.x` again
removes the children, creates nothing and leaves item 6 with the new data. -/
theorem insertDataItem_sample_run :
    (Sample.watchModel.insertDataItems Sample.watchFunctions 20 Sample.localsInserted).map
        (fun m => (m.m_cache.map (fun e => e.1), m.findItem "local.x", m.nextAddress))
      = some (["local.x.b", "local.x.a", "local.x", "tooltip", "return", "watch", "inspect",
          "local", ""], some 6, 9)
    ∧ ((Sample.watchModel.insertDataItems Sample.watchFunctions 20 Sample.localsInserted).bind
        (fun m => m.insertDataItem Sample.watchFunctions 20 Sample.localValueAgain true)).map
        (fun m => (m.m_cache.map (fun e => e.1), (m.items.value 6).map (fun it => it.data),
          m.nextAddress))
      = some (["local.x", "tooltip", "return", "watch", "inspect", "local", ""],
          some Sample.localValueAgain, 9) := by
  decide

end WatchModel

end Debugger
